import Mathlib

/-!
# sootlib: moment inversion and source-term assembly

A shallow embedding of `src/source/soot_QMOM.cc` (`getWtsAbs`, `Mk`, `setSrc`) and of the
rate-law library of `src/source/soot.cc`, followed by the facts proved about them.

Modelling conventions.

* A C++ `double` is an element of a linear ordered field `K` (exact arithmetic, with the
  field convention `x / 0 = 0`); rounding, infinities and NaN are outside the model.
  Instantiating `K := ℚ` gives executable definitions.
* The functions of `<cmath>` (`sqrt`, `exp`, `pow`, `tanh`, `log10`) and `M_PI` are a
  parameter `L : Libm K`; `abs` on a `double` is the absolute value of `K`.  The only
  instance used is the real one, `realLibm`.
* The constants declared in `soot.h` (`Na`, `kb`, `Rg`, `eps_c`, `MW_c`) are a parameter
  `c : Consts K`.
* A `vector<double>` is a `List K`.  Indexing outside a vector is undefined behaviour in
  the source and is the fault `Fault.outOfRange` here; `exit(0)` after a diagnostic is the
  fault `Fault.exit`.  Functions that write fields of the object take the object and
  return the new one.
* The quadrature routine `wheeler` is external: it is a parameter of the model.
* Where the outcome depends on how a comparison of the source treats a NaN, the
  statements concerned (`getWtsAbs` and the clamping loop of `setSrc`) are embedded a
  second time over `Option K`, `none` being a NaN (`getWtsAbsNaN`, `clampBodyNaN`).
  Where the source divides by a quantity that is zero, the theorem displays the
  quotient and proves that its divisor is zero.
-/

namespace Sootlib

/-- The two ways a call can end without returning: a diagnostic followed by `exit(0)`,
and an access outside the bounds of a vector. -/
inductive Fault where
  | exit (msg : String)
  | outOfRange
  deriving DecidableEq, Repr

deriving instance DecidableEq for Except

variable {K : Type}

/-- Read `v[i]` for a loop counter `i`. -/
def rd (v : List K) (i : Nat) : Except Fault K :=
  match v[i]? with
  | some x => .ok x
  | none => .error Fault.outOfRange

/-- Write `v[i] = x` for a loop counter `i`. -/
def wr (v : List K) (i : Nat) (x : K) : Except Fault (List K) :=
  if i < v.length then .ok (v.set i x) else .error Fault.outOfRange

/-- The external routine `wheeler(m, N, w, x)`, called with `w` and `x` holding `N` zeros:
`wheeler m N k` is the pair `(w[k], x[k])` it leaves in slot `k < N`. -/
abbrev Wheeler (K : Type) := List K → Nat → Nat → K × K

/-- What `getWtsAbs` leaves behind: the two node arrays, and the orders `N/2` with which
`wheeler` was called, the latest call first. -/
structure Nodes (K : Type) where
  wts : List K
  absc : List K
  calls : List Nat
  deriving DecidableEq, Repr

section Inversion
variable [LinearOrderedField K]

/-- The precondition loop of `getWtsAbs`: `true` when it reaches a moment `M[k] <= 0.0`
with `k < n` (and returns), `false` when it runs through. -/
def anyNonPositive (M : List K) : Nat → Nat → Except Fault Bool
  | 0, _ => .ok false
  | n + 1, k => do
    let m ← rd M k
    if m ≤ 0 then pure true else anyNonPositive M n (k + 1)

/-- The content of `w_temp`, `a_temp` after `wheeler(M, N/2, w_temp, a_temp)`. -/
def callWheeler (wheeler : Wheeler K) (M : List K) (N : Nat) : List (K × K) :=
  (List.range (N / 2)).map (wheeler M (N / 2))

/-- The flag `negs` after the checking loop: some weight is negative, or some abscissa
is negative or above one. -/
def negs (wa : List (K × K)) : Bool :=
  wa.any (fun p => decide (p.1 < 0) || decide (p.2 < 0) || decide (p.2 > 1))

/-- The final loop of `getWtsAbs`: `wts[k] = w_temp[k]; absc[k] = a_temp[k]` for
`k = k0, k0+1, ...` over the temporaries. -/
def assign (wts absc : List K) : Nat → List (K × K) → Except Fault (List K × List K)
  | _, [] => .ok (wts, absc)
  | k, p :: rest => do
    let wts ← wr wts k p.1
    let absc ← wr absc k p.2
    assign wts absc (k + 1) rest

/-- The downselection loop `do { ... } while (negs == true)` of `getWtsAbs` with the code
that follows it, entered with the local order `N`. -/
def downselect (wheeler : Wheeler K) (M wts absc : List K) :
    Nat → List Nat → Except Fault (Nodes K)
  | n + 2, calls =>
    if n + 2 = 2 then do
      let m0 ← rd M 0
      let wts ← wr wts 0 m0
      let m1 ← rd M 1
      let m0 ← rd M 0
      let absc ← wr absc 0 (m1 / m0)
      pure ⟨wts, absc, calls⟩
    else
      let wa := callWheeler wheeler M (n + 2)
      if negs wa then
        downselect wheeler M wts absc n ((n + 2) / 2 :: calls)
      else do
        let r ← assign wts absc 0 wa
        pure ⟨r.1, r.2, (n + 2) / 2 :: calls⟩
  | N, calls => do
    -- `N < 2`: there is no node to reject
    let r ← assign wts absc 0 (callWheeler wheeler M N)
    pure ⟨r.1, r.2, N / 2 :: calls⟩

/-- The function `soot_QMOM::getWtsAbs(M, wts, absc)`. -/
def getWtsAbs (wheeler : Wheeler K) (nsvar : Nat) (M wts absc : List K) :
    Except Fault (Nodes K) := do
  if ← anyNonPositive M nsvar 0 then
    pure ⟨wts, absc, []⟩
  else
    downselect wheeler M wts absc nsvar []

end Inversion

/-! ## The rate-law library (`soot.cc`) -/

/-- Read `v[i]` for an `int` index `i` (a species index may be the sentinel `-1`). -/
def rdI (v : List K) (i : Int) : Except Fault K :=
  if 0 ≤ i then rd v i.toNat else .error Fault.outOfRange

/-- Write `v[i] = x` for an `int` index `i`. -/
def wrI (v : List K) (i : Int) (x : K) : Except Fault (List K) :=
  if 0 ≤ i then wr v i.toNat x else .error Fault.outOfRange

/-- The functions and the constant of `<cmath>` the source uses, as parameters:
`M_PI`, `sqrt`, `exp`, `pow`, `tanh`, `log10`. -/
structure Libm (K : Type) where
  pi : K
  sqrt : K → K
  exp : K → K
  pow : K → K → K
  tanh : K → K
  log10 : K → K

/-- The physical constants declared in `soot.h`: Avogadro number, Boltzmann constant,
universal gas constant, coagulation enhancement factor, molar mass of carbon. -/
structure Consts (K : Type) where
  Na : K
  kb : K
  Rg : K
  eps_c : K
  MW_c : K

/-- The fields of a `soot_QMOM` object (class `soot` and its subclass), with the gas state
set by `set_gas_state_vars`. -/
structure Soot (K : Type) where
  nsvar : Nat
  rhoSoot : K
  nucleation_mech : String
  growth_mech : String
  oxidation_mech : String
  coagulation_mech : String
  i_c2h2 : Int
  i_o2 : Int
  i_h : Int
  i_h2 : Int
  i_oh : Int
  i_h2o : Int
  i_co : Int
  i_pah : List Int
  nC_PAH : List Int
  MW_sp : List K
  Cmin : K
  m_dimer : K
  DIMER : K
  T : K
  P : K
  rho : K
  MW : K
  mu : K
  yi : List K
  rC2H2_rSoot_n : K
  rH2_rSoot_ncnd : K
  rPAH_rSoot_ncnd : List K
  rC2H2_rSoot_go : K
  rH2_rSoot_go : K
  rO2_rSoot_go : K
  rOH_rSoot_go : K
  rH_rSoot_go : K
  rCO_rSoot_go : K
  sootvar : List K
  wts : List K
  absc : List K
  src : List K
  gasSootSources : List K

section Rates
variable [LinearOrderedField K]

/-- The function `soot::get_gas_mean_free_path`. -/
def get_gas_mean_free_path (c : Consts K) (L : Libm K) (s : Soot K) : K :=
  s.mu / s.rho * L.sqrt (L.pi * s.MW / (2.0 * c.Rg * s.T))

/-- The function `soot::coagulation_LL`. -/
def coagulation_LL (c : Consts K) (L : Libm K) (s : Soot K) (m1 _m2 : K) : K :=
  let Ca : K := 9.0
  let Dp1 := L.pow (6.0 * |m1| / L.pi / s.rhoSoot) (1.0 / 3.0)
  2.0 * Ca * L.sqrt (Dp1 * 6 * c.kb * s.T / s.rhoSoot)

/-- The function `soot::coagulation_Fuchs`. -/
def coagulation_Fuchs (c : Consts K) (L : Libm K) (s : Soot K) (m1 m2 : K) : K :=
  let Dp1 := L.pow (6.0 * |m1| / L.pi / s.rhoSoot) (1.0 / 3.0)
  let Dp2 := L.pow (6.0 * |m2| / L.pi / s.rhoSoot) (1.0 / 3.0)
  let c1 := L.sqrt (8.0 * c.kb * s.T / L.pi / m1)
  let c2 := L.sqrt (8.0 * c.kb * s.T / L.pi / m2)
  let mfp_g := get_gas_mean_free_path c L s
  let Kn1 := 2.0 * mfp_g / Dp1
  let Kn2 := 2.0 * mfp_g / Dp2
  let Cc1 := 1 + Kn1 * (1.257 + 0.4 * L.exp (-1.1 / Kn1))
  let Cc2 := 1 + Kn2 * (1.257 + 0.4 * L.exp (-1.1 / Kn2))
  let D1 := c.kb * s.T * Cc1 / (3.0 * L.pi * s.mu * Dp1)
  let D2 := c.kb * s.T * Cc2 / (3.0 * L.pi * s.mu * Dp2)
  let l1 := 8.0 * D1 / L.pi / c1
  let l2 := 8.0 * D2 / L.pi / c2
  let g1 := L.sqrt 2.0 / 3.0 / Dp1 / l1 *
    (L.pow (Dp1 + l1) 3.0 - L.pow (Dp1 * Dp1 + l1 * l1) (3.0 / 2.0)) - L.sqrt 2.0 * Dp1
  let g2 := L.sqrt 2.0 / 3.0 / Dp2 / l2 *
    (L.pow (Dp2 + l2) 3.0 - L.pow (Dp2 * Dp2 + l2 * l2) (3.0 / 2.0)) - L.sqrt 2.0 * Dp2
  2.0 * L.pi * (D1 + D2) * (Dp1 + Dp2) /
    ((Dp1 + Dp2) / (Dp1 + Dp2 + 2.0 * L.sqrt (g1 * g1 + g2 * g2)) +
      8.0 / c.eps_c * (D1 + D2) / L.sqrt (c1 * c1 + c2 * c2) / (Dp1 + Dp2))

/-- The function `soot::coagulation_Frenk`. -/
def coagulation_Frenk (c : Consts K) (L : Libm K) (s : Soot K) (m1 m2 : K) : K :=
  let Dp1 := L.pow (6.0 * |m1| / L.pi / s.rhoSoot) (1.0 / 3.0)
  let Dp2 := L.pow (6.0 * |m2| / L.pi / s.rhoSoot) (1.0 / 3.0)
  let m12 := |m1 * m2 / (m1 + m2)|
  let beta_12_FM := c.eps_c * L.sqrt (L.pi * c.kb * s.T * 0.5 / m12) * L.pow (Dp1 + Dp2) 2.0
  let mfp_g := get_gas_mean_free_path c L s
  let Kn1 := 2.0 * mfp_g / Dp1
  let Kn2 := 2.0 * mfp_g / Dp2
  let Cc1 := 1 + Kn1 * (1.257 + 0.4 * L.exp (-1.1 / Kn1))
  let Cc2 := 1 + Kn2 * (1.257 + 0.4 * L.exp (-1.1 / Kn2))
  let beta_12_C := 2 * c.kb * s.T / (3 * s.mu) * (Cc1 / Dp1 + Cc2 / Dp2) * (Dp1 + Dp2)
  beta_12_FM * beta_12_C / (beta_12_FM + beta_12_C)

/-- The function `soot::getCoagulationRate`. -/
def getCoagulationRate (c : Consts K) (L : Libm K) (s : Soot K) (m1 m2 : K) :
    Except Fault K :=
  if s.coagulation_mech = "NONE" then .ok 0
  else if s.coagulation_mech = "LL" then .ok (coagulation_LL c L s m1 m2)
  else if s.coagulation_mech = "FUCHS" then .ok (coagulation_Fuchs c L s m1 m2)
  else if s.coagulation_mech = "FRENK" then .ok (coagulation_Frenk c L s m1 m2)
  else .error (Fault.exit "ERROR: Invalid soot coagulation mechanism.")

/-- The function `soot::nucleation_LL`. -/
def nucleation_LL (c : Consts K) (L : Libm K) (s : Soot K) : Except Fault (K × Soot K) := do
  let cC2H2 := s.rho * (← rdI s.yi s.i_c2h2) / (← rdI s.MW_sp s.i_c2h2)
  let Rnuc := 0.1e5 * L.exp (-21100 / s.T) * cC2H2
  let s := { s with rC2H2_rSoot_n := -(← rdI s.MW_sp s.i_c2h2) / (2 * c.MW_c) }
  let s := { s with rH2_rSoot_ncnd := (← rdI s.MW_sp s.i_h2) / (2 * c.MW_c) }
  pure (Rnuc * 2 * c.Na / s.Cmin, s)

/-- The function `soot::nucleation_Linstedt`. -/
def nucleation_Linstedt (c : Consts K) (L : Libm K) (s : Soot K) :
    Except Fault (K × Soot K) := do
  let cC2H2 := s.rho * (← rdI s.yi s.i_c2h2) / (← rdI s.MW_sp s.i_c2h2)
  let Rnuc := 0.63e4 * L.exp (-21100 / s.T) * cC2H2
  let s := { s with rC2H2_rSoot_n := -(← rdI s.MW_sp s.i_c2h2) / (2 * c.MW_c) }
  let s := { s with rH2_rSoot_ncnd := (← rdI s.MW_sp s.i_h2) / (2 * c.MW_c) }
  pure (Rnuc * 2 * c.Na / s.Cmin, s)

/-- One pass `for (int i = 0; i < n; i++)` over a loop state. -/
def forLoop {σ : Type} (n : Nat) (body : Nat → σ → Except Fault σ) (init : σ) :
    Except Fault σ :=
  (List.range n).foldlM (fun st i => body i st) init

/-- The body of the first loop of `set_m_dimer`, on the pair of the local `wdotD` and the
object. -/
def set_m_dimer_body (c : Consts K) (L : Libm K) (preFac : K) (i : Nat) (st : K × Soot K) :
    Except Fault (K × Soot K) := do
  let wdotD := st.1
  let s := st.2
  let m_ipah := (← rdI s.MW_sp (← rd s.i_pah i)) / c.Na
  let gamma_i :=
    if m_ipah > 153 then 1.501e-11 * L.pow m_ipah 4 else 1.501e-11 * L.pow m_ipah 4 / 3.0
  let N_i := s.rho * (← rdI s.yi (← rd s.i_pah i)) / (← rdI s.MW_sp (← rd s.i_pah i)) * c.Na
  let wdoti := |gamma_i * preFac * L.pow m_ipah (1.0 / 6.0) * N_i * N_i|
  let wdotD := wdotD + wdoti
  let s := { s with m_dimer := s.m_dimer + wdoti * m_ipah }
  let s := { s with Cmin := s.Cmin + wdoti * ((← rd s.nC_PAH i : Int) : K) }
  let r ← wr s.rPAH_rSoot_ncnd i (wdoti * m_ipah)
  let s := { s with rPAH_rSoot_ncnd := r }
  pure (wdotD, s)

/-- The function `soot::set_m_dimer`. -/
def set_m_dimer (c : Consts K) (L : Libm K) (s : Soot K) : Except Fault (K × Soot K) := do
  let preFac := L.sqrt (4 * L.pi * c.kb * s.T) * L.pow (6 / (L.pi * s.rhoSoot)) (2.0 / 3.0)
  let s := { s with m_dimer := 0.0 }
  let (wdotD, s) ← forLoop s.i_pah.length (set_m_dimer_body c L preFac) (0.0, s)
  let s ← forLoop s.i_pah.length (fun i s => do
    let r ← wr s.rPAH_rSoot_ncnd i ((← rd s.rPAH_rSoot_ncnd i) / s.m_dimer)
    pure { s with rPAH_rSoot_ncnd := r }) s
  let s := { s with m_dimer := s.m_dimer * (2 / wdotD) }
  let s := { s with Cmin := s.Cmin * (4 / wdotD) }
  let s ← forLoop s.i_pah.length (fun i s => do
    let r ← wr s.rPAH_rSoot_ncnd i
      ((← rd s.rPAH_rSoot_ncnd i) * (-2.0 * s.m_dimer / (s.Cmin * c.MW_c / c.Na)))
    pure { s with rPAH_rSoot_ncnd := r }) s
  let s := { s with rH2_rSoot_ncnd := 2.0 * s.m_dimer / (s.Cmin * c.MW_c / c.Na) - 1.0 }
  pure (wdotD, s)

/-- The function `soot::set_Ndimer`. -/
def set_Ndimer (c : Consts K) (L : Libm K) (s : Soot K) (mi wi : List K) :
    Except Fault (Soot K) := do
  let (wdotD, s) ← set_m_dimer c L s
  let beta_DD := coagulation_Frenk c L s s.m_dimer s.m_dimer
  let I_beta_DS ← forLoop mi.length (fun i acc => do
    pure (acc + |(← rd wi i)| * coagulation_Frenk c L s s.m_dimer (← rd mi i))) (0.0 : K)
  pure { s with DIMER :=
    2.0 * wdotD / (I_beta_DS + L.sqrt (I_beta_DS * I_beta_DS + 4 * beta_DD * wdotD)) }

/-- The function `soot::nucleation_PAH`. -/
def nucleation_PAH (c : Consts K) (L : Libm K) (s : Soot K) (mi wi : List K) :
    Except Fault (K × Soot K) := do
  let s ← set_Ndimer c L s mi wi
  let beta_DD := coagulation_Frenk c L s s.m_dimer s.m_dimer
  pure (0.5 * beta_DD * s.DIMER * s.DIMER, s)

/-- The function `soot::getNucleationRate`. -/
def getNucleationRate (c : Consts K) (L : Libm K) (s : Soot K) (mi wi : List K) :
    Except Fault (K × Soot K) :=
  if s.nucleation_mech = "NONE" then .ok (0, s)
  else if s.nucleation_mech = "LL" then nucleation_LL c L s
  else if s.nucleation_mech = "LIN" then nucleation_Linstedt c L s
  else if s.nucleation_mech = "PAH" then nucleation_PAH c L s mi wi
  else .error (Fault.exit "ERROR: Invalid soot nucleation mechanism.")

/-- The function `soot::growth_Lindstedt`. -/
def growth_Lindstedt (c : Consts K) (L : Libm K) (s : Soot K) : Except Fault (K × Soot K) := do
  let cC2H2 := s.rho * (← rdI s.yi s.i_c2h2) / (← rdI s.MW_sp s.i_c2h2)
  let rSoot := 750.0 * L.exp (-12100.0 / s.T) * cC2H2 * 2.0 * c.MW_c
  let s := { s with rC2H2_rSoot_go := -(← rdI s.MW_sp s.i_c2h2) / (2 * c.MW_c) }
  let s := { s with rH2_rSoot_go := (← rdI s.MW_sp s.i_h2) / (2 * c.MW_c) }
  pure (rSoot, s)

/-- The function `soot::growth_LL`. -/
def growth_LL (c : Consts K) (L : Libm K) (s : Soot K) (M0 M1 : K) :
    Except Fault (K × Soot K) := do
  let Am2m3 : K :=
    if M0 > 0.0 then L.pi * L.pow |6 / (L.pi * s.rhoSoot) * M1 / M0| (2.0 / 3.0) * |M0|
    else 0.0
  let cC2H2 := s.rho * (← rdI s.yi s.i_c2h2) / (← rdI s.MW_sp s.i_c2h2)
  let rSoot : K :=
    if Am2m3 > 0 then 0.6e4 * L.exp (-12100.0 / s.T) * cC2H2 / L.sqrt Am2m3 * 2.0 * c.MW_c
    else 0.0
  let s := { s with rC2H2_rSoot_go := -(← rdI s.MW_sp s.i_c2h2) / (2 * c.MW_c) }
  let s := { s with rH2_rSoot_go := (← rdI s.MW_sp s.i_h2) / (2 * c.MW_c) }
  pure (rSoot, s)

/-- The quantities `growth_HACA` and `oxidation_HACA` both compute before their return
statement: the raw rates `fR1 .. fR6`, `rR1`, `rR2` and the site densities. -/
structure Haca (K : Type) where
  fR1 : K
  rR1 : K
  fR2 : K
  rR2 : K
  fR3 : K
  fR4 : K
  fR5 : K
  fR6 : K
  alpha : K
  c_soot_H : K
  c_soot_rad : K

/-- The common body of `soot::growth_HACA` and `soot::oxidation_HACA` (the two functions
repeat it line for line). -/
def hacaRates (L : Libm K) (s : Soot K) (M0 M1 : K) : Except Fault (Haca K) := do
  let cC2H2 := s.rho * (← rdI s.yi s.i_c2h2) / (← rdI s.MW_sp s.i_c2h2)
  let cO2 := s.rho * (← rdI s.yi s.i_o2) / (← rdI s.MW_sp s.i_o2)
  let cH := s.rho * (← rdI s.yi s.i_h) / (← rdI s.MW_sp s.i_h)
  let cH2 := s.rho * (← rdI s.yi s.i_h2) / (← rdI s.MW_sp s.i_h2)
  let cOH := s.rho * (← rdI s.yi s.i_oh) / (← rdI s.MW_sp s.i_oh)
  let cH2O := s.rho * (← rdI s.yi s.i_h2o) / (← rdI s.MW_sp s.i_h2o)
  let RT := 1.9872036e-3 * s.T
  let chi_soot : K := 2.3e15
  let a_param := 33.167 - 0.0154 * s.T
  let b_param := -2.5786 + 0.00112 * s.T
  let fR1 := 4.2e13 * L.exp (-13.0 / RT) * cH / 1000
  let rR1 := 3.9e12 * L.exp (-11.0 / RT) * cH2 / 1000
  let fR2 := 1.0e10 * L.pow s.T 0.734 * L.exp (-1.43 / RT) * cOH / 1000
  let rR2 := 3.68e8 * L.pow s.T 1.139 * L.exp (-17.1 / RT) * cH2O / 1000
  let fR3 := 2.0e13 * cH / 1000
  let fR4 := 8.00e7 * L.pow s.T 1.56 * L.exp (-3.8 / RT) * cC2H2 / 1000
  let fR5 := 2.2e12 * L.exp (-7.5 / RT) * cO2 / 1000
  let fR6 := 1290.0 * 0.13 * s.P * (cOH / s.rho * (← rdI s.MW_sp s.i_oh)) / L.sqrt s.T
  let denom := rR1 + rR2 + fR3 + fR4 + fR5
  let chi_rad : K := if denom ≠ 0.0 then 2 * chi_soot * (fR1 + fR2 + fR6) / denom else 0.0
  let alpha : K := if M0 > 0.0 then L.tanh (a_param / L.log10 (M1 / M0) + b_param) else 1.0
  let alpha : K := if alpha < 0.0 then 1.0 else alpha
  let c_soot_H := alpha * chi_soot * 1e4
  let c_soot_rad := alpha * chi_rad * 1e4
  pure ⟨fR1, rR1, fR2, rR2, fR3, fR4, fR5, fR6, alpha, c_soot_H, c_soot_rad⟩

/-- The function `soot::growth_HACA`. -/
def growth_HACA (c : Consts K) (L : Libm K) (s : Soot K) (M0 M1 : K) :
    Except Fault (K × Soot K) := do
  let h ← hacaRates L s M0 M1
  pure ((h.fR5 * h.c_soot_rad + h.fR6 * h.c_soot_H) / c.Na * 2 * c.MW_c, s)

/-- The function `soot::getGrowthRate`. -/
def getGrowthRate (c : Consts K) (L : Libm K) (s : Soot K) (M0 M1 : K) :
    Except Fault (K × Soot K) :=
  if s.growth_mech = "NONE" then .ok (0, s)
  else if s.growth_mech = "LIN" then growth_Lindstedt c L s
  else if s.growth_mech = "LL" then growth_LL c L s M0 M1
  else if s.growth_mech = "HACA" then growth_HACA c L s M0 M1
  else .error (Fault.exit "ERROR: Invalid soot growth mechanism.")

/-- The function `soot::oxidation_LL`. -/
def oxidation_LL (c : Consts K) (L : Libm K) (s : Soot K) : Except Fault (K × Soot K) := do
  let cO2 := s.rho * (← rdI s.yi s.i_o2) / (← rdI s.MW_sp s.i_o2)
  let rSoot := 0.1e5 * L.sqrt s.T * L.exp (-19680.0 / s.T) * cO2 * c.MW_c
  let s := { s with rO2_rSoot_go := -0.5 * (← rdI s.MW_sp s.i_o2) / c.MW_c }
  let s := { s with rCO_rSoot_go := (← rdI s.MW_sp s.i_co) / c.MW_c }
  pure (rSoot, s)

/-- The function `soot::oxidation_Lee_Neoh`. -/
def oxidation_Lee_Neoh (c : Consts K) (L : Libm K) (s : Soot K) :
    Except Fault (K × Soot K) := do
  let pO2 := (← rdI s.yi s.i_o2) * s.MW / (← rdI s.MW_sp s.i_o2) * s.P / 101325.0
  let pOH := (← rdI s.yi s.i_oh) * s.MW / (← rdI s.MW_sp s.i_oh) * s.P / 101325.0
  let rSootO2 := 1.085e4 * pO2 / L.sqrt s.T * L.exp (-1.977824e4 / s.T) / 1000.0
  let rSootOH := 1290.0 * 0.13 * pOH / L.sqrt s.T
  let s := { s with rO2_rSoot_go :=
    -0.5 * (← rdI s.MW_sp s.i_o2) / c.MW_c * rSootO2 / (rSootO2 + rSootOH) }
  let s := { s with rOH_rSoot_go :=
    -(← rdI s.MW_sp s.i_oh) / c.MW_c * rSootOH / (rSootO2 + rSootOH) }
  let s := { s with rH_rSoot_go :=
    (← rdI s.MW_sp s.i_h) / c.MW_c * rSootOH / (rSootO2 + rSootOH) }
  let s := { s with rCO_rSoot_go := (← rdI s.MW_sp s.i_co) / c.MW_c }
  pure (rSootO2 + rSootOH, s)

/-- The function `soot::oxidation_NSC_Neoh`. -/
def oxidation_NSC_Neoh (c : Consts K) (L : Libm K) (s : Soot K) :
    Except Fault (K × Soot K) := do
  let pO2 := (← rdI s.yi s.i_o2) * s.MW / (← rdI s.MW_sp s.i_o2) * s.P / 101325.0
  let pOH := (← rdI s.yi s.i_oh) * s.MW / (← rdI s.MW_sp s.i_oh) * s.P / 101325.0
  let kA := 20.0 * L.exp (-15098.0 / s.T)
  let kB := 4.46e-3 * L.exp (-7650.0 / s.T)
  let kT := 1.51e5 * L.exp (-48817.0 / s.T)
  let kz := 21.3 * L.exp (2063.0 / s.T)
  let x := 1.0 / (1.0 + kT / (kB * pO2))
  let NSC_rate := kA * pO2 * x / (1.0 + kz * pO2) + kB * pO2 * (1.0 - x)
  let rSootO2 := NSC_rate * s.rhoSoot
  let rSootOH := 1290.0 * 0.13 * pOH / L.sqrt s.T
  let s := { s with rO2_rSoot_go :=
    -0.5 * (← rdI s.MW_sp s.i_o2) / c.MW_c * rSootO2 / (rSootO2 + rSootOH) }
  let s := { s with rOH_rSoot_go :=
    -(← rdI s.MW_sp s.i_oh) / c.MW_c * rSootOH / (rSootO2 + rSootOH) }
  let s := { s with rH_rSoot_go :=
    (← rdI s.MW_sp s.i_h) / c.MW_c * rSootOH / (rSootO2 + rSootOH) }
  let s := { s with rCO_rSoot_go := (← rdI s.MW_sp s.i_co) / c.MW_c }
  pure (rSootO2 + rSootOH, s)

/-- The function `soot::oxidation_HACA`. -/
def oxidation_HACA (c : Consts K) (L : Libm K) (s : Soot K) (M0 M1 : K) :
    Except Fault (K × Soot K) := do
  let h ← hacaRates L s M0 M1
  let Roxi := -h.fR1 * h.c_soot_H + h.rR1 * h.c_soot_rad - h.fR2 * h.c_soot_H +
    h.rR2 * h.c_soot_rad + h.fR3 * h.c_soot_rad + h.fR4 * h.c_soot_rad - h.fR6 * h.c_soot_H
  pure (Roxi / c.Na * c.MW_c, s)

/-- The function `soot::getOxidationRate`. -/
def getOxidationRate (c : Consts K) (L : Libm K) (s : Soot K) (M0 M1 : K) :
    Except Fault (K × Soot K) :=
  if s.oxidation_mech = "NONE" then .ok (0, s)
  else if s.oxidation_mech = "LL" then oxidation_LL c L s
  else if s.oxidation_mech = "LEE_NEOH" then oxidation_Lee_Neoh c L s
  else if s.oxidation_mech = "NSC_NEOH" then oxidation_NSC_Neoh c L s
  else if s.oxidation_mech = "HACA" then oxidation_HACA c L s M0 M1
  else .error (Fault.exit "ERROR: Invalid soot oxidation mechanism.")

/-- The statement `v[i] += x` for an `int` index `i`. -/
def addI (v : List K) (i : Int) (x : K) : Except Fault (List K) := do
  wrI v i ((← rdI v i) + x)

/-- The function `soot::set_gasSootSources`. -/
def set_gasSootSources (s : Soot K) (N1 Cnd1 G1 X1 : K) : Except Fault (Soot K) := do
  let g := s.gasSootSources
  let g ← wrI g s.i_c2h2 (N1 * s.rC2H2_rSoot_n / s.rho)
  let g ← wrI g s.i_h2 (N1 * s.rH2_rSoot_ncnd / s.rho)
  let g ← forLoop s.i_pah.length (fun i g => do
    wrI g (← rd s.i_pah i) (N1 * (← rd s.rPAH_rSoot_ncnd i) / s.rho)) g
  let g ← addI g s.i_c2h2 (G1 * s.rC2H2_rSoot_go / s.rho)
  let g ← addI g s.i_h2 (G1 * s.rH2_rSoot_go / s.rho)
  let g ← wrI g s.i_o2 (X1 * s.rO2_rSoot_go / s.rho)
  let g ← wrI g s.i_oh (X1 * s.rOH_rSoot_go / s.rho)
  let g ← wrI g s.i_h (X1 * s.rH_rSoot_go / s.rho)
  let g ← wrI g s.i_co (X1 * s.rCO_rSoot_go / s.rho)
  let g ← addI g s.i_h2 (Cnd1 * s.rH2_rSoot_ncnd / s.rho)
  let g ← forLoop s.i_pah.length (fun i g => do
    addI g (← rd s.i_pah i) (Cnd1 * (← rd s.rPAH_rSoot_ncnd i) / s.rho)) g
  pure { s with gasSootSources := g }

end Rates

/-! ## The source terms (`soot_QMOM.cc`) -/

section Sources
variable [LinearOrderedField K]

/-- The loop of `soot_QMOM::Mk` from slot `k` on, `n` slots to go, with the running sum. -/
def MkLoop (L : Libm K) (s : Soot K) (exp : K) : Nat → Nat → K → Except Fault K
  | 0, _, acc => .ok acc
  | n + 1, k, acc => do
    if (← rd s.wts k) = 0 then pure 0
    else if (← rd s.absc k) = 0 then pure 0
    else MkLoop L s exp n (k + 1) (acc + (← rd s.wts k) * L.pow (← rd s.absc k) exp)

/-- The function `soot_QMOM::Mk`. -/
def Mk (L : Libm K) (s : Soot K) (exp : K) : Except Fault K :=
  MkLoop L s exp (s.nsvar / 2) 0 0

/-- One pass `for (int i = lo; i < hi; i++)` over a loop state. -/
def forFrom {σ : Type} (lo hi : Nat) (body : Nat → σ → Except Fault σ) (init : σ) :
    Except Fault σ :=
  (List.range' lo (hi - lo)).foldlM (fun st i => body i st) init

/-- A local `vector<double> X(n, 0.0)` filled entry by entry, in order. -/
def tabulate (f : Nat → Except Fault K) : List Nat → Except Fault (List K)
  | [] => .ok []
  | k :: ks => do
    let x ← f k
    let xs ← tabulate f ks
    pure (x :: xs)

/-- The body of the clamping loop of `setSrc`. -/
def clampBody (i : Nat) (st : List K × List K) : Except Fault (List K × List K) := do
  let w ← if (← rd st.1 i) < 0 then wr st.1 i 0 else pure st.1
  let a ← if (← rd st.2 i) < 0 then wr st.2 i 0 else pure st.2
  pure (w, a)

/-- The geometric coefficient `Acoef` of `setSrc`. -/
def Acoef (L : Libm K) (s : Soot K) : K :=
  L.pi * L.pow |6.0 / L.pi / s.rhoSoot| (2.0 / 3.0)

/-- The entry `Mcnd[k]` of `setSrc` when the nucleation mechanism is `PAH`. -/
def McndEntry (c : Consts K) (L : Libm K) (s : Soot K) (k : Nat) : Except Fault K :=
  if k = 0 then .ok 0 else do
    let acc ← forLoop s.absc.length (fun ii acc => do
      let ai ← rd s.absc ii
      let beta ← getCoagulationRate c L s s.m_dimer ai
      let wi ← rd s.wts ii
      pure (acc + beta * L.pow ai (((k : Int) - 1 : Int) : K) * wi)) (0.0 : K)
    pure (acc * (s.DIMER * s.m_dimer * k))

/-- The entry `Mgrw[k]` of `setSrc`. -/
def MgrwEntry (L : Libm K) (s : Soot K) (Kgrw : K) (k : Nat) : Except Fault K :=
  if k = 0 then .ok 0 else do
    pure (Kgrw * Acoef L s * k * (← Mk L s (k - 1.0 / 3.0)))

/-- The entry `Moxi[k]` of `setSrc`. -/
def MoxiEntry (L : Libm K) (s : Soot K) (Koxi : K) (k : Nat) : Except Fault K :=
  if k = 0 then .ok 0 else do
    pure (-Koxi * Acoef L s * k * (← Mk L s (k - 1.0 / 3.0)))

/-- The term the off-diagonal loop of `setSrc` adds to `Mcoa[k]` for the pair `(ii, j)`. -/
def coaPair (c : Consts K) (L : Libm K) (s : Soot K) (k ii j : Nat) : Except Fault K := do
  let ai ← rd s.absc ii
  let aj ← rd s.absc j
  let beta ← getCoagulationRate c L s ai aj
  let wi ← rd s.wts ii
  let wj ← rd s.wts j
  pure (beta * wi * wj * (if k = 0 then -1.0 else L.pow (ai + aj) k - L.pow ai k - L.pow aj k))

/-- The term the diagonal loop of `setSrc` adds to `Mcoa[k]` for the node `ii`. -/
def coaDiag (c : Consts K) (L : Libm K) (s : Soot K) (k ii : Nat) : Except Fault K := do
  let ai ← rd s.absc ii
  let beta ← getCoagulationRate c L s ai ai
  let wi ← rd s.wts ii
  pure (beta * wi * wi *
    (if k = 0 then -0.5 else L.pow ai k * (L.pow 2 (((k : Int) - 1 : Int) : K) - 1)))

/-- The entry `Mcoa[k]` of `setSrc`: the off-diagonal pairs `j < ii`, then the diagonal. -/
def McoaEntry (c : Consts K) (L : Libm K) (s : Soot K) (k : Nat) : Except Fault K :=
  if k = 1 then .ok 0 else do
    let acc ← forFrom 1 s.absc.length (fun ii acc =>
      forLoop ii (fun j acc => do pure (acc + (← coaPair c L s k ii j))) acc) (0.0 : K)
    forLoop s.absc.length (fun ii acc => do pure (acc + (← coaDiag c L s k ii))) acc

/-- The second half of `soot_QMOM::setSrc`, from the nucleation terms to the end of the
function: the five moment terms for the rates `Jnuc`, `Kgrw`, `Koxi` just computed, their sum
`src`, and the gas sources. -/
def assembleSrc (c : Consts K) (L : Libm K) (s : Soot K) (Jnuc Kgrw Koxi : K) :
    Except Fault (Soot K) := do
  let m_nuc := s.Cmin * c.MW_c / c.Na
  let Mnuc := (List.range s.nsvar).map (fun (k : Nat) => L.pow m_nuc (k : K) * Jnuc)
  let Mcnd ←
    if s.nucleation_mech = "PAH" then tabulate (McndEntry c L s) (List.range s.nsvar)
    else pure ((List.range s.nsvar).map (fun _ => (0.0 : K)))
  let Mgrw ← tabulate (MgrwEntry L s Kgrw) (List.range s.nsvar)
  let Moxi ← tabulate (MoxiEntry L s Koxi) (List.range s.nsvar)
  let Mcoa ← tabulate (McoaEntry c L s) (List.range s.nsvar)
  let src ← forLoop s.nsvar (fun k src => do
    wr src k ((← rd Mnuc k) + (← rd Mcnd k) + (← rd Mgrw k) + (← rd Moxi k) + (← rd Mcoa k)))
    s.src
  let s := { s with src := src }
  set_gasSootSources s (← rd Mnuc 1) (← rd Mcnd 1) (← rd Mgrw 1) (← rd Moxi 1)

/-- The function `soot_QMOM::setSrc`: the inversion, the clamping loop and the three rate
calls, followed by `assembleSrc`. -/
def setSrc (c : Consts K) (L : Libm K) (wheeler : Wheeler K) (s : Soot K) :
    Except Fault (Soot K) := do
  let M := s.sootvar
  let nodes ← getWtsAbs wheeler s.nsvar M s.wts s.absc
  let (wts, absc) ← forLoop nodes.wts.length clampBody (nodes.wts, nodes.absc)
  let s := { s with wts := wts, absc := absc }
  let (Jnuc, s) ← getNucleationRate c L s s.absc s.wts
  let (Kgrw, s) ← getGrowthRate c L s (← rd M 0) (← rd M 1)
  let (Koxi, s) ← getOxidationRate c L s (← rd M 0) (← rd M 1)
  assembleSrc c L s Jnuc Kgrw Koxi

end Sources

/-- The computation `x` does not end in `exit`: it returns, or it leaves the vectors. -/
def NoExit {α : Type} (x : Except Fault α) : Prop :=
  ∀ msg, x ≠ .error (Fault.exit msg)

/-! ## Construction (`soot::soot`) -/

/-- The expression `find(spNames.begin(), spNames.end(), name) - spNames.begin()`: the
position of the first entry equal to `name`, or `spNames.size()` when there is none. -/
def findName (spNames : List String) (name : String) : Nat :=
  spNames.indexOf name

/-- The three assignments to `isp` the constructor repeats for each of the seven species:
look for the upper-case spelling, then for the lower-case spelling, else store `-1`. -/
def lookupSpecies (spNames : List String) (upper lower : String) : Int :=
  let isp : Int := findName spNames upper
  let isp : Int := if isp ≠ spNames.length then isp else findName spNames lower
  if isp ≠ spNames.length then isp else -1

/-- The loop of the constructor over `PAH_spNames`, on the static vector `i_pah`: each
name is looked up as it is spelt, its position is appended, and entry `i` of the vector
is compared with `spNames.size()`. -/
def lookupPAH (spNames PAH_spNames : List String) (i_pah : List Int) :
    Except Fault (List Int) :=
  forLoop PAH_spNames.length (fun i i_pah => do
    let i_pah := i_pah ++ [((findName spNames (← rd PAH_spNames i) : Nat) : Int)]
    if (← rd i_pah i) = (spNames.length : Int) then
      .error (Fault.exit
        "ERROR: Invalid PAH species provided: check input file and mechanism.")
    else pure i_pah) i_pah

/-- The constructor `soot::soot`. The object `old` holds what the constructor finds and
does not assign: the static vector `i_pah` as earlier constructions left it, and the
members set later by `set_gas_state_vars` and by the rate calls. The vectors
`gasSootSources`, `src` and `rPAH_rSoot_ncnd` of the new object are empty before their
`resize`. The loop over the PAH names is the only statement that can fail; the other
assignments do not depend on it and are collected in one update. -/
def soot [LinearOrderedField K] (p_nsvar : Nat) (spNames PAH_spNames : List String)
    (p_nC_PAH : List Int) (p_MW_sp : List K) (p_Cmin : Int) (p_rhoSoot : K)
    (p_nucleation_mech p_growth_mech p_oxidation_mech p_coagulation_mech : String)
    (old : Soot K) : Except Fault (Soot K) := do
  let i_pah ← lookupPAH spNames PAH_spNames old.i_pah
  pure { old with
    nsvar := p_nsvar
    MW_sp := p_MW_sp
    nC_PAH := p_nC_PAH
    Cmin := (p_Cmin : K)
    rhoSoot := p_rhoSoot
    nucleation_mech := p_nucleation_mech
    growth_mech := p_growth_mech
    oxidation_mech := p_oxidation_mech
    coagulation_mech := p_coagulation_mech
    sootvar := List.replicate p_nsvar 0.0
    gasSootSources := List.replicate spNames.length 0
    src := List.replicate p_nsvar 0
    i_c2h2 := lookupSpecies spNames "C2H2" "c2h2"
    i_o2 := lookupSpecies spNames "O2" "o2"
    i_h := lookupSpecies spNames "H" "h"
    i_h2 := lookupSpecies spNames "H2" "h2"
    i_oh := lookupSpecies spNames "OH" "oh"
    i_h2o := lookupSpecies spNames "H2O" "h2o"
    i_co := lookupSpecies spNames "CO" "co"
    i_pah := i_pah
    rPAH_rSoot_ncnd := List.replicate i_pah.length 0.0 }

/-! ## Well-formed objects -/

/-- The species index `i` was resolved: it is not the sentinel and it lies inside the
three species-aligned vectors (mass fractions, molar masses, gas sources). -/
def Resolved (s : Soot K) (i : Int) : Prop :=
  0 ≤ i ∧ i.toNat < s.yi.length ∧ i.toNat < s.MW_sp.length ∧
    i.toNat < s.gasSootSources.length

/-- The sizes an object has after construction with an even number `nsvar >= 2` of
moments and a species list in which every species was found. -/
structure WellFormed (s : Soot K) : Prop where
  nsvar_even : s.nsvar % 2 = 0
  nsvar_ge : 2 ≤ s.nsvar
  sootvar_len : s.sootvar.length = s.nsvar
  src_len : s.nsvar ≤ s.src.length
  wts_len : s.nsvar / 2 ≤ s.wts.length
  absc_len : s.absc.length = s.wts.length
  c2h2 : Resolved s s.i_c2h2
  o2 : Resolved s s.i_o2
  h : Resolved s s.i_h
  h2 : Resolved s s.i_h2
  oh : Resolved s s.i_oh
  h2o : Resolved s s.i_h2o
  co : Resolved s s.i_co
  pah : ∀ i ∈ s.i_pah, Resolved s i
  rPAH_len : s.i_pah.length ≤ s.rPAH_rSoot_ncnd.length
  nC_len : s.i_pah.length ≤ s.nC_PAH.length

/-- The sign laws the machine versions of `M_PI`, `sqrt`, `exp` and `pow` share with the
real functions: `M_PI` is positive, `sqrt` and `exp` return non-negative values, and so
does `pow` on a non-negative base. -/
structure Libm.Signs [LinearOrderedField K] (L : Libm K) : Prop where
  pi_pos : 0 < L.pi
  sqrt_nonneg : ∀ x, 0 ≤ L.sqrt x
  exp_nonneg : ∀ x, 0 ≤ L.exp x
  pow_nonneg : ∀ x y, 0 ≤ x → 0 ≤ L.pow x y

/-- The strict sign laws the machine versions of `M_PI`, `sqrt`, `exp` and `pow` share
with the real functions: `M_PI` and `exp` are positive, `sqrt` is positive on a positive
argument and `pow` on a positive base. -/
structure Libm.Strict [LinearOrderedField K] (L : Libm K) : Prop where
  pi_pos : 0 < L.pi
  sqrt_pos : ∀ x, 0 < x → 0 < L.sqrt x
  exp_pos : ∀ x, 0 < L.exp x
  pow_pos : ∀ x y, 0 < x → 0 < L.pow x y

/-! ## Sample data -/

/-- A sample inversion routine: two nodes `(1/2, 1/4)`, `(1/2, 3/4)` for
the moments `1, 1/2, 5/16, 7/32`, and a negative weight for any other moments. -/
def sampleWheeler : Wheeler ℚ := fun M _ k =>
  if M = [1, 1 / 2, 5 / 16, 7 / 32] then (1 / 2, if k = 0 then 1 / 4 else 3 / 4) else (-1, 0)

/-- The real-valued `<cmath>`: the functions the machine versions approximate. -/
noncomputable def realLibm : Libm ℝ where
  pi := Real.pi
  sqrt := Real.sqrt
  exp := Real.exp
  pow := fun x y => x ^ y
  tanh := Real.tanh
  log10 := fun x => Real.log x / Real.log 10

/-- Customary values of the constants of `soot.h`, in the units of the library
(kmol-based): Avogadro, Boltzmann, gas constant, `eps_c`, carbon molar mass. -/
def sampleConsts (K : Type) [LinearOrderedField K] : Consts K where
  Na := 6.02214086e26
  kb := 1.38064852e-23
  Rg := 8314.46
  eps_c := 2.2
  MW_c := 12.011

/-- A `soot_QMOM` object over the species list `C2H2, O2, H, H2, OH, H2O, CO` (indices
`0 .. 6`) with no PAH species, soot density 1850 kg/m3, in a gas at 1800 K and 101325 Pa;
the mechanisms, the number of moments, the moments and the node arrays are arguments. -/
def sampleSoot (K : Type) [LinearOrderedField K] (nuc grw oxi coa : String) (nsvar : Nat)
    (sootvar wts absc : List K) : Soot K where
  nsvar := nsvar
  rhoSoot := 1850
  nucleation_mech := nuc
  growth_mech := grw
  oxidation_mech := oxi
  coagulation_mech := coa
  i_c2h2 := 0
  i_o2 := 1
  i_h := 2
  i_h2 := 3
  i_oh := 4
  i_h2o := 5
  i_co := 6
  i_pah := []
  nC_PAH := []
  MW_sp := [26.038, 31.998, 1.008, 2.016, 17.007, 18.015, 28.010]
  Cmin := 100
  m_dimer := 0
  DIMER := 0
  T := 1800
  P := 101325
  rho := 0.2
  MW := 28
  mu := 6e-5
  yi := [0.05, 0.01, 0.001, 0.01, 0.001, 0.1, 0.05]
  rC2H2_rSoot_n := 0
  rH2_rSoot_ncnd := 0
  rPAH_rSoot_ncnd := []
  rC2H2_rSoot_go := 0
  rH2_rSoot_go := 0
  rO2_rSoot_go := 0
  rOH_rSoot_go := 0
  rH_rSoot_go := 0
  rCO_rSoot_go := 0
  sootvar := sootvar
  wts := wts
  absc := absc
  src := List.replicate nsvar 0
  gasSootSources := List.replicate 7 0

/-- The sample object with one PAH species added: pyrene (C16H10, 202.25 kg/kmol, 16
carbon atoms) at index 7 with mass fraction 0.001, the nucleation law `PAH` and the
kernel `FRENK`; the value of `Cmin` is an argument. -/
def samplePAH (K : Type) [LinearOrderedField K] (Cmin : K) : Soot K :=
  { sampleSoot K "PAH" "NONE" "NONE" "FRENK" 2 [1, 2] [0] [0] with
    i_pah := [7]
    nC_PAH := [16]
    MW_sp := [26.038, 31.998, 1.008, 2.016, 17.007, 18.015, 28.010, 202.25]
    yi := [0.05, 0.01, 0.001, 0.01, 0.001, 0.1, 0.05, 0.001]
    rPAH_rSoot_ncnd := [0]
    gasSootSources := List.replicate 8 0
    Cmin := Cmin }

/-! ## The two regimes of the Frenklach kernel, as the specification names them -/

/-- Specification side: the diameter of a particle of mass `m > 0`. -/
def specDiameter [LinearOrderedField K] (L : Libm K) (s : Soot K) (m : K) : K :=
  L.pow (6 * m / (L.pi * s.rhoSoot)) (1 / 3)

/-- Specification side: the slip correction `Cc` of a particle of diameter `d`, with
the Knudsen number `Kn = 2 mfp / d`. -/
def specSlip [LinearOrderedField K] (c : Consts K) (L : Libm K) (s : Soot K) (d : K) : K :=
  1 + 2 * get_gas_mean_free_path c L s / d *
    (1.257 + 0.4 * L.exp (-1.1 / (2 * get_gas_mean_free_path c L s / d)))

/-- Specification side: the free-molecular rate
`FM = eps_c * sqrt(pi kb T / (2 m12)) * (d1 + d2)^2` with `m12 = m1 m2 / (m1 + m2)`. -/
def specFreeMolecular [LinearOrderedField K] (c : Consts K) (L : Libm K) (s : Soot K)
    (m1 m2 : K) : K :=
  c.eps_c * L.sqrt (L.pi * c.kb * s.T / (2 * (m1 * m2 / (m1 + m2)))) *
    (specDiameter L s m1 + specDiameter L s m2) ^ 2

/-- Specification side: the continuum rate
`C = 2 kb T / (3 mu) * (Cc1/d1 + Cc2/d2) * (d1 + d2)`. -/
def specContinuum [LinearOrderedField K] (c : Consts K) (L : Libm K) (s : Soot K)
    (m1 m2 : K) : K :=
  2 * c.kb * s.T / (3 * s.mu) *
    (specSlip c L s (specDiameter L s m1) / specDiameter L s m1 +
      specSlip c L s (specDiameter L s m2) / specDiameter L s m2) *
    (specDiameter L s m1 + specDiameter L s m2)

/-- The sample object in a gas without O2 and without OH (both mass fractions are 0),
with the oxidation law `oxi` alone. -/
def sampleNoOx (K : Type) [LinearOrderedField K] (oxi : String) : Soot K :=
  { sampleSoot K "NONE" "NONE" oxi "NONE" 2 [1, 2] [0] [0] with
    yi := [0.05, 0, 0.001, 0.01, 0, 0.1, 0.05] }

/-- The sample object with one PAH species whose mass fraction is 0. -/
def samplePAHzero (K : Type) [LinearOrderedField K] (Cmin : K) : Soot K :=
  { samplePAH K Cmin with yi := [0.05, 0.01, 0.001, 0.01, 0.001, 0.1, 0.05, 0] }

/-- Specification side: half the full symmetric double sum over the nodes `(w i, m i)`,
`i < n`, of `beta(m_i, m_j) w_i w_j ((m_i + m_j)^k - m_i^k - m_j^k)`. -/
def specCoagulationSum [LinearOrderedField K] (β : K → K → K) (w m : Nat → K) (n k : Nat) :
    K :=
  1 / 2 * ∑ i in Finset.range n, ∑ j in Finset.range n,
    β (m i) (m j) * w i * w j * ((m i + m j) ^ k - m i ^ k - m j ^ k)

/-- Specification side: the oracle's result at order `n` is admissible when all `n`
weights are non-negative and all `n` abscissas lie in `[0, 1]`. -/
def specAdmissible [LinearOrderedField K] (wheeler : Wheeler K) (M : List K) (n : Nat) :
    Prop :=
  ∀ k, k < n → 0 ≤ (wheeler M n k).1 ∧ 0 ≤ (wheeler M n k).2 ∧ (wheeler M n k).2 ≤ 1

/-! ## The locals of `set_m_dimer` -/

/-- The value of the local `m_ipah` of `set_m_dimer` in iteration `i`: the mass of one
molecule of the PAH species `i`. -/
def m_ipah [LinearOrderedField K] (c : Consts K) (s : Soot K) (i : Nat) : K :=
  s.MW_sp.getD (s.i_pah.getD i 0).toNat 0 / c.Na

/-- The value of the local `wdoti` of `set_m_dimer` in iteration `i`: the self-collision
rate of the PAH species `i`. -/
def wdoti [LinearOrderedField K] (c : Consts K) (L : Libm K) (s : Soot K) (i : Nat) : K :=
  |(if m_ipah c s i > 153 then 1.501e-11 * L.pow (m_ipah c s i) 4
      else 1.501e-11 * L.pow (m_ipah c s i) 4 / 3.0) *
    (L.sqrt (4 * L.pi * c.kb * s.T) * L.pow (6 / (L.pi * s.rhoSoot)) (2.0 / 3.0)) *
    L.pow (m_ipah c s i) (1.0 / 6.0) *
    (s.rho * s.yi.getD (s.i_pah.getD i 0).toNat 0 /
      s.MW_sp.getD (s.i_pah.getD i 0).toNat 0 * c.Na) *
    (s.rho * s.yi.getD (s.i_pah.getD i 0).toNat 0 /
      s.MW_sp.getD (s.i_pah.getD i 0).toNat 0 * c.Na)|

/-! ## The inversion over doubles that may be a NaN

The comparisons of `getWtsAbs` and of the clamping loop of `setSrc` are false on a NaN.
To state what the code does with a NaN the same statements are embedded a second time
over `Option K`, where `none` is a NaN and `some x` is the number `x`. -/

section InversionNaN
variable [LinearOrderedField K]

/-- The comparison `x < y` of two doubles: false when either side is a NaN. -/
def ltNaN (x y : Option K) : Bool :=
  match x, y with
  | some a, some b => decide (a < b)
  | _, _ => false

/-- The comparison `x <= y` of two doubles: false when either side is a NaN. -/
def leNaN (x y : Option K) : Bool :=
  match x, y with
  | some a, some b => decide (a ≤ b)
  | _, _ => false

/-- The quotient `x / y` of two doubles, a NaN when either side is a NaN. The only
quotient of `getWtsAbs` is `M[1]/M[0]`, whose divisor has passed the test
`M[0] <= 0.0`: it is a NaN or a positive number. -/
def divNaN (x y : Option K) : Option K :=
  match x, y with
  | some a, some b => some (a / b)
  | _, _ => none

/-- The precondition loop of `getWtsAbs` over doubles that may be a NaN. -/
def anyNonPositiveNaN (M : List (Option K)) : Nat → Nat → Except Fault Bool
  | 0, _ => .ok false
  | n + 1, k => do
    let m ← rd M k
    if leNaN m (some 0) then pure true else anyNonPositiveNaN M n (k + 1)

/-- The flag `negs` after the checking loop
`if (w_temp[k] < 0.0 || a_temp[k] < 0.0 || a_temp[k] > 1.0) negs = true;`
over doubles that may be a NaN. -/
def negsNaN (wa : List (Option K × Option K)) : Bool :=
  wa.any (fun p => ltNaN p.1 (some 0) || ltNaN p.2 (some 0) || ltNaN (some 1) p.2)

/-- The downselection loop of `getWtsAbs` with the code that follows it, over doubles
that may be a NaN. -/
def downselectNaN (wheeler : Wheeler (Option K)) (M wts absc : List (Option K)) :
    Nat → List Nat → Except Fault (Nodes (Option K))
  | n + 2, calls =>
    if n + 2 = 2 then do
      let m0 ← rd M 0
      let wts ← wr wts 0 m0
      let m1 ← rd M 1
      let m0 ← rd M 0
      let absc ← wr absc 0 (divNaN m1 m0)
      pure ⟨wts, absc, calls⟩
    else
      let wa := callWheeler wheeler M (n + 2)
      if negsNaN wa then
        downselectNaN wheeler M wts absc n ((n + 2) / 2 :: calls)
      else do
        let r ← assign wts absc 0 wa
        pure ⟨r.1, r.2, (n + 2) / 2 :: calls⟩
  | N, calls => do
    let r ← assign wts absc 0 (callWheeler wheeler M N)
    pure ⟨r.1, r.2, N / 2 :: calls⟩

/-- The function `soot_QMOM::getWtsAbs(M, wts, absc)` over doubles that may be a NaN. -/
def getWtsAbsNaN (wheeler : Wheeler (Option K)) (nsvar : Nat) (M wts absc : List (Option K)) :
    Except Fault (Nodes (Option K)) := do
  if ← anyNonPositiveNaN M nsvar 0 then
    pure ⟨wts, absc, []⟩
  else
    downselectNaN wheeler M wts absc nsvar []

/-- The body of the clamping loop of `setSrc` over doubles that may be a NaN. -/
def clampBodyNaN (i : Nat) (st : List (Option K) × List (Option K)) :
    Except Fault (List (Option K) × List (Option K)) := do
  let w ← if ltNaN (← rd st.1 i) (some 0) then wr st.1 i (some 0) else pure st.1
  let a ← if ltNaN (← rd st.2 i) (some 0) then wr st.2 i (some 0) else pure st.2
  pure (w, a)

end InversionNaN

/-- An oracle whose weights are a NaN and whose abscissas are `1/4`. -/
def nanWheeler : Wheeler (Option ℚ) := fun _ _ _ => (none, some (1 / 4))

/-- An oracle whose weights are a NaN at order 3, and which returns the nodes
`(1/2, 1/4)`, `(1/2, 3/4)` at every other order. -/
def nanTopWheeler : Wheeler (Option ℚ) := fun _ n k =>
  if n = 3 then (none, some (1 / 2)) else (some (1 / 2), some (if k = 0 then 1 / 4 else 3 / 4))

/-! ## Facts about `getWtsAbs` -/

theorem rd_of_lt {v : List K} {i : Nat} (h : i < v.length) : rd v i = .ok v[i] := by
  simp [rd, List.getElem?_eq_getElem h]

theorem wr_of_lt {v : List K} {i : Nat} (x : K) (h : i < v.length) :
    wr v i x = .ok (v.set i x) := by
  simp [wr, h]

theorem rd_getD {v : List K} {i : Nat} (d : K) (h : i < v.length) :
    rd v i = .ok (v.getD i d) := by
  simp [rd, List.getElem?_eq_getElem h, List.getD_eq_getElem?_getD]

/-- The final copy loop succeeds when the temporaries fit, keeps the lengths, and every
entry it leaves comes from the array it started from or from the temporaries. -/
theorem assign_ok (wa : List (K × K)) : ∀ (wts absc : List K) (k : Nat),
    k + wa.length ≤ wts.length → k + wa.length ≤ absc.length →
    ∃ w a, assign wts absc k wa = .ok (w, a) ∧
      w.length = wts.length ∧ a.length = absc.length ∧
      (∀ x ∈ w, x ∈ wts ∨ x ∈ wa.map Prod.fst) ∧
      (∀ x ∈ a, x ∈ absc ∨ x ∈ wa.map Prod.snd) := by
  induction wa with
  | nil =>
    intro wts absc k _ _
    exact ⟨wts, absc, rfl, rfl, rfl, fun x hx => Or.inl hx, fun x hx => Or.inl hx⟩
  | cons p rest ih =>
    intro wts absc k hw ha
    simp only [List.length_cons] at hw ha
    have hkw : k < wts.length := by omega
    have hka : k < absc.length := by omega
    obtain ⟨w, a, hok, hlw, hla, hmw, hma⟩ :=
      ih (wts.set k p.1) (absc.set k p.2) (k + 1)
        (by rw [List.length_set]; omega) (by rw [List.length_set]; omega)
    refine ⟨w, a, ?_, ?_, ?_, ?_, ?_⟩
    · simp [assign, wr_of_lt _ hkw, wr_of_lt _ hka, bind, Except.bind, hok]
    · rw [hlw, List.length_set]
    · rw [hla, List.length_set]
    · intro x hx
      rcases hmw x hx with h | h
      · rcases List.mem_or_eq_of_mem_set h with h | h
        · exact Or.inl h
        · exact Or.inr (by simp [h])
      · exact Or.inr (by simp only [List.map_cons, List.mem_cons]; exact Or.inr h)
    · intro x hx
      rcases hma x hx with h | h
      · rcases List.mem_or_eq_of_mem_set h with h | h
        · exact Or.inl h
        · exact Or.inr (by simp [h])
      · exact Or.inr (by simp only [List.map_cons, List.mem_cons]; exact Or.inr h)

section InversionFacts
variable [LinearOrderedField K]

/-- The precondition loop runs through a vector whose scanned entries are all positive. -/
theorem anyNonPositive_of_pos (M : List K) : ∀ (n k : Nat), k + n ≤ M.length →
    (∀ i (h : i < M.length), k ≤ i → i < k + n → 0 < M[i]) →
    anyNonPositive M n k = .ok false := by
  intro n
  induction n with
  | zero => intro k _ _; rfl
  | succ n ih =>
    intro k hk hpos
    have hlt : k < M.length := by omega
    have h0 : ¬ M[k] ≤ 0 := not_le.mpr (hpos k hlt le_rfl (by omega))
    have hrec := ih (k + 1) (by omega) (fun i h h1 h2 => hpos i h (by omega) (by omega))
    simp [anyNonPositive, rd_of_lt hlt, bind, Except.bind, h0, hrec]

/-- A result that passes the check holds non-negative weights and abscissas. -/
theorem nonneg_of_not_negs (wa : List (K × K)) (h : negs wa = false) :
    (∀ x ∈ wa.map Prod.fst, 0 ≤ x) ∧ (∀ x ∈ wa.map Prod.snd, 0 ≤ x) := by
  simp only [negs, List.any_eq_false, Bool.or_eq_true, decide_eq_true_eq, not_or, not_lt] at h
  constructor
  · intro x hx
    obtain ⟨p, hp, rfl⟩ := List.mem_map.mp hx
    exact (h p hp).1.1
  · intro x hx
    obtain ⟨p, hp, rfl⟩ := List.mem_map.mp hx
    exact (h p hp).1.2

/-- The orders with which `wheeler` is called when the loop, entered at order `m`,
rejects `j - 1` results: `m, m - 1, ..., m - j + 1`, the latest first. -/
theorem orders_step (m j : Nat) (calls : List Nat) :
    ((List.range j).map (fun i => m - i)).reverse ++ (m + 1) :: calls =
      ((List.range (j + 1)).map (fun i => m + 1 - i)).reverse ++ calls := by
  rw [List.range_succ_eq_map]
  simp [List.map_map, Function.comp_def]

/-- The downselection loop entered at an even order `N = 2 m >= 2` on arrays with room for
`m` nodes: it returns, having called `wheeler` at the orders `m, m - 1, ...` at most
`m - 1` times, and the arrays keep their lengths; entries it leaves are old entries,
accepted (hence non-negative) results, or the monodisperse node. -/
theorem downselect_even (wheeler : Wheeler K) (M wts absc : List K) (hM : 2 ≤ M.length) :
    ∀ (m : Nat) (calls : List Nat), 1 ≤ m → m ≤ wts.length → m ≤ absc.length →
    ∃ r j, downselect wheeler M wts absc (2 * m) calls = .ok r ∧
      j ≤ m - 1 ∧
      r.calls = ((List.range j).map (fun i => m - i)).reverse ++ calls ∧
      r.wts.length = wts.length ∧ r.absc.length = absc.length ∧
      (∀ x ∈ r.wts, x ∈ wts ∨ 0 ≤ x ∨ x = M[0]) ∧
      (∀ x ∈ r.absc, x ∈ absc ∨ 0 ≤ x ∨ x = M[1] / M[0]) := by
  intro m
  induction m with
  | zero => intro _ h; omega
  | succ m ih =>
    intro calls _ hw ha
    have e : 2 * (m + 1) = 2 * m + 2 := by ring
    rw [e]
    rcases Nat.eq_zero_or_pos m with hm | hm
    · subst hm
      have hw0 : 0 < wts.length := by omega
      have ha0 : 0 < absc.length := by omega
      refine ⟨⟨wts.set 0 M[0], absc.set 0 (M[1] / M[0]), calls⟩, 0, ?_, by omega, by simp,
        by simp, by simp, ?_, ?_⟩
      · simp [downselect, rd_of_lt (show 0 < M.length by omega),
          rd_of_lt (show 1 < M.length by omega), wr_of_lt _ hw0, wr_of_lt _ ha0, bind,
          Except.bind, pure, Except.pure]
      · intro x hx
        rcases List.mem_or_eq_of_mem_set hx with h | h
        · exact Or.inl h
        · exact Or.inr (Or.inr h)
      · intro x hx
        rcases List.mem_or_eq_of_mem_set hx with h | h
        · exact Or.inl h
        · exact Or.inr (Or.inr h)
    · have hne : ¬ (2 * m + 2 = 2) := by omega
      have hhalf : (2 * m + 2) / 2 = m + 1 := by omega
      by_cases hn : negs (callWheeler wheeler M (2 * m + 2)) = true
      · obtain ⟨r, j, hok, hj, hcalls, hlw, hla, hmw, hma⟩ :=
          ih ((m + 1) :: calls) hm (by omega) (by omega)
        refine ⟨r, j + 1, ?_, by omega, ?_, hlw, hla, hmw, hma⟩
        · rw [downselect]
          simp only [hne, if_false, hn, if_true, hhalf]
          exact hok
        · rw [hcalls]
          exact orders_step m j calls
      · have hn' : negs (callWheeler wheeler M (2 * m + 2)) = false := by
          simpa using hn
        have hlen : (callWheeler wheeler M (2 * m + 2)).length = m + 1 := by
          simp [callWheeler, hhalf]
        obtain ⟨w, a, hok, hlw, hla, hmw, hma⟩ :=
          assign_ok (callWheeler wheeler M (2 * m + 2)) wts absc 0 (by omega) (by omega)
        obtain ⟨hwn, han⟩ := nonneg_of_not_negs _ hn'
        refine ⟨⟨w, a, (m + 1) :: calls⟩, 1, ?_, by omega, rfl, hlw, hla, ?_, ?_⟩
        · rw [downselect]
          simp [hne, hn', hhalf, hok, bind, Except.bind, pure, Except.pure]
        · intro x hx
          rcases hmw x hx with h | h
          · exact Or.inl h
          · exact Or.inr (Or.inl (hwn x h))
        · intro x hx
          rcases hma x hx with h | h
          · exact Or.inl h
          · exact Or.inr (Or.inl (han x h))

/-- The precondition loop returns a flag whenever the scanned range lies in the vector. -/
theorem anyNonPositive_ok (M : List K) : ∀ (n k : Nat), k + n ≤ M.length →
    ∃ b, anyNonPositive M n k = .ok b := by
  intro n
  induction n with
  | zero => intro k _; exact ⟨false, rfl⟩
  | succ n ih =>
    intro k hk
    have hlt : k < M.length := by omega
    obtain ⟨b, hb⟩ := ih (k + 1) (by omega)
    by_cases h0 : M[k] ≤ 0
    · exact ⟨true, by simp [anyNonPositive, rd_of_lt hlt, bind, Except.bind, h0, pure,
        Except.pure]⟩
    · exact ⟨b, by simp [anyNonPositive, rd_of_lt hlt, bind, Except.bind, h0, hb]⟩

/-- C1: for `nsvar = 2` and moments `M0 > 0`, `M1 > 0`, `getWtsAbs` stores `wts[0] = M0`
and `absc[0] = M1/M0`, leaves the other slots alone, and makes no call of `wheeler`
(the list of calls is empty, and the result is the same for every `wheeler`). -/
theorem getWtsAbs_two_moments (wheeler : Wheeler K) (M0 M1 w a : K) (rest ws xs : List K)
    (h0 : 0 < M0) (h1 : 0 < M1) :
    getWtsAbs wheeler 2 (M0 :: M1 :: rest) (w :: ws) (a :: xs) =
      .ok ⟨M0 :: ws, (M1 / M0) :: xs, []⟩ := by
  have a0 : ¬ M0 ≤ 0 := not_le.mpr h0
  have a1 : ¬ M1 ≤ 0 := not_le.mpr h1
  simp [getWtsAbs, anyNonPositive, downselect, rd, wr, bind, Except.bind, pure, Except.pure,
    a0, a1]

/-- For an oracle whose results are numbers (no NaN): on a strictly positive moment
vector of even length `nsvar >= 2`, `getWtsAbs` started on zero-filled node arrays (with
room for `nsvar/2` nodes) returns, and every weight and every abscissa it leaves is
non-negative. -/
theorem getWtsAbs_nonneg (wheeler : Wheeler K) (nsvar : Nat) (M : List K) (L L' : Nat)
    (heven : nsvar % 2 = 0) (h2 : 2 ≤ nsvar) (hlen : M.length = nsvar)
    (hpos : ∀ x ∈ M, 0 < x) (hL : nsvar / 2 ≤ L) (hL' : nsvar / 2 ≤ L') :
    ∃ r, getWtsAbs wheeler nsvar M (List.replicate L 0) (List.replicate L' 0) = .ok r ∧
      (∀ x ∈ r.wts, 0 ≤ x) ∧ (∀ x ∈ r.absc, 0 ≤ x) := by
  have hM : 2 ≤ M.length := by omega
  have hscan : anyNonPositive M nsvar 0 = .ok false :=
    anyNonPositive_of_pos M nsvar 0 (by omega)
      (fun i h _ _ => hpos _ (List.getElem_mem h))
  obtain ⟨r, j, hok, -, -, -, -, hmw, hma⟩ :=
    downselect_even wheeler M (List.replicate L 0) (List.replicate L' 0) hM (nsvar / 2) []
      (by omega) (by simpa using hL) (by simpa using hL')
  have e : 2 * (nsvar / 2) = nsvar := by omega
  rw [e] at hok
  have p0 : (0 : K) < M[0] := hpos _ (List.getElem_mem _)
  have p1 : (0 : K) < M[1] := hpos _ (List.getElem_mem _)
  refine ⟨r, ?_, ?_, ?_⟩
  · simp [getWtsAbs, hscan, bind, Except.bind, hok]
  · intro x hx
    rcases hmw x hx with h | h | h
    · rw [(List.mem_replicate.mp h).2]
    · exact h
    · rw [h]; exact p0.le
  · intro x hx
    rcases hma x hx with h | h | h
    · rw [(List.mem_replicate.mp h).2]
    · exact h
    · rw [h]; exact (div_pos p1 p0).le

/-- C5: for even `nsvar >= 2`, every moment vector of that length, node arrays with room
for `nsvar/2` nodes and every `wheeler`, `getWtsAbs` returns; it calls `wheeler` at most
`nsvar/2 - 1` times, and the `i`-th call (from `i = 0`) is made at order `nsvar/2 - i`, that
is with `N = nsvar - 2 i`: each rejection lowers `N` by two and no call is made at `N = 2`. -/
theorem getWtsAbs_terminates (wheeler : Wheeler K) (nsvar : Nat) (M wts absc : List K)
    (heven : nsvar % 2 = 0) (h2 : 2 ≤ nsvar) (hlen : M.length = nsvar)
    (hw : nsvar / 2 ≤ wts.length) (ha : nsvar / 2 ≤ absc.length) :
    ∃ r, getWtsAbs wheeler nsvar M wts absc = .ok r ∧
      r.calls.length ≤ nsvar / 2 - 1 ∧
      r.calls.reverse = (List.range r.calls.length).map (fun i => nsvar / 2 - i) := by
  obtain ⟨b, hb⟩ := anyNonPositive_ok M nsvar 0 (by omega)
  cases b with
  | true =>
    exact ⟨⟨wts, absc, []⟩, by simp [getWtsAbs, hb, bind, Except.bind, pure, Except.pure],
      by simp, by simp⟩
  | false =>
    obtain ⟨r, j, hok, hj, hcalls, -, -, -, -⟩ :=
      downselect_even wheeler M wts absc (by omega) (nsvar / 2) [] (by omega) hw ha
    have e : 2 * (nsvar / 2) = nsvar := by omega
    rw [e] at hok
    have hlenc : r.calls.length = j := by simp [hcalls]
    refine ⟨r, by simp [getWtsAbs, hb, bind, Except.bind, hok], by omega, ?_⟩
    rw [hlenc, hcalls]
    simp

end InversionFacts

/-- Witness for C1: the moments `3, 6` give the node `(3, 2)`. -/
theorem getWtsAbs_two_moments_witness :
    (0 : ℚ) < 3 ∧ (0 : ℚ) < 6 ∧
      getWtsAbs (fun _ _ _ => ((0 : ℚ), 0)) 2 [3, 6] [0] [0] = .ok ⟨[3], [6 / 3], []⟩ :=
  ⟨by norm_num, by norm_num,
    getWtsAbs_two_moments _ 3 6 0 0 [] [] [] (by norm_num) (by norm_num)⟩

/-- C2: a first call on the moments `5, 35` leaves the node `(5, 7)`; a second call on the
moments `0, 1`, which hold a non-positive entry, returns with that node still in place
instead of an all-zero node set. -/
theorem getWtsAbs_nonpositive_keeps_stale :
    getWtsAbs (fun _ _ _ => ((0 : ℚ), 0)) 2 [5, 35] [0] [0] = .ok ⟨[5], [7], []⟩ ∧
    getWtsAbs (fun _ _ _ => ((0 : ℚ), 0)) 2 [0, 1] [5] [7] = .ok ⟨[5], [7], []⟩ := by
  decide!

/-- C4: with `nsvar = 4`, a full-order call leaves the nodes `(1/2, 1/4)`, `(1/2, 3/4)`; the
next call, on the moments `1, 2, 1, 1`, rejects order 2 and stores the monodisperse node
`(1, 2)` in slot 0, while slot 1, beyond the retained order 1, still holds `(1/2, 3/4)`. -/
theorem getWtsAbs_reduced_keeps_stale :
    getWtsAbs sampleWheeler 4 [1, 1 / 2, 5 / 16, 7 / 32] [0, 0] [0, 0] =
      .ok ⟨[1 / 2, 1 / 2], [1 / 4, 3 / 4], [2]⟩ ∧
    getWtsAbs sampleWheeler 4 [1, 2, 1, 1] [1 / 2, 1 / 2] [1 / 4, 3 / 4] =
      .ok ⟨[1, 1 / 2], [2, 3 / 4], [2]⟩ := by
  decide!

/-- Four positive moments on zero-filled arrays of two slots: the nodes returned are
non-negative. -/
theorem getWtsAbs_nonneg_witness :
    ∃ r, getWtsAbs sampleWheeler 4 [1, 2, 1, 1] (List.replicate 2 0) (List.replicate 2 0) = .ok r ∧
      (∀ x ∈ r.wts, 0 ≤ x) ∧ (∀ x ∈ r.absc, 0 ≤ x) :=
  getWtsAbs_nonneg sampleWheeler 4 [1, 2, 1, 1] 2 2 (by decide) (by decide) (by decide)
    (by simp) (by decide) (by decide)

/-- Witness for C5: four moments, one rejection at most. -/
theorem getWtsAbs_terminates_witness :
    ∃ r, getWtsAbs sampleWheeler 4 [1, 2, 1, 1] [9, 9] [9, 9] = .ok r ∧
      r.calls.length ≤ 4 / 2 - 1 ∧
      r.calls.reverse = (List.range r.calls.length).map (fun i => 4 / 2 - i) :=
  getWtsAbs_terminates sampleWheeler 4 [1, 2, 1, 1] [9, 9] [9, 9] (by decide) (by decide)
    (by decide) (by decide) (by decide)

/-! ## Facts about the coagulation kernels -/

section KernelFacts
variable [LinearOrderedField K]

theorem coagulation_Frenk_symm (c : Consts K) (L : Libm K) (s : Soot K) (m1 m2 : K) :
    coagulation_Frenk c L s m1 m2 = coagulation_Frenk c L s m2 m1 := by
  unfold coagulation_Frenk
  ring_nf

theorem coagulation_Fuchs_symm (c : Consts K) (L : Libm K) (s : Soot K) (m1 m2 : K) :
    coagulation_Fuchs c L s m1 m2 = coagulation_Fuchs c L s m2 m1 := by
  have key : ∀ Dp1 Dp2 D1 D2 g1 g2 c1 c2 : K,
      2.0 * L.pi * (D1 + D2) * (Dp1 + Dp2) /
        ((Dp1 + Dp2) / (Dp1 + Dp2 + 2.0 * L.sqrt (g1 * g1 + g2 * g2)) +
          8.0 / c.eps_c * (D1 + D2) / L.sqrt (c1 * c1 + c2 * c2) / (Dp1 + Dp2)) =
      2.0 * L.pi * (D2 + D1) * (Dp2 + Dp1) /
        ((Dp2 + Dp1) / (Dp2 + Dp1 + 2.0 * L.sqrt (g2 * g2 + g1 * g1)) +
          8.0 / c.eps_c * (D2 + D1) / L.sqrt (c2 * c2 + c1 * c1) / (Dp2 + Dp1)) := by
    intro Dp1 Dp2 D1 D2 g1 g2 c1 c2
    rw [add_comm D2 D1, add_comm Dp2 Dp1, add_comm (g2 * g2) (g1 * g1),
      add_comm (c2 * c2) (c1 * c1)]
  unfold coagulation_Fuchs
  exact key _ _ _ _ _ _ _ _

theorem getCoagulationRate_NONE (c : Consts K) (L : Libm K) (s : Soot K) (m1 m2 : K)
    (h : s.coagulation_mech = "NONE") : getCoagulationRate c L s m1 m2 = .ok 0 := by
  simp [getCoagulationRate, h]

theorem getCoagulationRate_LL (c : Consts K) (L : Libm K) (s : Soot K) (m1 m2 : K)
    (h : s.coagulation_mech = "LL") :
    getCoagulationRate c L s m1 m2 = .ok (coagulation_LL c L s m1 m2) := by
  simp [getCoagulationRate, h]

theorem getCoagulationRate_FUCHS (c : Consts K) (L : Libm K) (s : Soot K) (m1 m2 : K)
    (h : s.coagulation_mech = "FUCHS") :
    getCoagulationRate c L s m1 m2 = .ok (coagulation_Fuchs c L s m1 m2) := by
  simp [getCoagulationRate, h]

theorem getCoagulationRate_FRENK (c : Consts K) (L : Libm K) (s : Soot K) (m1 m2 : K)
    (h : s.coagulation_mech = "FRENK") :
    getCoagulationRate c L s m1 m2 = .ok (coagulation_Frenk c L s m1 m2) := by
  simp [getCoagulationRate, h]

end KernelFacts

theorem forLoop_succ {σ : Type} (n : Nat) (body : Nat → σ → Except Fault σ) (init : σ) :
    forLoop (n + 1) body init = (forLoop n body init).bind (body n) := by
  simp [forLoop, List.range_succ, List.foldlM_append]
  rfl

/-- The loop rule: an invariant that holds at entry and is carried by every iteration
(which returns) holds at exit, and the loop returns. -/
theorem forLoop_inv {σ : Type} (P : Nat → σ → Prop) (n : Nat)
    (body : Nat → σ → Except Fault σ) (init : σ) (h0 : P 0 init)
    (hstep : ∀ i, i < n → ∀ st, P i st → ∃ st', body i st = .ok st' ∧ P (i + 1) st') :
    ∃ st, forLoop n body init = .ok st ∧ P n st := by
  induction n with
  | zero => exact ⟨init, rfl, h0⟩
  | succ n ih =>
    obtain ⟨st, hst, hP⟩ := ih (fun i hi => hstep i (by omega))
    obtain ⟨st', hb, hP'⟩ := hstep n (by omega) st hP
    exact ⟨st', by rw [forLoop_succ, hst]; exact hb, hP'⟩

theorem forFrom_eq_forLoop {σ : Type} (lo hi : Nat) (body : Nat → σ → Except Fault σ)
    (init : σ) : forFrom lo hi body init = forLoop (hi - lo) (fun i => body (lo + i)) init := by
  simp [forFrom, forLoop, List.range'_eq_map_range, List.foldlM_map]

/-- The loop rule for a loop that starts at `lo`. -/
theorem forFrom_inv {σ : Type} (P : Nat → σ → Prop) (lo hi : Nat)
    (body : Nat → σ → Except Fault σ) (init : σ) (h0 : P lo init)
    (hstep : ∀ i, lo ≤ i → i < hi → ∀ st, P i st →
      ∃ st', body i st = .ok st' ∧ P (i + 1) st') :
    ∃ st, forFrom lo hi body init = .ok st ∧ P (lo + (hi - lo)) st := by
  rw [forFrom_eq_forLoop]
  exact forLoop_inv (fun i st => P (lo + i) st) (hi - lo) _ init h0
    (fun i hi' st hP => hstep (lo + i) (by omega) (by omega) st hP)

/-- A table whose entries all return is the list of their values. -/
theorem tabulate_ok (f : Nat → Except Fault K) (g : Nat → K) (l : List Nat)
    (h : ∀ k ∈ l, f k = .ok (g k)) : tabulate f l = .ok (l.map g) := by
  induction l with
  | nil => rfl
  | cons k ks ih =>
    have hk := h k (List.mem_cons_self _ _)
    have hks := ih (fun j hj => h j (List.mem_cons_of_mem _ hj))
    simp [tabulate, hk, hks, bind, Except.bind, pure, Except.pure]

theorem rd_map_range (g : Nat → K) (n k : Nat) (h : k < n) :
    rd ((List.range n).map g) k = .ok (g k) := by
  simp [rd, h]

/-! ## Facts about `setSrc` -/

section SourceFacts
variable [LinearOrderedField K]

/-- On an even number `nsvar >= 2` of moments and node arrays with room for `nsvar/2`
nodes, `getWtsAbs` returns and the node arrays keep their lengths. -/
theorem getWtsAbs_ok (wheeler : Wheeler K) (nsvar : Nat) (M wts absc : List K)
    (heven : nsvar % 2 = 0) (h2 : 2 ≤ nsvar) (hlen : M.length = nsvar)
    (hw : nsvar / 2 ≤ wts.length) (ha : nsvar / 2 ≤ absc.length) :
    ∃ r, getWtsAbs wheeler nsvar M wts absc = .ok r ∧
      r.wts.length = wts.length ∧ r.absc.length = absc.length := by
  obtain ⟨b, hb⟩ := anyNonPositive_ok M nsvar 0 (by omega)
  cases b with
  | true =>
    exact ⟨⟨wts, absc, []⟩, by simp [getWtsAbs, hb, bind, Except.bind, pure, Except.pure],
      rfl, rfl⟩
  | false =>
    obtain ⟨r, j, hok, -, -, hlw, hla, -, -⟩ :=
      downselect_even wheeler M wts absc (by omega) (nsvar / 2) [] (by omega) hw ha
    have e : 2 * (nsvar / 2) = nsvar := by omega
    rw [e] at hok
    exact ⟨r, by simp [getWtsAbs, hb, bind, Except.bind, hok], hlw, hla⟩

/-- One iteration of the clamping loop at an index inside both arrays. -/
theorem clampBody_ok (i : Nat) (w a : List K) (hw : i < w.length) (ha : i < a.length) :
    clampBody i (w, a) =
      .ok (if w[i] < 0 then w.set i 0 else w, if a[i] < 0 then a.set i 0 else a) := by
  by_cases h1 : w[i] < 0 <;> by_cases h2 : a[i] < 0 <;>
    simp [clampBody, rd_of_lt hw, rd_of_lt ha, wr_of_lt _ hw, wr_of_lt _ ha, bind,
      Except.bind, pure, Except.pure, h1, h2]

/-- The clamping loop of `setSrc` returns, keeps the lengths, and leaves non-negative
weights and abscissas. -/
theorem clamp_ok (w a : List K) (hlen : a.length = w.length) :
    ∃ w' a', forLoop w.length clampBody (w, a) = .ok (w', a') ∧
      w'.length = w.length ∧ a'.length = a.length ∧
      (∀ x ∈ w', 0 ≤ x) ∧ (∀ x ∈ a', 0 ≤ x) := by
  obtain ⟨st, hst, hl1, hl2, hP⟩ := forLoop_inv
    (fun n (st : List K × List K) => st.1.length = w.length ∧ st.2.length = a.length ∧
      ∀ i (h1 : i < st.1.length) (h2 : i < st.2.length), i < n → 0 ≤ st.1[i] ∧ 0 ≤ st.2[i])
    w.length clampBody (w, a) ⟨rfl, rfl, fun i _ _ hi => absurd hi (Nat.not_lt_zero i)⟩
    (by
      rintro i hi ⟨w1, a1⟩ ⟨h1, h2, h3⟩
      simp only at h1 h2 h3
      have hiw : i < w1.length := by omega
      have hia : i < a1.length := by omega
      refine ⟨_, clampBody_ok i w1 a1 hiw hia, ?_, ?_, ?_⟩
      · simp only; split <;> simp [h1]
      · simp only; split <;> simp [h2]
      · intro j hj1 hj2 hj
        simp only
        rcases Nat.lt_or_ge j i with hlt | hge
        · have := h3 j (by omega) (by omega) hlt
          constructor
          · split
            · rw [List.getElem_set_of_ne (by omega)]; exact this.1
            · exact this.1
          · split
            · rw [List.getElem_set_of_ne (by omega)]; exact this.2
            · exact this.2
        · have e : j = i := by omega
          subst e
          constructor
          · split
            · simp
            · rename_i hn; exact not_lt.mp hn
          · split
            · simp
            · rename_i hn; exact not_lt.mp hn)
  refine ⟨st.1, st.2, hst, hl1, hl2, ?_, ?_⟩
  · intro x hx
    obtain ⟨i, hi, rfl⟩ := List.getElem_of_mem hx
    exact (hP i hi (by omega) (by omega)).1
  · intro x hx
    obtain ⟨i, hi, rfl⟩ := List.getElem_of_mem hx
    exact (hP i (by omega) hi (by omega)).2

/-- The loop of `Mk` returns when the slots it scans exist. -/
theorem MkLoop_ok (L : Libm K) (s : Soot K) (e : K) : ∀ (n k : Nat) (acc : K),
    k + n ≤ s.wts.length → k + n ≤ s.absc.length → ∃ v, MkLoop L s e n k acc = .ok v := by
  intro n
  induction n with
  | zero => intro k acc _ _; exact ⟨acc, rfl⟩
  | succ n ih =>
    intro k acc hw ha
    have hkw : k < s.wts.length := by omega
    have hka : k < s.absc.length := by omega
    by_cases h1 : s.wts[k] = 0
    · exact ⟨0, by simp [MkLoop, rd_of_lt hkw, bind, Except.bind, h1, pure, Except.pure]⟩
    · by_cases h2 : s.absc[k] = 0
      · exact ⟨0, by simp [MkLoop, rd_of_lt hkw, rd_of_lt hka, bind, Except.bind, h1, h2,
          pure, Except.pure]⟩
      · obtain ⟨v, hv⟩ := ih (k + 1) (acc + s.wts[k] * L.pow s.absc[k] e) (by omega) (by omega)
        exact ⟨v, by simp [MkLoop, rd_of_lt hkw, rd_of_lt hka, bind, Except.bind, h1, h2, hv]⟩

/-- The function `Mk` returns when the node arrays hold `nsvar/2` slots. -/
theorem Mk_ok (L : Libm K) (s : Soot K) (e : K) (hw : s.nsvar / 2 ≤ s.wts.length)
    (ha : s.nsvar / 2 ≤ s.absc.length) : ∃ v, Mk L s e = .ok v :=
  MkLoop_ok L s e (s.nsvar / 2) 0 0 (by omega) (by omega)

theorem MkLoop_congr (L : Libm K) (s t : Soot K) (e : K) (hw : s.wts = t.wts)
    (ha : s.absc = t.absc) : ∀ (n k : Nat) (acc : K),
    MkLoop L s e n k acc = MkLoop L t e n k acc := by
  intro n
  induction n with
  | zero => intro k acc; rfl
  | succ n ih =>
    intro k acc
    simp only [MkLoop, hw, ha, ih]

/-- The function `Mk` reads the node arrays and `nsvar` only. -/
theorem Mk_congr (L : Libm K) (s t : Soot K) (e : K) (hn : s.nsvar = t.nsvar)
    (hw : s.wts = t.wts) (ha : s.absc = t.absc) : Mk L s e = Mk L t e := by
  unfold Mk
  rw [hn]
  exact MkLoop_congr L s t e hw ha _ _ _

theorem MgrwEntry_val (L : Libm K) (s : Soot K) (Kgrw mk : K) (k : Nat)
    (h : Mk L s (k - 1.0 / 3.0) = .ok mk) :
    MgrwEntry L s Kgrw k = .ok (Kgrw * Acoef L s * k * mk) := by
  unfold MgrwEntry
  by_cases hk : k = 0
  · simp [hk]
  · simp [hk, h, bind, Except.bind, pure, Except.pure]

theorem MoxiEntry_val (L : Libm K) (s : Soot K) (Koxi mk : K) (k : Nat)
    (h : Mk L s (k - 1.0 / 3.0) = .ok mk) :
    MoxiEntry L s Koxi k = .ok (-Koxi * Acoef L s * k * mk) := by
  unfold MoxiEntry
  by_cases hk : k = 0
  · simp [hk]
  · simp [hk, h, bind, Except.bind, pure, Except.pure]

/-- The off-diagonal term of the coagulation sum, for a kernel that returns `β`. -/
theorem coaPair_val (c : Consts K) (L : Libm K) (s : Soot K) (β : K → K → K)
    (hβ : ∀ m1 m2, getCoagulationRate c L s m1 m2 = .ok (β m1 m2)) (k ii j : Nat)
    (hlen : s.wts.length = s.absc.length) (hi : ii < s.absc.length) (hj : j < s.absc.length) :
    coaPair c L s k ii j =
      .ok (β (s.absc.getD ii 0) (s.absc.getD j 0) * s.wts.getD ii 0 * s.wts.getD j 0 *
        (if k = 0 then -1.0
          else L.pow (s.absc.getD ii 0 + s.absc.getD j 0) k - L.pow (s.absc.getD ii 0) k -
            L.pow (s.absc.getD j 0) k)) := by
  simp [coaPair, rd_getD 0 hi, rd_getD 0 hj, rd_getD 0 (show ii < s.wts.length by omega),
    rd_getD 0 (show j < s.wts.length by omega), hβ, bind, Except.bind, pure, Except.pure]

/-- The diagonal term of the coagulation sum, for a kernel that returns `β`. -/
theorem coaDiag_val (c : Consts K) (L : Libm K) (s : Soot K) (β : K → K → K)
    (hβ : ∀ m1 m2, getCoagulationRate c L s m1 m2 = .ok (β m1 m2)) (k ii : Nat)
    (hlen : s.wts.length = s.absc.length) (hi : ii < s.absc.length) :
    coaDiag c L s k ii =
      .ok (β (s.absc.getD ii 0) (s.absc.getD ii 0) * s.wts.getD ii 0 * s.wts.getD ii 0 *
        (if k = 0 then -0.5
          else L.pow (s.absc.getD ii 0) k * (L.pow 2 (((k : Int) - 1 : Int) : K) - 1))) := by
  simp [coaDiag, rd_getD 0 hi, rd_getD 0 (show ii < s.wts.length by omega), hβ, bind,
    Except.bind, pure, Except.pure]

/-- A loop that adds the terms `t 0, ..., t (n-1)` to an accumulator. -/
theorem forLoop_sum (n : Nat) (f : Nat → Except Fault K) (t : Nat → K) (acc : K)
    (h : ∀ i, i < n → f i = .ok (t i)) :
    forLoop n (fun i a => do pure (a + (← f i))) acc =
      .ok (acc + ∑ i in Finset.range n, t i) := by
  obtain ⟨st, hst, hP⟩ := forLoop_inv
    (fun i (a : K) => a = acc + ∑ j in Finset.range i, t j) n
    (fun i a => do pure (a + (← f i))) acc (by simp)
    (fun i hi a ha => ⟨a + t i, by simp [h i hi, bind, Except.bind, pure, Except.pure], by
      show a + t i = acc + ∑ j in Finset.range (i + 1), t j
      rw [ha, Finset.sum_range_succ, add_assoc]⟩)
  rw [hst, hP]

/-- The entry `Mcoa[k]` for a kernel that returns `β`: the sum over the pairs `j < ii`
followed by the sum over the diagonal (zero for `k = 1`). -/
theorem McoaEntry_val (c : Consts K) (L : Libm K) (s : Soot K) (β : K → K → K)
    (hβ : ∀ m1 m2, getCoagulationRate c L s m1 m2 = .ok (β m1 m2)) (k : Nat)
    (hlen : s.wts.length = s.absc.length) :
    McoaEntry c L s k = .ok (if k = 1 then 0 else
      (∑ ii in Finset.range s.absc.length, ∑ j in Finset.range ii,
        β (s.absc.getD ii 0) (s.absc.getD j 0) * s.wts.getD ii 0 * s.wts.getD j 0 *
          (if k = 0 then -1.0
            else L.pow (s.absc.getD ii 0 + s.absc.getD j 0) k - L.pow (s.absc.getD ii 0) k -
              L.pow (s.absc.getD j 0) k)) +
      ∑ ii in Finset.range s.absc.length,
        β (s.absc.getD ii 0) (s.absc.getD ii 0) * s.wts.getD ii 0 * s.wts.getD ii 0 *
          (if k = 0 then -0.5
            else L.pow (s.absc.getD ii 0) k * (L.pow 2 (((k : Int) - 1 : Int) : K) - 1))) := by
  unfold McoaEntry
  by_cases hk : k = 1
  · simp [hk]
  · simp only [hk, if_false]
    obtain ⟨acc, hacc, hP⟩ := forFrom_inv
      (fun i (a : K) => a = ∑ ii in Finset.range i, ∑ j in Finset.range ii,
        β (s.absc.getD ii 0) (s.absc.getD j 0) * s.wts.getD ii 0 * s.wts.getD j 0 *
          (if k = 0 then -1.0
            else L.pow (s.absc.getD ii 0 + s.absc.getD j 0) k - L.pow (s.absc.getD ii 0) k -
              L.pow (s.absc.getD j 0) k))
      1 s.absc.length
      (fun ii acc => forLoop ii (fun j acc => do pure (acc + (← coaPair c L s k ii j))) acc)
      (0.0 : K) (by norm_num)
      (fun ii _ hii a ha => ⟨_, forLoop_sum ii (coaPair c L s k ii) _ a
        (fun j hj => coaPair_val c L s β hβ k ii j hlen hii (by omega)), by
          beta_reduce
          rw [ha, Finset.sum_range_succ]⟩)
    have hP' : acc = ∑ ii in Finset.range s.absc.length, ∑ j in Finset.range ii,
        β (s.absc.getD ii 0) (s.absc.getD j 0) * s.wts.getD ii 0 * s.wts.getD j 0 *
          (if k = 0 then -1.0
            else L.pow (s.absc.getD ii 0 + s.absc.getD j 0) k - L.pow (s.absc.getD ii 0) k -
              L.pow (s.absc.getD j 0) k) := by
      rcases Nat.eq_zero_or_pos s.absc.length with h0 | h0
      · rw [hP, h0]; simp
      · rw [hP, show 1 + (s.absc.length - 1) = s.absc.length by omega]
    rw [hacc]
    refine (forLoop_sum s.absc.length (coaDiag c L s k) _ acc
      (fun ii hii => coaDiag_val c L s β hβ k ii hlen hii)).trans ?_
    rw [hP']

end SourceFacts

/-! ## Facts about `set_gasSootSources` -/

theorem ok_bind {α β : Type} (a : α) (f : α → Except Fault β) :
    (Except.ok a >>= f) = f a := rfl

theorem rdI_ok {v : List K} {i : Int} (h0 : 0 ≤ i) (h : i.toNat < v.length) :
    rdI v i = .ok v[i.toNat] := by
  simp [rdI, h0, rd_of_lt h]

theorem wrI_ok {v : List K} {i : Int} (x : K) (h0 : 0 ≤ i) (h : i.toNat < v.length) :
    wrI v i x = .ok (v.set i.toNat x) := by
  simp [wrI, h0, wr_of_lt _ h]

theorem rdI_getD {v : List K} {i : Int} (d : K) (h0 : 0 ≤ i) (h : i.toNat < v.length) :
    rdI v i = .ok (v.getD i.toNat d) := by
  simp [rdI, h0, rd_getD d h]

section GasFacts
variable [LinearOrderedField K]

theorem addI_ok {v : List K} {i : Int} (x : K) (h0 : 0 ≤ i) (h : i.toNat < v.length) :
    addI v i x = .ok (v.set i.toNat (v.getD i.toNat 0 + x)) := by
  simp [addI, rdI_ok h0 h, wrI_ok _ h0 h, bind, Except.bind, List.getD_eq_getElem?_getD,
    List.getElem?_eq_getElem h]

/-- The loop `gasSootSources[i_pah[i]] = N1 * rPAH_rSoot_ncnd[i] / rho` returns and keeps
the length; when `N1 = 0` a slot that holds 0 still holds 0 afterwards. -/
theorem pahWrite_ok (s : Soot K) (N1 : K) (hp : ∀ i ∈ s.i_pah, Resolved s i)
    (hr : s.i_pah.length ≤ s.rPAH_rSoot_ncnd.length) (g : List K)
    (hg : g.length = s.gasSootSources.length) :
    ∃ g', forLoop s.i_pah.length (fun i g => do
        wrI g (← rd s.i_pah i) (N1 * (← rd s.rPAH_rSoot_ncnd i) / s.rho)) g = .ok g' ∧
      g'.length = g.length ∧ (N1 = 0 → ∀ j : Nat, g[j]? = some 0 → g'[j]? = some 0) := by
  refine forLoop_inv (fun _ (g' : List K) =>
    g'.length = g.length ∧ (N1 = 0 → ∀ j : Nat, g[j]? = some 0 → g'[j]? = some 0))
    s.i_pah.length _ g ⟨rfl, fun _ _ h => h⟩ ?_
  rintro i hi g1 ⟨hl, hz⟩
  obtain ⟨h0, -, -, hlt⟩ := hp _ (List.getElem_mem hi)
  have hlt' : s.i_pah[i].toNat < g1.length := by omega
  refine ⟨g1.set s.i_pah[i].toNat (N1 * s.rPAH_rSoot_ncnd[i] / s.rho), ?_, ?_, ?_⟩
  · simp [rd_of_lt hi, rd_of_lt (show i < s.rPAH_rSoot_ncnd.length by omega),
      wrI_ok _ h0 hlt', bind, Except.bind]
  · simp [hl]
  · intro hN j hj
    rw [List.getElem?_set]
    split
    · rename_i e
      subst e
      simp [hlt', hN]
    · exact hz hN j hj

/-- The loop `gasSootSources[i_pah[i]] += Cnd1 * rPAH_rSoot_ncnd[i] / rho` returns and keeps
the length; when `Cnd1 = 0` it changes no slot. -/
theorem pahAdd_ok (s : Soot K) (Cnd1 : K) (hp : ∀ i ∈ s.i_pah, Resolved s i)
    (hr : s.i_pah.length ≤ s.rPAH_rSoot_ncnd.length) (g : List K)
    (hg : g.length = s.gasSootSources.length) :
    ∃ g', forLoop s.i_pah.length (fun i g => do
        addI g (← rd s.i_pah i) (Cnd1 * (← rd s.rPAH_rSoot_ncnd i) / s.rho)) g = .ok g' ∧
      g'.length = g.length ∧ (Cnd1 = 0 → ∀ j : Nat, g'[j]? = g[j]?) := by
  refine forLoop_inv (fun _ (g' : List K) =>
    g'.length = g.length ∧ (Cnd1 = 0 → ∀ j : Nat, g'[j]? = g[j]?))
    s.i_pah.length _ g ⟨rfl, fun _ _ => rfl⟩ ?_
  rintro i hi g1 ⟨hl, hz⟩
  obtain ⟨h0, -, -, hlt⟩ := hp _ (List.getElem_mem hi)
  have hlt' : s.i_pah[i].toNat < g1.length := by omega
  refine ⟨g1.set s.i_pah[i].toNat
    (g1.getD s.i_pah[i].toNat 0 + Cnd1 * s.rPAH_rSoot_ncnd[i] / s.rho), ?_, ?_, ?_⟩
  · simp [rd_of_lt hi, rd_of_lt (show i < s.rPAH_rSoot_ncnd.length by omega),
      addI_ok _ h0 hlt', bind, Except.bind]
  · simp [hl]
  · intro hC j
    rw [List.getElem?_set, ← hz hC j]
    split
    · rename_i e
      subst e
      simp [hlt', hC, List.getD_eq_getElem?_getD, List.getElem?_eq_getElem hlt']
    · rfl

theorem toNat_ne {a b : Int} (ha : 0 ≤ a) (hb : 0 ≤ b) (hne : a ≠ b) : a.toNat ≠ b.toNat := by
  intro e
  apply hne
  rw [← Int.toNat_of_nonneg ha, ← Int.toNat_of_nonneg hb, e]

/-- The function `set_gasSootSources` returns on an object whose species were all resolved
and changes the gas sources only, keeping their number.  When the nucleation and
condensation rates `N1`, `Cnd1` are 0 and C2H2 and H2 have indices of their own, the C2H2
and H2 entries are the growth contributions `G1 * rC2H2_rSoot_go / rho` and
`G1 * rH2_rSoot_go / rho`. -/
theorem set_gasSootSources_ok (s : Soot K) (N1 Cnd1 G1 X1 : K)
    (hc : Resolved s s.i_c2h2) (ho2 : Resolved s s.i_o2) (hh : Resolved s s.i_h)
    (hh2 : Resolved s s.i_h2) (hoh : Resolved s s.i_oh) (hco : Resolved s s.i_co)
    (hp : ∀ i ∈ s.i_pah, Resolved s i) (hr : s.i_pah.length ≤ s.rPAH_rSoot_ncnd.length) :
    ∃ g, set_gasSootSources s N1 Cnd1 G1 X1 = .ok { s with gasSootSources := g } ∧
      g.length = s.gasSootSources.length ∧
      (N1 = 0 → Cnd1 = 0 → s.i_c2h2 ≠ s.i_h2 →
        s.i_c2h2 ≠ s.i_o2 → s.i_c2h2 ≠ s.i_oh → s.i_c2h2 ≠ s.i_h → s.i_c2h2 ≠ s.i_co →
        s.i_h2 ≠ s.i_o2 → s.i_h2 ≠ s.i_oh → s.i_h2 ≠ s.i_h → s.i_h2 ≠ s.i_co →
        g[s.i_c2h2.toNat]? = some (G1 * s.rC2H2_rSoot_go / s.rho) ∧
        g[s.i_h2.toNat]? = some (G1 * s.rH2_rSoot_go / s.rho)) := by
  obtain ⟨c0, -, -, cl⟩ := hc
  obtain ⟨o0, -, -, ol⟩ := ho2
  obtain ⟨h0, -, -, hl⟩ := hh
  obtain ⟨d0, -, -, dl⟩ := hh2
  obtain ⟨q0, -, -, ql⟩ := hoh
  obtain ⟨p0, -, -, pl⟩ := hco
  -- nucleation
  obtain ⟨g1, e1⟩ : ∃ g1, g1 = s.gasSootSources.set s.i_c2h2.toNat
    (N1 * s.rC2H2_rSoot_n / s.rho) := ⟨_, rfl⟩
  have l1 : g1.length = s.gasSootSources.length := by rw [e1, List.length_set]
  obtain ⟨g2, e2⟩ : ∃ g2, g2 = g1.set s.i_h2.toNat (N1 * s.rH2_rSoot_ncnd / s.rho) := ⟨_, rfl⟩
  have l2 : g2.length = s.gasSootSources.length := by rw [e2, List.length_set, l1]
  obtain ⟨g3, hg3, l3, z3⟩ := pahWrite_ok s N1 hp hr g2 l2
  rw [l2] at l3
  -- growth
  obtain ⟨g4, e4⟩ : ∃ g4, g4 = g3.set s.i_c2h2.toNat
    (g3.getD s.i_c2h2.toNat 0 + G1 * s.rC2H2_rSoot_go / s.rho) := ⟨_, rfl⟩
  have l4 : g4.length = s.gasSootSources.length := by rw [e4, List.length_set, l3]
  obtain ⟨g5, e5⟩ : ∃ g5, g5 = g4.set s.i_h2.toNat
    (g4.getD s.i_h2.toNat 0 + G1 * s.rH2_rSoot_go / s.rho) := ⟨_, rfl⟩
  have l5 : g5.length = s.gasSootSources.length := by rw [e5, List.length_set, l4]
  -- oxidation
  obtain ⟨g6, e6⟩ : ∃ g6, g6 = g5.set s.i_o2.toNat (X1 * s.rO2_rSoot_go / s.rho) := ⟨_, rfl⟩
  have l6 : g6.length = s.gasSootSources.length := by rw [e6, List.length_set, l5]
  obtain ⟨g7, e7⟩ : ∃ g7, g7 = g6.set s.i_oh.toNat (X1 * s.rOH_rSoot_go / s.rho) := ⟨_, rfl⟩
  have l7 : g7.length = s.gasSootSources.length := by rw [e7, List.length_set, l6]
  obtain ⟨g8, e8⟩ : ∃ g8, g8 = g7.set s.i_h.toNat (X1 * s.rH_rSoot_go / s.rho) := ⟨_, rfl⟩
  have l8 : g8.length = s.gasSootSources.length := by rw [e8, List.length_set, l7]
  obtain ⟨g9, e9⟩ : ∃ g9, g9 = g8.set s.i_co.toNat (X1 * s.rCO_rSoot_go / s.rho) := ⟨_, rfl⟩
  have l9 : g9.length = s.gasSootSources.length := by rw [e9, List.length_set, l8]
  -- condensation
  obtain ⟨g10, e10⟩ : ∃ g10, g10 = g9.set s.i_h2.toNat
    (g9.getD s.i_h2.toNat 0 + Cnd1 * s.rH2_rSoot_ncnd / s.rho) := ⟨_, rfl⟩
  have l10 : g10.length = s.gasSootSources.length := by rw [e10, List.length_set, l9]
  obtain ⟨g11, hg11, l11, z11⟩ := pahAdd_ok s Cnd1 hp hr g10 l10
  rw [l10] at l11
  have b1 : s.i_h2.toNat < g1.length := l1 ▸ dl
  have b3 : s.i_c2h2.toNat < g3.length := l3 ▸ cl
  have b4 : s.i_h2.toNat < g4.length := l4 ▸ dl
  have b5 : s.i_o2.toNat < g5.length := l5 ▸ ol
  have b6 : s.i_oh.toNat < g6.length := l6 ▸ ql
  have b7 : s.i_h.toNat < g7.length := l7 ▸ hl
  have b8 : s.i_co.toNat < g8.length := l8 ▸ pl
  have b9 : s.i_h2.toNat < g9.length := l9 ▸ dl
  have s1 := wrI_ok (N1 * s.rC2H2_rSoot_n / s.rho) c0 cl
  have s2 := wrI_ok (N1 * s.rH2_rSoot_ncnd / s.rho) d0 b1
  have s4 := addI_ok (G1 * s.rC2H2_rSoot_go / s.rho) c0 b3
  have s5 := addI_ok (G1 * s.rH2_rSoot_go / s.rho) d0 b4
  have s6 := wrI_ok (X1 * s.rO2_rSoot_go / s.rho) o0 b5
  have s7 := wrI_ok (X1 * s.rOH_rSoot_go / s.rho) q0 b6
  have s8 := wrI_ok (X1 * s.rH_rSoot_go / s.rho) h0 b7
  have s9 := wrI_ok (X1 * s.rCO_rSoot_go / s.rho) p0 b8
  have s10 := addI_ok (Cnd1 * s.rH2_rSoot_ncnd / s.rho) d0 b9
  rw [← e1] at s1
  rw [← e2] at s2
  rw [← e4] at s4
  rw [← e5] at s5
  rw [← e6] at s6
  rw [← e7] at s7
  rw [← e8] at s8
  rw [← e9] at s9
  rw [← e10] at s10
  refine ⟨g11, ?_, l11, ?_⟩
  · unfold set_gasSootSources
    simp only [s1, s2, hg3, s4, s5, s6, s7, s8, s9, s10, hg11, ok_bind]
    rfl
  · intro hN hC n1 n2 n3 n4 n5 m2 m3 m4 m5
    have cd := toNat_ne c0 d0 n1
    have co := toNat_ne c0 o0 n2
    have cq := toNat_ne c0 q0 n3
    have ch := toNat_ne c0 h0 n4
    have cp := toNat_ne c0 p0 n5
    have dO := toNat_ne d0 o0 m2
    have dq := toNat_ne d0 q0 m3
    have dh := toNat_ne d0 h0 m4
    have dp := toNat_ne d0 p0 m5
    -- after the nucleation part both entries are 0
    have a2c : g2[s.i_c2h2.toNat]? = some 0 := by
      rw [e2, List.getElem?_set_ne (Ne.symm cd), e1, List.getElem?_set_self cl, hN]
      simp
    have a2d : g2[s.i_h2.toNat]? = some 0 := by
      rw [e2, List.getElem?_set_self b1, hN]
      simp
    have a3c := z3 hN _ a2c
    have a3d := z3 hN _ a2d
    have v3c : g3.getD s.i_c2h2.toNat 0 = 0 := by
      rw [List.getD_eq_getElem?_getD, a3c]
      rfl
    have a4c : g4[s.i_c2h2.toNat]? = some (G1 * s.rC2H2_rSoot_go / s.rho) := by
      rw [e4, List.getElem?_set_self b3, v3c, zero_add]
    have a4d : g4[s.i_h2.toNat]? = some 0 := by
      rw [e4, List.getElem?_set_ne cd]
      exact a3d
    have v4d : g4.getD s.i_h2.toNat 0 = 0 := by
      rw [List.getD_eq_getElem?_getD, a4d]
      rfl
    have a5c : g5[s.i_c2h2.toNat]? = some (G1 * s.rC2H2_rSoot_go / s.rho) := by
      rw [e5, List.getElem?_set_ne (Ne.symm cd)]
      exact a4c
    have a5d : g5[s.i_h2.toNat]? = some (G1 * s.rH2_rSoot_go / s.rho) := by
      rw [e5, List.getElem?_set_self b4, v4d, zero_add]
    have a9c : g9[s.i_c2h2.toNat]? = some (G1 * s.rC2H2_rSoot_go / s.rho) := by
      rw [e9, List.getElem?_set_ne (Ne.symm cp), e8, List.getElem?_set_ne (Ne.symm ch), e7,
        List.getElem?_set_ne (Ne.symm cq), e6, List.getElem?_set_ne (Ne.symm co)]
      exact a5c
    have a9d : g9[s.i_h2.toNat]? = some (G1 * s.rH2_rSoot_go / s.rho) := by
      rw [e9, List.getElem?_set_ne (Ne.symm dp), e8, List.getElem?_set_ne (Ne.symm dh), e7,
        List.getElem?_set_ne (Ne.symm dq), e6, List.getElem?_set_ne (Ne.symm dO)]
      exact a5d
    have v9d : g9.getD s.i_h2.toNat 0 = G1 * s.rH2_rSoot_go / s.rho := by
      rw [List.getD_eq_getElem?_getD, a9d]
      rfl
    constructor
    · rw [z11 hC, e10, List.getElem?_set_ne (Ne.symm cd)]
      exact a9c
    · rw [z11 hC, e10, List.getElem?_set_self b9, v9d, hC]
      simp

/-- The loop `src[k] = Mnuc[k] + Mcnd[k] + Mgrw[k] + Moxi[k] + Mcoa[k]` over tables of
`n` entries. -/
theorem srcLoop_ok (n : Nat) (A B C D E : Nat → K) (src : List K) (hlen : n ≤ src.length) :
    ∃ src', forLoop n (fun k src => do
        wr src k ((← rd ((List.range n).map A) k) + (← rd ((List.range n).map B) k) +
          (← rd ((List.range n).map C) k) + (← rd ((List.range n).map D) k) +
          (← rd ((List.range n).map E) k))) src = .ok src' ∧
      src'.length = src.length ∧
      ∀ k, k < n → src'[k]? = some (A k + B k + C k + D k + E k) := by
  refine forLoop_inv
    (fun i (v : List K) => v.length = src.length ∧
      ∀ k, k < i → v[k]? = some (A k + B k + C k + D k + E k)) n _ src
    ⟨rfl, fun k hk => absurd hk (Nat.not_lt_zero k)⟩ ?_
  rintro i hi v ⟨hl, hv⟩
  have hiv : i < v.length := by omega
  refine ⟨v.set i (A i + B i + C i + D i + E i), ?_, by simp [hl], ?_⟩
  · simp only [rd_map_range _ n i hi, ok_bind, wr_of_lt _ hiv]
  · intro k hk
    rw [List.getElem?_set]
    split
    · rename_i e
      subst e
      simp [hiv]
    · exact hv k (by omega)

set_option maxHeartbeats 1000000 in
/-- The assembly of the source terms for a nucleation mechanism other than `PAH`. -/
theorem assembleSrc_spec (c : Consts K) (L : Libm K) (s : Soot K) (Jnuc Kgrw Koxi : K)
    (hn : 2 ≤ s.nsvar) (hsrc : s.nsvar ≤ s.src.length) (hw : s.nsvar / 2 ≤ s.wts.length)
    (ha : s.absc.length = s.wts.length)
    (hc : Resolved s s.i_c2h2) (ho2 : Resolved s s.i_o2) (hh : Resolved s s.i_h)
    (hh2 : Resolved s s.i_h2) (hoh : Resolved s s.i_oh) (hco : Resolved s s.i_co)
    (hp : ∀ i ∈ s.i_pah, Resolved s i) (hr : s.i_pah.length ≤ s.rPAH_rSoot_ncnd.length)
    (hnuc : s.nucleation_mech ≠ "PAH")
    (β : K → K → K) (hβ : ∀ m1 m2, getCoagulationRate c L s m1 m2 = .ok (β m1 m2)) :
    ∃ (src g : List K) (mk coa : Nat → K),
      assembleSrc c L s Jnuc Kgrw Koxi = .ok { s with src := src, gasSootSources := g } ∧
      (∀ k : Nat, Mk L s (k - 1.0 / 3.0) = .ok (mk k)) ∧
      (∀ k : Nat, McoaEntry c L s k = .ok (coa k)) ∧
      (∀ k, k < s.nsvar → src[k]? = some (L.pow (s.Cmin * c.MW_c / c.Na) k * Jnuc + 0.0 +
        Kgrw * Acoef L s * k * mk k + -Koxi * Acoef L s * k * mk k + coa k)) ∧
      g.length = s.gasSootSources.length ∧
      (L.pow (s.Cmin * c.MW_c / c.Na) (1 : Nat) * Jnuc = 0 → s.i_c2h2 ≠ s.i_h2 →
        s.i_c2h2 ≠ s.i_o2 → s.i_c2h2 ≠ s.i_oh → s.i_c2h2 ≠ s.i_h → s.i_c2h2 ≠ s.i_co →
        s.i_h2 ≠ s.i_o2 → s.i_h2 ≠ s.i_oh → s.i_h2 ≠ s.i_h → s.i_h2 ≠ s.i_co →
        g[s.i_c2h2.toNat]? = some (Kgrw * Acoef L s * (1 : Nat) * mk 1 * s.rC2H2_rSoot_go / s.rho) ∧
        g[s.i_h2.toNat]? = some (Kgrw * Acoef L s * (1 : Nat) * mk 1 * s.rH2_rSoot_go / s.rho)) := by
  have hmk : ∀ k : Nat, ∃ v, Mk L s (k - 1.0 / 3.0) = .ok v :=
    fun k => Mk_ok L s _ hw (by omega)
  choose mk hmk using hmk
  have hcoa := fun k => McoaEntry_val c L s β hβ k ha.symm
  obtain ⟨coa, hcoa'⟩ : ∃ coa : Nat → K, ∀ k, McoaEntry c L s k = .ok (coa k) := ⟨_, hcoa⟩
  have tg := tabulate_ok (MgrwEntry L s Kgrw) _ (List.range s.nsvar)
    (fun k _ => MgrwEntry_val L s Kgrw (mk k) k (hmk k))
  have tx := tabulate_ok (MoxiEntry L s Koxi) _ (List.range s.nsvar)
    (fun k _ => MoxiEntry_val L s Koxi (mk k) k (hmk k))
  have tc := tabulate_ok (McoaEntry c L s) coa (List.range s.nsvar) (fun k _ => hcoa' k)
  obtain ⟨src, hsrc1, hsrc2, hsrc3⟩ := srcLoop_ok s.nsvar
    (fun (k : Nat) => L.pow (s.Cmin * c.MW_c / c.Na) (k : K) * Jnuc) (fun _ => (0.0 : K))
    (fun k => Kgrw * Acoef L s * k * mk k) (fun k => -Koxi * Acoef L s * k * mk k) coa
    s.src hsrc
  obtain ⟨g, hg1, hg2, hg3⟩ := set_gasSootSources_ok { s with src := src }
    (L.pow (s.Cmin * c.MW_c / c.Na) (1 : Nat) * Jnuc) 0.0
    (Kgrw * Acoef L s * (1 : Nat) * mk 1) (-Koxi * Acoef L s * (1 : Nat) * mk 1)
    hc ho2 hh hh2 hoh hco hp hr
  refine ⟨src, g, mk, coa, ?_, hmk, hcoa', hsrc3, hg2, ?_⟩
  · unfold assembleSrc
    dsimp only
    rw [if_neg hnuc]
    simp only [pure, Except.pure, ok_bind, tg, tx, tc, hsrc1, rd_map_range _ s.nsvar 1 hn]
    exact hg1
  · intro h0
    exact hg3 h0 (by norm_num)

theorem getNucleationRate_NONE (c : Consts K) (L : Libm K) (s : Soot K) (mi wi : List K)
    (h : s.nucleation_mech = "NONE") : getNucleationRate c L s mi wi = .ok (0, s) := by
  simp [getNucleationRate, h]

theorem getGrowthRate_NONE (c : Consts K) (L : Libm K) (s : Soot K) (M0 M1 : K)
    (h : s.growth_mech = "NONE") : getGrowthRate c L s M0 M1 = .ok (0, s) := by
  simp [getGrowthRate, h]

theorem getOxidationRate_NONE (c : Consts K) (L : Libm K) (s : Soot K) (M0 M1 : K)
    (h : s.oxidation_mech = "NONE") : getOxidationRate c L s M0 M1 = .ok (0, s) := by
  simp [getOxidationRate, h]

/-- The inversion, the clamping loop and the rate calls of `setSrc`, when nucleation and
oxidation are `NONE` and the growth call returns `Kgrw` and sets the two growth ratios. -/
theorem setSrc_eq_assemble (c : Consts K) (L : Libm K) (wheeler : Wheeler K) (s : Soot K)
    (hwf : WellFormed s) (hnuc : s.nucleation_mech = "NONE")
    (hoxi : s.oxidation_mech = "NONE") (Kgrw r1 r2 : K)
    (hgrw : ∀ w a, getGrowthRate c L { s with wts := w, absc := a }
        (s.sootvar.getD 0 0) (s.sootvar.getD 1 0) =
      .ok (Kgrw, { s with wts := w, absc := a, rC2H2_rSoot_go := r1, rH2_rSoot_go := r2 })) :
    ∃ w a : List K,
      setSrc c L wheeler s = assembleSrc c L
        { s with wts := w, absc := a, rC2H2_rSoot_go := r1, rH2_rSoot_go := r2 } 0 Kgrw 0 ∧
      w.length = s.wts.length ∧ a.length = w.length ∧
      (∀ x ∈ w, 0 ≤ x) ∧ (∀ x ∈ a, 0 ≤ x) := by
  obtain ⟨nodes, hnodes, hlw, hla⟩ := getWtsAbs_ok wheeler s.nsvar s.sootvar s.wts s.absc
    hwf.nsvar_even hwf.nsvar_ge hwf.sootvar_len hwf.wts_len
    (by rw [hwf.absc_len]; exact hwf.wts_len)
  obtain ⟨w, a, hclamp, hw, ha, hwn, han⟩ := clamp_ok nodes.wts nodes.absc
    (by rw [hla, hlw, hwf.absc_len])
  have hM0 : rd s.sootvar 0 = .ok (s.sootvar.getD 0 0) :=
    rd_getD 0 (by have := hwf.sootvar_len; have := hwf.nsvar_ge; omega)
  have hM1 : rd s.sootvar 1 = .ok (s.sootvar.getD 1 0) :=
    rd_getD 0 (by have := hwf.sootvar_len; have := hwf.nsvar_ge; omega)
  refine ⟨w, a, ?_, by rw [hw, hlw], by rw [ha, hla, hw, hlw, hwf.absc_len], hwn, han⟩
  unfold setSrc
  dsimp only
  rw [hnodes, ok_bind, hclamp, ok_bind]
  dsimp only
  rw [getNucleationRate_NONE c L { s with wts := w, absc := a } a w hnuc, ok_bind]
  dsimp only
  rw [hM0, hM1, ok_bind, ok_bind, hgrw w a, ok_bind]
  dsimp only
  rw [ok_bind, ok_bind, getOxidationRate_NONE c L
    { s with wts := w, absc := a, rC2H2_rSoot_go := r1, rH2_rSoot_go := r2 } _ _ hoxi, ok_bind]

theorem coagulation_LL_nonneg (c : Consts K) (L : Libm K) (s : Soot K) (hL : L.Signs)
    (m1 m2 : K) : 0 ≤ coagulation_LL c L s m1 m2 := by
  unfold coagulation_LL
  have := hL.sqrt_nonneg
    (L.pow (6.0 * |m1| / L.pi / s.rhoSoot) (1.0 / 3.0) * 6 * c.kb * s.T / s.rhoSoot)
  norm_num at this ⊢
  linarith

/-- The equivalent diameter `pow(6 |m| / M_PI / rhoSoot, 1/3)` is non-negative. -/
theorem diameter_nonneg (L : Libm K) (s : Soot K) (hL : L.Signs) (hrho : 0 ≤ s.rhoSoot)
    (m : K) : 0 ≤ L.pow (6.0 * |m| / L.pi / s.rhoSoot) (1.0 / 3.0) := by
  apply hL.pow_nonneg
  have := hL.pi_pos
  have := abs_nonneg m
  positivity

theorem mfp_nonneg (c : Consts K) (L : Libm K) (s : Soot K) (hL : L.Signs)
    (hmu : 0 ≤ s.mu) (hr : 0 ≤ s.rho) : 0 ≤ get_gas_mean_free_path c L s := by
  unfold get_gas_mean_free_path
  exact mul_nonneg (div_nonneg hmu hr) (hL.sqrt_nonneg _)

/-- The slip correction `1 + Kn (1.257 + 0.4 exp(-1.1/Kn))` is positive for `Kn >= 0`. -/
theorem slip_pos (L : Libm K) (hL : L.Signs) (Kn : K) (h : 0 ≤ Kn) :
    0 < 1 + Kn * (1.257 + 0.4 * L.exp (-1.1 / Kn)) := by
  have := hL.exp_nonneg (-1.1 / Kn)
  have : 0 ≤ Kn * (1.257 + 0.4 * L.exp (-1.1 / Kn)) := by positivity
  linarith

theorem coagulation_Frenk_nonneg (c : Consts K) (L : Libm K) (s : Soot K) (hL : L.Signs)
    (hkb : 0 ≤ c.kb) (heps : 0 ≤ c.eps_c) (hrho : 0 ≤ s.rhoSoot) (hT : 0 ≤ s.T)
    (hmu : 0 ≤ s.mu) (hr : 0 ≤ s.rho) (m1 m2 : K) : 0 ≤ coagulation_Frenk c L s m1 m2 := by
  unfold coagulation_Frenk
  have d1 := diameter_nonneg L s hL hrho m1
  have d2 := diameter_nonneg L s hL hrho m2
  have hm := mfp_nonneg c L s hL hmu hr
  generalize L.pow (6.0 * |m1| / L.pi / s.rhoSoot) (1.0 / 3.0) = Dp1 at d1 ⊢
  generalize L.pow (6.0 * |m2| / L.pi / s.rhoSoot) (1.0 / 3.0) = Dp2 at d2 ⊢
  generalize get_gas_mean_free_path c L s = mfp at hm ⊢
  dsimp only
  have k1 : 0 ≤ 2.0 * mfp / Dp1 := by positivity
  have k2 : 0 ≤ 2.0 * mfp / Dp2 := by positivity
  have c1 := slip_pos L hL _ k1
  have c2 := slip_pos L hL _ k2
  have fm : 0 ≤ c.eps_c * L.sqrt (L.pi * c.kb * s.T * 0.5 / |m1 * m2 / (m1 + m2)|) *
      L.pow (Dp1 + Dp2) 2.0 :=
    mul_nonneg (mul_nonneg heps (hL.sqrt_nonneg _)) (hL.pow_nonneg _ _ (add_nonneg d1 d2))
  have cc : 0 ≤ 2 * c.kb * s.T / (3 * s.mu) *
      ((1 + 2.0 * mfp / Dp1 * (1.257 + 0.4 * L.exp (-1.1 / (2.0 * mfp / Dp1)))) / Dp1 +
        (1 + 2.0 * mfp / Dp2 * (1.257 + 0.4 * L.exp (-1.1 / (2.0 * mfp / Dp2)))) / Dp2) *
      (Dp1 + Dp2) := by
    have : 0 ≤ 2 * c.kb * s.T / (3 * s.mu) := by positivity
    exact mul_nonneg (mul_nonneg this (add_nonneg (div_nonneg c1.le d1) (div_nonneg c2.le d2)))
      (add_nonneg d1 d2)
  exact div_nonneg (mul_nonneg fm cc) (add_nonneg fm cc)

theorem coagulation_Fuchs_nonneg (c : Consts K) (L : Libm K) (s : Soot K) (hL : L.Signs)
    (hkb : 0 ≤ c.kb) (heps : 0 ≤ c.eps_c) (hrho : 0 ≤ s.rhoSoot) (hT : 0 ≤ s.T)
    (hmu : 0 ≤ s.mu) (hr : 0 ≤ s.rho) (m1 m2 : K) : 0 ≤ coagulation_Fuchs c L s m1 m2 := by
  unfold coagulation_Fuchs
  have d1 := diameter_nonneg L s hL hrho m1
  have d2 := diameter_nonneg L s hL hrho m2
  have hm := mfp_nonneg c L s hL hmu hr
  have hpi := hL.pi_pos
  generalize L.pow (6.0 * |m1| / L.pi / s.rhoSoot) (1.0 / 3.0) = Dp1 at d1 ⊢
  generalize L.pow (6.0 * |m2| / L.pi / s.rhoSoot) (1.0 / 3.0) = Dp2 at d2 ⊢
  generalize get_gas_mean_free_path c L s = mfp at hm ⊢
  dsimp only
  have k1 : 0 ≤ 2.0 * mfp / Dp1 := by positivity
  have k2 : 0 ≤ 2.0 * mfp / Dp2 := by positivity
  have c1 := slip_pos L hL _ k1
  have c2 := slip_pos L hL _ k2
  have D1 : 0 ≤ c.kb * s.T *
      (1 + 2.0 * mfp / Dp1 * (1.257 + 0.4 * L.exp (-1.1 / (2.0 * mfp / Dp1)))) /
      (3.0 * L.pi * s.mu * Dp1) := by positivity
  have D2 : 0 ≤ c.kb * s.T *
      (1 + 2.0 * mfp / Dp2 * (1.257 + 0.4 * L.exp (-1.1 / (2.0 * mfp / Dp2)))) /
      (3.0 * L.pi * s.mu * Dp2) := by positivity
  apply div_nonneg
  · have : (0 : K) ≤ 2.0 * L.pi := by positivity
    exact mul_nonneg (mul_nonneg this (add_nonneg D1 D2)) (add_nonneg d1 d2)
  · apply add_nonneg
    · apply div_nonneg (add_nonneg d1 d2)
      have := hL.sqrt_nonneg
      exact add_nonneg (add_nonneg d1 d2) (mul_nonneg (by norm_num) (this _))
    · have h8 : (0 : K) ≤ 8.0 / c.eps_c := by positivity
      exact div_nonneg (div_nonneg (mul_nonneg h8 (add_nonneg D1 D2)) (hL.sqrt_nonneg _))
        (add_nonneg d1 d2)

/-- A recognised coagulation mechanism returns a rate for every pair of masses. -/
theorem getCoagulationRate_total (c : Consts K) (L : Libm K) (s : Soot K)
    (h : s.coagulation_mech = "NONE" ∨ s.coagulation_mech = "LL" ∨
      s.coagulation_mech = "FUCHS" ∨ s.coagulation_mech = "FRENK") :
    ∃ β : K → K → K, ∀ m1 m2, getCoagulationRate c L s m1 m2 = .ok (β m1 m2) := by
  rcases h with h | h | h | h
  · exact ⟨fun _ _ => 0, fun m1 m2 => getCoagulationRate_NONE c L s m1 m2 h⟩
  · exact ⟨_, fun m1 m2 => getCoagulationRate_LL c L s m1 m2 h⟩
  · exact ⟨_, fun m1 m2 => getCoagulationRate_FUCHS c L s m1 m2 h⟩
  · exact ⟨_, fun m1 m2 => getCoagulationRate_FRENK c L s m1 m2 h⟩

/-- The entry `Mcoa[k]` reads the node arrays and the coagulation kernel only. -/
theorem McoaEntry_congr (c : Consts K) (L : Libm K) (s t : Soot K) (k : Nat)
    (hw : t.wts = s.wts) (ha : t.absc = s.absc)
    (hg : ∀ m1 m2, getCoagulationRate c L t m1 m2 = getCoagulationRate c L s m1 m2) :
    McoaEntry c L t k = McoaEntry c L s k := by
  unfold McoaEntry coaPair coaDiag
  simp only [hw, ha, hg]

set_option maxHeartbeats 1000000 in
/-- What `setSrc` computes when nucleation and oxidation are `NONE`, the growth call
returns `Kgrw` and sets the two growth ratios to `r1`, `r2`, and the coagulation kernel
returns `β`: it returns an object `s'` whose nodes are non-negative, whose entry `src[k]`
is the sum of the five terms, and whose gas sources come from the growth term. -/
theorem setSrc_spec (c : Consts K) (L : Libm K) (wheeler : Wheeler K) (s : Soot K)
    (hwf : WellFormed s) (hnuc : s.nucleation_mech = "NONE")
    (hoxi : s.oxidation_mech = "NONE") (Kgrw r1 r2 : K)
    (hgrw : ∀ w a, getGrowthRate c L { s with wts := w, absc := a }
        (s.sootvar.getD 0 0) (s.sootvar.getD 1 0) =
      .ok (Kgrw, { s with wts := w, absc := a, rC2H2_rSoot_go := r1, rH2_rSoot_go := r2 }))
    (β : K → K → K) (hβ : ∀ m1 m2, getCoagulationRate c L s m1 m2 = .ok (β m1 m2)) :
    ∃ (s' : Soot K) (mk coa : Nat → K),
      setSrc c L wheeler s = .ok s' ∧
      s'.wts.length = s.wts.length ∧ s'.absc.length = s'.wts.length ∧
      (∀ x ∈ s'.wts, 0 ≤ x) ∧ (∀ x ∈ s'.absc, 0 ≤ x) ∧
      (∀ k : Nat, Mk L s' (k - 1.0 / 3.0) = .ok (mk k)) ∧
      (∀ k : Nat, McoaEntry c L s' k = .ok (coa k)) ∧
      (∀ m1 m2, getCoagulationRate c L s' m1 m2 = .ok (β m1 m2)) ∧
      (∀ k, k < s.nsvar → s'.src[k]? = some (L.pow (s.Cmin * c.MW_c / c.Na) k * 0 + 0.0 +
        Kgrw * Acoef L s * k * mk k + -0 * Acoef L s * k * mk k + coa k)) ∧
      (s.i_c2h2 ≠ s.i_h2 →
        s.i_c2h2 ≠ s.i_o2 → s.i_c2h2 ≠ s.i_oh → s.i_c2h2 ≠ s.i_h → s.i_c2h2 ≠ s.i_co →
        s.i_h2 ≠ s.i_o2 → s.i_h2 ≠ s.i_oh → s.i_h2 ≠ s.i_h → s.i_h2 ≠ s.i_co →
        s'.gasSootSources[s.i_c2h2.toNat]? =
          some (Kgrw * Acoef L s * (1 : Nat) * mk 1 * r1 / s.rho) ∧
        s'.gasSootSources[s.i_h2.toNat]? =
          some (Kgrw * Acoef L s * (1 : Nat) * mk 1 * r2 / s.rho)) := by
  obtain ⟨w, a, heq, hw, ha, hwn, han⟩ :=
    setSrc_eq_assemble c L wheeler s hwf hnuc hoxi Kgrw r1 r2 hgrw
  obtain ⟨src, g, mk, coa, hok, hmk, hcoa, hsrc, -, hgas⟩ := assembleSrc_spec c L
    { s with wts := w, absc := a, rC2H2_rSoot_go := r1, rH2_rSoot_go := r2 } 0 Kgrw 0
    hwf.nsvar_ge hwf.src_len (by have := hwf.wts_len; show s.nsvar / 2 ≤ w.length; omega) ha
    hwf.c2h2 hwf.o2 hwf.h hwf.h2 hwf.oh hwf.co hwf.pah hwf.rPAH_len
    (by show s.nucleation_mech ≠ "PAH"; rw [hnuc]; decide) β (fun m1 m2 => hβ m1 m2)
  refine ⟨_, mk, coa, heq.trans hok, hw, ha, hwn, han,
    fun k => (Mk_congr L _
      { s with wts := w, absc := a, rC2H2_rSoot_go := r1, rH2_rSoot_go := r2 } _
      (by rfl) (by rfl) (by rfl)).trans (hmk k),
    fun k => (McoaEntry_congr c L
      { s with wts := w, absc := a, rC2H2_rSoot_go := r1, rH2_rSoot_go := r2 } _ k
      (by rfl) (by rfl) (by intro _ _; rfl)).trans (hcoa k),
    fun m1 m2 => hβ m1 m2, hsrc, ?_⟩
  intro n1 n2 n3 n4 n5 m2 m3 m4 m5
  exact hgas (mul_zero _) n1 n2 n3 n4 n5 m2 m3 m4 m5

/-- The growth law `LIN` on resolved C2H2 and H2: the rate, and the two ratios it sets. -/
theorem growth_Lindstedt_ok (c : Consts K) (L : Libm K) (s : Soot K)
    (hc : Resolved s s.i_c2h2) (hh2 : Resolved s s.i_h2) :
    growth_Lindstedt c L s = .ok
      (750.0 * L.exp (-12100.0 / s.T) *
          (s.rho * s.yi.getD s.i_c2h2.toNat 0 / s.MW_sp.getD s.i_c2h2.toNat 0) * 2.0 * c.MW_c,
        { s with
          rC2H2_rSoot_go := -(s.MW_sp.getD s.i_c2h2.toNat 0) / (2 * c.MW_c)
          rH2_rSoot_go := s.MW_sp.getD s.i_h2.toNat 0 / (2 * c.MW_c) }) := by
  unfold growth_Lindstedt
  simp only [rdI_getD 0 hc.1 hc.2.1, rdI_getD 0 hc.1 hc.2.2.1, rdI_getD 0 hh2.1 hh2.2.2.1,
    ok_bind]
  rfl

/-- The growth law `LL` on resolved C2H2 and H2: it returns, and sets the two ratios. -/
theorem growth_LL_ok (c : Consts K) (L : Libm K) (s : Soot K) (M0 M1 : K)
    (hc : Resolved s s.i_c2h2) (hh2 : Resolved s s.i_h2) :
    ∃ v, ∀ w a, growth_LL c L { s with wts := w, absc := a } M0 M1 = .ok
      (v, { s with
          wts := w, absc := a
          rC2H2_rSoot_go := -(s.MW_sp.getD s.i_c2h2.toNat 0) / (2 * c.MW_c)
          rH2_rSoot_go := s.MW_sp.getD s.i_h2.toNat 0 / (2 * c.MW_c) }) := by
  refine ⟨?_, fun w a => ?_⟩
  rotate_left
  unfold growth_LL
  dsimp only
  simp only [rdI_getD 0 hc.1 hc.2.1, rdI_getD 0 hc.1 hc.2.2.1, rdI_getD 0 hh2.1 hh2.2.2.1,
    ok_bind]
  exact rfl

/-- The common body of the two HACA laws returns when its six species are resolved. -/
theorem hacaRates_ok (L : Libm K) (s : Soot K) (M0 M1 : K)
    (hc : Resolved s s.i_c2h2) (ho2 : Resolved s s.i_o2) (hh : Resolved s s.i_h)
    (hh2 : Resolved s s.i_h2) (hoh : Resolved s s.i_oh) (hw : Resolved s s.i_h2o) :
    ∃ h, hacaRates L s M0 M1 = .ok h := by
  unfold hacaRates
  simp only [rdI_getD 0 hc.1 hc.2.1, rdI_getD 0 hc.1 hc.2.2.1, rdI_getD 0 ho2.1 ho2.2.1,
    rdI_getD 0 ho2.1 ho2.2.2.1, rdI_getD 0 hh.1 hh.2.1, rdI_getD 0 hh.1 hh.2.2.1,
    rdI_getD 0 hh2.1 hh2.2.1, rdI_getD 0 hh2.1 hh2.2.2.1, rdI_getD 0 hoh.1 hoh.2.1,
    rdI_getD 0 hoh.1 hoh.2.2.1, rdI_getD 0 hw.1 hw.2.1, rdI_getD 0 hw.1 hw.2.2.1, ok_bind]
  exact ⟨_, rfl⟩

/-- On a well-formed object a growth law among `LIN`, `LL`, `HACA` returns a rate that does
not depend on the node arrays, and changes the two growth ratios at most; `LIN` and `LL`
set them to `-MW_C2H2/(2 MW_c)` and `MW_H2/(2 MW_c)`. -/
theorem getGrowthRate_ok (c : Consts K) (L : Libm K) (s : Soot K) (M0 M1 : K)
    (hwf : WellFormed s)
    (hg : s.growth_mech = "LIN" ∨ s.growth_mech = "LL" ∨ s.growth_mech = "HACA") :
    ∃ Kgrw r1 r2, (∀ w a, getGrowthRate c L { s with wts := w, absc := a } M0 M1 =
        .ok (Kgrw, { s with wts := w, absc := a, rC2H2_rSoot_go := r1, rH2_rSoot_go := r2 })) ∧
      (s.growth_mech = "LIN" ∨ s.growth_mech = "LL" →
        r1 = -(s.MW_sp.getD s.i_c2h2.toNat 0) / (2 * c.MW_c) ∧
        r2 = s.MW_sp.getD s.i_h2.toNat 0 / (2 * c.MW_c)) := by
  rcases hg with h | h | h
  · refine ⟨750.0 * L.exp (-12100.0 / s.T) *
        (s.rho * s.yi.getD s.i_c2h2.toNat 0 / s.MW_sp.getD s.i_c2h2.toNat 0) * 2.0 * c.MW_c,
      _, _, fun w a => ?_, fun _ => ⟨rfl, rfl⟩⟩
    have e : getGrowthRate c L { s with wts := w, absc := a } M0 M1 =
        growth_Lindstedt c L { s with wts := w, absc := a } := by
      simp [getGrowthRate, h]
    rw [e]
    exact growth_Lindstedt_ok c L { s with wts := w, absc := a } hwf.c2h2 hwf.h2
  · obtain ⟨v, hv⟩ := growth_LL_ok c L s M0 M1 hwf.c2h2 hwf.h2
    refine ⟨v, _, _, fun w a => ?_, fun _ => ⟨rfl, rfl⟩⟩
    have e : getGrowthRate c L { s with wts := w, absc := a } M0 M1 =
        growth_LL c L { s with wts := w, absc := a } M0 M1 := by
      simp [getGrowthRate, h]
    rw [e]
    exact hv w a
  · obtain ⟨hr, hhr⟩ := hacaRates_ok L s M0 M1 hwf.c2h2 hwf.o2 hwf.h hwf.h2 hwf.oh hwf.h2o
    refine ⟨(hr.fR5 * hr.c_soot_rad + hr.fR6 * hr.c_soot_H) / c.Na * 2 * c.MW_c,
      s.rC2H2_rSoot_go, s.rH2_rSoot_go, fun w a => ?_, fun h' => ?_⟩
    · have e : getGrowthRate c L { s with wts := w, absc := a } M0 M1 =
          growth_HACA c L { s with wts := w, absc := a } M0 M1 := by
        simp [getGrowthRate, h]
      have e2 : hacaRates L { s with wts := w, absc := a } M0 M1 = .ok hr := hhr
      rw [e]
      unfold growth_HACA
      rw [e2, ok_bind]
      rfl
    · rcases h' with h' | h' <;> rw [h] at h' <;> exact absurd h' (by decide)

/-- C7: with nucleation, growth and oxidation `NONE` and a coagulation kernel among `LL`,
`FUCHS`, `FRENK`, `setSrc` returns on every well-formed object (every moment vector, node
arrays, gas state and `wheeler`) and the source of moment 1 is exactly 0. -/
theorem setSrc_coagulation_only_mass (c : Consts K) (L : Libm K) (wheeler : Wheeler K)
    (s : Soot K) (hwf : WellFormed s) (hnuc : s.nucleation_mech = "NONE")
    (hgrw : s.growth_mech = "NONE") (hoxi : s.oxidation_mech = "NONE")
    (hcoa : s.coagulation_mech = "LL" ∨ s.coagulation_mech = "FUCHS" ∨
      s.coagulation_mech = "FRENK") :
    ∃ s', setSrc c L wheeler s = .ok s' ∧ s'.src[1]? = some 0 := by
  obtain ⟨β, hβ⟩ := getCoagulationRate_total c L s (Or.inr hcoa)
  obtain ⟨s', mk, coa, hok, -, -, -, -, -, hcoa', -, hsrc, -⟩ :=
    setSrc_spec c L wheeler s hwf hnuc hoxi 0 s.rC2H2_rSoot_go s.rH2_rSoot_go
      (fun w a => getGrowthRate_NONE c L { s with wts := w, absc := a } _ _ hgrw) β hβ
  have h1 : coa 1 = 0 := by
    have := hcoa' 1
    unfold McoaEntry at this
    simp only [if_true] at this
    exact (Except.ok.inj this).symm
  refine ⟨s', hok, ?_⟩
  rw [hsrc 1 hwf.nsvar_ge, h1]
  norm_num

theorem getD_nonneg (l : List K) (h : ∀ x ∈ l, 0 ≤ x) (i : Nat) : 0 ≤ l.getD i 0 := by
  rw [List.getD_eq_getElem?_getD]
  rcases Nat.lt_or_ge i l.length with hi | hi
  · rw [List.getElem?_eq_getElem hi]
    exact h _ (List.getElem_mem hi)
  · rw [List.getElem?_eq_none hi]
    exact le_rfl

/-- Every rate `getCoagulationRate` returns is non-negative, for non-negative constants,
soot density and gas state. -/
theorem getCoagulationRate_nonneg (c : Consts K) (L : Libm K) (s : Soot K) (hL : L.Signs)
    (hkb : 0 ≤ c.kb) (heps : 0 ≤ c.eps_c) (hrho : 0 ≤ s.rhoSoot) (hT : 0 ≤ s.T)
    (hmu : 0 ≤ s.mu) (hr : 0 ≤ s.rho) (m1 m2 b : K)
    (h : getCoagulationRate c L s m1 m2 = .ok b) : 0 ≤ b := by
  unfold getCoagulationRate at h
  split at h
  · rw [← Except.ok.inj h]
  · split at h
    · rw [← Except.ok.inj h]
      exact coagulation_LL_nonneg c L s hL m1 m2
    · split at h
      · rw [← Except.ok.inj h]
        exact coagulation_Fuchs_nonneg c L s hL hkb heps hrho hT hmu hr m1 m2
      · split at h
        · rw [← Except.ok.inj h]
          exact coagulation_Frenk_nonneg c L s hL hkb heps hrho hT hmu hr m1 m2
        · exact absurd h (by simp)

/-- The order-0 coagulation source in exact arithmetic: with nucleation, growth and
oxidation `NONE`, a recognised coagulation kernel, a gas state with positive `T`, `rho`,
`mu` (and non-negative Boltzmann constant, `eps_c` and soot density), `setSrc` returns;
the kernel values `β` and the clamped weights are non-negative,
`src[0] = -(sum over pairs j < i of β(m_i, m_j) w_i w_j)
- 0.5 (sum over i of β(m_i, m_i) w_i^2)`, and `src[0] <= 0`. At a node of abscissa 0
the kernels `FUCHS` and `FRENK` divide by zero, which the field reads as 0 and a
`double` as a NaN. -/
theorem setSrc_coagulation_only_number (c : Consts K) (L : Libm K) (wheeler : Wheeler K)
    (s : Soot K) (hwf : WellFormed s) (hL : L.Signs) (hkb : 0 ≤ c.kb) (heps : 0 ≤ c.eps_c)
    (hrhoS : 0 ≤ s.rhoSoot) (hT : 0 < s.T) (hrho : 0 < s.rho) (hmu : 0 < s.mu)
    (hnuc : s.nucleation_mech = "NONE") (hgrw : s.growth_mech = "NONE")
    (hoxi : s.oxidation_mech = "NONE")
    (hcoa : s.coagulation_mech = "NONE" ∨ s.coagulation_mech = "LL" ∨
      s.coagulation_mech = "FUCHS" ∨ s.coagulation_mech = "FRENK") :
    ∃ (s' : Soot K) (β : K → K → K), setSrc c L wheeler s = .ok s' ∧
      (∀ m1 m2, getCoagulationRate c L s' m1 m2 = .ok (β m1 m2)) ∧
      (∀ m1 m2, 0 ≤ β m1 m2) ∧ (∀ x ∈ s'.wts, 0 ≤ x) ∧
      s'.src[0]? = some
        (-(∑ i in Finset.range s'.absc.length, ∑ j in Finset.range i,
            β (s'.absc.getD i 0) (s'.absc.getD j 0) * s'.wts.getD i 0 * s'.wts.getD j 0) -
          0.5 * ∑ i in Finset.range s'.absc.length,
            β (s'.absc.getD i 0) (s'.absc.getD i 0) * s'.wts.getD i 0 ^ 2) ∧
      (∀ x, s'.src[0]? = some x → x ≤ 0) := by
  obtain ⟨β, hβ⟩ := getCoagulationRate_total c L s hcoa
  have hβ0 : ∀ m1 m2, 0 ≤ β m1 m2 := fun m1 m2 =>
    getCoagulationRate_nonneg c L s hL hkb heps hrhoS hT.le hmu.le hrho.le m1 m2 _ (hβ m1 m2)
  obtain ⟨s', mk, coa, hok, -, hlen, hwn, -, -, hcoa', hβ', hsrc, -⟩ :=
    setSrc_spec c L wheeler s hwf hnuc hoxi 0 s.rC2H2_rSoot_go s.rH2_rSoot_go
      (fun w a => getGrowthRate_NONE c L { s with wts := w, absc := a } _ _ hgrw) β hβ
  have hval := (McoaEntry_val c L s' β hβ' 0 hlen.symm).symm.trans (hcoa' 0)
  have hval' := Except.ok.inj hval
  simp only [if_true, zero_ne_one, if_false] at hval'
  have hw : ∀ i, 0 ≤ s'.wts.getD i 0 := getD_nonneg _ hwn
  have e : coa 0 =
      -(∑ i in Finset.range s'.absc.length, ∑ j in Finset.range i,
          β (s'.absc.getD i 0) (s'.absc.getD j 0) * s'.wts.getD i 0 * s'.wts.getD j 0) -
        0.5 * ∑ i in Finset.range s'.absc.length,
          β (s'.absc.getD i 0) (s'.absc.getD i 0) * s'.wts.getD i 0 ^ 2 := by
    rw [← hval', Finset.mul_sum, ← Finset.sum_neg_distrib, sub_eq_add_neg,
      ← Finset.sum_neg_distrib]
    congr 1
    · refine Finset.sum_congr rfl (fun i _ => ?_)
      rw [← Finset.sum_neg_distrib]
      refine Finset.sum_congr rfl (fun j _ => ?_)
      norm_num
    · refine Finset.sum_congr rfl (fun i _ => ?_)
      norm_num
      ring
  have hs0 : s'.src[0]? = some (coa 0) := by
    rw [hsrc 0 (by have := hwf.nsvar_ge; omega)]
    norm_num
  have hA : 0 ≤ ∑ i in Finset.range s'.absc.length, ∑ j in Finset.range i,
      β (s'.absc.getD i 0) (s'.absc.getD j 0) * s'.wts.getD i 0 * s'.wts.getD j 0 :=
    Finset.sum_nonneg (fun i _ => Finset.sum_nonneg (fun j _ =>
      mul_nonneg (mul_nonneg (hβ0 _ _) (hw i)) (hw j)))
  have hB : 0 ≤ ∑ i in Finset.range s'.absc.length,
      β (s'.absc.getD i 0) (s'.absc.getD i 0) * s'.wts.getD i 0 ^ 2 :=
    Finset.sum_nonneg (fun i _ => mul_nonneg (hβ0 _ _) (pow_two_nonneg _))
  refine ⟨s', β, hok, hβ', hβ0, hwn, by rw [hs0, e], ?_⟩
  intro x hx
  rw [hs0, e] at hx
  rw [← Option.some.inj hx]
  have : (0 : K) ≤ 0.5 * ∑ i in Finset.range s'.absc.length,
      β (s'.absc.getD i 0) (s'.absc.getD i 0) * s'.wts.getD i 0 ^ 2 :=
    mul_nonneg (by norm_num) hB
  linarith

/-- For a positive soot density `Acoef` is `M_PI * pow(6 / (M_PI * rhoSoot), 2/3)`. -/
theorem Acoef_eq (L : Libm K) (s : Soot K) (hpi : 0 < L.pi) (hrho : 0 < s.rhoSoot) :
    Acoef L s = L.pi * L.pow (6 / (L.pi * s.rhoSoot)) (2 / 3) := by
  unfold Acoef
  have h : (0 : K) < 6.0 / L.pi / s.rhoSoot := by positivity
  rw [abs_of_pos h, div_div]
  norm_num

/-- C9: with only growth active (`LIN`, `LL` or `HACA`; nucleation, oxidation and
coagulation `NONE`) and a positive soot density, `setSrc` returns and, `Kgrw` being the
rate `getGrowthRate` returns for the moments `M[0]`, `M[1]` and `mk k` the value of
`Mk(k - 1/3)` on the nodes it leaves, `src[k] = Kgrw * Acoef * k * Mk(k - 1/3)` for every
`k < nsvar`, with `Acoef = M_PI * pow(6 / (M_PI * rhoSoot), 2/3)`; in particular
`src[0] = 0` and `src[1] = Kgrw * Acoef * Mk(2/3)`. -/
theorem setSrc_growth_only (c : Consts K) (L : Libm K) (wheeler : Wheeler K)
    (s : Soot K) (hwf : WellFormed s) (hpi : 0 < L.pi) (hrhoS : 0 < s.rhoSoot)
    (hnuc : s.nucleation_mech = "NONE")
    (hgrw : s.growth_mech = "LIN" ∨ s.growth_mech = "LL" ∨ s.growth_mech = "HACA")
    (hoxi : s.oxidation_mech = "NONE") (hcoa : s.coagulation_mech = "NONE") :
    ∃ (s' sg : Soot K) (Kgrw : K) (mk : Nat → K), setSrc c L wheeler s = .ok s' ∧
      getGrowthRate c L s (s.sootvar.getD 0 0) (s.sootvar.getD 1 0) = .ok (Kgrw, sg) ∧
      (∀ k : Nat, Mk L s' (k - 1 / 3) = .ok (mk k)) ∧ Mk L s' (2 / 3) = .ok (mk 1) ∧
      (∀ k : Nat, k < s.nsvar → s'.src[k]? =
        some (Kgrw * (L.pi * L.pow (6 / (L.pi * s.rhoSoot)) (2 / 3)) * k * mk k)) ∧
      s'.src[0]? = some 0 ∧
      s'.src[1]? = some (Kgrw * (L.pi * L.pow (6 / (L.pi * s.rhoSoot)) (2 / 3)) * mk 1) := by
  obtain ⟨Kgrw, r1, r2, hg, -⟩ :=
    getGrowthRate_ok c L s (s.sootvar.getD 0 0) (s.sootvar.getD 1 0) hwf hgrw
  obtain ⟨s', mk, coa, hok, -, hlen, -, -, hmk, hcoa', hβ', hsrc, -⟩ :=
    setSrc_spec c L wheeler s hwf hnuc hoxi Kgrw r1 r2 hg (fun _ _ => 0)
      (fun m1 m2 => getCoagulationRate_NONE c L s m1 m2 hcoa)
  have hcoa0 : ∀ k, coa k = 0 := by
    intro k
    have hval := (McoaEntry_val c L s' (fun _ _ => 0) hβ' k hlen.symm).symm.trans (hcoa' k)
    rw [← Except.ok.inj hval]
    simp
  have e13 : ∀ k : Nat, (k : K) - 1.0 / 3.0 = k - 1 / 3 := fun k => by norm_num
  have e23 : ((1 : Nat) : K) - 1.0 / 3.0 = 2 / 3 := by norm_num
  have hA := Acoef_eq L s hpi hrhoS
  have hk : ∀ k : Nat, k < s.nsvar → s'.src[k]? =
      some (Kgrw * (L.pi * L.pow (6 / (L.pi * s.rhoSoot)) (2 / 3)) * k * mk k) := by
    intro k hk
    rw [hsrc k hk, hcoa0 k, hA]
    norm_num
  refine ⟨s', _, Kgrw, mk, hok, hg s.wts s.absc, fun k => e13 k ▸ hmk k, e23 ▸ hmk 1, hk, ?_, ?_⟩
  · rw [hk 0 (by have := hwf.nsvar_ge; omega)]
    norm_num
  · rw [hk 1 hwf.nsvar_ge]
    norm_num

/-- C10: with only growth active under an acetylene law (`LIN` or `LL`; nucleation,
oxidation and coagulation `NONE`), the seven species resolved to distinct indices,
`rho > 0` and non-zero molar masses of carbon, C2H2 and H2, after `setSrc` the C2H2 source
`gc`, the H2 source `gh` and the moment-1 source `x = src[1]` satisfy
`rho * gc * (2 MW_c / MW_C2H2) = -x` and `rho * gh * (2 MW_c / MW_H2) = x`. -/
theorem setSrc_growth_gas_balance (c : Consts K) (L : Libm K) (wheeler : Wheeler K)
    (s : Soot K) (hwf : WellFormed s)
    (hd : [s.i_c2h2, s.i_o2, s.i_h, s.i_h2, s.i_oh, s.i_h2o, s.i_co].Nodup)
    (hrho : 0 < s.rho) (hMWc : c.MW_c ≠ 0) (hMWa : s.MW_sp.getD s.i_c2h2.toNat 0 ≠ 0)
    (hMWh : s.MW_sp.getD s.i_h2.toNat 0 ≠ 0)
    (hnuc : s.nucleation_mech = "NONE")
    (hgrw : s.growth_mech = "LIN" ∨ s.growth_mech = "LL")
    (hoxi : s.oxidation_mech = "NONE") (hcoa : s.coagulation_mech = "NONE") :
    ∃ (s' : Soot K) (x gc gh : K), setSrc c L wheeler s = .ok s' ∧
      s'.src[1]? = some x ∧
      s'.gasSootSources[s.i_c2h2.toNat]? = some gc ∧
      s'.gasSootSources[s.i_h2.toNat]? = some gh ∧
      s.rho * gc * (2 * c.MW_c / s.MW_sp.getD s.i_c2h2.toNat 0) = -x ∧
      s.rho * gh * (2 * c.MW_c / s.MW_sp.getD s.i_h2.toNat 0) = x := by
  obtain ⟨Kgrw, r1, r2, hg, hr⟩ :=
    getGrowthRate_ok c L s (s.sootvar.getD 0 0) (s.sootvar.getD 1 0) hwf
      (hgrw.elim Or.inl (fun h => Or.inr (Or.inl h)))
  obtain ⟨hr1, hr2⟩ := hr hgrw
  obtain ⟨s', mk, coa, hok, -, hlen, -, -, -, hcoa', hβ', hsrc, hgas⟩ :=
    setSrc_spec c L wheeler s hwf hnuc hoxi Kgrw r1 r2 hg (fun _ _ => 0)
      (fun m1 m2 => getCoagulationRate_NONE c L s m1 m2 hcoa)
  have h1 : coa 1 = 0 := by
    have := hcoa' 1
    unfold McoaEntry at this
    simp only [if_true] at this
    exact (Except.ok.inj this).symm
  simp only [List.nodup_cons, List.mem_cons, List.mem_singleton, not_or, List.not_mem_nil,
    not_false_eq_true, List.nodup_nil, and_true] at hd
  obtain ⟨⟨c1, c2, c3, c4, c5, c6⟩, ⟨o1, o2, o3, o4, o5⟩, ⟨a1, a2, a3, a4⟩, ⟨b1, b2, b3⟩, -⟩ :=
    hd
  obtain ⟨hgc, hgh⟩ := hgas c3 c1 c4 c2 c6 (Ne.symm o2) b1 (Ne.symm a1) b3
  refine ⟨s', _, _, _, hok, hsrc 1 hwf.nsvar_ge, hgc, hgh, ?_, ?_⟩
  · rw [h1, hr1]
    generalize s.MW_sp.getD s.i_c2h2.toNat 0 = A at hMWa ⊢
    have := hrho.ne'
    field_simp
    ring
  · rw [h1, hr2]
    generalize s.MW_sp.getD s.i_h2.toNat 0 = A at hMWh ⊢
    have := hrho.ne'
    field_simp
    ring

end GasFacts

/-! ## Witnesses on the sample object -/

theorem sampleSoot_wellFormed (K : Type) [LinearOrderedField K] (nuc grw oxi coa : String)
    (m0 m1 w a : K) : WellFormed (sampleSoot K nuc grw oxi coa 2 [m0, m1] [w] [a]) := by
  constructor <;> simp [sampleSoot, Resolved]

theorem realLibm_signs : realLibm.Signs where
  pi_pos := Real.pi_pos
  sqrt_nonneg := Real.sqrt_nonneg
  exp_nonneg := fun x => (Real.exp_pos x).le
  pow_nonneg := fun _ y hx => Real.rpow_nonneg hx y

/-- Witness for C7: the sample object with the Frenklach kernel alone. -/
theorem setSrc_coagulation_only_mass_witness :
    ∃ s', setSrc (sampleConsts ℝ) realLibm (fun _ _ _ => (0, 0))
        (sampleSoot ℝ "NONE" "NONE" "NONE" "FRENK" 2 [1, 2] [0] [0]) = .ok s' ∧
      s'.src[1]? = some 0 :=
  setSrc_coagulation_only_mass _ _ _ _ (sampleSoot_wellFormed ℝ _ _ _ _ 1 2 0 0) rfl rfl rfl
    (Or.inr (Or.inr rfl))

/-- The order-0 coagulation source on the sample object with the Fuchs kernel alone and
a positive node. -/
theorem setSrc_coagulation_only_number_witness :
    ∃ (s' : Soot ℝ) (β : ℝ → ℝ → ℝ),
      setSrc (sampleConsts ℝ) realLibm (fun _ _ _ => (0, 0))
        (sampleSoot ℝ "NONE" "NONE" "NONE" "FUCHS" 2 [1, 2] [0] [0]) = .ok s' ∧
      (∀ m1 m2, getCoagulationRate (sampleConsts ℝ) realLibm s' m1 m2 = .ok (β m1 m2)) ∧
      (∀ m1 m2, 0 ≤ β m1 m2) ∧ (∀ x ∈ s'.wts, 0 ≤ x) ∧
      s'.src[0]? = some
        (-(∑ i in Finset.range s'.absc.length, ∑ j in Finset.range i,
            β (s'.absc.getD i 0) (s'.absc.getD j 0) * s'.wts.getD i 0 * s'.wts.getD j 0) -
          0.5 * ∑ i in Finset.range s'.absc.length,
            β (s'.absc.getD i 0) (s'.absc.getD i 0) * s'.wts.getD i 0 ^ 2) ∧
      (∀ x, s'.src[0]? = some x → x ≤ 0) :=
  setSrc_coagulation_only_number _ _ _ _ (sampleSoot_wellFormed ℝ _ _ _ _ 1 2 0 0)
    realLibm_signs (by norm_num [sampleConsts]) (by norm_num [sampleConsts])
    (by norm_num [sampleSoot]) (by norm_num [sampleSoot]) (by norm_num [sampleSoot])
    (by norm_num [sampleSoot]) rfl rfl rfl (Or.inr (Or.inr (Or.inl rfl)))

/-- Witness for C9: the sample object with the growth law `LL` alone. -/
theorem setSrc_growth_only_witness :
    ∃ (s' sg : Soot ℝ) (Kgrw : ℝ) (mk : Nat → ℝ),
      setSrc (sampleConsts ℝ) realLibm (fun _ _ _ => (0, 0))
        (sampleSoot ℝ "NONE" "LL" "NONE" "NONE" 2 [1, 2] [0] [0]) = .ok s' ∧
      getGrowthRate (sampleConsts ℝ) realLibm
        (sampleSoot ℝ "NONE" "LL" "NONE" "NONE" 2 [1, 2] [0] [0])
        (([1, 2] : List ℝ).getD 0 0) (([1, 2] : List ℝ).getD 1 0) = .ok (Kgrw, sg) ∧
      (∀ k : Nat, Mk realLibm s' (k - 1 / 3) = .ok (mk k)) ∧
      Mk realLibm s' (2 / 3) = .ok (mk 1) ∧
      (∀ k : Nat, k < 2 → s'.src[k]? =
        some (Kgrw * (Real.pi * (6 / (Real.pi * 1850)) ^ ((2 : ℝ) / 3)) * k * mk k)) ∧
      s'.src[0]? = some 0 ∧
      s'.src[1]? = some (Kgrw * (Real.pi * (6 / (Real.pi * 1850)) ^ ((2 : ℝ) / 3)) * mk 1) :=
  setSrc_growth_only (sampleConsts ℝ) realLibm (fun _ _ _ => (0, 0))
    (sampleSoot ℝ "NONE" "LL" "NONE" "NONE" 2 [1, 2] [0] [0])
    (sampleSoot_wellFormed ℝ _ _ _ _ 1 2 0 0) Real.pi_pos (by norm_num [sampleSoot])
    rfl (Or.inr (Or.inl rfl)) rfl rfl

/-- Witness for C10: the sample object with the growth law `LIN` alone. -/
theorem setSrc_growth_gas_balance_witness :
    ∃ (s' : Soot ℝ) (x gc gh : ℝ),
      setSrc (sampleConsts ℝ) realLibm (fun _ _ _ => (0, 0))
        (sampleSoot ℝ "NONE" "LIN" "NONE" "NONE" 2 [1, 2] [0] [0]) = .ok s' ∧
      s'.src[1]? = some x ∧
      s'.gasSootSources[0]? = some gc ∧ s'.gasSootSources[3]? = some gh ∧
      0.2 * gc * (2 * 12.011 / 26.038) = -x ∧ 0.2 * gh * (2 * 12.011 / 2.016) = x :=
  setSrc_growth_gas_balance (sampleConsts ℝ) realLibm (fun _ _ _ => (0, 0))
    (sampleSoot ℝ "NONE" "LIN" "NONE" "NONE" 2 [1, 2] [0] [0])
    (sampleSoot_wellFormed ℝ _ _ _ _ 1 2 0 0) (by simp [sampleSoot])
    (by norm_num [sampleSoot]) (by norm_num [sampleConsts])
    (by show (26.038 : ℝ) ≠ 0; norm_num) (by show (2.016 : ℝ) ≠ 0; norm_num)
    rfl (Or.inl rfl) rfl rfl

/-! ## Rate laws, dispatchers and construction -/

/-! ### Computations that do not exit -/

theorem NoExit_ok {α : Type} (a : α) : NoExit (Except.ok a : Except Fault α) :=
  fun _ h => by cases h

theorem NoExit_pure {α : Type} (a : α) : NoExit (pure a : Except Fault α) :=
  fun _ h => by cases h

theorem NoExit_bind {α β : Type} {x : Except Fault α} {f : α → Except Fault β}
    (hx : NoExit x) (hf : ∀ a, NoExit (f a)) : NoExit (x >>= f) := by
  cases x with
  | ok a => exact hf a
  | error e =>
    intro msg h
    exact hx msg (by simpa [bind, Except.bind] using h)

theorem NoExit_rd {α : Type} (v : List α) (i : Nat) : NoExit (rd v i) := by
  intro msg h
  unfold rd at h
  split at h <;> cases h

theorem NoExit_wr {α : Type} (v : List α) (i : Nat) (x : α) : NoExit (wr v i x) := by
  intro msg h
  unfold wr at h
  split at h <;> cases h

theorem NoExit_rdI (v : List K) (i : Int) : NoExit (rdI v i) := by
  unfold rdI
  split
  · exact NoExit_rd _ _
  · intro msg h; cases h

theorem NoExit_forLoop {σ : Type} (n : Nat) (body : Nat → σ → Except Fault σ) (init : σ)
    (hb : ∀ i st, NoExit (body i st)) : NoExit (forLoop n body init) := by
  induction n with
  | zero => exact NoExit_ok init
  | succ n ih =>
    rw [forLoop_succ]
    exact NoExit_bind ih (fun st => hb n st)

theorem forLoop_one {σ : Type} (body : Nat → σ → Except Fault σ) (init : σ) :
    forLoop 1 body init = body 0 init := by
  rw [forLoop_succ]
  rfl

section RateFacts

variable [LinearOrderedField K]

/-! ### The function `Mk` -/

/-- The loop of `Mk` from slot `k` on: it returns 0 as soon as a scanned slot holds a zero
weight or abscissa, and otherwise adds `wts[j] * pow(absc[j], e)` for every scanned slot. -/
theorem MkLoop_spec (L : Libm K) (s : Soot K) (e : K) : ∀ (n k : Nat) (acc : K),
    k + n ≤ s.wts.length → k + n ≤ s.absc.length →
    ((∃ j, j < n ∧ (s.wts.getD (k + j) 0 = 0 ∨ s.absc.getD (k + j) 0 = 0)) →
      MkLoop L s e n k acc = .ok 0) ∧
    ((∀ j, j < n → s.wts.getD (k + j) 0 ≠ 0 ∧ s.absc.getD (k + j) 0 ≠ 0) →
      MkLoop L s e n k acc =
        .ok (acc + ∑ j in Finset.range n, s.wts.getD (k + j) 0 * L.pow (s.absc.getD (k + j) 0) e)) := by
  intro n
  induction n with
  | zero =>
    intro k acc _ _
    exact ⟨fun ⟨j, hj, _⟩ => absurd hj (Nat.not_lt_zero j), fun _ => by simp [MkLoop]⟩
  | succ n ih =>
    intro k acc hw ha
    have hkw : k < s.wts.length := by omega
    have hka : k < s.absc.length := by omega
    have rw' := rd_getD (0 : K) hkw
    have ra' := rd_getD (0 : K) hka
    obtain ⟨ih1, ih2⟩ := ih (k + 1)
      (acc + s.wts.getD k 0 * L.pow (s.absc.getD k 0) e) (by omega) (by omega)
    have step : ∀ j, k + 1 + j = k + (j + 1) := fun j => by omega
    constructor
    · rintro ⟨j, hj, hz⟩
      unfold MkLoop
      rw [rw', ok_bind]
      by_cases h1 : s.wts.getD k 0 = 0
      · rw [if_pos h1]; rfl
      · rw [if_neg h1, ra', ok_bind]
        by_cases h2 : s.absc.getD k 0 = 0
        · rw [if_pos h2]; rfl
        · rw [if_neg h2]
          simp only [ok_bind]
          rcases Nat.eq_zero_or_pos j with h0 | h0
          · subst h0
            rcases hz with hz | hz
            · exact absurd hz h1
            · exact absurd hz h2
          · exact ih1 ⟨j - 1, by omega, by
              rw [step (j - 1), show j - 1 + 1 = j by omega]; exact hz⟩
    · intro hnz
      unfold MkLoop
      have h1 := (hnz 0 (by omega)).1
      have h2 := (hnz 0 (by omega)).2
      rw [Nat.add_zero] at h1 h2
      rw [rw', ok_bind, if_neg h1, ra', ok_bind, if_neg h2]
      simp only [ok_bind]
      rw [ih2 (fun j hj => by rw [step j]; exact hnz (j + 1) (by omega)),
        Finset.sum_range_succ' _ n]
      simp only [step, Nat.add_zero]
      rw [add_assoc, add_comm (s.wts.getD k 0 * L.pow (s.absc.getD k 0) e)]

/-- C13: on node arrays that hold the first `nsvar/2` slots, `Mk(e)` returns exactly 0 if
one of these slots has weight 0 or abscissa 0, and otherwise returns the sum over
`k < nsvar/2` of `wts[k] * pow(absc[k], e)`, for every exponent `e`. -/
theorem Mk_spec (L : Libm K) (s : Soot K) (e : K) (hw : s.nsvar / 2 ≤ s.wts.length)
    (ha : s.nsvar / 2 ≤ s.absc.length) :
    ((∃ k, k < s.nsvar / 2 ∧ (s.wts.getD k 0 = 0 ∨ s.absc.getD k 0 = 0)) →
      Mk L s e = .ok 0) ∧
    ((∀ k, k < s.nsvar / 2 → s.wts.getD k 0 ≠ 0 ∧ s.absc.getD k 0 ≠ 0) →
      Mk L s e =
        .ok (∑ k in Finset.range (s.nsvar / 2), s.wts.getD k 0 * L.pow (s.absc.getD k 0) e)) := by
  obtain ⟨h1, h2⟩ := MkLoop_spec L s e (s.nsvar / 2) 0 0 (by omega) (by omega)
  simp only [Nat.zero_add, zero_add] at h1 h2
  exact ⟨h1, h2⟩

/-- Witness for C13: a four-moment sample object with the nodes `(3, 2)` and `(1, 5)`. -/
theorem Mk_spec_witness :
    ((∃ k, k < (sampleSoot ℝ "NONE" "NONE" "NONE" "NONE" 4 [1, 2, 3, 4] [3, 1] [2, 5]).nsvar / 2 ∧
        ((sampleSoot ℝ "NONE" "NONE" "NONE" "NONE" 4 [1, 2, 3, 4] [3, 1] [2, 5]).wts.getD k 0 = 0 ∨
          (sampleSoot ℝ "NONE" "NONE" "NONE" "NONE" 4 [1, 2, 3, 4] [3, 1] [2, 5]).absc.getD k 0
            = 0)) →
      Mk realLibm (sampleSoot ℝ "NONE" "NONE" "NONE" "NONE" 4 [1, 2, 3, 4] [3, 1] [2, 5]) (2 / 3)
        = .ok 0) ∧
    ((∀ k, k < (sampleSoot ℝ "NONE" "NONE" "NONE" "NONE" 4 [1, 2, 3, 4] [3, 1] [2, 5]).nsvar / 2 →
        (sampleSoot ℝ "NONE" "NONE" "NONE" "NONE" 4 [1, 2, 3, 4] [3, 1] [2, 5]).wts.getD k 0 ≠ 0 ∧
          (sampleSoot ℝ "NONE" "NONE" "NONE" "NONE" 4 [1, 2, 3, 4] [3, 1] [2, 5]).absc.getD k 0
            ≠ 0) →
      Mk realLibm (sampleSoot ℝ "NONE" "NONE" "NONE" "NONE" 4 [1, 2, 3, 4] [3, 1] [2, 5]) (2 / 3)
        = .ok (∑ k in Finset.range
            ((sampleSoot ℝ "NONE" "NONE" "NONE" "NONE" 4 [1, 2, 3, 4] [3, 1] [2, 5]).nsvar / 2),
          (sampleSoot ℝ "NONE" "NONE" "NONE" "NONE" 4 [1, 2, 3, 4] [3, 1] [2, 5]).wts.getD k 0 *
            realLibm.pow
              ((sampleSoot ℝ "NONE" "NONE" "NONE" "NONE" 4 [1, 2, 3, 4] [3, 1] [2, 5]).absc.getD k 0)
              (2 / 3))) :=
  Mk_spec realLibm (sampleSoot ℝ "NONE" "NONE" "NONE" "NONE" 4 [1, 2, 3, 4] [3, 1] [2, 5]) (2 / 3)
    (by simp [sampleSoot]) (by simp [sampleSoot])

/-! ### The site-availability factor of the HACA laws -/

/-- With the six species resolved, the common body of the HACA laws returns, and its
`alpha` is `tanh(a/log10(M1/M0) + b)` for `M0 > 0` and 1 otherwise, replaced by 1 when
negative; the site density of hydrogenated sites is `alpha * 2.3e15 * 1e4`. -/
theorem hacaRates_alpha (L : Libm K) (s : Soot K) (M0 M1 : K)
    (hc : Resolved s s.i_c2h2) (ho2 : Resolved s s.i_o2) (hh : Resolved s s.i_h)
    (hh2 : Resolved s s.i_h2) (hoh : Resolved s s.i_oh) (hw : Resolved s s.i_h2o) :
    ∃ h, hacaRates L s M0 M1 = .ok h ∧
      h.alpha =
        (if (if M0 > 0.0 then L.tanh ((33.167 - 0.0154 * s.T) / L.log10 (M1 / M0) +
              (-2.5786 + 0.00112 * s.T)) else 1.0) < 0.0 then 1.0
          else (if M0 > 0.0 then L.tanh ((33.167 - 0.0154 * s.T) / L.log10 (M1 / M0) +
              (-2.5786 + 0.00112 * s.T)) else 1.0)) ∧
      h.c_soot_H = h.alpha * 2.3e15 * 1e4 := by
  unfold hacaRates
  simp only [rdI_getD 0 hc.1 hc.2.1, rdI_getD 0 hc.1 hc.2.2.1, rdI_getD 0 ho2.1 ho2.2.1,
    rdI_getD 0 ho2.1 ho2.2.2.1, rdI_getD 0 hh.1 hh.2.1, rdI_getD 0 hh.1 hh.2.2.1,
    rdI_getD 0 hh2.1 hh2.2.1, rdI_getD 0 hh2.1 hh2.2.2.1, rdI_getD 0 hoh.1 hoh.2.1,
    rdI_getD 0 hoh.1 hoh.2.2.1, rdI_getD 0 hw.1 hw.2.1, rdI_getD 0 hw.1 hw.2.2.1, ok_bind]
  exact ⟨_, rfl, rfl, rfl⟩

/-- In exact arithmetic, with a total `tanh` bounded by 1, the factor `alpha` of the HACA
laws lies in `[0, 1]`, is 1 for `M0 <= 0`, and is 1 whenever the `tanh` value is negative. -/
theorem hacaRates_alpha_bounds (L : Libm K) (s : Soot K) (M0 M1 : K)
    (hc : Resolved s s.i_c2h2) (ho2 : Resolved s s.i_o2) (hh : Resolved s s.i_h)
    (hh2 : Resolved s s.i_h2) (hoh : Resolved s s.i_oh) (hw : Resolved s s.i_h2o)
    (ht : ∀ x, L.tanh x ≤ 1) :
    ∃ h, hacaRates L s M0 M1 = .ok h ∧ 0 ≤ h.alpha ∧ h.alpha ≤ 1 ∧
      (M0 ≤ 0 → h.alpha = 1) ∧
      (0 < M0 → L.tanh ((33.167 - 0.0154 * s.T) / L.log10 (M1 / M0) +
          (-2.5786 + 0.00112 * s.T)) < 0 → h.alpha = 1) := by
  obtain ⟨h, hh, ha, -⟩ := hacaRates_alpha L s M0 M1 hc ho2 hh hh2 hoh hw
  have z0 : (0.0 : K) = 0 := by norm_num
  have z1 : (1.0 : K) = 1 := by norm_num
  rw [z0, z1] at ha
  refine ⟨h, hh, ?_, ?_, ?_, ?_⟩
  · rw [ha]; split_ifs with h1 h2 <;>
      first | exact zero_le_one | exact not_lt.mp h1 | exact not_lt.mp (by assumption)
  · rw [ha]; split_ifs with h1 h2 <;> first | exact le_refl _ | exact ht _
  · intro h0; rw [ha, if_neg (not_lt.mpr h0)]; simp
  · intro h0 hneg; rw [ha, if_pos h0, if_pos hneg]

/-- C20 (code defect): for `M0 = 1`, `M1 = -1` the HACA laws do not guard the logarithm;
on the sample object at 1800 K both laws return, and the `alpha` they use is the `tanh`
value (or 1 when that value is negative) computed from `log10(-1)`, the logarithm of the
negative ratio `M1/M0`, for which `<cmath>` returns a NaN. -/
theorem haca_alpha_log_unguarded (L : Libm ℝ) :
    ∃ h, hacaRates L (sampleSoot ℝ "NONE" "HACA" "HACA" "NONE" 2 [1, -1] [0] [0]) 1 (-1)
        = .ok h ∧
      h.alpha =
        (if L.tanh ((33.167 - 0.0154 * 1800) / L.log10 (-1) + (-2.5786 + 0.00112 * 1800)) < 0
          then 1
          else L.tanh ((33.167 - 0.0154 * 1800) / L.log10 (-1) + (-2.5786 + 0.00112 * 1800))) ∧
      growth_HACA (sampleConsts ℝ) L
          (sampleSoot ℝ "NONE" "HACA" "HACA" "NONE" 2 [1, -1] [0] [0]) 1 (-1) =
        .ok ((h.fR5 * h.c_soot_rad + h.fR6 * (h.alpha * 2.3e15 * 1e4)) /
              (sampleConsts ℝ).Na * 2 * (sampleConsts ℝ).MW_c,
            sampleSoot ℝ "NONE" "HACA" "HACA" "NONE" 2 [1, -1] [0] [0]) ∧
      oxidation_HACA (sampleConsts ℝ) L
          (sampleSoot ℝ "NONE" "HACA" "HACA" "NONE" 2 [1, -1] [0] [0]) 1 (-1) =
        .ok ((-h.fR1 * (h.alpha * 2.3e15 * 1e4) + h.rR1 * h.c_soot_rad -
              h.fR2 * (h.alpha * 2.3e15 * 1e4) + h.rR2 * h.c_soot_rad +
              h.fR3 * h.c_soot_rad + h.fR4 * h.c_soot_rad -
              h.fR6 * (h.alpha * 2.3e15 * 1e4)) / (sampleConsts ℝ).Na * (sampleConsts ℝ).MW_c,
            sampleSoot ℝ "NONE" "HACA" "HACA" "NONE" 2 [1, -1] [0] [0]) := by
  have wf := sampleSoot_wellFormed ℝ "NONE" "HACA" "HACA" "NONE" 1 (-1) 0 0
  obtain ⟨h, hh, ha, hH⟩ := hacaRates_alpha L
    (sampleSoot ℝ "NONE" "HACA" "HACA" "NONE" 2 [1, -1] [0] [0]) 1 (-1)
    wf.c2h2 wf.o2 wf.h wf.h2 wf.oh wf.h2o
  refine ⟨h, hh, ?_, ?_, ?_⟩
  · rw [ha, show (0.0 : ℝ) = 0 by norm_num, show (1.0 : ℝ) = 1 by norm_num]
    have e : (sampleSoot ℝ "NONE" "HACA" "HACA" "NONE" 2 [1, -1] [0] [0]).T = 1800 := rfl
    rw [e, if_pos (by norm_num : (1 : ℝ) > 0), div_one]
  · unfold growth_HACA
    rw [hh, ok_bind, hH]; rfl
  · unfold oxidation_HACA
    rw [hh, ok_bind, hH]; rfl

/-! ### The dispatchers -/

theorem nucleation_LL_noExit (c : Consts K) (L : Libm K) (s : Soot K) :
    NoExit (nucleation_LL c L s) := by
  unfold nucleation_LL
  repeat' first
    | exact NoExit_pure _
    | exact NoExit_rdI _ _
    | refine NoExit_bind ?_ (fun _ => ?_)

theorem nucleation_Linstedt_noExit (c : Consts K) (L : Libm K) (s : Soot K) :
    NoExit (nucleation_Linstedt c L s) := by
  unfold nucleation_Linstedt
  repeat' first
    | exact NoExit_pure _
    | exact NoExit_rdI _ _
    | refine NoExit_bind ?_ (fun _ => ?_)

theorem set_m_dimer_noExit (c : Consts K) (L : Libm K) (s : Soot K) :
    NoExit (set_m_dimer c L s) := by
  unfold set_m_dimer
  repeat' first
    | exact NoExit_pure _
    | exact NoExit_rdI _ _
    | exact NoExit_rd _ _
    | exact NoExit_wr _ _ _
    | refine NoExit_forLoop _ _ _ (fun _ _ => ?_)
    | unfold set_m_dimer_body
    | refine NoExit_bind ?_ (fun _ => ?_)

theorem nucleation_PAH_noExit (c : Consts K) (L : Libm K) (s : Soot K) (mi wi : List K) :
    NoExit (nucleation_PAH c L s mi wi) := by
  unfold nucleation_PAH set_Ndimer
  repeat' first
    | exact NoExit_pure _
    | exact set_m_dimer_noExit _ _ _
    | exact NoExit_rd _ _
    | refine NoExit_forLoop _ _ _ (fun _ _ => ?_)
    | refine NoExit_bind ?_ (fun _ => ?_)
theorem growth_noExit (c : Consts K) (L : Libm K) (s : Soot K) (M0 M1 : K) :
    NoExit (growth_Lindstedt c L s) ∧ NoExit (growth_LL c L s M0 M1) ∧
      NoExit (hacaRates L s M0 M1) ∧ NoExit (growth_HACA c L s M0 M1) := by
  have h3 : NoExit (hacaRates L s M0 M1) := by
    unfold hacaRates
    repeat' first
      | exact NoExit_pure _
      | exact NoExit_rdI _ _
      | refine NoExit_bind ?_ (fun _ => ?_)
  refine ⟨?_, ?_, h3, ?_⟩
  · unfold growth_Lindstedt
    repeat' first
      | exact NoExit_pure _
      | exact NoExit_rdI _ _
      | refine NoExit_bind ?_ (fun _ => ?_)
  · unfold growth_LL
    repeat' first
      | exact NoExit_pure _
      | exact NoExit_rdI _ _
      | refine NoExit_bind ?_ (fun _ => ?_)
  · unfold growth_HACA
    exact NoExit_bind h3 (fun _ => NoExit_pure _)

theorem oxidation_noExit (c : Consts K) (L : Libm K) (s : Soot K) (M0 M1 : K) :
    NoExit (oxidation_LL c L s) ∧ NoExit (oxidation_Lee_Neoh c L s) ∧
      NoExit (oxidation_NSC_Neoh c L s) ∧ NoExit (oxidation_HACA c L s M0 M1) := by
  refine ⟨?_, ?_, ?_, ?_⟩
  · unfold oxidation_LL
    repeat' first
      | exact NoExit_pure _
      | exact NoExit_rdI _ _
      | refine NoExit_bind ?_ (fun _ => ?_)
  · unfold oxidation_Lee_Neoh
    repeat' first
      | exact NoExit_pure _
      | exact NoExit_rdI _ _
      | refine NoExit_bind ?_ (fun _ => ?_)
  · unfold oxidation_NSC_Neoh
    repeat' first
      | exact NoExit_pure _
      | exact NoExit_rdI _ _
      | refine NoExit_bind ?_ (fun _ => ?_)
  · unfold oxidation_HACA
    exact NoExit_bind (growth_noExit c L s M0 M1).2.2.1 (fun _ => NoExit_pure _)

/-- C12: each of the four dispatchers ends in `exit` (with its diagnostic, returning no
rate) exactly when its mechanism string is none of its recognised names, compared
exactly; and each returns 0, leaving the object as it is, when its mechanism is `NONE`. -/
theorem dispatchers_exit_iff (c : Consts K) (L : Libm K) (s : Soot K) (mi wi : List K)
    (M0 M1 m1 m2 : K) :
    ((∃ msg, getNucleationRate c L s mi wi = .error (Fault.exit msg)) ↔
        s.nucleation_mech ∉ ["NONE", "LL", "LIN", "PAH"]) ∧
      ((∃ msg, getGrowthRate c L s M0 M1 = .error (Fault.exit msg)) ↔
        s.growth_mech ∉ ["NONE", "LIN", "LL", "HACA"]) ∧
      ((∃ msg, getOxidationRate c L s M0 M1 = .error (Fault.exit msg)) ↔
        s.oxidation_mech ∉ ["NONE", "LL", "LEE_NEOH", "NSC_NEOH", "HACA"]) ∧
      ((∃ msg, getCoagulationRate c L s m1 m2 = .error (Fault.exit msg)) ↔
        s.coagulation_mech ∉ ["NONE", "LL", "FUCHS", "FRENK"]) ∧
      (s.nucleation_mech = "NONE" → getNucleationRate c L s mi wi = .ok (0, s)) ∧
      (s.growth_mech = "NONE" → getGrowthRate c L s M0 M1 = .ok (0, s)) ∧
      (s.oxidation_mech = "NONE" → getOxidationRate c L s M0 M1 = .ok (0, s)) ∧
      (s.coagulation_mech = "NONE" → getCoagulationRate c L s m1 m2 = .ok 0) := by
  have hg := growth_noExit c L s M0 M1
  have ho := oxidation_noExit c L s M0 M1
  refine ⟨?_, ?_, ?_, ?_, ?_, ?_, ?_, ?_⟩
  · unfold getNucleationRate
    simp only [List.mem_cons, List.mem_singleton, List.not_mem_nil, or_false, not_or]
    split_ifs with h1 h2 h3 h4
    · simp [h1]
    · exact ⟨fun ⟨m, h⟩ => absurd h (nucleation_LL_noExit c L s m), fun h => absurd h2 h.2.1⟩
    · exact ⟨fun ⟨m, h⟩ => absurd h (nucleation_Linstedt_noExit c L s m),
        fun h => absurd h3 h.2.2.1⟩
    · exact ⟨fun ⟨m, h⟩ => absurd h (nucleation_PAH_noExit c L s mi wi m),
        fun h => absurd h4 h.2.2.2⟩
    · exact ⟨fun _ => ⟨h1, h2, h3, h4⟩, fun _ => ⟨_, rfl⟩⟩
  · unfold getGrowthRate
    simp only [List.mem_cons, List.mem_singleton, List.not_mem_nil, or_false, not_or]
    split_ifs with h1 h2 h3 h4
    · simp [h1]
    · exact ⟨fun ⟨m, h⟩ => absurd h (hg.1 m), fun h => absurd h2 h.2.1⟩
    · exact ⟨fun ⟨m, h⟩ => absurd h (hg.2.1 m), fun h => absurd h3 h.2.2.1⟩
    · exact ⟨fun ⟨m, h⟩ => absurd h (hg.2.2.2 m), fun h => absurd h4 h.2.2.2⟩
    · exact ⟨fun _ => ⟨h1, h2, h3, h4⟩, fun _ => ⟨_, rfl⟩⟩
  · unfold getOxidationRate
    simp only [List.mem_cons, List.mem_singleton, List.not_mem_nil, or_false, not_or]
    split_ifs with h1 h2 h3 h4 h5
    · simp [h1]
    · exact ⟨fun ⟨m, h⟩ => absurd h (ho.1 m), fun h => absurd h2 h.2.1⟩
    · exact ⟨fun ⟨m, h⟩ => absurd h (ho.2.1 m), fun h => absurd h3 h.2.2.1⟩
    · exact ⟨fun ⟨m, h⟩ => absurd h (ho.2.2.1 m), fun h => absurd h4 h.2.2.2.1⟩
    · exact ⟨fun ⟨m, h⟩ => absurd h (ho.2.2.2 m), fun h => absurd h5 h.2.2.2.2⟩
    · exact ⟨fun _ => ⟨h1, h2, h3, h4, h5⟩, fun _ => ⟨_, rfl⟩⟩
  · unfold getCoagulationRate
    simp only [List.mem_cons, List.mem_singleton, List.not_mem_nil, or_false, not_or]
    split_ifs with h1 h2 h3 h4
    · simp [h1]
    · exact ⟨fun ⟨m, h⟩ => (by cases h), fun h => absurd h2 h.2.1⟩
    · exact ⟨fun ⟨m, h⟩ => (by cases h), fun h => absurd h3 h.2.2.1⟩
    · exact ⟨fun ⟨m, h⟩ => (by cases h), fun h => absurd h4 h.2.2.2⟩
    · exact ⟨fun _ => ⟨h1, h2, h3, h4⟩, fun _ => ⟨_, rfl⟩⟩
  · intro h; simp [getNucleationRate, h]
  · intro h; simp [getGrowthRate, h]
  · intro h; simp [getOxidationRate, h]
  · intro h; simp [getCoagulationRate, h]

/-! ### Construction -/

/-- The lookup of one species: the position of the first entry spelt `upper`; without
such an entry, the position of the first entry spelt `lower`; without either, `-1`. -/
theorem lookupSpecies_spec (spNames : List String) (upper lower : String) :
    (upper ∈ spNames → 0 ≤ lookupSpecies spNames upper lower ∧
        spNames[(lookupSpecies spNames upper lower).toNat]? = some upper ∧
        lookupSpecies spNames upper lower = (spNames.indexOf upper : Nat)) ∧
      (upper ∉ spNames → lower ∈ spNames → 0 ≤ lookupSpecies spNames upper lower ∧
        spNames[(lookupSpecies spNames upper lower).toNat]? = some lower ∧
        lookupSpecies spNames upper lower = (spNames.indexOf lower : Nat)) ∧
      (upper ∉ spNames → lower ∉ spNames → lookupSpecies spNames upper lower = -1) := by
  have key : ∀ x : String, x ∈ spNames →
      ((spNames.indexOf x : Nat) : Int) ≠ spNames.length ∧
        spNames[spNames.indexOf x]? = some x := by
    intro x hx
    have hlt := List.indexOf_lt_length.mpr hx
    refine ⟨by omega, ?_⟩
    rw [List.getElem?_eq_getElem hlt]
    simp
  have no : ∀ x : String, x ∉ spNames → spNames.indexOf x = spNames.length := by
    intro x hx
    exact List.indexOf_eq_length.mpr hx
  refine ⟨fun hu => ?_, fun hu hl => ?_, fun hu hl => ?_⟩
  · obtain ⟨h1, h2⟩ := key upper hu
    have e : lookupSpecies spNames upper lower = (spNames.indexOf upper : Nat) := by
      simp only [lookupSpecies, findName, if_pos h1]
    rw [e]
    exact ⟨by omega, by simpa using h2, rfl⟩
  · obtain ⟨h1, h2⟩ := key lower hl
    have e : lookupSpecies spNames upper lower = (spNames.indexOf lower : Nat) := by
      simp only [lookupSpecies, findName, no upper hu, ne_eq, not_true_eq_false, if_false,
        if_pos h1]
    rw [e]
    exact ⟨by omega, by simpa using h2, rfl⟩
  · simp only [lookupSpecies, findName, no upper hu, no lower hl, ne_eq, not_true_eq_false,
      if_false]

/-- A construction that returns stores the seven looked-up indices, the mechanisms and
the sizes it was given. -/
theorem soot_fields (p_nsvar : Nat) (spNames PAH_spNames : List String)
    (p_nC_PAH : List Int) (p_MW_sp : List K) (p_Cmin : Int) (p_rhoSoot : K)
    (nuc grw oxi coa : String) (old s : Soot K)
    (h : soot p_nsvar spNames PAH_spNames p_nC_PAH p_MW_sp p_Cmin p_rhoSoot nuc grw oxi coa
      old = .ok s) :
    s.i_c2h2 = lookupSpecies spNames "C2H2" "c2h2" ∧ s.i_o2 = lookupSpecies spNames "O2" "o2" ∧
      s.i_h = lookupSpecies spNames "H" "h" ∧ s.i_h2 = lookupSpecies spNames "H2" "h2" ∧
      s.i_oh = lookupSpecies spNames "OH" "oh" ∧ s.i_h2o = lookupSpecies spNames "H2O" "h2o" ∧
      s.i_co = lookupSpecies spNames "CO" "co" ∧
      s.nucleation_mech = nuc ∧ s.growth_mech = grw ∧ s.oxidation_mech = oxi ∧
      s.coagulation_mech = coa ∧ s.nsvar = p_nsvar := by
  unfold soot at h
  cases hp : lookupPAH spNames PAH_spNames old.i_pah with
  | error e => rw [hp] at h; cases h
  | ok v =>
    rw [hp, ok_bind] at h
    cases h
    exact ⟨rfl, rfl, rfl, rfl, rfl, rfl, rfl, rfl, rfl, rfl, rfl, rfl⟩

/-- Without PAH names the constructor returns, whatever the species list and the
mechanisms are. -/
theorem soot_no_PAH (p_nsvar : Nat) (spNames : List String)
    (p_nC_PAH : List Int) (p_MW_sp : List K) (p_Cmin : Int) (p_rhoSoot : K)
    (nuc grw oxi coa : String) (old : Soot K) :
    ∃ s, soot p_nsvar spNames [] p_nC_PAH p_MW_sp p_Cmin p_rhoSoot nuc grw oxi coa old
      = .ok s :=
  ⟨_, rfl⟩

/-- C17, as the code has it: the constructor matches the upper-case spelling of each of
the seven species or, failing that, its all-lower-case spelling, and nothing else. When it
returns, each stored index is the position of the first entry with the upper-case
spelling; without such an entry, the position of the first entry with the lower-case
spelling; without either (any mixed-case spelling included), the sentinel `-1`. -/
theorem soot_species_lookup (p_nsvar : Nat) (spNames PAH_spNames : List String)
    (p_nC_PAH : List Int) (p_MW_sp : List K) (p_Cmin : Int) (p_rhoSoot : K)
    (nuc grw oxi coa : String) (old s : Soot K)
    (h : soot p_nsvar spNames PAH_spNames p_nC_PAH p_MW_sp p_Cmin p_rhoSoot nuc grw oxi coa
      old = .ok s) :
    ∀ U l i, (U, l, i) ∈ [("C2H2", "c2h2", s.i_c2h2), ("O2", "o2", s.i_o2), ("H", "h", s.i_h),
        ("H2", "h2", s.i_h2), ("OH", "oh", s.i_oh), ("H2O", "h2o", s.i_h2o),
        ("CO", "co", s.i_co)] →
      (U ∈ spNames → 0 ≤ i ∧ spNames[i.toNat]? = some U ∧ i = (spNames.indexOf U : Nat)) ∧
      (U ∉ spNames → l ∈ spNames →
        0 ≤ i ∧ spNames[i.toNat]? = some l ∧ i = (spNames.indexOf l : Nat)) ∧
      (U ∉ spNames → l ∉ spNames → i = -1) := by
  obtain ⟨h1, h2, h3, h4, h5, h6, h7, -⟩ := soot_fields _ _ _ _ _ _ _ _ _ _ _ _ _ h
  intro U l i hm
  simp only [List.mem_cons, List.mem_singleton, List.not_mem_nil, or_false,
    Prod.mk.injEq] at hm
  rcases hm with e | e | e | e | e | e | e
  · obtain ⟨rfl, rfl, rfl⟩ := e
    rw [h1]
    exact lookupSpecies_spec spNames "C2H2" "c2h2"
  · obtain ⟨rfl, rfl, rfl⟩ := e
    rw [h2]
    exact lookupSpecies_spec spNames "O2" "o2"
  · obtain ⟨rfl, rfl, rfl⟩ := e
    rw [h3]
    exact lookupSpecies_spec spNames "H" "h"
  · obtain ⟨rfl, rfl, rfl⟩ := e
    rw [h4]
    exact lookupSpecies_spec spNames "H2" "h2"
  · obtain ⟨rfl, rfl, rfl⟩ := e
    rw [h5]
    exact lookupSpecies_spec spNames "OH" "oh"
  · obtain ⟨rfl, rfl, rfl⟩ := e
    rw [h6]
    exact lookupSpecies_spec spNames "H2O" "h2o"
  · obtain ⟨rfl, rfl, rfl⟩ := e
    rw [h7]
    exact lookupSpecies_spec spNames "CO" "co"

/-- Witness for C17: a species list with the lower-case names `oh` and `c2h2`. -/
theorem soot_species_lookup_witness :
    ∃ s, soot 2 ["oh", "c2h2"] [] [] [17.007, 26.038] 100 (1850 : ℚ) "LL" "NONE" "NONE" "NONE"
        (sampleSoot ℚ "" "" "" "" 0 [] [] []) = .ok s ∧
      ∀ U l i, (U, l, i) ∈ [("C2H2", "c2h2", s.i_c2h2), ("O2", "o2", s.i_o2),
          ("H", "h", s.i_h), ("H2", "h2", s.i_h2), ("OH", "oh", s.i_oh),
          ("H2O", "h2o", s.i_h2o), ("CO", "co", s.i_co)] →
        (U ∈ ["oh", "c2h2"] → 0 ≤ i ∧ ["oh", "c2h2"][i.toNat]? = some U ∧
          i = ((["oh", "c2h2"] : List String).indexOf U : Nat)) ∧
        (U ∉ ["oh", "c2h2"] → l ∈ ["oh", "c2h2"] → 0 ≤ i ∧ ["oh", "c2h2"][i.toNat]? = some l ∧
          i = ((["oh", "c2h2"] : List String).indexOf l : Nat)) ∧
        (U ∉ ["oh", "c2h2"] → l ∉ ["oh", "c2h2"] → i = -1) :=
  ⟨_, rfl, soot_species_lookup 2 ["oh", "c2h2"] [] [] [17.007, 26.038] 100 (1850 : ℚ)
    "LL" "NONE" "NONE" "NONE" (sampleSoot ℚ "" "" "" "" 0 [] [] []) _ rfl⟩

/-- Counterexample for C17: the names `Oh`, `c2H2` and `H2o` equal `OH`, `C2H2` and `H2O`
up to letter case, yet the constructor stores the sentinel `-1` for all three. -/
theorem soot_lookup_mixed_case :
    ∃ s, soot 2 ["Oh", "c2H2", "H2o"] [] [] [17.007, 26.038, 18.015] 100 (1850 : ℚ)
        "LL" "NONE" "NONE" "NONE" (sampleSoot ℚ "" "" "" "" 0 [] [] []) = .ok s ∧
      s.i_oh = -1 ∧ s.i_c2h2 = -1 ∧ s.i_h2o = -1 :=
  ⟨_, rfl, by decide, by decide, by decide⟩

/-- C18 (code defect): the constructor checks no required species. With the species list
`O2` alone and the nucleation law `LL`, which reads C2H2 and H2, construction returns an
object whose indices `i_c2h2` and `i_h2` are the sentinel `-1`; the missing species shows
only at the first rate call, which reads outside the species vectors. The same holds for
the oxidation law `LL` without O2. -/
theorem soot_missing_required_species (L : Libm ℚ) :
    (∃ s, soot 2 ["O2"] [] [] [31.998] 100 (1850 : ℚ) "LL" "NONE" "NONE" "NONE"
        (sampleSoot ℚ "" "" "" "" 0 [] [] []) = .ok s ∧
      s.nucleation_mech = "LL" ∧ s.i_c2h2 = -1 ∧ s.i_h2 = -1 ∧
      getNucleationRate (sampleConsts ℚ) L s [] [] = .error Fault.outOfRange) ∧
    (∃ s, soot 2 ["C2H2"] [] [] [26.038] 100 (1850 : ℚ) "NONE" "NONE" "LL" "NONE"
        (sampleSoot ℚ "" "" "" "" 0 [] [] []) = .ok s ∧
      s.oxidation_mech = "LL" ∧ s.i_o2 = -1 ∧
      getOxidationRate (sampleConsts ℚ) L s 1 1 = .error Fault.outOfRange) :=
  ⟨⟨_, rfl, rfl, by decide, by decide, rfl⟩, ⟨_, rfl, rfl, by decide, rfl⟩⟩

/-! ### Gas sources of the oxidation block -/

set_option maxHeartbeats 1000000 in
/-- The function `set_gasSootSources` on an object whose species were all resolved, with
the condensation rate `Cnd1 = 0`: the CO entry is `X1 * rCO_rSoot_go / rho`, and the H, OH
and O2 entries are `X1 * rH_rSoot_go / rho`, `X1 * rOH_rSoot_go / rho` and
`X1 * rO2_rSoot_go / rho` when no later assignment of the oxidation block hits their
index. -/
theorem set_gasSootSources_oxi (s : Soot K) (N1 Cnd1 G1 X1 : K)
    (hc : Resolved s s.i_c2h2) (ho2 : Resolved s s.i_o2) (hh : Resolved s s.i_h)
    (hh2 : Resolved s s.i_h2) (hoh : Resolved s s.i_oh) (hco : Resolved s s.i_co)
    (hp : ∀ i ∈ s.i_pah, Resolved s i) (hr : s.i_pah.length ≤ s.rPAH_rSoot_ncnd.length) :
    ∃ g, set_gasSootSources s N1 Cnd1 G1 X1 = .ok { s with gasSootSources := g } ∧
      (Cnd1 = 0 →
        g[s.i_co.toNat]? = some (X1 * s.rCO_rSoot_go / s.rho) ∧
        (s.i_h ≠ s.i_co → g[s.i_h.toNat]? = some (X1 * s.rH_rSoot_go / s.rho)) ∧
        (s.i_oh ≠ s.i_h → s.i_oh ≠ s.i_co →
          g[s.i_oh.toNat]? = some (X1 * s.rOH_rSoot_go / s.rho)) ∧
        (s.i_o2 ≠ s.i_oh → s.i_o2 ≠ s.i_h → s.i_o2 ≠ s.i_co →
          g[s.i_o2.toNat]? = some (X1 * s.rO2_rSoot_go / s.rho))) := by
  obtain ⟨c0, -, -, cl⟩ := hc
  obtain ⟨o0, -, -, ol⟩ := ho2
  obtain ⟨h0, -, -, hl⟩ := hh
  obtain ⟨d0, -, -, dl⟩ := hh2
  obtain ⟨q0, -, -, ql⟩ := hoh
  obtain ⟨p0, -, -, pl⟩ := hco
  obtain ⟨g1, e1⟩ : ∃ g1, g1 = s.gasSootSources.set s.i_c2h2.toNat
    (N1 * s.rC2H2_rSoot_n / s.rho) := ⟨_, rfl⟩
  have l1 : g1.length = s.gasSootSources.length := by rw [e1, List.length_set]
  obtain ⟨g2, e2⟩ : ∃ g2, g2 = g1.set s.i_h2.toNat (N1 * s.rH2_rSoot_ncnd / s.rho) := ⟨_, rfl⟩
  have l2 : g2.length = s.gasSootSources.length := by rw [e2, List.length_set, l1]
  obtain ⟨g3, hg3, l3, -⟩ := pahWrite_ok s N1 hp hr g2 l2
  rw [l2] at l3
  obtain ⟨g4, e4⟩ : ∃ g4, g4 = g3.set s.i_c2h2.toNat
    (g3.getD s.i_c2h2.toNat 0 + G1 * s.rC2H2_rSoot_go / s.rho) := ⟨_, rfl⟩
  have l4 : g4.length = s.gasSootSources.length := by rw [e4, List.length_set, l3]
  obtain ⟨g5, e5⟩ : ∃ g5, g5 = g4.set s.i_h2.toNat
    (g4.getD s.i_h2.toNat 0 + G1 * s.rH2_rSoot_go / s.rho) := ⟨_, rfl⟩
  have l5 : g5.length = s.gasSootSources.length := by rw [e5, List.length_set, l4]
  obtain ⟨g6, e6⟩ : ∃ g6, g6 = g5.set s.i_o2.toNat (X1 * s.rO2_rSoot_go / s.rho) := ⟨_, rfl⟩
  have l6 : g6.length = s.gasSootSources.length := by rw [e6, List.length_set, l5]
  obtain ⟨g7, e7⟩ : ∃ g7, g7 = g6.set s.i_oh.toNat (X1 * s.rOH_rSoot_go / s.rho) := ⟨_, rfl⟩
  have l7 : g7.length = s.gasSootSources.length := by rw [e7, List.length_set, l6]
  obtain ⟨g8, e8⟩ : ∃ g8, g8 = g7.set s.i_h.toNat (X1 * s.rH_rSoot_go / s.rho) := ⟨_, rfl⟩
  have l8 : g8.length = s.gasSootSources.length := by rw [e8, List.length_set, l7]
  obtain ⟨g9, e9⟩ : ∃ g9, g9 = g8.set s.i_co.toNat (X1 * s.rCO_rSoot_go / s.rho) := ⟨_, rfl⟩
  have l9 : g9.length = s.gasSootSources.length := by rw [e9, List.length_set, l8]
  obtain ⟨g10, e10⟩ : ∃ g10, g10 = g9.set s.i_h2.toNat
    (g9.getD s.i_h2.toNat 0 + Cnd1 * s.rH2_rSoot_ncnd / s.rho) := ⟨_, rfl⟩
  have l10 : g10.length = s.gasSootSources.length := by rw [e10, List.length_set, l9]
  obtain ⟨g11, hg11, l11, z11⟩ := pahAdd_ok s Cnd1 hp hr g10 l10
  have b1 : s.i_h2.toNat < g1.length := l1 ▸ dl
  have b3 : s.i_c2h2.toNat < g3.length := l3 ▸ cl
  have b4 : s.i_h2.toNat < g4.length := l4 ▸ dl
  have b5 : s.i_o2.toNat < g5.length := l5 ▸ ol
  have b6 : s.i_oh.toNat < g6.length := l6 ▸ ql
  have b7 : s.i_h.toNat < g7.length := l7 ▸ hl
  have b8 : s.i_co.toNat < g8.length := l8 ▸ pl
  have b9 : s.i_h2.toNat < g9.length := l9 ▸ dl
  have s1 := wrI_ok (N1 * s.rC2H2_rSoot_n / s.rho) c0 cl
  have s2 := wrI_ok (N1 * s.rH2_rSoot_ncnd / s.rho) d0 b1
  have s4 := addI_ok (G1 * s.rC2H2_rSoot_go / s.rho) c0 b3
  have s5 := addI_ok (G1 * s.rH2_rSoot_go / s.rho) d0 b4
  have s6 := wrI_ok (X1 * s.rO2_rSoot_go / s.rho) o0 b5
  have s7 := wrI_ok (X1 * s.rOH_rSoot_go / s.rho) q0 b6
  have s8 := wrI_ok (X1 * s.rH_rSoot_go / s.rho) h0 b7
  have s9 := wrI_ok (X1 * s.rCO_rSoot_go / s.rho) p0 b8
  have s10 := addI_ok (Cnd1 * s.rH2_rSoot_ncnd / s.rho) d0 b9
  rw [← e1] at s1
  rw [← e2] at s2
  rw [← e4] at s4
  rw [← e5] at s5
  rw [← e6] at s6
  rw [← e7] at s7
  rw [← e8] at s8
  rw [← e9] at s9
  rw [← e10] at s10
  refine ⟨g11, ?_, ?_⟩
  · unfold set_gasSootSources
    simp only [s1, s2, hg3, s4, s5, s6, s7, s8, s9, s10, hg11, ok_bind]
    rfl
  · intro hC
    have k10 : ∀ j : Nat, g10[j]? = g9[j]? := by
      intro j
      rw [e10, hC, zero_mul, zero_div, add_zero, List.getElem?_set]
      split
      · rename_i e
        subst e
        simp [b9, List.getD_eq_getElem?_getD, List.getElem?_eq_getElem b9]
      · rfl
    have k11 : ∀ j : Nat, g11[j]? = g9[j]? := fun j => (z11 hC j).trans (k10 j)
    refine ⟨?_, fun n1 => ?_, fun n1 n2 => ?_, fun n1 n2 n3 => ?_⟩
    · rw [k11, e9, List.getElem?_set_self b8]
    · rw [k11, e9, List.getElem?_set_ne (Ne.symm (toNat_ne h0 p0 n1)), e8,
        List.getElem?_set_self b7]
    · rw [k11, e9, List.getElem?_set_ne (Ne.symm (toNat_ne q0 p0 n2)), e8,
        List.getElem?_set_ne (Ne.symm (toNat_ne q0 h0 n1)), e7, List.getElem?_set_self b6]
    · rw [k11, e9, List.getElem?_set_ne (Ne.symm (toNat_ne o0 p0 n3)), e8,
        List.getElem?_set_ne (Ne.symm (toNat_ne o0 h0 n2)), e7,
        List.getElem?_set_ne (Ne.symm (toNat_ne o0 q0 n1)), e6, List.getElem?_set_self b5]

/-! ### The rate calls inside `setSrc` -/

set_option maxHeartbeats 1000000 in
/-- The assembly of the source terms for a nucleation mechanism other than `PAH`, up to
the call of `set_gasSootSources`: the entries of `src`, and the four arguments of the
call. -/
theorem assembleSrc_eq (c : Consts K) (L : Libm K) (s : Soot K) (Jnuc Kgrw Koxi : K)
    (hn : 2 ≤ s.nsvar) (hsrc : s.nsvar ≤ s.src.length) (hw : s.nsvar / 2 ≤ s.wts.length)
    (ha : s.absc.length = s.wts.length) (hnuc : s.nucleation_mech ≠ "PAH")
    (β : K → K → K) (hβ : ∀ m1 m2, getCoagulationRate c L s m1 m2 = .ok (β m1 m2)) :
    ∃ (src : List K) (mk coa : Nat → K),
      assembleSrc c L s Jnuc Kgrw Koxi =
        set_gasSootSources { s with src := src }
          (L.pow (s.Cmin * c.MW_c / c.Na) (1 : Nat) * Jnuc) 0.0
          (Kgrw * Acoef L s * (1 : Nat) * mk 1) (-Koxi * Acoef L s * (1 : Nat) * mk 1) ∧
      (∀ k : Nat, Mk L s (k - 1.0 / 3.0) = .ok (mk k)) ∧
      (∀ k : Nat, McoaEntry c L s k = .ok (coa k)) ∧
      (∀ k, k < s.nsvar → src[k]? = some (L.pow (s.Cmin * c.MW_c / c.Na) k * Jnuc + 0.0 +
        Kgrw * Acoef L s * k * mk k + -Koxi * Acoef L s * k * mk k + coa k)) := by
  have hmk : ∀ k : Nat, ∃ v, Mk L s (k - 1.0 / 3.0) = .ok v :=
    fun k => Mk_ok L s _ hw (by omega)
  choose mk hmk using hmk
  have hcoa := fun k => McoaEntry_val c L s β hβ k ha.symm
  obtain ⟨coa, hcoa'⟩ : ∃ coa : Nat → K, ∀ k, McoaEntry c L s k = .ok (coa k) := ⟨_, hcoa⟩
  have tg := tabulate_ok (MgrwEntry L s Kgrw) _ (List.range s.nsvar)
    (fun k _ => MgrwEntry_val L s Kgrw (mk k) k (hmk k))
  have tx := tabulate_ok (MoxiEntry L s Koxi) _ (List.range s.nsvar)
    (fun k _ => MoxiEntry_val L s Koxi (mk k) k (hmk k))
  have tc := tabulate_ok (McoaEntry c L s) coa (List.range s.nsvar) (fun k _ => hcoa' k)
  obtain ⟨src, hsrc1, -, hsrc3⟩ := srcLoop_ok s.nsvar
    (fun (k : Nat) => L.pow (s.Cmin * c.MW_c / c.Na) (k : K) * Jnuc) (fun _ => (0.0 : K))
    (fun k => Kgrw * Acoef L s * k * mk k) (fun k => -Koxi * Acoef L s * k * mk k) coa
    s.src hsrc
  refine ⟨src, mk, coa, ?_, hmk, hcoa', hsrc3⟩
  unfold assembleSrc
  dsimp only
  rw [if_neg hnuc]
  simp only [pure, Except.pure, ok_bind, tg, tx, tc, hsrc1, rd_map_range _ s.nsvar 1 hn]

/-- The first half of `setSrc`: once the inversion returns `nodes`, the clamping loop
returns `(w, a)` and the three rate calls return `J`, `G`, `X` and set the ratios
`n1 .. o4`, the function continues with `assembleSrc` on the object with these nodes and
ratios. -/
theorem setSrc_rates (c : Consts K) (L : Libm K) (wheeler : Wheeler K) (s : Soot K)
    (hM : 2 ≤ s.sootvar.length) (nodes : Nodes K) (w a : List K)
    (hnodes : getWtsAbs wheeler s.nsvar s.sootvar s.wts s.absc = .ok nodes)
    (hclamp : forLoop nodes.wts.length clampBody (nodes.wts, nodes.absc) = .ok (w, a))
    (J G X n1 n2 r1 r2 o1 o2 o3 o4 : K)
    (hJ : getNucleationRate c L { s with wts := w, absc := a } a w =
      .ok (J, { s with wts := w, absc := a, rC2H2_rSoot_n := n1, rH2_rSoot_ncnd := n2 }))
    (hG : getGrowthRate c L
        { s with wts := w, absc := a, rC2H2_rSoot_n := n1, rH2_rSoot_ncnd := n2 }
        (s.sootvar.getD 0 0) (s.sootvar.getD 1 0) =
      .ok (G, { s with
        wts := w, absc := a, rC2H2_rSoot_n := n1, rH2_rSoot_ncnd := n2
        rC2H2_rSoot_go := r1, rH2_rSoot_go := r2 }))
    (hX : getOxidationRate c L
        { s with
          wts := w, absc := a, rC2H2_rSoot_n := n1, rH2_rSoot_ncnd := n2
          rC2H2_rSoot_go := r1, rH2_rSoot_go := r2 }
        (s.sootvar.getD 0 0) (s.sootvar.getD 1 0) =
      .ok (X, { s with
        wts := w, absc := a, rC2H2_rSoot_n := n1, rH2_rSoot_ncnd := n2
        rC2H2_rSoot_go := r1, rH2_rSoot_go := r2
        rO2_rSoot_go := o1, rOH_rSoot_go := o2, rH_rSoot_go := o3, rCO_rSoot_go := o4 })) :
    setSrc c L wheeler s = assembleSrc c L
      { s with
        wts := w, absc := a, rC2H2_rSoot_n := n1, rH2_rSoot_ncnd := n2
        rC2H2_rSoot_go := r1, rH2_rSoot_go := r2
        rO2_rSoot_go := o1, rOH_rSoot_go := o2, rH_rSoot_go := o3, rCO_rSoot_go := o4 }
      J G X := by
  have hM0 : rd s.sootvar 0 = .ok (s.sootvar.getD 0 0) := rd_getD 0 (by omega)
  have hM1 : rd s.sootvar 1 = .ok (s.sootvar.getD 1 0) := rd_getD 0 (by omega)
  unfold setSrc
  dsimp only
  rw [hnodes, ok_bind, hclamp, ok_bind]
  dsimp only
  rw [hJ, ok_bind]
  dsimp only
  rw [hM0, hM1, ok_bind, ok_bind, hG, ok_bind]
  dsimp only
  rw [ok_bind, ok_bind, hX, ok_bind]

/-- The nucleation laws `LL` and `LIN` on resolved C2H2 and H2: the rate does not depend
on the node arrays, and the two nucleation ratios are set to `-MW_C2H2/(2 MW_c)` and
`MW_H2/(2 MW_c)`. -/
theorem getNucleationRate_ok (c : Consts K) (L : Libm K) (s : Soot K)
    (hc : Resolved s s.i_c2h2) (hh2 : Resolved s s.i_h2)
    (hn : s.nucleation_mech = "LL" ∨ s.nucleation_mech = "LIN") :
    ∃ J, ∀ w a mi wi, getNucleationRate c L { s with wts := w, absc := a } mi wi =
      .ok (J, { s with
        wts := w, absc := a
        rC2H2_rSoot_n := -(s.MW_sp.getD s.i_c2h2.toNat 0) / (2 * c.MW_c)
        rH2_rSoot_ncnd := s.MW_sp.getD s.i_h2.toNat 0 / (2 * c.MW_c) }) := by
  rcases hn with h | h
  · refine ⟨0.1e5 * L.exp (-21100 / s.T) *
      (s.rho * s.yi.getD s.i_c2h2.toNat 0 / s.MW_sp.getD s.i_c2h2.toNat 0) * 2 * c.Na / s.Cmin,
      fun w a mi wi => ?_⟩
    have e : getNucleationRate c L { s with wts := w, absc := a } mi wi =
        nucleation_LL c L { s with wts := w, absc := a } := by
      simp [getNucleationRate, h]
    rw [e]
    unfold nucleation_LL
    simp only [rdI_getD 0 hc.1 hc.2.1, rdI_getD 0 hc.1 hc.2.2.1, rdI_getD 0 hh2.1 hh2.2.2.1,
      ok_bind]
    rfl
  · refine ⟨0.63e4 * L.exp (-21100 / s.T) *
      (s.rho * s.yi.getD s.i_c2h2.toNat 0 / s.MW_sp.getD s.i_c2h2.toNat 0) * 2 * c.Na / s.Cmin,
      fun w a mi wi => ?_⟩
    have e : getNucleationRate c L { s with wts := w, absc := a } mi wi =
        nucleation_Linstedt c L { s with wts := w, absc := a } := by
      simp [getNucleationRate, h]
    rw [e]
    unfold nucleation_Linstedt
    simp only [rdI_getD 0 hc.1 hc.2.1, rdI_getD 0 hc.1 hc.2.2.1, rdI_getD 0 hh2.1 hh2.2.2.1,
      ok_bind]
    rfl

/-- The oxidation law `LL` on resolved O2 and CO: the rate, and the two ratios it sets;
the ratios of OH and H keep the values they had. -/
theorem oxidation_LL_ok (c : Consts K) (L : Libm K) (s : Soot K)
    (ho2 : Resolved s s.i_o2) (hco : Resolved s s.i_co) :
    oxidation_LL c L s = .ok
      (0.1e5 * L.sqrt s.T * L.exp (-19680.0 / s.T) *
          (s.rho * s.yi.getD s.i_o2.toNat 0 / s.MW_sp.getD s.i_o2.toNat 0) * c.MW_c,
        { s with
          rO2_rSoot_go := -0.5 * s.MW_sp.getD s.i_o2.toNat 0 / c.MW_c
          rCO_rSoot_go := s.MW_sp.getD s.i_co.toNat 0 / c.MW_c }) := by
  unfold oxidation_LL
  simp only [rdI_getD 0 ho2.1 ho2.2.1, rdI_getD 0 ho2.1 ho2.2.2.1, rdI_getD 0 hco.1 hco.2.2.1,
    ok_bind]
  rfl

/-! ### Nucleation alone -/

/-- Without coagulation every entry `Mcoa[k]` is 0. -/
theorem McoaEntry_NONE (c : Consts K) (L : Libm K) (s : Soot K) (k : Nat)
    (hlen : s.wts.length = s.absc.length) (hcoa : s.coagulation_mech = "NONE") :
    McoaEntry c L s k = .ok 0 := by
  rw [McoaEntry_val c L s (fun _ _ => 0)
    (fun m1 m2 => getCoagulationRate_NONE c L s m1 m2 hcoa) k hlen]
  simp

set_option maxHeartbeats 1000000 in
/-- C11: with only nucleation active under an acetylene law (`LL` or `LIN`; growth,
oxidation and coagulation `NONE`) and a `pow` that returns the `k`-th power for the
exponent `k`, `setSrc` returns on every well-formed object and
`src[k] = m_nuc^k * Jnuc` for every `k < nsvar`, where `m_nuc = Cmin * MW_c / Na` and
`Jnuc` is the rate `getNucleationRate` returns (for every pair of node arrays); in
particular `src[0] = Jnuc` and `src[1] = m_nuc * Jnuc`. -/
theorem setSrc_nucleation_only (c : Consts K) (L : Libm K) (wheeler : Wheeler K)
    (s : Soot K) (hwf : WellFormed s) (hpow : ∀ (x : K) (n : Nat), L.pow x n = x ^ n)
    (hnuc : s.nucleation_mech = "LL" ∨ s.nucleation_mech = "LIN")
    (hgrw : s.growth_mech = "NONE") (hoxi : s.oxidation_mech = "NONE")
    (hcoa : s.coagulation_mech = "NONE") :
    ∃ (s' : Soot K) (Jnuc : K), setSrc c L wheeler s = .ok s' ∧
      (∀ mi wi, ∃ sn, getNucleationRate c L s mi wi = .ok (Jnuc, sn)) ∧
      (∀ k : Nat, k < s.nsvar → s'.src[k]? = some ((s.Cmin * c.MW_c / c.Na) ^ k * Jnuc)) ∧
      s'.src[0]? = some Jnuc ∧ s'.src[1]? = some (s.Cmin * c.MW_c / c.Na * Jnuc) := by
  obtain ⟨nodes, hnodes, hlw, hla⟩ := getWtsAbs_ok wheeler s.nsvar s.sootvar s.wts s.absc
    hwf.nsvar_even hwf.nsvar_ge hwf.sootvar_len hwf.wts_len
    (by rw [hwf.absc_len]; exact hwf.wts_len)
  obtain ⟨w, a, hclamp, hw, ha, -, -⟩ := clamp_ok nodes.wts nodes.absc
    (by rw [hla, hlw, hwf.absc_len])
  have hwl : w.length = s.wts.length := by rw [hw, hlw]
  have hal : a.length = w.length := by rw [ha, hla, hw, hlw, hwf.absc_len]
  obtain ⟨J, hJ⟩ := getNucleationRate_ok c L s hwf.c2h2 hwf.h2 hnuc
  have heq := setSrc_rates c L wheeler s
    (by have := hwf.sootvar_len; have := hwf.nsvar_ge; omega) nodes w a hnodes hclamp
    J 0 0 _ _ s.rC2H2_rSoot_go s.rH2_rSoot_go s.rO2_rSoot_go s.rOH_rSoot_go s.rH_rSoot_go
    s.rCO_rSoot_go (hJ w a a w)
    (getGrowthRate_NONE c L _ _ _ hgrw) (getOxidationRate_NONE c L _ _ _ hoxi)
  obtain ⟨src, g, mk, coa, hok, -, hcoa', hsrc, -, -⟩ := assembleSrc_spec c L
    { s with
      wts := w, absc := a
      rC2H2_rSoot_n := -(s.MW_sp.getD s.i_c2h2.toNat 0) / (2 * c.MW_c)
      rH2_rSoot_ncnd := s.MW_sp.getD s.i_h2.toNat 0 / (2 * c.MW_c) } J 0 0
    hwf.nsvar_ge hwf.src_len (by have := hwf.wts_len; show s.nsvar / 2 ≤ w.length; omega) hal
    hwf.c2h2 hwf.o2 hwf.h hwf.h2 hwf.oh hwf.co hwf.pah hwf.rPAH_len
    (by show s.nucleation_mech ≠ "PAH"; rcases hnuc with h | h <;> rw [h] <;> decide)
    (fun _ _ => 0) (fun m1 m2 => getCoagulationRate_NONE c L _ m1 m2 hcoa)
  have hcoa0 : ∀ k, coa k = 0 := by
    intro k
    have hval := (McoaEntry_NONE c L
      { s with
        wts := w, absc := a
        rC2H2_rSoot_n := -(s.MW_sp.getD s.i_c2h2.toNat 0) / (2 * c.MW_c)
        rH2_rSoot_ncnd := s.MW_sp.getD s.i_h2.toNat 0 / (2 * c.MW_c) } k hal.symm
      hcoa).symm.trans (hcoa' k)
    exact (Except.ok.inj hval).symm
  have hk : ∀ k : Nat, k < s.nsvar →
      src[k]? = some ((s.Cmin * c.MW_c / c.Na) ^ k * J) := by
    intro k hk
    have h1 := hsrc k hk
    rw [hcoa0 k] at h1
    have h2 : L.pow (s.Cmin * c.MW_c / c.Na) (k : K) = (s.Cmin * c.MW_c / c.Na) ^ k :=
      hpow _ k
    rw [h1]
    show some (L.pow (s.Cmin * c.MW_c / c.Na) (k : K) * J + 0.0 + 0 * _ * k * mk k +
      -0 * _ * k * mk k + 0) = _
    rw [h2]
    norm_num
  refine ⟨_, J, heq.trans hok, fun mi wi => ⟨_, hJ s.wts s.absc mi wi⟩, hk, ?_, ?_⟩
  · have := hk 0 (by have := hwf.nsvar_ge; omega)
    simpa using this
  · have := hk 1 hwf.nsvar_ge
    simpa using this

/-- Witness for C11: the sample object with the nucleation law `LL` alone. -/
theorem setSrc_nucleation_only_witness :
    ∃ (s' : Soot ℝ) (Jnuc : ℝ),
      setSrc (sampleConsts ℝ) realLibm (fun _ _ _ => (0, 0))
        (sampleSoot ℝ "LL" "NONE" "NONE" "NONE" 2 [1, 2] [0] [0]) = .ok s' ∧
      (∀ mi wi, ∃ sn, getNucleationRate (sampleConsts ℝ) realLibm
        (sampleSoot ℝ "LL" "NONE" "NONE" "NONE" 2 [1, 2] [0] [0]) mi wi = .ok (Jnuc, sn)) ∧
      (∀ k : Nat, k < 2 →
        s'.src[k]? = some ((100 * 12.011 / 6.02214086e26) ^ k * Jnuc)) ∧
      s'.src[0]? = some Jnuc ∧ s'.src[1]? = some (100 * 12.011 / 6.02214086e26 * Jnuc) :=
  setSrc_nucleation_only (sampleConsts ℝ) realLibm (fun _ _ _ => (0, 0))
    (sampleSoot ℝ "LL" "NONE" "NONE" "NONE" 2 [1, 2] [0] [0])
    (sampleSoot_wellFormed ℝ _ _ _ _ 1 2 0 0) (fun x n => Real.rpow_natCast x n)
    (Or.inl rfl) rfl rfl rfl

/-! ### Oxidation alone -/

set_option maxHeartbeats 1000000 in
/-- What `setSrc` computes with the oxidation law `LL` alone, once the inversion and the
clamping loop leave the nodes `(w, a)`: with `X1 = -Koxi * Acoef * Mk(2/3)` the moment-1
source is `X1`, the CO and O2 sources are `X1` times the ratios `oxidation_LL` has just
set, over `rho`, and the OH and H sources are `X1` times the ratios `rOH_rSoot_go`,
`rH_rSoot_go` the object held before the call, over `rho`. -/
theorem setSrc_oxidation_LL (c : Consts K) (L : Libm K) (wheeler : Wheeler K) (s : Soot K)
    (hwf : WellFormed s) (nodes : Nodes K) (w a : List K)
    (hnodes : getWtsAbs wheeler s.nsvar s.sootvar s.wts s.absc = .ok nodes)
    (hclamp : forLoop nodes.wts.length clampBody (nodes.wts, nodes.absc) = .ok (w, a))
    (hwl : w.length = s.wts.length) (hal : a.length = w.length)
    (hnuc : s.nucleation_mech = "NONE") (hgrw : s.growth_mech = "NONE")
    (hoxi : s.oxidation_mech = "LL") (hcoa : s.coagulation_mech = "NONE") :
    ∃ (s' : Soot K) (mk1 X1 : K), setSrc c L wheeler s = .ok s' ∧
      Mk L { s with wts := w, absc := a } (2 / 3) = .ok mk1 ∧
      X1 = -(0.1e5 * L.sqrt s.T * L.exp (-19680.0 / s.T) *
          (s.rho * s.yi.getD s.i_o2.toNat 0 / s.MW_sp.getD s.i_o2.toNat 0) * c.MW_c) *
        Acoef L s * mk1 ∧
      s'.src[1]? = some X1 ∧
      s'.gasSootSources[s.i_co.toNat]? =
        some (X1 * (s.MW_sp.getD s.i_co.toNat 0 / c.MW_c) / s.rho) ∧
      (s.i_h ≠ s.i_co → s'.gasSootSources[s.i_h.toNat]? = some (X1 * s.rH_rSoot_go / s.rho)) ∧
      (s.i_oh ≠ s.i_h → s.i_oh ≠ s.i_co →
        s'.gasSootSources[s.i_oh.toNat]? = some (X1 * s.rOH_rSoot_go / s.rho)) ∧
      (s.i_o2 ≠ s.i_oh → s.i_o2 ≠ s.i_h → s.i_o2 ≠ s.i_co →
        s'.gasSootSources[s.i_o2.toNat]? =
          some (X1 * (-0.5 * s.MW_sp.getD s.i_o2.toNat 0 / c.MW_c) / s.rho)) := by
  have hX := oxidation_LL_ok c L { s with wts := w, absc := a } hwf.o2 hwf.co
  have hX' : getOxidationRate c L { s with wts := w, absc := a }
      (s.sootvar.getD 0 0) (s.sootvar.getD 1 0) = oxidation_LL c L { s with wts := w, absc := a } := by
    simp [getOxidationRate, hoxi]
  have heq := setSrc_rates c L wheeler s
    (by have := hwf.sootvar_len; have := hwf.nsvar_ge; omega) nodes w a hnodes hclamp
    0 0 _ s.rC2H2_rSoot_n s.rH2_rSoot_ncnd s.rC2H2_rSoot_go s.rH2_rSoot_go
    _ s.rOH_rSoot_go s.rH_rSoot_go _
    (getNucleationRate_NONE c L _ _ _ hnuc) (getGrowthRate_NONE c L _ _ _ hgrw)
    (hX'.trans hX)
  obtain ⟨src, mk, coa, hok, hmk, hcoa', hsrc⟩ := assembleSrc_eq c L
    { s with
      wts := w, absc := a
      rO2_rSoot_go := -0.5 * s.MW_sp.getD s.i_o2.toNat 0 / c.MW_c
      rCO_rSoot_go := s.MW_sp.getD s.i_co.toNat 0 / c.MW_c } 0 0
    (0.1e5 * L.sqrt s.T * L.exp (-19680.0 / s.T) *
      (s.rho * s.yi.getD s.i_o2.toNat 0 / s.MW_sp.getD s.i_o2.toNat 0) * c.MW_c)
    hwf.nsvar_ge hwf.src_len (by have := hwf.wts_len; show s.nsvar / 2 ≤ w.length; omega) hal
    (by show s.nucleation_mech ≠ "PAH"; rw [hnuc]; decide)
    (fun _ _ => 0) (fun m1 m2 => getCoagulationRate_NONE c L _ m1 m2 hcoa)
  have hcoa0 : coa 1 = 0 := by
    have hval := (McoaEntry_NONE c L
      { s with
        wts := w, absc := a
        rO2_rSoot_go := -0.5 * s.MW_sp.getD s.i_o2.toNat 0 / c.MW_c
        rCO_rSoot_go := s.MW_sp.getD s.i_co.toNat 0 / c.MW_c } 1 hal.symm
      hcoa).symm.trans (hcoa' 1)
    exact (Except.ok.inj hval).symm
  obtain ⟨g, hg, hgas⟩ := set_gasSootSources_oxi
    { s with
      wts := w, absc := a
      rO2_rSoot_go := -0.5 * s.MW_sp.getD s.i_o2.toNat 0 / c.MW_c
      rCO_rSoot_go := s.MW_sp.getD s.i_co.toNat 0 / c.MW_c
      src := src }
    (L.pow (s.Cmin * c.MW_c / c.Na) (1 : Nat) * 0) 0.0
    (0 * Acoef L s * (1 : Nat) * mk 1)
    (-(0.1e5 * L.sqrt s.T * L.exp (-19680.0 / s.T) *
      (s.rho * s.yi.getD s.i_o2.toNat 0 / s.MW_sp.getD s.i_o2.toNat 0) * c.MW_c) *
      Acoef L s * (1 : Nat) * mk 1)
    hwf.c2h2 hwf.o2 hwf.h hwf.h2 hwf.oh hwf.co hwf.pah hwf.rPAH_len
  obtain ⟨gco, gh, goh, go2⟩ := hgas (by norm_num)
  have e23 : ((1 : Nat) : K) - 1.0 / 3.0 = 2 / 3 := by norm_num
  have hmk1 := hmk 1
  rw [e23] at hmk1
  have hX1 : -(0.1e5 * L.sqrt s.T * L.exp (-19680.0 / s.T) *
      (s.rho * s.yi.getD s.i_o2.toNat 0 / s.MW_sp.getD s.i_o2.toNat 0) * c.MW_c) *
      Acoef L s * (1 : Nat) * mk 1 =
    -(0.1e5 * L.sqrt s.T * L.exp (-19680.0 / s.T) *
      (s.rho * s.yi.getD s.i_o2.toNat 0 / s.MW_sp.getD s.i_o2.toNat 0) * c.MW_c) *
      Acoef L s * mk 1 := by
    rw [Nat.cast_one, mul_one]
  rw [hX1] at gco gh goh go2
  refine ⟨_, mk 1, _, heq.trans (hok.trans hg),
    (Mk_congr L _ _ _ (by rfl) (by rfl) (by rfl)).trans hmk1, rfl, ?_, gco, gh, goh, go2⟩
  have h1 := hsrc 1 hwf.nsvar_ge
  rw [hcoa0] at h1
  show src[1]? = _
  rw [h1]
  congr 1
  show L.pow _ _ * 0 + 0.0 + 0 * _ * _ * _ + -_ * Acoef L s * ((1 : Nat) : K) * mk 1 + 0 =
    -_ * Acoef L s * mk 1
  norm_num

/-- With two positive moments the inversion leaves the single node
`(M[0], M[1] / M[0])`, without calling `wheeler`. -/
theorem getWtsAbs_pair (wheeler : Wheeler K) (m0 m1 w0 a0 : K) (h0 : 0 < m0) (h1 : 0 < m1) :
    getWtsAbs wheeler 2 [m0, m1] [w0] [a0] = .ok ⟨[m0], [m1 / m0], []⟩ := by
  simp [getWtsAbs, anyNonPositive, downselect, rd, wr, bind, Except.bind, pure, Except.pure,
    not_le.mpr h0, not_le.mpr h1]

/-- The clamping loop leaves a non-negative node as it is. -/
theorem clamp_pair (w a : K) (hw : 0 ≤ w) (ha : 0 ≤ a) :
    forLoop 1 clampBody ([w], [a]) = .ok ([w], [a]) := by
  simp [forLoop, clampBody, rd, bind, Except.bind, pure, Except.pure, not_lt.mpr hw,
    not_lt.mpr ha, List.range_succ]

/-- The function `Mk` for the single node `(w, a)` with `w` and `a` non-zero. -/
theorem Mk_pair (L : Libm K) (s : Soot K) (e w a : K) (hn : s.nsvar = 2) (hw : w ≠ 0)
    (ha : a ≠ 0) : Mk L { s with wts := [w], absc := [a] } e = .ok (w * L.pow a e) := by
  have h := (MkLoop_spec L { s with wts := [w], absc := [a] } e 1 0 0 (by simp)
    (by simp)).2 (by
      intro j hj
      have : j = 0 := by omega
      subst this
      exact ⟨hw, ha⟩)
  unfold Mk
  rw [show ({ s with wts := [w], absc := [a] } : Soot K).nsvar / 2 = 1 by
    show s.nsvar / 2 = 1
    rw [hn]]
  rw [h]
  simp

/-- The sample object with the oxidation law `LL` alone, the moments `(1, 2)` and any
value `r` left in `rOH_rSoot_go`: `setSrc` returns, the moment-1 source is the negative
number `X1` (the same for every `r`), and the O2, OH and CO sources are `X1` times
`-0.5 MW_O2 / MW_c`, `r` and `MW_CO / MW_c`, over `rho`. -/
theorem sample_oxidation_LL :
    ∃ X1 : ℝ, X1 < 0 ∧ ∀ r : ℝ, ∃ s' : Soot ℝ,
      setSrc (sampleConsts ℝ) realLibm (fun _ _ _ => (0, 0))
        { sampleSoot ℝ "NONE" "NONE" "LL" "NONE" 2 [1, 2] [0] [0] with rOH_rSoot_go := r }
        = .ok s' ∧
      s'.src[1]? = some X1 ∧
      s'.gasSootSources[1]? = some (X1 * (-0.5 * 31.998 / 12.011) / 0.2) ∧
      s'.gasSootSources[4]? = some (X1 * r / 0.2) ∧
      s'.gasSootSources[6]? = some (X1 * (28.010 / 12.011) / 0.2) := by
  have hA : 0 < Acoef realLibm (sampleSoot ℝ "NONE" "NONE" "LL" "NONE" 2 [1, 2] [0] [0]) := by
    rw [Acoef_eq realLibm _ Real.pi_pos (by norm_num [sampleSoot])]
    have := Real.pi_pos
    exact mul_pos this (Real.rpow_pos_of_pos
      (by show (0 : ℝ) < 6 / (Real.pi * 1850); positivity) _)
  have hK : (0 : ℝ) < 0.1e5 * Real.sqrt 1800 * Real.exp (-19680.0 / 1800) *
      (0.2 * 0.01 / 31.998) * 12.011 := by
    have h1 : (0 : ℝ) < Real.sqrt 1800 := Real.sqrt_pos.mpr (by norm_num)
    have h2 := Real.exp_pos (-19680.0 / 1800 : ℝ)
    positivity
  have hM : (0 : ℝ) < 1 * (2 : ℝ) ^ ((2 : ℝ) / 3) :=
    mul_pos one_pos (Real.rpow_pos_of_pos (by norm_num) _)
  refine ⟨-(0.1e5 * Real.sqrt 1800 * Real.exp (-19680.0 / 1800) * (0.2 * 0.01 / 31.998) *
      12.011) * Acoef realLibm (sampleSoot ℝ "NONE" "NONE" "LL" "NONE" 2 [1, 2] [0] [0]) *
      (1 * (2 : ℝ) ^ ((2 : ℝ) / 3)), ?_, fun r => ?_⟩
  · have := mul_pos (mul_pos hK hA) hM
    linarith
  · have wf : WellFormed
        { sampleSoot ℝ "NONE" "NONE" "LL" "NONE" 2 [1, 2] [0] [0] with rOH_rSoot_go := r } := by
      constructor <;> simp [sampleSoot, Resolved]
    obtain ⟨s', mk1, X1, hok, hmk, hX1, hsrc, gco, -, goh, go2⟩ :=
      setSrc_oxidation_LL (sampleConsts ℝ) realLibm (fun _ _ _ => (0, 0))
        { sampleSoot ℝ "NONE" "NONE" "LL" "NONE" 2 [1, 2] [0] [0] with rOH_rSoot_go := r }
        wf ⟨[1], [2 / 1], []⟩ [1] [2 / 1]
        (getWtsAbs_pair _ 1 2 0 0 one_pos two_pos)
        (clamp_pair 1 (2 / 1) zero_le_one (by norm_num)) rfl rfl rfl rfl rfl rfl
    have hmk' := (Mk_pair realLibm
      { sampleSoot ℝ "NONE" "NONE" "LL" "NONE" 2 [1, 2] [0] [0] with rOH_rSoot_go := r }
      (2 / 3) 1 (2 / 1) rfl one_ne_zero (by norm_num)).symm.trans hmk
    have e1 : mk1 = 1 * (2 : ℝ) ^ ((2 : ℝ) / 3) := by
      rw [← Except.ok.inj hmk']
      show 1 * (2 / 1 : ℝ) ^ ((2 : ℝ) / 3) = _
      rw [div_one]
    rw [e1] at hX1
    have e2 : X1 = -(0.1e5 * Real.sqrt 1800 * Real.exp (-19680.0 / 1800) *
        (0.2 * 0.01 / 31.998) * 12.011) *
        Acoef realLibm (sampleSoot ℝ "NONE" "NONE" "LL" "NONE" 2 [1, 2] [0] [0]) *
        (1 * (2 : ℝ) ^ ((2 : ℝ) / 3)) := hX1
    rw [e2] at hsrc gco goh go2
    exact ⟨s', hok, hsrc,
      go2 (by show (1 : Int) ≠ 4; decide) (by show (1 : Int) ≠ 2; decide)
        (by show (1 : Int) ≠ 6; decide),
      goh (by show (4 : Int) ≠ 2; decide) (by show (4 : Int) ≠ 6; decide), gco⟩

/-- C14 (code defect): the gas sources depend on a ratio left by an earlier call. The two
sample objects below select the oxidation law `LL` alone and differ in nothing but the
value of `rOH_rSoot_go` (0 and 1); `oxidation_LL` sets the ratios of O2 and CO only, and
`set_gasSootSources` multiplies the non-zero oxidation term by the ratio of OH it finds:
after `setSrc` the OH source (index 4) is 0 for the first object and non-zero for the
second. -/
theorem setSrc_gas_reads_stale_ratio :
    ∃ (s0 s1 : Soot ℝ) (g : ℝ),
      setSrc (sampleConsts ℝ) realLibm (fun _ _ _ => (0, 0))
        (sampleSoot ℝ "NONE" "NONE" "LL" "NONE" 2 [1, 2] [0] [0]) = .ok s0 ∧
      setSrc (sampleConsts ℝ) realLibm (fun _ _ _ => (0, 0))
        { sampleSoot ℝ "NONE" "NONE" "LL" "NONE" 2 [1, 2] [0] [0] with rOH_rSoot_go := 1 }
        = .ok s1 ∧
      s0.gasSootSources[4]? = some 0 ∧ s1.gasSootSources[4]? = some g ∧ g ≠ 0 ∧
      s0.gasSootSources ≠ s1.gasSootSources := by
  obtain ⟨X1, hneg, h⟩ := sample_oxidation_LL
  obtain ⟨s0, h0, -, -, g0, -⟩ := h 0
  obtain ⟨s1, h1, -, -, g1, -⟩ := h 1
  have hg : X1 * 1 / 0.2 ≠ 0 := by
    have : X1 * 1 / 0.2 < 0 := by
      rw [mul_one]
      exact div_neg_of_neg_of_pos hneg (by norm_num)
    exact ne_of_lt this
  have g0' : s0.gasSootSources[4]? = some 0 := by
    rw [g0]
    norm_num
  refine ⟨s0, s1, X1 * 1 / 0.2, h0, h1, g0', g1, hg, fun e => ?_⟩
  rw [e, g1] at g0'
  exact hg (Option.some.inj g0')

/-- C15 (code defect): with the oxidation law `LL` alone the code moves the gas the wrong
way. On the sample object (moments `(1, 2)`, `rho = 0.2`, molar masses with
`MW_CO = MW_c + MW_O2 / 2`) `setSrc` returns with a negative moment-1 source `x` (soot is
removed), a positive O2 source `go` and a negative CO source `gco`, and
`rho * (go + gco) = x`: the gas loses the mass the soot loses, instead of receiving it
(`-x`). -/
theorem setSrc_oxidation_mass_sign :
    ∃ (s' : Soot ℝ) (x go gco : ℝ),
      setSrc (sampleConsts ℝ) realLibm (fun _ _ _ => (0, 0))
        (sampleSoot ℝ "NONE" "NONE" "LL" "NONE" 2 [1, 2] [0] [0]) = .ok s' ∧
      s'.src[1]? = some x ∧ s'.gasSootSources[1]? = some go ∧
      s'.gasSootSources[6]? = some gco ∧
      x < 0 ∧ 0 < go ∧ gco < 0 ∧ 0.2 * (go + gco) = x ∧ 0.2 * (go + gco) ≠ -x := by
  obtain ⟨X1, hneg, h⟩ := sample_oxidation_LL
  obtain ⟨s', hok, hsrc, go2, -, gco⟩ := h 0
  have e : (0.2 : ℝ) * (X1 * (-0.5 * 31.998 / 12.011) / 0.2 + X1 * (28.010 / 12.011) / 0.2)
      = X1 := by
    field_simp
    ring
  refine ⟨s', X1, _, _, hok, hsrc, go2, gco, hneg, ?_, ?_, e, ?_⟩
  · have : (0 : ℝ) < -X1 := by linarith
    have h2 : X1 * (-0.5 * 31.998 / 12.011) / 0.2 = -X1 * (0.5 * 31.998 / 12.011 / 0.2) := by
      ring
    rw [h2]
    positivity
  · have : (0 : ℝ) < -X1 := by linarith
    have h2 : X1 * (28.010 / 12.011) / 0.2 = -(-X1 * (28.010 / 12.011 / 0.2)) := by ring
    rw [h2]
    have : (0 : ℝ) < -X1 * (28.010 / 12.011 / 0.2) := by positivity
    linarith
  · rw [e]
    intro h'
    linarith

/-! ### PAH nucleation -/

set_option maxHeartbeats 1000000 in
/-- The function `set_m_dimer` with a single PAH species `p`: with `wdoti` its
self-collision rate and `wdotD = 0.0 + wdoti`, the dimer mass becomes
`(0.0 + wdoti * m_p) * (2 / wdotD)` and `Cmin` becomes
`(Cmin + wdoti * nC_PAH[0]) * (4 / wdotD)`, where `Cmin` on the right is the value the
object held before the call. -/
theorem set_m_dimer_single (c : Consts K) (L : Libm K) (s : Soot K) (p n : Int) (r0 : K)
    (hp : s.i_pah = [p]) (hn : s.nC_PAH = [n]) (hr : s.rPAH_rSoot_ncnd = [r0])
    (h0 : 0 ≤ p) (hy : p.toNat < s.yi.length) (hm : p.toNat < s.MW_sp.length) :
    ∃ (wdoti md cm : K),
      wdoti = |(if s.MW_sp.getD p.toNat 0 / c.Na > 153
            then 1.501e-11 * L.pow (s.MW_sp.getD p.toNat 0 / c.Na) 4
            else 1.501e-11 * L.pow (s.MW_sp.getD p.toNat 0 / c.Na) 4 / 3.0) *
          (L.sqrt (4 * L.pi * c.kb * s.T) * L.pow (6 / (L.pi * s.rhoSoot)) (2.0 / 3.0)) *
          L.pow (s.MW_sp.getD p.toNat 0 / c.Na) (1.0 / 6.0) *
          (s.rho * s.yi.getD p.toNat 0 / s.MW_sp.getD p.toNat 0 * c.Na) *
          (s.rho * s.yi.getD p.toNat 0 / s.MW_sp.getD p.toNat 0 * c.Na)| ∧
      md = (0.0 + wdoti * (s.MW_sp.getD p.toNat 0 / c.Na)) * (2 / (0.0 + wdoti)) ∧
      cm = (s.Cmin + wdoti * (n : K)) * (4 / (0.0 + wdoti)) ∧
      set_m_dimer c L s = .ok (0.0 + wdoti,
        { s with
          m_dimer := md
          Cmin := cm
          rPAH_rSoot_ncnd := [wdoti * (s.MW_sp.getD p.toNat 0 / c.Na) /
            (0.0 + wdoti * (s.MW_sp.getD p.toNat 0 / c.Na)) *
            (-2.0 * md / (cm * c.MW_c / c.Na))]
          rH2_rSoot_ncnd := 2.0 * md / (cm * c.MW_c / c.Na) - 1.0 }) := by
  refine ⟨_, _, _, rfl, rfl, rfl, ?_⟩
  unfold set_m_dimer
  simp only [hp, List.length_singleton, forLoop_one]
  unfold set_m_dimer_body
  simp only [hp, hn, hr, rd, rdI_getD 0 h0 hy, rdI_getD 0 h0 hm, wr, ok_bind,
    List.getElem?_cons_zero, List.length_singleton, Nat.lt_one_iff, if_true, bind, Except.bind,
    pure, Except.pure, List.set_cons_zero]
  rfl

/-- The self-collision rate of the PAH species of the sample object is positive. -/
theorem samplePAH_wdot_pos :
    (0 : ℝ) < |(if (202.25 : ℝ) / 6.02214086e26 > 153
          then 1.501e-11 * ((202.25 : ℝ) / 6.02214086e26) ^ (4 : ℝ)
          else 1.501e-11 * ((202.25 : ℝ) / 6.02214086e26) ^ (4 : ℝ) / 3.0) *
        (Real.sqrt (4 * Real.pi * 1.38064852e-23 * 1800) *
          (6 / (Real.pi * 1850)) ^ ((2.0 : ℝ) / 3.0)) *
        ((202.25 : ℝ) / 6.02214086e26) ^ ((1.0 : ℝ) / 6.0) *
        (0.2 * 0.001 / 202.25 * 6.02214086e26) *
        (0.2 * 0.001 / 202.25 * 6.02214086e26)| := by
  have h1 : (0 : ℝ) < Real.sqrt (4 * Real.pi * 1.38064852e-23 * 1800) :=
    Real.sqrt_pos.mpr (by positivity)
  have h2 : (0 : ℝ) < (6 / (Real.pi * 1850)) ^ ((2.0 : ℝ) / 3.0) :=
    Real.rpow_pos_of_pos (by positivity) _
  have h3 : (0 : ℝ) < ((202.25 : ℝ) / 6.02214086e26) ^ (4 : ℝ) :=
    Real.rpow_pos_of_pos (by norm_num) _
  have h4 : (0 : ℝ) < ((202.25 : ℝ) / 6.02214086e26) ^ ((1.0 : ℝ) / 6.0) :=
    Real.rpow_pos_of_pos (by norm_num) _
  apply abs_pos.mpr
  apply ne_of_gt
  split_ifs <;> positivity

/-- C16 (code defect): `set_m_dimer` adds to the `Cmin` it finds instead of recomputing
it. On the sample object with one PAH species (16 carbon atoms) and `Cmin = 0` the first
call returns the positive rate `wdotD` and leaves `Cmin = 64 = 4 * 16`; a second call
under the same gas state returns the same rate and the same dimer mass but leaves
`Cmin = 64 + 256 / wdotD`, which differs from 64. -/
theorem set_m_dimer_Cmin_accumulates :
    ∃ (wdotD : ℝ) (s1 s2 : Soot ℝ), 0 < wdotD ∧
      set_m_dimer (sampleConsts ℝ) realLibm (samplePAH ℝ 0) = .ok (wdotD, s1) ∧
      set_m_dimer (sampleConsts ℝ) realLibm s1 = .ok (wdotD, s2) ∧
      s1.T = (samplePAH ℝ 0).T ∧ s1.rho = (samplePAH ℝ 0).rho ∧
      s1.yi = (samplePAH ℝ 0).yi ∧ s1.MW_sp = (samplePAH ℝ 0).MW_sp ∧
      s1.i_pah = (samplePAH ℝ 0).i_pah ∧ s1.nC_PAH = (samplePAH ℝ 0).nC_PAH ∧
      s2.m_dimer = s1.m_dimer ∧
      s1.Cmin = 4 * (wdotD * 16) / wdotD ∧ s1.Cmin = 64 ∧
      s2.Cmin = 64 + 256 / wdotD ∧ s2.Cmin ≠ s1.Cmin := by
  obtain ⟨w, md, cm, hw, hmd, hcm, h1⟩ := set_m_dimer_single (sampleConsts ℝ) realLibm
    (samplePAH ℝ 0) 7 16 0 rfl rfl rfl (by decide) (by simp [samplePAH, sampleSoot])
    (by simp [samplePAH, sampleSoot])
  have hpos : 0 < w := by
    rw [hw]
    exact samplePAH_wdot_pos
  obtain ⟨w', md', cm', hw', hmd', hcm', h2⟩ := set_m_dimer_single (sampleConsts ℝ) realLibm
    { samplePAH ℝ 0 with
      m_dimer := md
      Cmin := cm
      rPAH_rSoot_ncnd := [w * ((samplePAH ℝ 0).MW_sp.getD (7 : Int).toNat 0 /
          (sampleConsts ℝ).Na) /
        (0.0 + w * ((samplePAH ℝ 0).MW_sp.getD (7 : Int).toNat 0 / (sampleConsts ℝ).Na)) *
        (-2.0 * md / (cm * (sampleConsts ℝ).MW_c / (sampleConsts ℝ).Na))]
      rH2_rSoot_ncnd := 2.0 * md / (cm * (sampleConsts ℝ).MW_c / (sampleConsts ℝ).Na) - 1.0 }
    7 16 _ rfl rfl rfl (by decide) (by simp [samplePAH, sampleSoot])
    (by simp [samplePAH, sampleSoot])
  have eww : w' = w := by rw [hw', hw]
  rw [eww] at hmd' hcm' h2
  have z : (0.0 : ℝ) + w = w := by norm_num
  have e1 : cm = 64 := by
    rw [hcm, z]
    show ((0 : ℝ) + w * ((16 : Int) : ℝ)) * (4 / w) = 64
    push_cast
    field_simp
    ring
  have e2 : cm' = 64 + 256 / w := by
    rw [hcm', z]
    show (cm + w * ((16 : Int) : ℝ)) * (4 / w) = 64 + 256 / w
    rw [e1]
    push_cast
    field_simp
    ring
  rw [z] at h1 h2
  refine ⟨w, _, _, hpos, h1, h2, rfl, rfl, rfl, rfl, rfl, rfl, ?_, ?_, e1, e2, ?_⟩
  · show md' = md
    rw [hmd', hmd]
  · show cm = 4 * (w * 16) / w
    rw [e1]
    field_simp
    ring
  · show cm' ≠ cm
    rw [e2, e1]
    have : 0 < 256 / w := by positivity
    linarith

/-- The loop of `set_Ndimer` over the soot nodes returns the sum of
`|wi[i]| * coagulation_Frenk(m_dimer, mi[i])`. -/
theorem dimerSootLoop_ok (c : Consts K) (L : Libm K) (s : Soot K) (mi wi : List K)
    (hlen : mi.length ≤ wi.length) :
    forLoop mi.length (fun i acc => do
        pure (acc + |(← rd wi i)| * coagulation_Frenk c L s s.m_dimer (← rd mi i))) (0.0 : K) =
      .ok (∑ i in Finset.range mi.length,
        |wi.getD i 0| * coagulation_Frenk c L s s.m_dimer (mi.getD i 0)) := by
  obtain ⟨st, hst, hP⟩ := forLoop_inv
    (fun i (a : K) => a = ∑ j in Finset.range i,
      |wi.getD j 0| * coagulation_Frenk c L s s.m_dimer (mi.getD j 0)) mi.length
    (fun i acc => do
        pure (acc + |(← rd wi i)| * coagulation_Frenk c L s s.m_dimer (← rd mi i))) (0.0 : K)
    (by norm_num)
    (fun i hi a ha => ⟨a + |wi.getD i 0| * coagulation_Frenk c L s s.m_dimer (mi.getD i 0), by
      simp only [rd_getD (0 : K) (show i < wi.length by omega), rd_getD (0 : K) hi, ok_bind]
      rfl, by
      show a + _ = ∑ j in Finset.range (i + 1), _
      rw [ha, Finset.sum_range_succ]⟩)
  rw [hst, hP]

/-- C19: with a square root that is non-negative and squares back to its non-negative
argument, when `set_m_dimer` returns a rate `wdotD > 0` and the self-collision kernel
`beta_DD` of the dimer is positive and the sum `I_beta_DS` over the soot nodes is
non-negative, `set_Ndimer` returns with a `DIMER > 0` that solves
`beta_DD * DIMER^2 + I_beta_DS * DIMER - wdotD = 0`, and `nucleation_PAH` returns
`0.5 * beta_DD * DIMER^2`. -/
theorem set_Ndimer_quadratic (c : Consts K) (L : Libm K) (s : Soot K) (mi wi : List K)
    (wdotD : K) (s1 : Soot K)
    (hs0 : ∀ x, 0 ≤ L.sqrt x) (hs : ∀ x, 0 ≤ x → L.sqrt x * L.sqrt x = x)
    (hlen : mi.length ≤ wi.length)
    (hm : set_m_dimer c L s = .ok (wdotD, s1))
    (hβ : 0 < coagulation_Frenk c L s1 s1.m_dimer s1.m_dimer) (hw : 0 < wdotD)
    (hI : 0 ≤ ∑ i in Finset.range mi.length,
      |wi.getD i 0| * coagulation_Frenk c L s1 s1.m_dimer (mi.getD i 0)) :
    ∃ D : K, set_Ndimer c L s mi wi = .ok { s1 with DIMER := D } ∧
      nucleation_PAH c L s mi wi =
        .ok (0.5 * coagulation_Frenk c L s1 s1.m_dimer s1.m_dimer * D ^ 2,
          { s1 with DIMER := D }) ∧
      0 < D ∧
      coagulation_Frenk c L s1 s1.m_dimer s1.m_dimer * D ^ 2 +
        (∑ i in Finset.range mi.length,
          |wi.getD i 0| * coagulation_Frenk c L s1 s1.m_dimer (mi.getD i 0)) * D - wdotD = 0 := by
  have hloop := dimerSootLoop_ok c L s1 mi wi hlen
  generalize (∑ i in Finset.range mi.length,
    |wi.getD i 0| * coagulation_Frenk c L s1 s1.m_dimer (mi.getD i 0)) = I at hI hloop ⊢
  have hset : set_Ndimer c L s mi wi = .ok { s1 with DIMER :=
      2.0 * wdotD / (I + L.sqrt (I * I +
        4 * coagulation_Frenk c L s1 s1.m_dimer s1.m_dimer * wdotD)) } := by
    unfold set_Ndimer
    rw [hm, ok_bind]
    dsimp only
    rw [hloop, ok_bind]
    rfl
  have hnuc : nucleation_PAH c L s mi wi =
      .ok (0.5 * coagulation_Frenk c L s1 s1.m_dimer s1.m_dimer *
          (2.0 * wdotD / (I + L.sqrt (I * I +
            4 * coagulation_Frenk c L s1 s1.m_dimer s1.m_dimer * wdotD))) *
          (2.0 * wdotD / (I + L.sqrt (I * I +
            4 * coagulation_Frenk c L s1 s1.m_dimer s1.m_dimer * wdotD))),
        { s1 with DIMER :=
          2.0 * wdotD / (I + L.sqrt (I * I +
            4 * coagulation_Frenk c L s1 s1.m_dimer s1.m_dimer * wdotD)) }) := by
    unfold nucleation_PAH
    rw [hset, ok_bind]
    rfl
  generalize coagulation_Frenk c L s1 s1.m_dimer s1.m_dimer = β at hβ hset hnuc ⊢
  have harg : 0 < I * I + 4 * β * wdotD := by positivity
  have hS0 := hs0 (I * I + 4 * β * wdotD)
  have hSS := hs _ harg.le
  have hS : 0 < L.sqrt (I * I + 4 * β * wdotD) := by
    rcases hS0.lt_or_eq with h | h
    · exact h
    · rw [← h] at hSS
      linarith
  generalize L.sqrt (I * I + 4 * β * wdotD) = S at hS hSS hset hnuc
  have hden : 0 < I + S := by linarith
  refine ⟨2.0 * wdotD / (I + S), hset, ?_, by positivity, ?_⟩
  · rw [hnuc, mul_assoc (0.5 * β), ← pow_two]
  · have hne : I + S ≠ 0 := ne_of_gt hden
    field_simp
    norm_num
    linear_combination (-(wdotD * (I + S))) * hSS

theorem realLibm_strict : realLibm.Strict where
  pi_pos := Real.pi_pos
  sqrt_pos := fun _ h => Real.sqrt_pos.mpr h
  exp_pos := Real.exp_pos
  pow_pos := fun _ y hx => Real.rpow_pos_of_pos hx y

/-- The Frenklach kernel is positive for positive masses in a gas with positive
temperature, density, viscosity and molar mass. -/
theorem coagulation_Frenk_pos (c : Consts K) (L : Libm K) (s : Soot K) (hL : L.Strict)
    (hkb : 0 < c.kb) (heps : 0 < c.eps_c) (hRg : 0 < c.Rg) (hrho : 0 < s.rhoSoot)
    (hT : 0 < s.T) (hmu : 0 < s.mu) (hr : 0 < s.rho) (hMW : 0 < s.MW) (m1 m2 : K)
    (h1 : 0 < m1) (h2 : 0 < m2) : 0 < coagulation_Frenk c L s m1 m2 := by
  unfold coagulation_Frenk
  have hpi := hL.pi_pos
  have d1 : 0 < L.pow (6.0 * |m1| / L.pi / s.rhoSoot) (1.0 / 3.0) :=
    hL.pow_pos _ _ (by have := abs_pos.mpr (ne_of_gt h1); positivity)
  have d2 : 0 < L.pow (6.0 * |m2| / L.pi / s.rhoSoot) (1.0 / 3.0) :=
    hL.pow_pos _ _ (by have := abs_pos.mpr (ne_of_gt h2); positivity)
  have hm : 0 < get_gas_mean_free_path c L s := by
    unfold get_gas_mean_free_path
    exact mul_pos (div_pos hmu hr) (hL.sqrt_pos _ (by positivity))
  have h12 : 0 < |m1 * m2 / (m1 + m2)| := abs_pos.mpr (ne_of_gt (by positivity))
  generalize L.pow (6.0 * |m1| / L.pi / s.rhoSoot) (1.0 / 3.0) = Dp1 at d1 ⊢
  generalize L.pow (6.0 * |m2| / L.pi / s.rhoSoot) (1.0 / 3.0) = Dp2 at d2 ⊢
  generalize get_gas_mean_free_path c L s = mfp at hm ⊢
  dsimp only
  have e1 := hL.exp_pos (-1.1 / (2.0 * mfp / Dp1))
  have e2 := hL.exp_pos (-1.1 / (2.0 * mfp / Dp2))
  have fm : 0 < c.eps_c * L.sqrt (L.pi * c.kb * s.T * 0.5 / |m1 * m2 / (m1 + m2)|) *
      L.pow (Dp1 + Dp2) 2.0 :=
    mul_pos (mul_pos heps (hL.sqrt_pos _ (by positivity))) (hL.pow_pos _ _ (by positivity))
  have cc : 0 < 2 * c.kb * s.T / (3 * s.mu) *
      ((1 + 2.0 * mfp / Dp1 * (1.257 + 0.4 * L.exp (-1.1 / (2.0 * mfp / Dp1)))) / Dp1 +
        (1 + 2.0 * mfp / Dp2 * (1.257 + 0.4 * L.exp (-1.1 / (2.0 * mfp / Dp2)))) / Dp2) *
      (Dp1 + Dp2) := by positivity
  exact div_pos (mul_pos fm cc) (add_pos fm cc)

/-- Witness for C19: the sample object with one PAH species and no soot node. -/
theorem set_Ndimer_quadratic_witness :
    ∃ (wdotD : ℝ) (s1 : Soot ℝ) (D : ℝ),
      set_m_dimer (sampleConsts ℝ) realLibm (samplePAH ℝ 100) = .ok (wdotD, s1) ∧
      0 < wdotD ∧ 0 < coagulation_Frenk (sampleConsts ℝ) realLibm s1 s1.m_dimer s1.m_dimer ∧
      set_Ndimer (sampleConsts ℝ) realLibm (samplePAH ℝ 100) [] [] =
        .ok { s1 with DIMER := D } ∧
      nucleation_PAH (sampleConsts ℝ) realLibm (samplePAH ℝ 100) [] [] =
        .ok (0.5 * coagulation_Frenk (sampleConsts ℝ) realLibm s1 s1.m_dimer s1.m_dimer * D ^ 2,
          { s1 with DIMER := D }) ∧
      0 < D ∧
      coagulation_Frenk (sampleConsts ℝ) realLibm s1 s1.m_dimer s1.m_dimer * D ^ 2 +
        (∑ i in Finset.range ([] : List ℝ).length,
          |([] : List ℝ).getD i 0| *
            coagulation_Frenk (sampleConsts ℝ) realLibm s1 s1.m_dimer
              (([] : List ℝ).getD i 0)) * D - wdotD = 0 := by
  obtain ⟨w, md, cm, hw, hmd, hcm, h1⟩ := set_m_dimer_single (sampleConsts ℝ) realLibm
    (samplePAH ℝ 100) 7 16 0 rfl rfl rfl (by decide) (by simp [samplePAH, sampleSoot])
    (by simp [samplePAH, sampleSoot])
  have hpos : 0 < w := by
    rw [hw]
    exact samplePAH_wdot_pos
  have hw0 : (0 : ℝ) < 0.0 + w := by
    norm_num
    exact hpos
  have hmd0 : 0 < md := by
    rw [hmd]
    have : (0 : ℝ) < (samplePAH ℝ 100).MW_sp.getD (7 : Int).toNat 0 / (sampleConsts ℝ).Na := by
      show (0 : ℝ) < 202.25 / 6.02214086e26
      norm_num
    have h3 : (0 : ℝ) < 0.0 + w * ((samplePAH ℝ 100).MW_sp.getD (7 : Int).toNat 0 /
        (sampleConsts ℝ).Na) := by
      have := mul_pos hpos this
      norm_num
      exact this
    exact mul_pos h3 (div_pos two_pos hw0)
  have hβ := coagulation_Frenk_pos (sampleConsts ℝ) realLibm
    { samplePAH ℝ 100 with
      m_dimer := md
      Cmin := cm
      rPAH_rSoot_ncnd := [w * ((samplePAH ℝ 100).MW_sp.getD (7 : Int).toNat 0 /
          (sampleConsts ℝ).Na) /
        (0.0 + w * ((samplePAH ℝ 100).MW_sp.getD (7 : Int).toNat 0 / (sampleConsts ℝ).Na)) *
        (-2.0 * md / (cm * (sampleConsts ℝ).MW_c / (sampleConsts ℝ).Na))]
      rH2_rSoot_ncnd := 2.0 * md / (cm * (sampleConsts ℝ).MW_c / (sampleConsts ℝ).Na) - 1.0 }
    realLibm_strict (by norm_num [sampleConsts]) (by norm_num [sampleConsts])
    (by norm_num [sampleConsts]) (by norm_num [samplePAH, sampleSoot])
    (by norm_num [samplePAH, sampleSoot]) (by norm_num [samplePAH, sampleSoot])
    (by norm_num [samplePAH, sampleSoot]) (by norm_num [samplePAH, sampleSoot]) md md hmd0 hmd0
  obtain ⟨D, hD⟩ := set_Ndimer_quadratic (sampleConsts ℝ) realLibm (samplePAH ℝ 100) [] []
    (0.0 + w) _ Real.sqrt_nonneg (fun x hx => Real.mul_self_sqrt hx) (le_refl _) h1 hβ hw0
    (by simp)
  exact ⟨_, _, D, h1, hw0, hβ, hD⟩

end RateFacts

/-! ## Kernels, guards, totality and balances -/

/-! ### The order the inversion retains -/

/-- The final loop of `getWtsAbs` writes the pair `j` of the temporaries to slot
`k0 + j` and leaves the slots below `k0` as they are. -/
theorem assign_vals (wa : List (K × K)) : ∀ (wts absc : List K) (k0 : Nat),
    k0 + wa.length ≤ wts.length → k0 + wa.length ≤ absc.length →
    ∃ w a, assign wts absc k0 wa = .ok (w, a) ∧
      (∀ i, i < k0 → w[i]? = wts[i]? ∧ a[i]? = absc[i]?) ∧
      (∀ j p, wa[j]? = some p → w[k0 + j]? = some p.1 ∧ a[k0 + j]? = some p.2) := by
  induction wa with
  | nil =>
    intro wts absc k0 _ _
    exact ⟨wts, absc, rfl, fun _ _ => ⟨rfl, rfl⟩, fun j p h => by simp at h⟩
  | cons q rest ih =>
    intro wts absc k0 hw ha
    simp only [List.length_cons] at hw ha
    have hkw : k0 < wts.length := by omega
    have hka : k0 < absc.length := by omega
    obtain ⟨w, a, hok, hlow, hval⟩ := ih (wts.set k0 q.1) (absc.set k0 q.2) (k0 + 1)
      (by rw [List.length_set]; omega) (by rw [List.length_set]; omega)
    refine ⟨w, a, ?_, ?_, ?_⟩
    · simp [assign, wr_of_lt _ hkw, wr_of_lt _ hka, bind, Except.bind, hok]
    · intro i hi
      obtain ⟨h1, h2⟩ := hlow i (by omega)
      rw [h1, h2, List.getElem?_set_ne (by omega), List.getElem?_set_ne (by omega)]
      exact ⟨rfl, rfl⟩
    · intro j p hj
      rcases Nat.eq_zero_or_pos j with h0 | h0
      · subst h0
        simp only [List.getElem?_cons_zero, Option.some.injEq] at hj
        subst hj
        obtain ⟨h1, h2⟩ := hlow k0 (by omega)
        rw [Nat.add_zero, h1, h2, List.getElem?_set_self hkw, List.getElem?_set_self hka]
        exact ⟨rfl, rfl⟩
      · obtain ⟨i, rfl⟩ : ∃ i, j = i + 1 := ⟨j - 1, by omega⟩
        rw [List.getElem?_cons_succ] at hj
        have := hval i p hj
        rw [show k0 + (i + 1) = k0 + 1 + i by omega]
        exact this

/-- A well-formed object stays well-formed when the node arrays are replaced by arrays
of the same sizes and the fields the rate calls write are changed, the PAH ratios keeping
their number. -/
theorem WellFormed.update [LinearOrderedField K] {s : Soot K} (hwf : WellFormed s) (w a rp : List K)
    (hw : s.nsvar / 2 ≤ w.length) (ha : a.length = w.length)
    (hrp : s.i_pah.length ≤ rp.length) (cm md D n1 n2 r1 r2 o1 o2 o3 o4 : K) :
    WellFormed
      { s with
        wts := w, absc := a, Cmin := cm, m_dimer := md, DIMER := D
        rPAH_rSoot_ncnd := rp, rC2H2_rSoot_n := n1, rH2_rSoot_ncnd := n2
        rC2H2_rSoot_go := r1, rH2_rSoot_go := r2
        rO2_rSoot_go := o1, rOH_rSoot_go := o2, rH_rSoot_go := o3, rCO_rSoot_go := o4 } where
  nsvar_even := hwf.nsvar_even
  nsvar_ge := hwf.nsvar_ge
  sootvar_len := hwf.sootvar_len
  src_len := hwf.src_len
  wts_len := hw
  absc_len := ha
  c2h2 := hwf.c2h2
  o2 := hwf.o2
  h := hwf.h
  h2 := hwf.h2
  oh := hwf.oh
  h2o := hwf.h2o
  co := hwf.co
  pah := hwf.pah
  rPAH_len := hrp
  nC_len := hwf.nC_len

/-- The final loop of `getWtsAbs` leaves the slots above the ones it writes as they
were. -/
theorem assign_upper (wa : List (K × K)) : ∀ (wts absc : List K) (k0 : Nat),
    k0 + wa.length ≤ wts.length → k0 + wa.length ≤ absc.length →
    ∃ w a, assign wts absc k0 wa = .ok (w, a) ∧
      ∀ i, k0 + wa.length ≤ i → w[i]? = wts[i]? ∧ a[i]? = absc[i]? := by
  induction wa with
  | nil => intro wts absc k0 _ _; exact ⟨wts, absc, rfl, fun _ _ => ⟨rfl, rfl⟩⟩
  | cons p rest ih =>
    intro wts absc k0 hw ha
    simp only [List.length_cons] at hw ha
    have hkw : k0 < wts.length := by omega
    have hka : k0 < absc.length := by omega
    obtain ⟨w, a, hok, hup⟩ := ih (wts.set k0 p.1) (absc.set k0 p.2) (k0 + 1)
      (by simp; omega) (by simp; omega)
    refine ⟨w, a, ?_, ?_⟩
    · simp [assign, wr_of_lt _ hkw, wr_of_lt _ hka, bind, Except.bind, hok]
    · intro i hi
      simp only [List.length_cons] at hi
      have := hup i (by omega)
      rw [this.1, this.2, List.getElem?_set_ne (by omega), List.getElem?_set_ne (by omega)]
      exact ⟨rfl, rfl⟩

section BalanceFacts

variable [LinearOrderedField K]

/-! ### The coagulation kernels -/

/-- C30: for every gas state and all masses `m1`, `m2`, the kernels of Fuchs and of
Frenklach are symmetric, `coagulation_Fuchs(m1, m2) = coagulation_Fuchs(m2, m1)` and
`coagulation_Frenk(m1, m2) = coagulation_Frenk(m2, m1)`, whereas `coagulation_LL` reads
its first argument only: `coagulation_LL(m1, m2) = coagulation_LL(m1, m1)`. -/
theorem kernels_symmetry (c : Consts K) (L : Libm K) (s : Soot K) (m1 m2 : K) :
    coagulation_Fuchs c L s m1 m2 = coagulation_Fuchs c L s m2 m1 ∧
      coagulation_Frenk c L s m1 m2 = coagulation_Frenk c L s m2 m1 ∧
      coagulation_LL c L s m1 m2 = coagulation_LL c L s m1 m1 :=
  ⟨coagulation_Fuchs_symm c L s m1 m2, coagulation_Frenk_symm c L s m1 m2, rfl⟩

/-- The code's Frenklach kernel written with the two rates of the specification, for
positive masses and a `pow` that squares on the exponent `2.0`. -/
theorem coagulation_Frenk_eq (c : Consts K) (L : Libm K) (s : Soot K)
    (hpow : ∀ x, L.pow x 2.0 = x ^ 2) (m1 m2 : K) (h1 : 0 < m1) (h2 : 0 < m2) :
    coagulation_Frenk c L s m1 m2 =
      specFreeMolecular c L s m1 m2 * specContinuum c L s m1 m2 /
        (specFreeMolecular c L s m1 m2 + specContinuum c L s m1 m2) := by
  have e1 : 6.0 * |m1| / L.pi / s.rhoSoot = 6 * m1 / (L.pi * s.rhoSoot) := by
    rw [abs_of_pos h1, div_div]
    norm_num
  have e2 : 6.0 * |m2| / L.pi / s.rhoSoot = 6 * m2 / (L.pi * s.rhoSoot) := by
    rw [abs_of_pos h2, div_div]
    norm_num
  have e3 : |m1 * m2 / (m1 + m2)| = m1 * m2 / (m1 + m2) := abs_of_pos (by positivity)
  have e4 : L.pi * c.kb * s.T * 0.5 / (m1 * m2 / (m1 + m2)) =
      L.pi * c.kb * s.T / (2 * (m1 * m2 / (m1 + m2))) := by
    rw [mul_div_assoc, show (0.5 : K) / (m1 * m2 / (m1 + m2)) =
      1 / (2 * (m1 * m2 / (m1 + m2))) by rw [one_div, mul_inv, div_eq_mul_inv]; norm_num,
      mul_one_div]
  have e5 : (1.0 : K) / 3.0 = 1 / 3 := by norm_num
  have e6 : (2.0 : K) = 2 := by norm_num
  unfold coagulation_Frenk specFreeMolecular specContinuum specSlip specDiameter
  simp only [e1, e2, e3, e4, e5, hpow]
  rw [e6]

/-- C26: in a gas with positive temperature, density, viscosity and molar mass, for
positive constants and soot density and all positive masses `m1`, `m2`, the Frenklach
kernel is `FM * C / (FM + C)` with the free-molecular rate `FM` and the continuum rate
`C` of the specification, both positive, so that
`0 < coagulation_Frenk(m1, m2) <= min(FM, C)`. -/
theorem coagulation_Frenk_harmonic (c : Consts K) (L : Libm K) (s : Soot K) (hL : L.Strict)
    (hpow : ∀ x, L.pow x 2.0 = x ^ 2)
    (hkb : 0 < c.kb) (heps : 0 < c.eps_c) (hRg : 0 < c.Rg) (hrho : 0 < s.rhoSoot)
    (hT : 0 < s.T) (hmu : 0 < s.mu) (hr : 0 < s.rho) (hMW : 0 < s.MW) (m1 m2 : K)
    (h1 : 0 < m1) (h2 : 0 < m2) :
    coagulation_Frenk c L s m1 m2 =
        specFreeMolecular c L s m1 m2 * specContinuum c L s m1 m2 /
          (specFreeMolecular c L s m1 m2 + specContinuum c L s m1 m2) ∧
      0 < specFreeMolecular c L s m1 m2 ∧ 0 < specContinuum c L s m1 m2 ∧
      0 < coagulation_Frenk c L s m1 m2 ∧
      coagulation_Frenk c L s m1 m2 ≤
        min (specFreeMolecular c L s m1 m2) (specContinuum c L s m1 m2) := by
  have heq := coagulation_Frenk_eq c L s hpow m1 m2 h1 h2
  have hpi := hL.pi_pos
  have d1 : 0 < specDiameter L s m1 := hL.pow_pos _ _ (by positivity)
  have d2 : 0 < specDiameter L s m2 := hL.pow_pos _ _ (by positivity)
  have hm : 0 < get_gas_mean_free_path c L s := by
    unfold get_gas_mean_free_path
    exact mul_pos (div_pos hmu hr) (hL.sqrt_pos _ (by positivity))
  have fm : 0 < specFreeMolecular c L s m1 m2 := by
    unfold specFreeMolecular
    exact mul_pos (mul_pos heps (hL.sqrt_pos _ (by positivity))) (by positivity)
  have cc : 0 < specContinuum c L s m1 m2 := by
    unfold specContinuum specSlip
    have e1 := hL.exp_pos (-1.1 / (2 * get_gas_mean_free_path c L s / specDiameter L s m1))
    have e2 := hL.exp_pos (-1.1 / (2 * get_gas_mean_free_path c L s / specDiameter L s m2))
    positivity
  refine ⟨heq, fm, cc, ?_, ?_⟩
  · rw [heq]
    exact div_pos (mul_pos fm cc) (add_pos fm cc)
  · rw [heq, le_min_iff]
    have hs : 0 < specFreeMolecular c L s m1 m2 + specContinuum c L s m1 m2 := add_pos fm cc
    constructor
    · rw [div_le_iff₀ hs]
      nlinarith [mul_pos fm fm]
    · rw [div_le_iff₀ hs]
      nlinarith [mul_pos cc cc]

/-- Witness for C26: the sample gas state with the masses 1 and 2. -/
theorem coagulation_Frenk_harmonic_witness :
    coagulation_Frenk (sampleConsts ℝ) realLibm
        (sampleSoot ℝ "NONE" "NONE" "NONE" "FRENK" 2 [1, 2] [0] [0]) 1 2 =
        specFreeMolecular (sampleConsts ℝ) realLibm
            (sampleSoot ℝ "NONE" "NONE" "NONE" "FRENK" 2 [1, 2] [0] [0]) 1 2 *
          specContinuum (sampleConsts ℝ) realLibm
            (sampleSoot ℝ "NONE" "NONE" "NONE" "FRENK" 2 [1, 2] [0] [0]) 1 2 /
          (specFreeMolecular (sampleConsts ℝ) realLibm
              (sampleSoot ℝ "NONE" "NONE" "NONE" "FRENK" 2 [1, 2] [0] [0]) 1 2 +
            specContinuum (sampleConsts ℝ) realLibm
              (sampleSoot ℝ "NONE" "NONE" "NONE" "FRENK" 2 [1, 2] [0] [0]) 1 2) ∧
      0 < specFreeMolecular (sampleConsts ℝ) realLibm
        (sampleSoot ℝ "NONE" "NONE" "NONE" "FRENK" 2 [1, 2] [0] [0]) 1 2 ∧
      0 < specContinuum (sampleConsts ℝ) realLibm
        (sampleSoot ℝ "NONE" "NONE" "NONE" "FRENK" 2 [1, 2] [0] [0]) 1 2 ∧
      0 < coagulation_Frenk (sampleConsts ℝ) realLibm
        (sampleSoot ℝ "NONE" "NONE" "NONE" "FRENK" 2 [1, 2] [0] [0]) 1 2 ∧
      coagulation_Frenk (sampleConsts ℝ) realLibm
          (sampleSoot ℝ "NONE" "NONE" "NONE" "FRENK" 2 [1, 2] [0] [0]) 1 2 ≤
        min (specFreeMolecular (sampleConsts ℝ) realLibm
            (sampleSoot ℝ "NONE" "NONE" "NONE" "FRENK" 2 [1, 2] [0] [0]) 1 2)
          (specContinuum (sampleConsts ℝ) realLibm
            (sampleSoot ℝ "NONE" "NONE" "NONE" "FRENK" 2 [1, 2] [0] [0]) 1 2) :=
  coagulation_Frenk_harmonic (sampleConsts ℝ) realLibm
    (sampleSoot ℝ "NONE" "NONE" "NONE" "FRENK" 2 [1, 2] [0] [0]) realLibm_strict
    (fun x => by
      show x ^ (2.0 : ℝ) = x ^ 2
      rw [show (2.0 : ℝ) = 2 by norm_num, Real.rpow_two])
    (by norm_num [sampleConsts]) (by norm_num [sampleConsts]) (by norm_num [sampleConsts])
    (by norm_num [sampleSoot]) (by norm_num [sampleSoot]) (by norm_num [sampleSoot])
    (by norm_num [sampleSoot]) (by norm_num [sampleSoot]) 1 2 one_pos two_pos

/-! ### Zero denominators -/

/-- The oxidation law `LEE_NEOH` on resolved O2, OH, H and CO: the rate
`rSootO2 + rSootOH` and the four ratios, three of them quotients by that rate. -/
theorem oxidation_Lee_Neoh_ok (c : Consts K) (L : Libm K) (s : Soot K)
    (ho2 : Resolved s s.i_o2) (hoh : Resolved s s.i_oh) (hh : Resolved s s.i_h)
    (hco : Resolved s s.i_co) :
    ∃ rSootO2 rSootOH : K,
      rSootO2 = 1.085e4 *
        (s.yi.getD s.i_o2.toNat 0 * s.MW / s.MW_sp.getD s.i_o2.toNat 0 * s.P / 101325.0) /
        L.sqrt s.T * L.exp (-1.977824e4 / s.T) / 1000.0 ∧
      rSootOH = 1290.0 * 0.13 *
        (s.yi.getD s.i_oh.toNat 0 * s.MW / s.MW_sp.getD s.i_oh.toNat 0 * s.P / 101325.0) /
        L.sqrt s.T ∧
      oxidation_Lee_Neoh c L s = .ok (rSootO2 + rSootOH,
        { s with
          rO2_rSoot_go :=
            -0.5 * s.MW_sp.getD s.i_o2.toNat 0 / c.MW_c * rSootO2 / (rSootO2 + rSootOH)
          rOH_rSoot_go :=
            -(s.MW_sp.getD s.i_oh.toNat 0) / c.MW_c * rSootOH / (rSootO2 + rSootOH)
          rH_rSoot_go := s.MW_sp.getD s.i_h.toNat 0 / c.MW_c * rSootOH / (rSootO2 + rSootOH)
          rCO_rSoot_go := s.MW_sp.getD s.i_co.toNat 0 / c.MW_c }) := by
  refine ⟨_, _, rfl, rfl, ?_⟩
  unfold oxidation_Lee_Neoh
  simp only [rdI_getD 0 ho2.1 ho2.2.1, rdI_getD 0 ho2.1 ho2.2.2.1, rdI_getD 0 hoh.1 hoh.2.1,
    rdI_getD 0 hoh.1 hoh.2.2.1, rdI_getD 0 hh.1 hh.2.2.1, rdI_getD 0 hco.1 hco.2.2.1, ok_bind]
  rfl

/-- The oxidation law `NSC_NEOH` on resolved O2, OH, H and CO: the fraction `x`, a
quotient by `kB * pO2`, the rate `rSootO2 + rSootOH` and the four ratios, three of them
quotients by that rate. -/
theorem oxidation_NSC_Neoh_ok (c : Consts K) (L : Libm K) (s : Soot K)
    (ho2 : Resolved s s.i_o2) (hoh : Resolved s s.i_oh) (hh : Resolved s s.i_h)
    (hco : Resolved s s.i_co) :
    ∃ pO2 x rSootO2 rSootOH : K,
      pO2 = s.yi.getD s.i_o2.toNat 0 * s.MW / s.MW_sp.getD s.i_o2.toNat 0 * s.P / 101325.0 ∧
      x = 1.0 / (1.0 + 1.51e5 * L.exp (-48817.0 / s.T) /
        (4.46e-3 * L.exp (-7650.0 / s.T) * pO2)) ∧
      rSootO2 = (20.0 * L.exp (-15098.0 / s.T) * pO2 * x /
          (1.0 + 21.3 * L.exp (2063.0 / s.T) * pO2) +
        4.46e-3 * L.exp (-7650.0 / s.T) * pO2 * (1.0 - x)) * s.rhoSoot ∧
      rSootOH = 1290.0 * 0.13 *
        (s.yi.getD s.i_oh.toNat 0 * s.MW / s.MW_sp.getD s.i_oh.toNat 0 * s.P / 101325.0) /
        L.sqrt s.T ∧
      oxidation_NSC_Neoh c L s = .ok (rSootO2 + rSootOH,
        { s with
          rO2_rSoot_go :=
            -0.5 * s.MW_sp.getD s.i_o2.toNat 0 / c.MW_c * rSootO2 / (rSootO2 + rSootOH)
          rOH_rSoot_go :=
            -(s.MW_sp.getD s.i_oh.toNat 0) / c.MW_c * rSootOH / (rSootO2 + rSootOH)
          rH_rSoot_go := s.MW_sp.getD s.i_h.toNat 0 / c.MW_c * rSootOH / (rSootO2 + rSootOH)
          rCO_rSoot_go := s.MW_sp.getD s.i_co.toNat 0 / c.MW_c }) := by
  refine ⟨_, _, _, _, rfl, rfl, rfl, rfl, ?_⟩
  unfold oxidation_NSC_Neoh
  simp only [rdI_getD 0 ho2.1 ho2.2.1, rdI_getD 0 ho2.1 ho2.2.2.1, rdI_getD 0 hoh.1 hoh.2.1,
    rdI_getD 0 hoh.1 hoh.2.2.1, rdI_getD 0 hh.1 hh.2.2.1, rdI_getD 0 hco.1 hco.2.2.1, ok_bind]
  rfl



/-- C21 (code defect): the laws `LEE_NEOH` and `NSC_NEOH` do not guard their
denominators. On the sample object at 1800 K and 101325 Pa with the mass fractions of O2
and OH both 0, each law returns the rate `rSootO2 + rSootOH` with `rSootO2 = 0` and
`rSootOH = 0`, and the ratios of O2, OH and H it stores are quotients by
`rSootO2 + rSootOH`; `NSC_NEOH` also forms `x` as a quotient by `kB * pO2` with
`pO2 = 0`. -/
theorem oxidation_Neoh_zero_unguarded (L : Libm ℝ) :
    (∃ rSootO2 rSootOH : ℝ, rSootO2 = 0 ∧ rSootOH = 0 ∧
      oxidation_Lee_Neoh (sampleConsts ℝ) L (sampleNoOx ℝ "LEE_NEOH") =
        .ok (rSootO2 + rSootOH,
          { sampleNoOx ℝ "LEE_NEOH" with
            rO2_rSoot_go := -0.5 * 31.998 / 12.011 * rSootO2 / (rSootO2 + rSootOH)
            rOH_rSoot_go := -17.007 / 12.011 * rSootOH / (rSootO2 + rSootOH)
            rH_rSoot_go := 1.008 / 12.011 * rSootOH / (rSootO2 + rSootOH)
            rCO_rSoot_go := 28.010 / 12.011 })) ∧
    (∃ pO2 x rSootO2 rSootOH : ℝ, pO2 = 0 ∧
      x = 1.0 / (1.0 + 1.51e5 * L.exp (-48817.0 / 1800) /
        (4.46e-3 * L.exp (-7650.0 / 1800) * pO2)) ∧
      rSootO2 = 0 ∧ rSootOH = 0 ∧
      oxidation_NSC_Neoh (sampleConsts ℝ) L (sampleNoOx ℝ "NSC_NEOH") =
        .ok (rSootO2 + rSootOH,
          { sampleNoOx ℝ "NSC_NEOH" with
            rO2_rSoot_go := -0.5 * 31.998 / 12.011 * rSootO2 / (rSootO2 + rSootOH)
            rOH_rSoot_go := -17.007 / 12.011 * rSootOH / (rSootO2 + rSootOH)
            rH_rSoot_go := 1.008 / 12.011 * rSootOH / (rSootO2 + rSootOH)
            rCO_rSoot_go := 28.010 / 12.011 })) := by
  have r1 : Resolved (sampleNoOx ℝ "LEE_NEOH") 1 := by simp [Resolved, sampleNoOx, sampleSoot]
  have r4 : Resolved (sampleNoOx ℝ "LEE_NEOH") 4 := by simp [Resolved, sampleNoOx, sampleSoot]
  have r2 : Resolved (sampleNoOx ℝ "LEE_NEOH") 2 := by simp [Resolved, sampleNoOx, sampleSoot]
  have r6 : Resolved (sampleNoOx ℝ "LEE_NEOH") 6 := by simp [Resolved, sampleNoOx, sampleSoot]
  have q1 : Resolved (sampleNoOx ℝ "NSC_NEOH") 1 := by simp [Resolved, sampleNoOx, sampleSoot]
  have q4 : Resolved (sampleNoOx ℝ "NSC_NEOH") 4 := by simp [Resolved, sampleNoOx, sampleSoot]
  have q2 : Resolved (sampleNoOx ℝ "NSC_NEOH") 2 := by simp [Resolved, sampleNoOx, sampleSoot]
  have q6 : Resolved (sampleNoOx ℝ "NSC_NEOH") 6 := by simp [Resolved, sampleNoOx, sampleSoot]
  constructor
  · obtain ⟨a, b, ha, hb, h⟩ :=
      oxidation_Lee_Neoh_ok (sampleConsts ℝ) L (sampleNoOx ℝ "LEE_NEOH") r1 r4 r2 r6
    refine ⟨a, b, ?_, ?_, h⟩
    · rw [ha]
      show 1.085e4 * ((0 : ℝ) * 28 / 31.998 * 101325 / 101325.0) / L.sqrt 1800 *
        L.exp (-1.977824e4 / 1800) / 1000.0 = 0
      simp
    · rw [hb]
      show 1290.0 * 0.13 * ((0 : ℝ) * 28 / 17.007 * 101325 / 101325.0) / L.sqrt 1800 = 0
      simp
  · obtain ⟨p, x, a, b, hp, hx, ha, hb, h⟩ :=
      oxidation_NSC_Neoh_ok (sampleConsts ℝ) L (sampleNoOx ℝ "NSC_NEOH") q1 q4 q2 q6
    have hp0 : p = 0 := by
      rw [hp]
      show (0 : ℝ) * 28 / 31.998 * 101325 / 101325.0 = 0
      simp
    refine ⟨p, x, a, b, hp0, hx, ?_, ?_, h⟩
    · rw [ha, hp0]
      simp
    · rw [hb]
      show 1290.0 * 0.13 * ((0 : ℝ) * 28 / 17.007 * 101325 / 101325.0) / L.sqrt 1800 = 0
      simp

/-- C22 (code defect): `set_m_dimer` does not guard the division by the dimer
self-collision rate. On the sample object whose single PAH species has mass fraction 0
it returns `wdotD = 0` and leaves `m_dimer` and `Cmin` as products with the quotients
`2 / wdotD` and `4 / wdotD`; `set_Ndimer` and `nucleation_PAH` then go on with these
values, computing `DIMER` as a quotient whose numerator is `2.0 * wdotD`. -/
theorem set_m_dimer_zero_unguarded (L : Libm ℝ) :
    ∃ (wdotD : ℝ) (s1 : Soot ℝ), wdotD = 0 ∧
      set_m_dimer (sampleConsts ℝ) L (samplePAHzero ℝ 100) = .ok (wdotD, s1) ∧
      s1.m_dimer = (0.0 + 0 * (202.25 / 6.02214086e26)) * (2 / wdotD) ∧
      s1.Cmin = (100 + 0 * 16) * (4 / wdotD) ∧
      set_Ndimer (sampleConsts ℝ) L (samplePAHzero ℝ 100) [] [] =
        .ok { s1 with DIMER := 2.0 * wdotD / (0.0 + L.sqrt (0.0 * 0.0 +
          4 * coagulation_Frenk (sampleConsts ℝ) L s1 s1.m_dimer s1.m_dimer * wdotD)) } := by
  obtain ⟨w, md, cm, hw, hmd, hcm, h1⟩ := set_m_dimer_single (sampleConsts ℝ) L
    (samplePAHzero ℝ 100) 7 16 0 rfl rfl rfl (by decide)
    (by simp [samplePAHzero, samplePAH, sampleSoot])
    (by simp [samplePAHzero, samplePAH, sampleSoot])
  have hy : (samplePAHzero ℝ 100).yi.getD (7 : Int).toNat 0 = 0 := rfl
  have hw0 : w = 0 := by
    rw [hw, hy]
    simp
  have hwd : (0.0 : ℝ) + w = 0 := by
    rw [hw0]
    norm_num
  refine ⟨0.0 + w, _, hwd, h1, ?_, ?_, ?_⟩
  · show md = _
    rw [hmd, hw0]
    rfl
  · show cm = _
    rw [hcm, hw0]
    show ((100 : ℝ) + 0 * ((16 : Int) : ℝ)) * (4 / (0.0 + 0)) = (100 + 0 * 16) * (4 / (0.0 + 0))
    push_cast
    rfl
  · unfold set_Ndimer
    rw [h1, ok_bind]
    rfl



/-! ### The coagulation sum -/

/-- A double sum of a symmetric term over `i, j < n` is twice the sum over the pairs
`j < i` plus the sum over the diagonal. -/
theorem sum_symm_split (f : Nat → Nat → K) (hf : ∀ i j, f i j = f j i) (n : Nat) :
    ∑ i in Finset.range n, ∑ j in Finset.range n, f i j =
      2 * ∑ i in Finset.range n, ∑ j in Finset.range i, f i j +
        ∑ i in Finset.range n, f i i := by
  induction n with
  | zero => simp
  | succ n ih =>
    have h1 : ∑ i in Finset.range n, f i n = ∑ j in Finset.range n, f n j :=
      Finset.sum_congr rfl (fun i _ => hf i n)
    rw [Finset.sum_range_succ, Finset.sum_range_succ (fun i => ∑ j in Finset.range i, f i j),
      Finset.sum_range_succ (fun i => f i i), Finset.sum_range_succ (fun j => f n j)]
    simp only [Finset.sum_range_succ (fun j => f _ j), Finset.sum_add_distrib]
    rw [ih, h1]
    ring

/-- C24: for a kernel `beta` that `getCoagulationRate` returns and that is symmetric,
node arrays of equal length and a `pow` that returns the `k`-th power on an integer
exponent, the entry `Mcoa[k]` of `setSrc` (the sum over the pairs `j < i` with the factor
`(m_i + m_j)^k - m_i^k - m_j^k`, or `-1` for `k = 0`, plus the sum over the diagonal with
the factor `m_i^k (2^(k-1) - 1)`, or `-0.5` for `k = 0`, and 0 for the skipped `k = 1`)
is half the full symmetric double sum of the specification, for every order `k`; and
that double sum is 0 for `k = 1`. -/
theorem McoaEntry_eq_symmetric_sum (c : Consts K) (L : Libm K) (s : Soot K) (β : K → K → K)
    (hβ : ∀ m1 m2, getCoagulationRate c L s m1 m2 = .ok (β m1 m2))
    (hsym : ∀ m1 m2, β m1 m2 = β m2 m1)
    (hpow : ∀ (x : K) (n : Nat), L.pow x n = x ^ n)
    (hlen : s.wts.length = s.absc.length) (k : Nat) :
    McoaEntry c L s k = .ok (specCoagulationSum β (fun i => s.wts.getD i 0)
        (fun i => s.absc.getD i 0) s.absc.length k) ∧
      specCoagulationSum β (fun i => s.wts.getD i 0) (fun i => s.absc.getD i 0)
        s.absc.length 1 = 0 := by
  have hone : specCoagulationSum β (fun i => s.wts.getD i 0) (fun i => s.absc.getD i 0)
      s.absc.length 1 = 0 := by
    unfold specCoagulationSum
    simp
  refine ⟨?_, hone⟩
  rw [McoaEntry_val c L s β hβ k hlen]
  by_cases hk1 : k = 1
  · rw [if_pos hk1, hk1, hone]
  · rw [if_neg hk1]
    congr 1
    unfold specCoagulationSum
    rw [sum_symm_split _ (fun i j => by
      show β _ _ * _ * _ * _ = β _ _ * _ * _ * _
      rw [hsym (s.absc.getD i 0) (s.absc.getD j 0), add_comm (s.absc.getD i 0)]
      ring)]
    rw [mul_add, ← mul_assoc, show (1 : K) / 2 * 2 = 1 by norm_num, one_mul, Finset.mul_sum]
    congr 1
    · refine Finset.sum_congr rfl (fun i _ => Finset.sum_congr rfl (fun j _ => ?_))
      by_cases hk0 : k = 0
      · rw [if_pos hk0, hk0]
        norm_num
      · rw [if_neg hk0, hpow, hpow, hpow]
    · refine Finset.sum_congr rfl (fun i _ => ?_)
      by_cases hk0 : k = 0
      · rw [if_pos hk0, hk0]
        norm_num
        ring
      · rw [if_neg hk0]
        obtain ⟨j, rfl⟩ : ∃ j, k = j + 1 := ⟨k - 1, by omega⟩
        have e : ((((j + 1 : Nat) : Int) - 1 : Int) : K) = ((j : Nat) : K) := by
          push_cast
          ring
        rw [e, hpow, hpow]
        ring

/-- Witness for C24: the Frenklach kernel on the sample gas state, two nodes, order 2. -/
theorem McoaEntry_eq_symmetric_sum_witness :
    McoaEntry (sampleConsts ℝ) realLibm
        (sampleSoot ℝ "NONE" "NONE" "NONE" "FRENK" 4 [1, 2, 3, 4] [1, 2] [3, 4]) 2 =
      .ok (specCoagulationSum
        (coagulation_Frenk (sampleConsts ℝ) realLibm
          (sampleSoot ℝ "NONE" "NONE" "NONE" "FRENK" 4 [1, 2, 3, 4] [1, 2] [3, 4]))
        (fun i => ([1, 2] : List ℝ).getD i 0) (fun i => ([3, 4] : List ℝ).getD i 0) 2 2) ∧
      specCoagulationSum
        (coagulation_Frenk (sampleConsts ℝ) realLibm
          (sampleSoot ℝ "NONE" "NONE" "NONE" "FRENK" 4 [1, 2, 3, 4] [1, 2] [3, 4]))
        (fun i => ([1, 2] : List ℝ).getD i 0) (fun i => ([3, 4] : List ℝ).getD i 0) 2 1 = 0 :=
  McoaEntry_eq_symmetric_sum (sampleConsts ℝ) realLibm
    (sampleSoot ℝ "NONE" "NONE" "NONE" "FRENK" 4 [1, 2, 3, 4] [1, 2] [3, 4])
    (coagulation_Frenk (sampleConsts ℝ) realLibm
      (sampleSoot ℝ "NONE" "NONE" "NONE" "FRENK" 4 [1, 2, 3, 4] [1, 2] [3, 4]))
    (fun m1 m2 => getCoagulationRate_FRENK _ _ _ m1 m2 rfl)
    (fun m1 m2 => coagulation_Frenk_symm _ _ _ m1 m2)
    (fun x n => Real.rpow_natCast x n) rfl 2



/-- The check of a result: it is rejected exactly when some weight is negative, some
abscissa is negative or some abscissa exceeds 1, that is, when it is not admissible. -/
theorem negs_iff (wheeler : Wheeler K) (M : List K) (n : Nat) :
    (negs (callWheeler wheeler M (2 * n)) = true ↔
      ∃ k, k < n ∧ ((wheeler M n k).1 < 0 ∨ (wheeler M n k).2 < 0 ∨ (wheeler M n k).2 > 1)) ∧
    (negs (callWheeler wheeler M (2 * n)) = false ↔ specAdmissible wheeler M n) := by
  have hhalf : 2 * n / 2 = n := by omega
  have h1 : negs (callWheeler wheeler M (2 * n)) = true ↔
      ∃ k, k < n ∧ ((wheeler M n k).1 < 0 ∨ (wheeler M n k).2 < 0 ∨
        (wheeler M n k).2 > 1) := by
    simp only [negs, callWheeler, hhalf, List.any_eq_true, List.mem_map, List.mem_range,
      Bool.or_eq_true, decide_eq_true_eq]
    constructor
    · rintro ⟨p, ⟨k, hk, rfl⟩, h⟩
      exact ⟨k, hk, by tauto⟩
    · rintro ⟨k, hk, h⟩
      exact ⟨_, ⟨k, hk, rfl⟩, by tauto⟩
  refine ⟨h1, ?_⟩
  rw [← Bool.not_eq_true, h1]
  unfold specAdmissible
  constructor
  · intro h k hk
    by_contra hc
    apply h
    refine ⟨k, hk, ?_⟩
    by_contra hd
    push_neg at hd
    exact hc ⟨hd.1, hd.2.1, hd.2.2⟩
  · rintro h ⟨k, hk, hc⟩
    obtain ⟨a, b, d⟩ := h k hk
    rcases hc with hc | hc | hc
    · exact absurd hc (not_lt.mpr a)
    · exact absurd hc (not_lt.mpr b)
    · exact absurd hc (not_lt.mpr d)

/-- The downselection loop entered at the order `m >= 1`: it returns the oracle's result
at the largest admissible order `n` with `2 <= n <= m` in the slots `0 .. n-1`, and the
monodisperse node when no such order is admissible. -/
theorem downselect_largest (wheeler : Wheeler K) (M wts absc : List K) (hM : 2 ≤ M.length) :
    ∀ (m : Nat) (calls : List Nat), 1 ≤ m → m ≤ wts.length → m ≤ absc.length →
    ∃ r, downselect wheeler M wts absc (2 * m) calls = .ok r ∧
      (∀ n, 2 ≤ n → n ≤ m → specAdmissible wheeler M n →
        (∀ n', n < n' → n' ≤ m → ¬ specAdmissible wheeler M n') →
        ∀ k, k < n → r.wts[k]? = some (wheeler M n k).1 ∧
          r.absc[k]? = some (wheeler M n k).2) ∧
      ((∀ n, 2 ≤ n → n ≤ m → ¬ specAdmissible wheeler M n) →
        r.wts[0]? = some (M.getD 0 0) ∧ r.absc[0]? = some (M.getD 1 0 / M.getD 0 0)) := by
  intro m
  induction m with
  | zero => intro _ h; omega
  | succ m ih =>
    intro calls _ hw ha
    have e : 2 * (m + 1) = 2 * m + 2 := by ring
    rcases Nat.eq_zero_or_pos m with hm | hm
    · subst hm
      have hw0 : 0 < wts.length := by omega
      have ha0 : 0 < absc.length := by omega
      refine ⟨⟨wts.set 0 (M.getD 0 0), absc.set 0 (M.getD 1 0 / M.getD 0 0), calls⟩, ?_,
        fun n h2 hn => by omega, fun _ => ?_⟩
      · simp [downselect, rd_getD (0 : K) (show 0 < M.length by omega),
          rd_getD (0 : K) (show 1 < M.length by omega), wr_of_lt _ hw0, wr_of_lt _ ha0, bind,
          Except.bind, pure, Except.pure]
      · exact ⟨List.getElem?_set_self hw0, List.getElem?_set_self ha0⟩
    · have hne : ¬ (2 * m + 2 = 2) := by omega
      have hhalf : (2 * m + 2) / 2 = m + 1 := by omega
      have hadm := (negs_iff wheeler M (m + 1)).2
      rw [e] at hadm ⊢
      by_cases hn : negs (callWheeler wheeler M (2 * m + 2)) = true
      · have hnot : ¬ specAdmissible wheeler M (m + 1) := by
          intro h
          rw [← hadm, hn] at h
          cases h
        obtain ⟨r, hok, h1, h2⟩ := ih ((m + 1) :: calls) hm (by omega) (by omega)
        refine ⟨r, ?_, ?_, ?_⟩
        · rw [downselect]
          simp only [hne, if_false, hn, if_true, hhalf]
          exact hok
        · intro n hn2 hnm had hmax
          have hlt : n ≤ m := by
            rcases Nat.lt_or_ge m n with h | h
            · have : n = m + 1 := by omega
              subst this
              exact absurd had hnot
            · exact h
          exact h1 n hn2 hlt had (fun n' h' h'' => hmax n' h' (by omega))
        · intro hnone
          exact h2 (fun n h h' => hnone n h (by omega))
      · have hn' : negs (callWheeler wheeler M (2 * m + 2)) = false := by
          simpa using hn
        have hyes : specAdmissible wheeler M (m + 1) := hadm.mp hn'
        have hlen : (callWheeler wheeler M (2 * m + 2)).length = m + 1 := by
          simp [callWheeler, hhalf]
        obtain ⟨w, a, hok, -, hval⟩ :=
          assign_vals (callWheeler wheeler M (2 * m + 2)) wts absc 0 (by omega) (by omega)
        refine ⟨⟨w, a, (m + 1) :: calls⟩, ?_, ?_, ?_⟩
        · rw [downselect]
          simp [hne, hn', hhalf, hok, bind, Except.bind, pure, Except.pure]
        · intro n hn2 hnm had hmax
          have hnm' : n = m + 1 := by
            rcases Nat.lt_or_ge n (m + 1) with h | h
            · exact absurd hyes (hmax (m + 1) h le_rfl)
            · omega
          subst hnm'
          intro k hk
          have hk' : (callWheeler wheeler M (2 * m + 2))[k]? = some (wheeler M (m + 1) k) := by
            simp [callWheeler, hhalf, hk]
          have := hval k _ hk'
          rw [Nat.zero_add] at this
          exact this
        · intro hnone
          exact absurd hyes (hnone (m + 1) (by omega) le_rfl)

/-- For an oracle whose results are numbers (no NaN): for every strictly positive moment
vector of even length `nsvar >= 4` and node arrays with room for `nsvar/2` nodes,
`getWtsAbs` returns; if `n` is the
largest order in `2 .. nsvar/2` whose oracle result is admissible, the slots `0 .. n-1`
hold that result; if no order in `2 .. nsvar/2` is admissible, slot 0 holds the
monodisperse node `(M0, M1/M0)`. A result is rejected exactly when some weight is
negative, some abscissa is negative or some abscissa exceeds 1. -/
theorem getWtsAbs_largest_admissible (wheeler : Wheeler K) (nsvar : Nat) (M wts absc : List K)
    (heven : nsvar % 2 = 0) (h4 : 4 ≤ nsvar) (hlen : M.length = nsvar)
    (hpos : ∀ x ∈ M, 0 < x) (hw : nsvar / 2 ≤ wts.length) (ha : nsvar / 2 ≤ absc.length) :
    ∃ r, getWtsAbs wheeler nsvar M wts absc = .ok r ∧
      (∀ n, 2 ≤ n → n ≤ nsvar / 2 → specAdmissible wheeler M n →
        (∀ n', n < n' → n' ≤ nsvar / 2 → ¬ specAdmissible wheeler M n') →
        ∀ k, k < n → r.wts[k]? = some (wheeler M n k).1 ∧
          r.absc[k]? = some (wheeler M n k).2) ∧
      ((∀ n, 2 ≤ n → n ≤ nsvar / 2 → ¬ specAdmissible wheeler M n) →
        r.wts[0]? = some (M.getD 0 0) ∧ r.absc[0]? = some (M.getD 1 0 / M.getD 0 0)) ∧
      (∀ n, negs (callWheeler wheeler M (2 * n)) = true ↔
        ∃ k, k < n ∧ ((wheeler M n k).1 < 0 ∨ (wheeler M n k).2 < 0 ∨
          (wheeler M n k).2 > 1)) := by
  have hany := anyNonPositive_of_pos M nsvar 0 (by omega)
    (fun i h _ _ => hpos _ (List.getElem_mem h))
  obtain ⟨r, hok, h1, h2⟩ := downselect_largest wheeler M wts absc (by omega) (nsvar / 2) []
    (by omega) hw ha
  have e : 2 * (nsvar / 2) = nsvar := by omega
  rw [e] at hok
  refine ⟨r, ?_, h1, h2, fun n => (negs_iff wheeler M n).1⟩
  unfold getWtsAbs
  rw [hany]
  exact hok

/-- Four positive moments for which the sample oracle returns two admissible nodes at
order 2. -/
theorem getWtsAbs_largest_admissible_witness :
    ∃ r, getWtsAbs sampleWheeler 4 [1, 1 / 2, 5 / 16, 7 / 32] [0, 0] [0, 0] = .ok r ∧
      (∀ n, 2 ≤ n → n ≤ 4 / 2 →
        specAdmissible sampleWheeler [1, 1 / 2, 5 / 16, 7 / 32] n →
        (∀ n', n < n' → n' ≤ 4 / 2 →
          ¬ specAdmissible sampleWheeler [1, 1 / 2, 5 / 16, 7 / 32] n') →
        ∀ k, k < n → r.wts[k]? = some (sampleWheeler [1, 1 / 2, 5 / 16, 7 / 32] n k).1 ∧
          r.absc[k]? = some (sampleWheeler [1, 1 / 2, 5 / 16, 7 / 32] n k).2) ∧
      ((∀ n, 2 ≤ n → n ≤ 4 / 2 →
          ¬ specAdmissible sampleWheeler [1, 1 / 2, 5 / 16, 7 / 32] n) →
        r.wts[0]? = some (([1, 1 / 2, 5 / 16, 7 / 32] : List ℚ).getD 0 0) ∧
          r.absc[0]? = some (([1, 1 / 2, 5 / 16, 7 / 32] : List ℚ).getD 1 0 /
            ([1, 1 / 2, 5 / 16, 7 / 32] : List ℚ).getD 0 0)) ∧
      (∀ n, negs (callWheeler sampleWheeler [1, 1 / 2, 5 / 16, 7 / 32] (2 * n)) = true ↔
        ∃ k, k < n ∧ ((sampleWheeler [1, 1 / 2, 5 / 16, 7 / 32] n k).1 < 0 ∨
          (sampleWheeler [1, 1 / 2, 5 / 16, 7 / 32] n k).2 < 0 ∨
          (sampleWheeler [1, 1 / 2, 5 / 16, 7 / 32] n k).2 > 1)) :=
  getWtsAbs_largest_admissible sampleWheeler 4 [1, 1 / 2, 5 / 16, 7 / 32] [0, 0] [0, 0]
    (by decide) (by decide) rfl
    (by
      intro x hx
      simp only [List.mem_cons, List.mem_singleton, List.not_mem_nil, or_false] at hx
      rcases hx with h | h | h | h <;> rw [h] <;> norm_num)
    (by decide) (by decide)



/-! ### The function `set_m_dimer` on any number of PAH species -/

/-- One iteration of the first loop of `set_m_dimer`, on an object that differs from `s`
in `m_dimer`, `Cmin` and the PAH ratios only. -/
theorem set_m_dimer_body_ok (c : Consts K) (L : Libm K) (s : Soot K)
    (hp : ∀ i ∈ s.i_pah, Resolved s i) (hn : s.i_pah.length ≤ s.nC_PAH.length)
    (i : Nat) (hi : i < s.i_pah.length) (wd md cm : K) (r : List K) (hr : i < r.length) :
    set_m_dimer_body c L
        (L.sqrt (4 * L.pi * c.kb * s.T) * L.pow (6 / (L.pi * s.rhoSoot)) (2.0 / 3.0)) i
        (wd, { s with m_dimer := md, Cmin := cm, rPAH_rSoot_ncnd := r }) =
      .ok (wd + wdoti c L s i,
        { s with
          m_dimer := md + wdoti c L s i * m_ipah c s i
          Cmin := cm + wdoti c L s i * ((s.nC_PAH.getD i 0 : Int) : K)
          rPAH_rSoot_ncnd := r.set i (wdoti c L s i * m_ipah c s i) }) := by
  have hres := hp _ (List.getElem_mem hi)
  have e : s.i_pah[i] = s.i_pah.getD i 0 := by
    rw [List.getD_eq_getElem?_getD, List.getElem?_eq_getElem hi]
    rfl
  rw [e] at hres
  have r1 : rd s.i_pah i = .ok (s.i_pah.getD i 0) := rd_getD 0 hi
  have r2 := rdI_getD (0 : K) hres.1 hres.2.2.1
  have r3 := rdI_getD (0 : K) hres.1 hres.2.1
  have r4 : rd s.nC_PAH i = .ok (s.nC_PAH.getD i 0) := rd_getD 0 (by omega)
  unfold set_m_dimer_body
  dsimp only
  simp only [r1, r2, r3, r4, ok_bind, wr_of_lt _ hr]
  rfl

set_option maxHeartbeats 1000000 in
/-- The function `set_m_dimer` on an object whose PAH species are resolved: with
`wdotD = 0.0 + sum wdot_i`, `Sm = 0.0 + sum wdot_i m_i` and `Sc = Cmin + sum wdot_i nC_i`
it returns `wdotD` and leaves `m_dimer = Sm * (2 / wdotD)`, `Cmin = Sc * (4 / wdotD)`,
the PAH ratios `wdot_i m_i / Sm * q` with `q = -2.0 m_dimer / (Cmin MW_c / Na)`, and the
H2 ratio `-q - 1.0`. -/
theorem set_m_dimer_total (c : Consts K) (L : Libm K) (s : Soot K)
    (hp : ∀ i ∈ s.i_pah, Resolved s i) (hr : s.i_pah.length ≤ s.rPAH_rSoot_ncnd.length)
    (hn : s.i_pah.length ≤ s.nC_PAH.length) :
    ∃ (wdotD Sm md cm : K) (r : List K),
      wdotD = 0.0 + ∑ i in Finset.range s.i_pah.length, wdoti c L s i ∧
      Sm = 0.0 + ∑ i in Finset.range s.i_pah.length, wdoti c L s i * m_ipah c s i ∧
      md = Sm * (2 / wdotD) ∧
      cm = (s.Cmin + ∑ i in Finset.range s.i_pah.length,
        wdoti c L s i * ((s.nC_PAH.getD i 0 : Int) : K)) * (4 / wdotD) ∧
      r.length = s.rPAH_rSoot_ncnd.length ∧
      (∀ i, i < s.i_pah.length → r[i]? =
        some (wdoti c L s i * m_ipah c s i / Sm * (-2.0 * md / (cm * c.MW_c / c.Na)))) ∧
      set_m_dimer c L s = .ok (wdotD,
        { s with
          m_dimer := md
          Cmin := cm
          rPAH_rSoot_ncnd := r
          rH2_rSoot_ncnd := 2.0 * md / (cm * c.MW_c / c.Na) - 1.0 }) := by
  -- first loop
  obtain ⟨st1, h1, r1, e1, l1, v1⟩ := forLoop_inv
    (fun i (st : K × Soot K) => ∃ r : List K,
      st = (0.0 + ∑ j in Finset.range i, wdoti c L s j,
        { s with
          m_dimer := 0.0 + ∑ j in Finset.range i, wdoti c L s j * m_ipah c s j
          Cmin := s.Cmin + ∑ j in Finset.range i,
            wdoti c L s j * ((s.nC_PAH.getD j 0 : Int) : K)
          rPAH_rSoot_ncnd := r }) ∧
      r.length = s.rPAH_rSoot_ncnd.length ∧
      ∀ j, j < i → r[j]? = some (wdoti c L s j * m_ipah c s j))
    s.i_pah.length
    (set_m_dimer_body c L
      (L.sqrt (4 * L.pi * c.kb * s.T) * L.pow (6 / (L.pi * s.rhoSoot)) (2.0 / 3.0)))
    (0.0, { s with m_dimer := 0.0 })
    ⟨s.rPAH_rSoot_ncnd, by simp, rfl, fun j hj => absurd hj (Nat.not_lt_zero j)⟩
    (by
      rintro i hi st ⟨r, rfl, hl, hv⟩
      have hir : i < r.length := by omega
      refine ⟨_, set_m_dimer_body_ok c L s hp hn i hi _ _ _ r hir,
        r.set i (wdoti c L s i * m_ipah c s i), ?_, by rw [List.length_set, hl], ?_⟩
      · simp only [Finset.sum_range_succ, add_assoc]
      · intro j hj
        rw [List.getElem?_set]
        split
        · rename_i e
          subst e
          simp [hir]
        · exact hv j (by omega))
  -- second loop
  obtain ⟨st2, h2, r2, e2, l2, v2⟩ := forLoop_inv
    (fun i (st : Soot K) => ∃ r : List K,
      st = { s with
          m_dimer := 0.0 + ∑ j in Finset.range s.i_pah.length, wdoti c L s j * m_ipah c s j
          Cmin := s.Cmin + ∑ j in Finset.range s.i_pah.length,
            wdoti c L s j * ((s.nC_PAH.getD j 0 : Int) : K)
          rPAH_rSoot_ncnd := r } ∧
      r.length = s.rPAH_rSoot_ncnd.length ∧
      ∀ j, j < s.i_pah.length → r[j]? = some (if j < i
        then wdoti c L s j * m_ipah c s j /
          (0.0 + ∑ j in Finset.range s.i_pah.length, wdoti c L s j * m_ipah c s j)
        else wdoti c L s j * m_ipah c s j))
    s.i_pah.length
    (fun i s => do
      let r ← wr s.rPAH_rSoot_ncnd i ((← rd s.rPAH_rSoot_ncnd i) / s.m_dimer)
      pure { s with rPAH_rSoot_ncnd := r })
    { s with
      m_dimer := 0.0 + ∑ j in Finset.range s.i_pah.length, wdoti c L s j * m_ipah c s j
      Cmin := s.Cmin + ∑ j in Finset.range s.i_pah.length,
        wdoti c L s j * ((s.nC_PAH.getD j 0 : Int) : K)
      rPAH_rSoot_ncnd := r1 }
    ⟨r1, rfl, l1, fun j hj => by rw [if_neg (Nat.not_lt_zero j)]; exact v1 j hj⟩
    (by
      rintro i hi st ⟨r, rfl, hl, hv⟩
      have hir : i < r.length := by omega
      have hread : rd r i = .ok (wdoti c L s i * m_ipah c s i) := by
        have := hv i hi
        rw [if_neg (lt_irrefl i)] at this
        simp [rd, this]
      refine ⟨_, by
        dsimp only
        rw [hread, ok_bind, wr_of_lt _ hir, ok_bind]
        rfl, _, rfl, by rw [List.length_set, hl], ?_⟩
      intro j hj
      rw [List.getElem?_set]
      split
      · rename_i e
        subst e
        simp [hir]
      · rename_i e
        rw [hv j hj]
        by_cases hji : j < i
        · rw [if_pos hji, if_pos (by omega)]
        · rw [if_neg hji, if_neg (by omega)])
  rw [e1] at h1
  rw [e2] at h2
  -- third loop
  obtain ⟨st3, h3, r3, e3, l3, v3⟩ := forLoop_inv
    (fun i (st : Soot K) => ∃ r : List K,
      st = { s with
          m_dimer := (0.0 + ∑ j in Finset.range s.i_pah.length,
            wdoti c L s j * m_ipah c s j) *
            (2 / (0.0 + ∑ j in Finset.range s.i_pah.length, wdoti c L s j))
          Cmin := (s.Cmin + ∑ j in Finset.range s.i_pah.length,
            wdoti c L s j * ((s.nC_PAH.getD j 0 : Int) : K)) *
            (4 / (0.0 + ∑ j in Finset.range s.i_pah.length, wdoti c L s j))
          rPAH_rSoot_ncnd := r } ∧
      r.length = s.rPAH_rSoot_ncnd.length ∧
      ∀ j, j < s.i_pah.length → r[j]? = some (if j < i
        then wdoti c L s j * m_ipah c s j /
          (0.0 + ∑ j in Finset.range s.i_pah.length, wdoti c L s j * m_ipah c s j) *
          (-2.0 * ((0.0 + ∑ j in Finset.range s.i_pah.length,
            wdoti c L s j * m_ipah c s j) *
            (2 / (0.0 + ∑ j in Finset.range s.i_pah.length, wdoti c L s j))) /
            ((s.Cmin + ∑ j in Finset.range s.i_pah.length,
              wdoti c L s j * ((s.nC_PAH.getD j 0 : Int) : K)) *
              (4 / (0.0 + ∑ j in Finset.range s.i_pah.length, wdoti c L s j)) *
              c.MW_c / c.Na))
        else wdoti c L s j * m_ipah c s j /
          (0.0 + ∑ j in Finset.range s.i_pah.length, wdoti c L s j * m_ipah c s j)))
    s.i_pah.length
    (fun i s => do
      let r ← wr s.rPAH_rSoot_ncnd i
        ((← rd s.rPAH_rSoot_ncnd i) * (-2.0 * s.m_dimer / (s.Cmin * c.MW_c / c.Na)))
      pure { s with rPAH_rSoot_ncnd := r })
    { s with
      m_dimer := (0.0 + ∑ j in Finset.range s.i_pah.length, wdoti c L s j * m_ipah c s j) *
        (2 / (0.0 + ∑ j in Finset.range s.i_pah.length, wdoti c L s j))
      Cmin := (s.Cmin + ∑ j in Finset.range s.i_pah.length,
        wdoti c L s j * ((s.nC_PAH.getD j 0 : Int) : K)) *
        (4 / (0.0 + ∑ j in Finset.range s.i_pah.length, wdoti c L s j))
      rPAH_rSoot_ncnd := r2 }
    ⟨r2, rfl, l2, fun j hj => by
      rw [if_neg (Nat.not_lt_zero j)]
      have := v2 j hj
      rw [if_pos hj] at this
      exact this⟩
    (by
      rintro i hi st ⟨r, rfl, hl, hv⟩
      have hir : i < r.length := by omega
      have hread : rd r i = .ok (wdoti c L s i * m_ipah c s i /
          (0.0 + ∑ j in Finset.range s.i_pah.length, wdoti c L s j * m_ipah c s j)) := by
        have := hv i hi
        rw [if_neg (lt_irrefl i)] at this
        simp [rd, this]
      refine ⟨_, by
        dsimp only
        rw [hread, ok_bind, wr_of_lt _ hir, ok_bind]
        rfl, _, rfl, by rw [List.length_set, hl], ?_⟩
      intro j hj
      rw [List.getElem?_set]
      split
      · rename_i e
        subst e
        simp [hir]
      · rename_i e
        rw [hv j hj]
        by_cases hji : j < i
        · rw [if_pos hji, if_pos (by omega)]
        · rw [if_neg hji, if_neg (by omega)])
  rw [e3] at h3
  refine ⟨_, _, _, _, r3, rfl, rfl, rfl, rfl, l3, fun i hi => ?_, ?_⟩
  · have := v3 i hi
    rw [if_pos hi] at this
    exact this
  · unfold set_m_dimer
    dsimp only
    rw [h1, ok_bind]
    dsimp only
    rw [h2, ok_bind]
    dsimp only
    rw [h3, ok_bind]
    rfl

/-- C28: on an object whose PAH species are resolved, with `sum_i wdot_i m_i > 0`,
`set_m_dimer` returns and the ratios it leaves satisfy
`(sum over the PAH species i of rPAH_rSoot_ncnd[i]) + rH2_rSoot_ncnd = -1`. -/
theorem set_m_dimer_mass_balance (c : Consts K) (L : Libm K) (s : Soot K)
    (hp : ∀ i ∈ s.i_pah, Resolved s i) (hr : s.i_pah.length ≤ s.rPAH_rSoot_ncnd.length)
    (hn : s.i_pah.length ≤ s.nC_PAH.length)
    (hS : 0 < ∑ i in Finset.range s.i_pah.length, wdoti c L s i * m_ipah c s i) :
    ∃ (wdotD : K) (t : Soot K), set_m_dimer c L s = .ok (wdotD, t) ∧
      (∑ i in Finset.range s.i_pah.length, t.rPAH_rSoot_ncnd.getD i 0) +
        t.rH2_rSoot_ncnd = -1 := by
  obtain ⟨wdotD, Sm, md, cm, r, -, hSm, -, -, -, hv, hok⟩ := set_m_dimer_total c L s hp hr hn
  refine ⟨wdotD, _, hok, ?_⟩
  show (∑ i in Finset.range s.i_pah.length, r.getD i 0) +
    (2.0 * md / (cm * c.MW_c / c.Na) - 1.0) = -1
  have hSm' : Sm = ∑ i in Finset.range s.i_pah.length, wdoti c L s i * m_ipah c s i := by
    rw [hSm]
    norm_num
  have hne : Sm ≠ 0 := by
    rw [hSm']
    exact ne_of_gt hS
  have hsum : ∑ i in Finset.range s.i_pah.length, r.getD i 0 =
      -2.0 * md / (cm * c.MW_c / c.Na) := by
    have e : ∀ i ∈ Finset.range s.i_pah.length, r.getD i 0 =
        wdoti c L s i * m_ipah c s i * (1 / Sm * (-2.0 * md / (cm * c.MW_c / c.Na))) := by
      intro i hi
      rw [List.getD_eq_getElem?_getD, hv i (Finset.mem_range.mp hi)]
      show wdoti c L s i * m_ipah c s i / Sm * _ = _
      ring
    rw [Finset.sum_congr rfl e, ← Finset.sum_mul, ← hSm', ← mul_assoc, mul_one_div,
      div_self hne, one_mul]
  rw [hsum]
  ring_nf

/-- Witness for C28: the sample object with one PAH species. -/
theorem set_m_dimer_mass_balance_witness :
    ∃ (wdotD : ℝ) (t : Soot ℝ),
      set_m_dimer (sampleConsts ℝ) realLibm (samplePAH ℝ 100) = .ok (wdotD, t) ∧
      (∑ i in Finset.range (samplePAH ℝ 100).i_pah.length, t.rPAH_rSoot_ncnd.getD i 0) +
        t.rH2_rSoot_ncnd = -1 :=
  set_m_dimer_mass_balance (sampleConsts ℝ) realLibm (samplePAH ℝ 100)
    (by
      intro i hi
      have : i = 7 := by simpa [samplePAH] using hi
      subst this
      simp [Resolved, samplePAH, sampleSoot])
    (by simp [samplePAH]) (by simp [samplePAH])
    (by
      show (0 : ℝ) < ∑ i in Finset.range 1,
        wdoti (sampleConsts ℝ) realLibm (samplePAH ℝ 100) i *
          m_ipah (sampleConsts ℝ) (samplePAH ℝ 100) i
      rw [Finset.sum_range_one]
      have h1 : 0 < wdoti (sampleConsts ℝ) realLibm (samplePAH ℝ 100) 0 := samplePAH_wdot_pos
      have h2 : 0 < m_ipah (sampleConsts ℝ) (samplePAH ℝ 100) 0 := by
        show (0 : ℝ) < 202.25 / 6.02214086e26
        norm_num
      exact mul_pos h1 h2)

/-! ### PAH condensation and the dimer balance -/

/-- The entry `Mcnd[k]` for a kernel that returns `β`: the sum over the nodes of
`beta(m_dimer, absc_i) * pow(absc_i, k-1) * wts_i`, times `DIMER * m_dimer * k`. -/
theorem McndEntry_val (c : Consts K) (L : Libm K) (s : Soot K) (β : K → K → K)
    (hβ : ∀ m1 m2, getCoagulationRate c L s m1 m2 = .ok (β m1 m2)) (k : Nat)
    (hlen : s.absc.length ≤ s.wts.length) :
    McndEntry c L s k = .ok (if k = 0 then 0 else
      (∑ ii in Finset.range s.absc.length,
        β s.m_dimer (s.absc.getD ii 0) * L.pow (s.absc.getD ii 0) (((k : Int) - 1 : Int) : K) *
          s.wts.getD ii 0) * (s.DIMER * s.m_dimer * k)) := by
  unfold McndEntry
  by_cases hk : k = 0
  · rw [if_pos hk, if_pos hk]
  · rw [if_neg hk, if_neg hk]
    obtain ⟨st, hst, hP⟩ := forLoop_inv
      (fun i (a : K) => a = ∑ j in Finset.range i,
        β s.m_dimer (s.absc.getD j 0) * L.pow (s.absc.getD j 0) (((k : Int) - 1 : Int) : K) *
          s.wts.getD j 0) s.absc.length
      (fun ii acc => do
        let ai ← rd s.absc ii
        let beta ← getCoagulationRate c L s s.m_dimer ai
        let wi ← rd s.wts ii
        pure (acc + beta * L.pow ai (((k : Int) - 1 : Int) : K) * wi)) (0.0 : K)
      (by norm_num)
      (fun i hi a ha => ⟨a + β s.m_dimer (s.absc.getD i 0) *
          L.pow (s.absc.getD i 0) (((k : Int) - 1 : Int) : K) * s.wts.getD i 0, by
        simp only [rd_getD (0 : K) hi, rd_getD (0 : K) (show i < s.wts.length by omega), hβ,
          ok_bind]
        rfl, by
        show a + _ = ∑ j in Finset.range (i + 1), _
        rw [ha, Finset.sum_range_succ]⟩)
    rw [hst, ok_bind, hP]
    rfl

/-- The functions `set_Ndimer` and `nucleation_PAH` after a call of `set_m_dimer` that
returned `wdotD` and the object `t`. -/
theorem nucleation_PAH_val (c : Consts K) (L : Libm K) (s : Soot K) (mi wi : List K)
    (hlen : mi.length ≤ wi.length) (wdotD : K) (t : Soot K)
    (hm : set_m_dimer c L s = .ok (wdotD, t)) :
    ∃ I D : K,
      I = ∑ i in Finset.range mi.length,
        |wi.getD i 0| * coagulation_Frenk c L t t.m_dimer (mi.getD i 0) ∧
      D = 2.0 * wdotD / (I + L.sqrt (I * I +
        4 * coagulation_Frenk c L t t.m_dimer t.m_dimer * wdotD)) ∧
      set_Ndimer c L s mi wi = .ok { t with DIMER := D } ∧
      nucleation_PAH c L s mi wi =
        .ok (0.5 * coagulation_Frenk c L t t.m_dimer t.m_dimer * D * D,
          { t with DIMER := D }) := by
  have hloop := dimerSootLoop_ok c L t mi wi hlen
  have hset : set_Ndimer c L s mi wi = .ok { t with DIMER :=
      2.0 * wdotD / ((∑ i in Finset.range mi.length,
        |wi.getD i 0| * coagulation_Frenk c L t t.m_dimer (mi.getD i 0)) +
        L.sqrt ((∑ i in Finset.range mi.length,
          |wi.getD i 0| * coagulation_Frenk c L t t.m_dimer (mi.getD i 0)) *
          (∑ i in Finset.range mi.length,
            |wi.getD i 0| * coagulation_Frenk c L t t.m_dimer (mi.getD i 0)) +
          4 * coagulation_Frenk c L t t.m_dimer t.m_dimer * wdotD)) } := by
    unfold set_Ndimer
    rw [hm, ok_bind]
    dsimp only
    rw [hloop, ok_bind]
    rfl
  refine ⟨_, _, rfl, rfl, hset, ?_⟩
  unfold nucleation_PAH
  rw [hset, ok_bind]
  rfl

/-- The positive root: with `S >= 0`, `S^2 = I^2 + 4 beta w`, `I >= 0`, and `beta`, `w`
positive, `D = 2 w / (I + S)` is positive and `beta D^2 + I D = w`. -/
theorem dimer_root (β w I S : K) (hβ : 0 < β) (hw : 0 < w) (hI : 0 ≤ I) (hS0 : 0 ≤ S)
    (hSS : S * S = I * I + 4 * β * w) :
    0 < 2.0 * w / (I + S) ∧
      β * (2.0 * w / (I + S)) * (2.0 * w / (I + S)) + I * (2.0 * w / (I + S)) = w := by
  have hS : 0 < S := by
    rcases hS0.lt_or_eq with h | h
    · exact h
    · rw [← h] at hSS
      have : 0 < I * I + 4 * β * w := by positivity
      linarith
  have hden : 0 < I + S := by linarith
  have hne : I + S ≠ 0 := ne_of_gt hden
  refine ⟨by positivity, ?_⟩
  field_simp
  norm_num
  linear_combination (-(w * (I + S))) * hSS

set_option maxHeartbeats 2000000 in
/-- The dimer balance where PAH is present: with the nucleation law `PAH` and the kernel
`FRENK`, strict sign laws, a
square root that squares back and `pow(x, 0) = 1`, in a gas with positive state and PAH
species present (`sum wdot_i > 0`, `sum wdot_i m_i > 0`), for node arrays with
non-negative weights and positive abscissas: `getNucleationRate` returns `Jnuc`, the
order-1 condensation entry of `setSrc` is
`Mcnd[1] = DIMER * m_dimer * sum_i beta(m_dimer, absc_i) * w_i` whatever growth and
oxidation ratios the object holds, and `2 * Jnuc + Mcnd[1] / m_dimer = wdotD`. Without
PAH the code divides by `wdotD = 0`. -/
theorem dimer_number_balance (c : Consts K) (L : Libm K) (s : Soot K) (hL : L.Strict)
    (hs0 : ∀ x, 0 ≤ L.sqrt x) (hs : ∀ x, 0 ≤ x → L.sqrt x * L.sqrt x = x)
    (hpow0 : ∀ x, L.pow x 0 = 1)
    (hkb : 0 < c.kb) (heps : 0 < c.eps_c) (hRg : 0 < c.Rg) (hrho : 0 < s.rhoSoot)
    (hT : 0 < s.T) (hmu : 0 < s.mu) (hr : 0 < s.rho) (hMW : 0 < s.MW)
    (hp : ∀ i ∈ s.i_pah, Resolved s i) (hrl : s.i_pah.length ≤ s.rPAH_rSoot_ncnd.length)
    (hn : s.i_pah.length ≤ s.nC_PAH.length) (hlen : s.absc.length ≤ s.wts.length)
    (hnuc : s.nucleation_mech = "PAH") (hcoa : s.coagulation_mech = "FRENK")
    (hw : ∀ x ∈ s.wts, 0 ≤ x) (ha : ∀ x ∈ s.absc, 0 < x)
    (hW : 0 < ∑ i in Finset.range s.i_pah.length, wdoti c L s i)
    (hS : 0 < ∑ i in Finset.range s.i_pah.length, wdoti c L s i * m_ipah c s i) :
    ∃ (wdotD Jnuc D Mcnd1 : K) (t : Soot K),
      set_m_dimer c L s = .ok (wdotD, t) ∧
      getNucleationRate c L s s.absc s.wts = .ok (Jnuc, { t with DIMER := D }) ∧
      (∀ r1 r2 o1 o2 o3 o4 : K, McndEntry c L
        { t with
          DIMER := D, rC2H2_rSoot_go := r1, rH2_rSoot_go := r2
          rO2_rSoot_go := o1, rOH_rSoot_go := o2, rH_rSoot_go := o3, rCO_rSoot_go := o4 } 1 =
        .ok Mcnd1) ∧
      Mcnd1 = D * t.m_dimer * ∑ i in Finset.range s.absc.length,
        coagulation_Frenk c L t t.m_dimer (s.absc.getD i 0) * s.wts.getD i 0 ∧
      2 * Jnuc + Mcnd1 / t.m_dimer = wdotD := by
  obtain ⟨wdotD, Sm, md, cm, r, hwd, hSm, hmd, -, -, -, hok⟩ :=
    set_m_dimer_total c L s hp hrl hn
  have hwd0 : 0 < wdotD := by
    rw [hwd]
    norm_num
    exact hW
  have hSm0 : 0 < Sm := by
    rw [hSm]
    norm_num
    exact hS
  have hmd0 : 0 < md := by
    rw [hmd]
    positivity
  obtain ⟨I, D, hI, hD, -, hnucv⟩ := nucleation_PAH_val c L s s.absc s.wts hlen wdotD _ hok
  have hdisp : getNucleationRate c L s s.absc s.wts = nucleation_PAH c L s s.absc s.wts := by
    simp [getNucleationRate, hnuc]
  have hFpos : ∀ m, 0 < m → 0 < coagulation_Frenk c L
      { s with
        m_dimer := md
        Cmin := cm
        rPAH_rSoot_ncnd := r
        rH2_rSoot_ncnd := 2.0 * md / (cm * c.MW_c / c.Na) - 1.0 } md m :=
    fun m hm => coagulation_Frenk_pos c L _ hL hkb heps hRg hrho hT hmu hr hMW md m hmd0 hm
  have hβ := hFpos md hmd0
  have hwi : ∀ i, 0 ≤ s.wts.getD i 0 := getD_nonneg s.wts hw
  have hai : ∀ i, i < s.absc.length → 0 < s.absc.getD i 0 := by
    intro i hi
    rw [List.getD_eq_getElem?_getD, List.getElem?_eq_getElem hi]
    exact ha _ (List.getElem_mem hi)
  have hI' : I = ∑ i in Finset.range s.absc.length,
      coagulation_Frenk c L
        { s with
          m_dimer := md
          Cmin := cm
          rPAH_rSoot_ncnd := r
          rH2_rSoot_ncnd := 2.0 * md / (cm * c.MW_c / c.Na) - 1.0 } md (s.absc.getD i 0) *
        s.wts.getD i 0 := by
    rw [hI]
    refine Finset.sum_congr rfl (fun i _ => ?_)
    rw [abs_of_nonneg (hwi i), mul_comm]
  have hI0 : 0 ≤ I := by
    rw [hI']
    exact Finset.sum_nonneg (fun i hi =>
      mul_nonneg (hFpos _ (hai i (Finset.mem_range.mp hi))).le (hwi i))
  generalize coagulation_Frenk c L
    { s with
      m_dimer := md
      Cmin := cm
      rPAH_rSoot_ncnd := r
      rH2_rSoot_ncnd := 2.0 * md / (cm * c.MW_c / c.Na) - 1.0 } md md = β at hβ hD hnucv
  have harg : 0 ≤ I * I + 4 * β * wdotD := by positivity
  obtain ⟨hDpos, hroot⟩ := dimer_root β wdotD I _ hβ hwd0 hI0 (hs0 _) (hs _ harg)
  rw [← hD] at hDpos hroot
  have hM : ∀ r1 r2 o1 o2 o3 o4 : K, McndEntry c L
      { s with
        m_dimer := md
        Cmin := cm
        rPAH_rSoot_ncnd := r
        rH2_rSoot_ncnd := 2.0 * md / (cm * c.MW_c / c.Na) - 1.0
        DIMER := D, rC2H2_rSoot_go := r1, rH2_rSoot_go := r2
        rO2_rSoot_go := o1, rOH_rSoot_go := o2, rH_rSoot_go := o3, rCO_rSoot_go := o4 } 1 =
      .ok (D * md * I) := by
    intro r1 r2 o1 o2 o3 o4
    rw [McndEntry_val c L
      { s with
        m_dimer := md
        Cmin := cm
        rPAH_rSoot_ncnd := r
        rH2_rSoot_ncnd := 2.0 * md / (cm * c.MW_c / c.Na) - 1.0
        DIMER := D, rC2H2_rSoot_go := r1, rH2_rSoot_go := r2
        rO2_rSoot_go := o1, rOH_rSoot_go := o2, rH_rSoot_go := o3, rCO_rSoot_go := o4 }
      (coagulation_Frenk c L
        { s with
          m_dimer := md
          Cmin := cm
          rPAH_rSoot_ncnd := r
          rH2_rSoot_ncnd := 2.0 * md / (cm * c.MW_c / c.Na) - 1.0 })
      (fun m1 m2 => getCoagulationRate_FRENK c L
        { s with
          m_dimer := md
          Cmin := cm
          rPAH_rSoot_ncnd := r
          rH2_rSoot_ncnd := 2.0 * md / (cm * c.MW_c / c.Na) - 1.0
          DIMER := D, rC2H2_rSoot_go := r1, rH2_rSoot_go := r2
          rO2_rSoot_go := o1, rOH_rSoot_go := o2, rH_rSoot_go := o3, rCO_rSoot_go := o4 }
        m1 m2 hcoa) 1 hlen,
      if_neg one_ne_zero, hI']
    congr 1
    have e0 : ((((1 : Nat) : Int) - 1 : Int) : K) = 0 := by norm_num
    rw [e0]
    simp only [hpow0, mul_one]
    show (∑ i in Finset.range s.absc.length, _) * (D * md * ((1 : Nat) : K)) = _
    rw [Nat.cast_one, mul_one, mul_comm]
  refine ⟨wdotD, 0.5 * β * D * D, D, D * md * I, _, hok, hdisp.trans hnucv, hM, ?_, ?_⟩
  · rw [hI']
  · show 2 * (0.5 * β * D * D) + D * md * I / md = wdotD
    rw [mul_comm (D * md) I, ← mul_assoc, mul_div_assoc, mul_div_assoc, div_self (ne_of_gt hmd0),
      mul_one]
    linear_combination hroot

/-- The dimer balance on the sample object with one PAH species and the node
`(1, 2)`. -/
theorem dimer_number_balance_witness :
    ∃ (wdotD Jnuc D Mcnd1 : ℝ) (t : Soot ℝ),
      set_m_dimer (sampleConsts ℝ) realLibm
        { samplePAH ℝ 100 with wts := [1], absc := [2] } = .ok (wdotD, t) ∧
      getNucleationRate (sampleConsts ℝ) realLibm
        { samplePAH ℝ 100 with wts := [1], absc := [2] } [2] [1] =
          .ok (Jnuc, { t with DIMER := D }) ∧
      (∀ r1 r2 o1 o2 o3 o4 : ℝ, McndEntry (sampleConsts ℝ) realLibm
        { t with
          DIMER := D, rC2H2_rSoot_go := r1, rH2_rSoot_go := r2
          rO2_rSoot_go := o1, rOH_rSoot_go := o2, rH_rSoot_go := o3, rCO_rSoot_go := o4 } 1 =
        .ok Mcnd1) ∧
      Mcnd1 = D * t.m_dimer * ∑ i in Finset.range ([2] : List ℝ).length,
        coagulation_Frenk (sampleConsts ℝ) realLibm t t.m_dimer (([2] : List ℝ).getD i 0) *
          ([1] : List ℝ).getD i 0 ∧
      2 * Jnuc + Mcnd1 / t.m_dimer = wdotD :=
  dimer_number_balance (sampleConsts ℝ) realLibm
    { samplePAH ℝ 100 with wts := [1], absc := [2] } realLibm_strict Real.sqrt_nonneg
    (fun x hx => Real.mul_self_sqrt hx) (fun x => Real.rpow_zero x)
    (by norm_num [sampleConsts]) (by norm_num [sampleConsts]) (by norm_num [sampleConsts])
    (by norm_num [samplePAH, sampleSoot]) (by norm_num [samplePAH, sampleSoot])
    (by norm_num [samplePAH, sampleSoot]) (by norm_num [samplePAH, sampleSoot])
    (by norm_num [samplePAH, sampleSoot])
    (by
      intro i hi
      have : i = 7 := by simpa [samplePAH] using hi
      subst this
      simp [Resolved, samplePAH, sampleSoot])
    (by simp [samplePAH]) (by simp [samplePAH]) (by simp)
    rfl rfl (by simp) (by simp)
    (by
      show (0 : ℝ) < ∑ i in Finset.range 1, wdoti (sampleConsts ℝ) realLibm
        { samplePAH ℝ 100 with wts := [1], absc := [2] } i
      rw [Finset.sum_range_one]
      exact samplePAH_wdot_pos)
    (by
      show (0 : ℝ) < ∑ i in Finset.range 1, wdoti (sampleConsts ℝ) realLibm
          { samplePAH ℝ 100 with wts := [1], absc := [2] } i *
        m_ipah (sampleConsts ℝ) { samplePAH ℝ 100 with wts := [1], absc := [2] } i
      rw [Finset.sum_range_one]
      have h1 : 0 < wdoti (sampleConsts ℝ) realLibm
          { samplePAH ℝ 100 with wts := [1], absc := [2] } 0 := samplePAH_wdot_pos
      have h2 : 0 < m_ipah (sampleConsts ℝ)
          { samplePAH ℝ 100 with wts := [1], absc := [2] } 0 := by
        show (0 : ℝ) < 202.25 / 6.02214086e26
        norm_num
      exact mul_pos h1 h2)

/-! ### The rate calls return on a well-formed object -/

/-- A recognised nucleation mechanism returns on a well-formed object, for node
arguments with `mi.size() <= wi.size()`, and writes at most `Cmin`, `m_dimer`, `DIMER`
and the nucleation ratios. -/
theorem getNucleationRate_total (c : Consts K) (L : Libm K) (s : Soot K) (hwf : WellFormed s)
    (h : s.nucleation_mech = "NONE" ∨ s.nucleation_mech = "LL" ∨
      s.nucleation_mech = "LIN" ∨ s.nucleation_mech = "PAH")
    (mi wi : List K) (hlen : mi.length ≤ wi.length) :
    ∃ (J cm md D n1 n2 : K) (rp : List K), rp.length = s.rPAH_rSoot_ncnd.length ∧
      getNucleationRate c L s mi wi = .ok (J,
        { s with
          Cmin := cm, m_dimer := md, DIMER := D
          rPAH_rSoot_ncnd := rp, rC2H2_rSoot_n := n1, rH2_rSoot_ncnd := n2 }) := by
  rcases h with h | h | h | h
  · exact ⟨0, s.Cmin, s.m_dimer, s.DIMER, s.rC2H2_rSoot_n, s.rH2_rSoot_ncnd,
      s.rPAH_rSoot_ncnd, rfl, getNucleationRate_NONE c L s mi wi h⟩
  · obtain ⟨J, hJ⟩ := getNucleationRate_ok c L s hwf.c2h2 hwf.h2 (Or.inl h)
    exact ⟨J, s.Cmin, s.m_dimer, s.DIMER, _, _, s.rPAH_rSoot_ncnd, rfl, hJ s.wts s.absc mi wi⟩
  · obtain ⟨J, hJ⟩ := getNucleationRate_ok c L s hwf.c2h2 hwf.h2 (Or.inr h)
    exact ⟨J, s.Cmin, s.m_dimer, s.DIMER, _, _, s.rPAH_rSoot_ncnd, rfl, hJ s.wts s.absc mi wi⟩
  · obtain ⟨wdotD, Sm, md, cm, r, -, -, -, -, hl, -, hok⟩ :=
      set_m_dimer_total c L s hwf.pah hwf.rPAH_len hwf.nC_len
    obtain ⟨I, D, -, -, -, hv⟩ := nucleation_PAH_val c L s mi wi hlen wdotD _ hok
    have hdisp : getNucleationRate c L s mi wi = nucleation_PAH c L s mi wi := by
      simp [getNucleationRate, h]
    exact ⟨_, cm, md, D, s.rC2H2_rSoot_n, _, r, hl, hdisp.trans hv⟩

/-- A recognised growth mechanism returns on a well-formed object and writes at most the
two growth ratios. -/
theorem getGrowthRate_total (c : Consts K) (L : Libm K) (s : Soot K) (hwf : WellFormed s)
    (h : s.growth_mech = "NONE" ∨ s.growth_mech = "LIN" ∨ s.growth_mech = "LL" ∨
      s.growth_mech = "HACA") (M0 M1 : K) :
    ∃ G r1 r2 : K, getGrowthRate c L s M0 M1 =
      .ok (G, { s with rC2H2_rSoot_go := r1, rH2_rSoot_go := r2 }) := by
  rcases h with h | h
  · exact ⟨0, s.rC2H2_rSoot_go, s.rH2_rSoot_go, getGrowthRate_NONE c L s M0 M1 h⟩
  · obtain ⟨G, r1, r2, hG, -⟩ := getGrowthRate_ok c L s M0 M1 hwf h
    exact ⟨G, r1, r2, hG s.wts s.absc⟩

/-- A recognised oxidation mechanism returns on a well-formed object and writes at most
the four oxidation ratios. -/
theorem getOxidationRate_total (c : Consts K) (L : Libm K) (s : Soot K) (hwf : WellFormed s)
    (h : s.oxidation_mech = "NONE" ∨ s.oxidation_mech = "LL" ∨
      s.oxidation_mech = "LEE_NEOH" ∨ s.oxidation_mech = "NSC_NEOH" ∨
      s.oxidation_mech = "HACA") (M0 M1 : K) :
    ∃ X o1 o2 o3 o4 : K, getOxidationRate c L s M0 M1 =
      .ok (X, { s with
        rO2_rSoot_go := o1, rOH_rSoot_go := o2, rH_rSoot_go := o3, rCO_rSoot_go := o4 }) := by
  rcases h with h | h | h | h | h
  · exact ⟨0, s.rO2_rSoot_go, s.rOH_rSoot_go, s.rH_rSoot_go, s.rCO_rSoot_go,
      getOxidationRate_NONE c L s M0 M1 h⟩
  · have e : getOxidationRate c L s M0 M1 = oxidation_LL c L s := by
      simp [getOxidationRate, h]
    exact ⟨_, _, s.rOH_rSoot_go, s.rH_rSoot_go, _,
      e.trans (oxidation_LL_ok c L s hwf.o2 hwf.co)⟩
  · have e : getOxidationRate c L s M0 M1 = oxidation_Lee_Neoh c L s := by
      simp [getOxidationRate, h]
    obtain ⟨a, b, -, -, hok⟩ := oxidation_Lee_Neoh_ok c L s hwf.o2 hwf.oh hwf.h hwf.co
    exact ⟨_, _, _, _, _, e.trans hok⟩
  · have e : getOxidationRate c L s M0 M1 = oxidation_NSC_Neoh c L s := by
      simp [getOxidationRate, h]
    obtain ⟨p, x, a, b, -, -, -, -, hok⟩ :=
      oxidation_NSC_Neoh_ok c L s hwf.o2 hwf.oh hwf.h hwf.co
    exact ⟨_, _, _, _, _, e.trans hok⟩
  · have e : getOxidationRate c L s M0 M1 = oxidation_HACA c L s M0 M1 := by
      simp [getOxidationRate, h]
    obtain ⟨hr, hhr⟩ := hacaRates_ok L s M0 M1 hwf.c2h2 hwf.o2 hwf.h hwf.h2 hwf.oh hwf.h2o
    rw [e]
    unfold oxidation_HACA
    rw [hhr, ok_bind]
    exact ⟨_, s.rO2_rSoot_go, s.rOH_rSoot_go, s.rH_rSoot_go, s.rCO_rSoot_go, rfl⟩

/-! ### Zero node slots -/

theorem getD_set_zero (v : List K) (i j : Nat) (h : v.getD j 0 = 0) :
    (v.set i 0).getD j 0 = 0 := by
  rw [List.getD_eq_getElem?_getD] at h ⊢
  rw [List.getElem?_set]
  split
  · split <;> rfl
  · exact h

/-- The clamping loop of `setSrc` keeps a zero slot at zero. -/
theorem clamp_zero (w a : List K) (hlen : a.length = w.length) :
    ∃ w' a', forLoop w.length clampBody (w, a) = .ok (w', a') ∧
      (∀ j, w.getD j 0 = 0 → w'.getD j 0 = 0) ∧ (∀ j, a.getD j 0 = 0 → a'.getD j 0 = 0) := by
  obtain ⟨st, hst, -, -, h1, h2⟩ := forLoop_inv
    (fun _ (st : List K × List K) => st.1.length = w.length ∧ st.2.length = a.length ∧
      (∀ j, w.getD j 0 = 0 → st.1.getD j 0 = 0) ∧ (∀ j, a.getD j 0 = 0 → st.2.getD j 0 = 0))
    w.length clampBody (w, a) ⟨rfl, rfl, fun _ h => h, fun _ h => h⟩
    (by
      rintro i hi ⟨w1, a1⟩ ⟨h1, h2, h3, h4⟩
      simp only at h1 h2 h3 h4
      have hiw : i < w1.length := by omega
      have hia : i < a1.length := by omega
      refine ⟨_, clampBody_ok i w1 a1 hiw hia, ?_, ?_, ?_, ?_⟩
      · simp only; split <;> simp [h1]
      · simp only; split <;> simp [h2]
      · intro j hj
        simp only
        split
        · exact getD_set_zero w1 i j (h3 j hj)
        · exact h3 j hj
      · intro j hj
        simp only
        split
        · exact getD_set_zero a1 i j (h4 j hj)
        · exact h4 j hj)
  exact ⟨st.1, st.2, hst, h1, h2⟩

/-- The loop of `Mk` returns 0 as soon as one of the slots it scans holds a zero weight
or a zero abscissa. -/
theorem MkLoop_zero (L : Libm K) (s : Soot K) (e : K) : ∀ (n k : Nat) (acc : K),
    k + n ≤ s.wts.length → k + n ≤ s.absc.length →
    (∃ j, k ≤ j ∧ j < k + n ∧ (s.wts.getD j 0 = 0 ∨ s.absc.getD j 0 = 0)) →
    MkLoop L s e n k acc = .ok 0 := by
  intro n
  induction n with
  | zero =>
    rintro k acc - - ⟨j, h1, h2, -⟩
    omega
  | succ n ih =>
    rintro k acc hw ha ⟨j, h1, h2, h3⟩
    have hkw : k < s.wts.length := by omega
    have hka : k < s.absc.length := by omega
    by_cases e1 : s.wts[k] = 0
    · simp [MkLoop, rd_of_lt hkw, bind, Except.bind, e1, pure, Except.pure]
    · by_cases e2 : s.absc[k] = 0
      · simp [MkLoop, rd_of_lt hkw, rd_of_lt hka, bind, Except.bind, e1, e2, pure, Except.pure]
      · have hj : k + 1 ≤ j := by
          by_contra hlt
          have hjk : j = k := by omega
          subst hjk
          rcases h3 with h3 | h3
          · exact e1 (by simpa [List.getD_eq_getElem?_getD, hkw] using h3)
          · exact e2 (by simpa [List.getD_eq_getElem?_getD, hka] using h3)
        have := ih (k + 1) (acc + s.wts[k] * L.pow s.absc[k] e) (by omega) (by omega)
          ⟨j, hj, by omega, h3⟩
        simp [MkLoop, rd_of_lt hkw, rd_of_lt hka, bind, Except.bind, e1, e2, this]

/-- The function `Mk` returns 0 for every exponent when one of the first `nsvar/2` node
slots holds a zero weight or a zero abscissa. -/
theorem Mk_zero (L : Libm K) (s : Soot K) (e : K) (hw : s.nsvar / 2 ≤ s.wts.length)
    (ha : s.nsvar / 2 ≤ s.absc.length)
    (h : ∃ j, j < s.nsvar / 2 ∧ (s.wts.getD j 0 = 0 ∨ s.absc.getD j 0 = 0)) :
    Mk L s e = .ok 0 := by
  obtain ⟨j, hj, h0⟩ := h
  exact MkLoop_zero L s e (s.nsvar / 2) 0 0 (by omega) (by omega) ⟨j, Nat.zero_le j, by omega, h0⟩

/-- The precondition loop of `getWtsAbs` answers `true` when one of the moments it scans
is not positive. -/
theorem anyNonPositive_of_nonpos (M : List K) : ∀ (n k : Nat), k + n ≤ M.length →
    (∃ i, k ≤ i ∧ i < k + n ∧ M.getD i 0 ≤ 0) → anyNonPositive M n k = .ok true := by
  intro n
  induction n with
  | zero =>
    rintro k - ⟨i, h1, h2, -⟩
    omega
  | succ n ih =>
    rintro k hk ⟨i, h1, h2, h3⟩
    have hkM : k < M.length := by omega
    by_cases e1 : M[k] ≤ 0
    · simp [anyNonPositive, rd_of_lt hkM, bind, Except.bind, e1, pure, Except.pure]
    · have hi : k + 1 ≤ i := by
        by_contra hlt
        have hik : i = k := by omega
        subst hik
        exact e1 (by simpa [List.getD_eq_getElem?_getD, hkM] using h3)
      have := ih (k + 1) (by omega) ⟨i, hi, by omega, h3⟩
      simp [anyNonPositive, rd_of_lt hkM, bind, Except.bind, e1, this]

/-- The downselection loop entered with the order `2 m` leaves the slots `m, m+1, ...`
of the node arrays as they were. -/
theorem downselect_upper (wheeler : Wheeler K) (M wts absc : List K) (hM : 2 ≤ M.length) :
    ∀ (m : Nat) (calls : List Nat), 1 ≤ m → m ≤ wts.length → m ≤ absc.length →
    ∃ r, downselect wheeler M wts absc (2 * m) calls = .ok r ∧
      ∀ i, m ≤ i → r.wts[i]? = wts[i]? ∧ r.absc[i]? = absc[i]? := by
  intro m
  induction m with
  | zero => intro _ h; omega
  | succ m ih =>
    intro calls _ hw ha
    have e : 2 * (m + 1) = 2 * m + 2 := by ring
    rcases Nat.eq_zero_or_pos m with hm | hm
    · subst hm
      have hw0 : 0 < wts.length := by omega
      have ha0 : 0 < absc.length := by omega
      refine ⟨⟨wts.set 0 (M.getD 0 0), absc.set 0 (M.getD 1 0 / M.getD 0 0), calls⟩, ?_,
        fun i hi => ?_⟩
      · simp [downselect, rd_getD (0 : K) (show 0 < M.length by omega),
          rd_getD (0 : K) (show 1 < M.length by omega), wr_of_lt _ hw0, wr_of_lt _ ha0, bind,
          Except.bind, pure, Except.pure]
      · exact ⟨List.getElem?_set_ne (by omega), List.getElem?_set_ne (by omega)⟩
    · have hne : ¬ (2 * m + 2 = 2) := by omega
      have hhalf : (2 * m + 2) / 2 = m + 1 := by omega
      rw [e]
      by_cases hn : negs (callWheeler wheeler M (2 * m + 2)) = true
      · obtain ⟨r, hok, h1⟩ := ih ((m + 1) :: calls) hm (by omega) (by omega)
        refine ⟨r, ?_, fun i hi => h1 i (by omega)⟩
        rw [downselect]
        simp only [hne, if_false, hn, if_true, hhalf]
        exact hok
      · have hn' : negs (callWheeler wheeler M (2 * m + 2)) = false := by
          simpa using hn
        have hlen : (callWheeler wheeler M (2 * m + 2)).length = m + 1 := by
          simp [callWheeler, hhalf]
        obtain ⟨w, a, hok, hup⟩ :=
          assign_upper (callWheeler wheeler M (2 * m + 2)) wts absc 0 (by omega) (by omega)
        refine ⟨⟨w, a, (m + 1) :: calls⟩, ?_, fun i hi => hup i (by omega)⟩
        rw [downselect]
        simp [hne, hn', hhalf, hok, bind, Except.bind, pure, Except.pure]

/-- When some moment is not positive, `getWtsAbs` returns the node arrays as they
were. -/
theorem getWtsAbs_nonpos (wheeler : Wheeler K) (nsvar : Nat) (M wts absc : List K)
    (hlen : M.length = nsvar) (h : ∃ i, i < nsvar ∧ M.getD i 0 ≤ 0) :
    getWtsAbs wheeler nsvar M wts absc = .ok ⟨wts, absc, []⟩ := by
  obtain ⟨i, hi, h0⟩ := h
  have := anyNonPositive_of_nonpos M nsvar 0 (by omega) ⟨i, Nat.zero_le i, by omega, h0⟩
  simp [getWtsAbs, this, bind, Except.bind, pure, Except.pure]

/-- When all moments are positive and the oracle's result at the full order `nsvar/2` is
rejected, `getWtsAbs` leaves the slots `nsvar/2 - 1, nsvar/2, ...` as they were. -/
theorem getWtsAbs_reduced (wheeler : Wheeler K) (nsvar : Nat) (M wts absc : List K)
    (heven : nsvar % 2 = 0) (h4 : 4 ≤ nsvar) (hlen : M.length = nsvar)
    (hpos : ∀ x ∈ M, 0 < x) (hw : nsvar / 2 ≤ wts.length) (ha : nsvar / 2 ≤ absc.length)
    (hneg : negs (callWheeler wheeler M nsvar) = true) :
    ∃ r, getWtsAbs wheeler nsvar M wts absc = .ok r ∧
      ∀ i, nsvar / 2 - 1 ≤ i → r.wts[i]? = wts[i]? ∧ r.absc[i]? = absc[i]? := by
  have hb := anyNonPositive_of_pos M nsvar 0 (by omega)
    (fun i h _ _ => hpos _ (List.getElem_mem h))
  obtain ⟨m, rfl⟩ : ∃ m, nsvar = 2 * m + 4 := ⟨(nsvar - 4) / 2, by omega⟩
  obtain ⟨r, hok, hup⟩ := downselect_upper wheeler M wts absc (by omega) (m + 1)
    [(2 * m + 4) / 2] (by omega) (by omega) (by omega)
  have e : 2 * (m + 1) = 2 * m + 2 := by ring
  rw [e] at hok
  refine ⟨r, ?_, fun i hi => hup i (by omega)⟩
  have hne : ¬ (2 * m + 2 + 2 = 2) := by omega
  have hd : downselect wheeler M wts absc (2 * m + 4) [] = .ok r := by
    show downselect wheeler M wts absc (2 * m + 2 + 2) [] = .ok r
    rw [downselect]
    simp only [hne, if_false]
    rw [if_pos hneg]
    exact hok
  simp [getWtsAbs, hb, bind, Except.bind, hd]

/-! ### The whole of `setSrc` on a well-formed object -/

/-- The first half of `setSrc` for arbitrary results of the three rate calls: once the
inversion, the clamping loop and the rate calls return, the function continues with
`assembleSrc` on the object the oxidation call left. -/
theorem setSrc_glue (c : Consts K) (L : Libm K) (wheeler : Wheeler K) (s : Soot K)
    (hM : 2 ≤ s.sootvar.length) (nodes : Nodes K) (w a : List K)
    (hnodes : getWtsAbs wheeler s.nsvar s.sootvar s.wts s.absc = .ok nodes)
    (hclamp : forLoop nodes.wts.length clampBody (nodes.wts, nodes.absc) = .ok (w, a))
    (J G X : K) (s1 s2 s3 : Soot K)
    (hJ : getNucleationRate c L { s with wts := w, absc := a } a w = .ok (J, s1))
    (hG : getGrowthRate c L s1 (s.sootvar.getD 0 0) (s.sootvar.getD 1 0) = .ok (G, s2))
    (hX : getOxidationRate c L s2 (s.sootvar.getD 0 0) (s.sootvar.getD 1 0) = .ok (X, s3)) :
    setSrc c L wheeler s = assembleSrc c L s3 J G X := by
  have hM0 : rd s.sootvar 0 = .ok (s.sootvar.getD 0 0) := rd_getD 0 (by omega)
  have hM1 : rd s.sootvar 1 = .ok (s.sootvar.getD 1 0) := rd_getD 0 (by omega)
  unfold setSrc
  dsimp only
  rw [hnodes, ok_bind, hclamp, ok_bind]
  dsimp only
  rw [hJ, ok_bind]
  dsimp only
  rw [hM0, hM1, ok_bind, ok_bind, hG, ok_bind]
  dsimp only
  rw [ok_bind, ok_bind, hX, ok_bind]

set_option maxHeartbeats 1000000 in
/-- The assembly of the source terms on a well-formed object with a recognised
coagulation mechanism, up to the call of `set_gasSootSources`: the five tables are
computed, `Mcnd` is the table of `McndEntry` for the nucleation mechanism `PAH` and zero
otherwise, and `src[k]` is the sum of the five entries of order `k`. -/
theorem assembleSrc_total (c : Consts K) (L : Libm K) (s : Soot K) (Jnuc Kgrw Koxi : K)
    (hwf : WellFormed s)
    (hcoa : s.coagulation_mech = "NONE" ∨ s.coagulation_mech = "LL" ∨
      s.coagulation_mech = "FUCHS" ∨ s.coagulation_mech = "FRENK") :
    ∃ (src : List K) (mk coa cnd : Nat → K),
      assembleSrc c L s Jnuc Kgrw Koxi =
        set_gasSootSources { s with src := src }
          (L.pow (s.Cmin * c.MW_c / c.Na) (1 : Nat) * Jnuc) (cnd 1)
          (Kgrw * Acoef L s * (1 : Nat) * mk 1) (-Koxi * Acoef L s * (1 : Nat) * mk 1) ∧
      (∀ k : Nat, Mk L s (k - 1.0 / 3.0) = .ok (mk k)) ∧
      (∀ k : Nat, McoaEntry c L s k = .ok (coa k)) ∧
      cnd 0 = 0 ∧
      (s.nucleation_mech = "PAH" → ∀ k, McndEntry c L s k = .ok (cnd k)) ∧
      (s.nucleation_mech ≠ "PAH" → ∀ k, cnd k = 0) ∧
      (∀ k, k < s.nsvar → src[k]? = some (L.pow (s.Cmin * c.MW_c / c.Na) k * Jnuc + cnd k +
        Kgrw * Acoef L s * k * mk k + -Koxi * Acoef L s * k * mk k + coa k)) := by
  have hn := hwf.nsvar_ge
  obtain ⟨β, hβ⟩ := getCoagulationRate_total c L s hcoa
  have hmk : ∀ k : Nat, ∃ v, Mk L s (k - 1.0 / 3.0) = .ok v :=
    fun k => Mk_ok L s _ hwf.wts_len (by rw [hwf.absc_len]; exact hwf.wts_len)
  choose mk hmk using hmk
  have hcoa := fun k => McoaEntry_val c L s β hβ k hwf.absc_len.symm
  obtain ⟨coa, hcoa'⟩ : ∃ coa : Nat → K, ∀ k, McoaEntry c L s k = .ok (coa k) := ⟨_, hcoa⟩
  have tg := tabulate_ok (MgrwEntry L s Kgrw) _ (List.range s.nsvar)
    (fun k _ => MgrwEntry_val L s Kgrw (mk k) k (hmk k))
  have tx := tabulate_ok (MoxiEntry L s Koxi) _ (List.range s.nsvar)
    (fun k _ => MoxiEntry_val L s Koxi (mk k) k (hmk k))
  have tc := tabulate_ok (McoaEntry c L s) coa (List.range s.nsvar) (fun k _ => hcoa' k)
  by_cases hnuc : s.nucleation_mech = "PAH"
  · have hcnd := fun k => McndEntry_val c L s β hβ k (le_of_eq hwf.absc_len)
    obtain ⟨cnd, hcnd', hc0⟩ : ∃ cnd : Nat → K, (∀ k, McndEntry c L s k = .ok (cnd k)) ∧
        cnd 0 = 0 := ⟨_, hcnd, if_pos rfl⟩
    have td := tabulate_ok (McndEntry c L s) cnd (List.range s.nsvar) (fun k _ => hcnd' k)
    obtain ⟨src, hsrc1, -, hsrc3⟩ := srcLoop_ok s.nsvar
      (fun (k : Nat) => L.pow (s.Cmin * c.MW_c / c.Na) (k : K) * Jnuc) cnd
      (fun k => Kgrw * Acoef L s * k * mk k) (fun k => -Koxi * Acoef L s * k * mk k) coa
      s.src hwf.src_len
    refine ⟨src, mk, coa, cnd, ?_, hmk, hcoa', hc0, fun _ => hcnd', fun h => absurd hnuc h,
      hsrc3⟩
    unfold assembleSrc
    dsimp only
    rw [if_pos hnuc]
    simp only [pure, Except.pure, ok_bind, td, tg, tx, tc, hsrc1,
      rd_map_range _ s.nsvar 1 hn]
  · obtain ⟨src, hsrc1, -, hsrc3⟩ := srcLoop_ok s.nsvar
      (fun (k : Nat) => L.pow (s.Cmin * c.MW_c / c.Na) (k : K) * Jnuc) (fun _ => (0.0 : K))
      (fun k => Kgrw * Acoef L s * k * mk k) (fun k => -Koxi * Acoef L s * k * mk k) coa
      s.src hwf.src_len
    refine ⟨src, mk, coa, fun _ => (0.0 : K), ?_, hmk, hcoa', by norm_num,
      fun h => absurd h hnuc, fun _ _ => by norm_num, hsrc3⟩
    unfold assembleSrc
    dsimp only
    rw [if_neg hnuc]
    simp only [pure, Except.pure, ok_bind, tg, tx, tc, hsrc1, rd_map_range _ s.nsvar 1 hn]

set_option maxHeartbeats 1000000 in
/-- On a well-formed object with recognised nucleation, growth and oxidation mechanisms
the first half of `setSrc` returns: the inversion gives `nodes`, the clamping loop gives
`(w, a)`, the nucleation call on these nodes gives `J`, and the function continues with
`assembleSrc` on a well-formed object `t` that holds the clamped nodes. -/
theorem setSrc_total (c : Consts K) (L : Libm K) (wheeler : Wheeler K) (s : Soot K)
    (hwf : WellFormed s)
    (hnuc : s.nucleation_mech = "NONE" ∨ s.nucleation_mech = "LL" ∨
      s.nucleation_mech = "LIN" ∨ s.nucleation_mech = "PAH")
    (hgrw : s.growth_mech = "NONE" ∨ s.growth_mech = "LIN" ∨ s.growth_mech = "LL" ∨
      s.growth_mech = "HACA")
    (hoxi : s.oxidation_mech = "NONE" ∨ s.oxidation_mech = "LL" ∨
      s.oxidation_mech = "LEE_NEOH" ∨ s.oxidation_mech = "NSC_NEOH" ∨
      s.oxidation_mech = "HACA") :
    ∃ (nodes : Nodes K) (w a : List K) (J G X : K) (u t : Soot K),
      getWtsAbs wheeler s.nsvar s.sootvar s.wts s.absc = .ok nodes ∧
      forLoop nodes.wts.length clampBody (nodes.wts, nodes.absc) = .ok (w, a) ∧
      getNucleationRate c L { s with wts := w, absc := a } a w = .ok (J, u) ∧
      setSrc c L wheeler s = assembleSrc c L t J G X ∧
      WellFormed t ∧ t.nsvar = s.nsvar ∧ t.wts = w ∧ t.absc = a ∧
      t.nucleation_mech = s.nucleation_mech ∧ t.coagulation_mech = s.coagulation_mech := by
  have hal : s.nsvar / 2 ≤ s.absc.length := by rw [hwf.absc_len]; exact hwf.wts_len
  obtain ⟨nodes, hnodes, hlw, hla⟩ := getWtsAbs_ok wheeler s.nsvar s.sootvar s.wts s.absc
    hwf.nsvar_even hwf.nsvar_ge hwf.sootvar_len hwf.wts_len hal
  obtain ⟨w, a, hclamp, hw, ha, -, -⟩ := clamp_ok nodes.wts nodes.absc
    (by rw [hla, hlw, hwf.absc_len])
  have hwl : s.nsvar / 2 ≤ w.length := by rw [hw, hlw]; exact hwf.wts_len
  have hawl : a.length = w.length := by rw [ha, hw, hla, hlw, hwf.absc_len]
  have hwf0 : WellFormed { s with wts := w, absc := a } :=
    hwf.update w a s.rPAH_rSoot_ncnd hwl hawl hwf.rPAH_len s.Cmin s.m_dimer s.DIMER
      s.rC2H2_rSoot_n s.rH2_rSoot_ncnd s.rC2H2_rSoot_go s.rH2_rSoot_go s.rO2_rSoot_go
      s.rOH_rSoot_go s.rH_rSoot_go s.rCO_rSoot_go
  obtain ⟨J, cm, md, D, n1, n2, rp, hrp, hJ⟩ :=
    getNucleationRate_total c L { s with wts := w, absc := a } hwf0 hnuc a w (le_of_eq hawl)
  have hrp' : s.i_pah.length ≤ rp.length := by
    rw [hrp]
    exact hwf.rPAH_len
  have hwf1 := hwf.update w a rp hwl hawl hrp' cm md D n1 n2 s.rC2H2_rSoot_go
    s.rH2_rSoot_go s.rO2_rSoot_go s.rOH_rSoot_go s.rH_rSoot_go s.rCO_rSoot_go
  obtain ⟨G, r1, r2, hG⟩ := getGrowthRate_total c L _ hwf1 hgrw
    (s.sootvar.getD 0 0) (s.sootvar.getD 1 0)
  have hwf2 := hwf.update w a rp hwl hawl hrp' cm md D n1 n2 r1 r2 s.rO2_rSoot_go
    s.rOH_rSoot_go s.rH_rSoot_go s.rCO_rSoot_go
  obtain ⟨X, o1, o2, o3, o4, hX⟩ := getOxidationRate_total c L _ hwf2 hoxi
    (s.sootvar.getD 0 0) (s.sootvar.getD 1 0)
  have hwf3 := hwf.update w a rp hwl hawl hrp' cm md D n1 n2 r1 r2 o1 o2 o3 o4
  have hM : 2 ≤ s.sootvar.length := by
    rw [hwf.sootvar_len]
    exact hwf.nsvar_ge
  exact ⟨nodes, w, a, J, G, X, _, _, hnodes, hclamp, hJ,
    setSrc_glue c L wheeler s hM nodes w a hnodes hclamp J G X _ _ _ hJ hG hX,
    hwf3, rfl, rfl, rfl, rfl, rfl⟩

/-! ### The order-0 source and the effect of a zero node slot -/

set_option maxHeartbeats 1000000 in
/-- C25: on a well-formed object with recognised mechanisms, for every oracle and with
`pow(x, 0) = 1`, `setSrc` returns an object `s1` whose order-0 source is
`src[0] = Jnuc + Mcoa[0]`, where `Jnuc` is what the nucleation call returns on the clamped
nodes and `Mcoa[0]` is the order-0 coagulation sum; the order-0 entries of the
condensation, growth and oxidation tables are 0 whatever the rates are. -/
theorem setSrc_order_zero (c : Consts K) (L : Libm K) (wheeler : Wheeler K) (s : Soot K)
    (hwf : WellFormed s) (hpow0 : ∀ x, L.pow x 0 = 1)
    (hnuc : s.nucleation_mech = "NONE" ∨ s.nucleation_mech = "LL" ∨
      s.nucleation_mech = "LIN" ∨ s.nucleation_mech = "PAH")
    (hgrw : s.growth_mech = "NONE" ∨ s.growth_mech = "LIN" ∨ s.growth_mech = "LL" ∨
      s.growth_mech = "HACA")
    (hoxi : s.oxidation_mech = "NONE" ∨ s.oxidation_mech = "LL" ∨
      s.oxidation_mech = "LEE_NEOH" ∨ s.oxidation_mech = "NSC_NEOH" ∨
      s.oxidation_mech = "HACA")
    (hcoa : s.coagulation_mech = "NONE" ∨ s.coagulation_mech = "LL" ∨
      s.coagulation_mech = "FUCHS" ∨ s.coagulation_mech = "FRENK") :
    ∃ (nodes : Nodes K) (w a : List K) (Jnuc Mcoa0 : K) (u s1 : Soot K),
      getWtsAbs wheeler s.nsvar s.sootvar s.wts s.absc = .ok nodes ∧
      forLoop nodes.wts.length clampBody (nodes.wts, nodes.absc) = .ok (w, a) ∧
      getNucleationRate c L { s with wts := w, absc := a } a w = .ok (Jnuc, u) ∧
      setSrc c L wheeler s = .ok s1 ∧
      McoaEntry c L s1 0 = .ok Mcoa0 ∧
      (∀ G X : K, McndEntry c L s1 0 = .ok 0 ∧ MgrwEntry L s1 G 0 = .ok 0 ∧
        MoxiEntry L s1 X 0 = .ok 0) ∧
      s1.src[0]? = some (Jnuc + Mcoa0) := by
  obtain ⟨nodes, w, a, J, G, X, u, t, hnodes, hclamp, hJ, hset, hwt, -, -, -, -, hc⟩ :=
    setSrc_total c L wheeler s hwf hnuc hgrw hoxi
  obtain ⟨src, mk, coa, cnd, hasm, -, hcoa0, hc0, -, -, hsrc⟩ :=
    assembleSrc_total c L t J G X hwt (by rw [hc]; exact hcoa)
  obtain ⟨g, hg, -, -⟩ := set_gasSootSources_ok { t with src := src }
    (L.pow (t.Cmin * c.MW_c / c.Na) (1 : Nat) * J) (cnd 1)
    (G * Acoef L t * (1 : Nat) * mk 1) (-X * Acoef L t * (1 : Nat) * mk 1)
    hwt.c2h2 hwt.o2 hwt.h hwt.h2 hwt.oh hwt.co hwt.pah hwt.rPAH_len
  refine ⟨nodes, w, a, J, coa 0, u, _, hnodes, hclamp, hJ, hset.trans (hasm.trans hg), ?_,
    fun _ _ => ⟨rfl, rfl, rfl⟩, ?_⟩
  · rw [← hcoa0 0]
    exact McoaEntry_congr c L t _ 0 rfl rfl (fun _ _ => rfl)
  · have h0 := hsrc 0 (by have := hwt.nsvar_ge; omega)
    rw [Nat.cast_zero, hpow0, hc0] at h0
    rw [show ({ t with src := src, gasSootSources := g } : Soot K).src = src from rfl, h0]
    congr 1
    ring

/-- Witness for C25: the sample object with the laws `LL`, `HACA`, `LEE_NEOH` and the
Frenklach kernel, the real `pow`, and an oracle that is never called (`nsvar = 2`). -/
theorem setSrc_order_zero_witness :
    ∃ (nodes : Nodes ℝ) (w a : List ℝ) (Jnuc Mcoa0 : ℝ) (u s1 : Soot ℝ),
      getWtsAbs (fun _ _ _ => ((0 : ℝ), (0 : ℝ))) 2 [1, 2] [0] [0] = .ok nodes ∧
      forLoop nodes.wts.length clampBody (nodes.wts, nodes.absc) = .ok (w, a) ∧
      getNucleationRate (sampleConsts ℝ) realLibm
        { sampleSoot ℝ "LL" "HACA" "LEE_NEOH" "FRENK" 2 [1, 2] [0] [0] with
          wts := w, absc := a } a w = .ok (Jnuc, u) ∧
      setSrc (sampleConsts ℝ) realLibm (fun _ _ _ => ((0 : ℝ), (0 : ℝ)))
        (sampleSoot ℝ "LL" "HACA" "LEE_NEOH" "FRENK" 2 [1, 2] [0] [0]) = .ok s1 ∧
      McoaEntry (sampleConsts ℝ) realLibm s1 0 = .ok Mcoa0 ∧
      (∀ G X : ℝ, McndEntry (sampleConsts ℝ) realLibm s1 0 = .ok 0 ∧
        MgrwEntry realLibm s1 G 0 = .ok 0 ∧ MoxiEntry realLibm s1 X 0 = .ok 0) ∧
      s1.src[0]? = some (Jnuc + Mcoa0) :=
  setSrc_order_zero (sampleConsts ℝ) realLibm (fun _ _ _ => ((0 : ℝ), (0 : ℝ)))
    (sampleSoot ℝ "LL" "HACA" "LEE_NEOH" "FRENK" 2 [1, 2] [0] [0])
    (sampleSoot_wellFormed ℝ "LL" "HACA" "LEE_NEOH" "FRENK" 1 2 0 0)
    (fun x => Real.rpow_zero x) (Or.inr (Or.inl rfl)) (Or.inr (Or.inr (Or.inr rfl)))
    (Or.inr (Or.inr (Or.inl rfl))) (Or.inr (Or.inr (Or.inr rfl)))

set_option maxHeartbeats 1000000 in
/-- The effect of a zero node slot in exact arithmetic, that is for rates that are
numbers: on a well-formed object with recognised mechanisms `setSrc` reaches the
assembly on an object `t` that holds the clamped nodes. If one of the first `nsvar/2`
slots left by the inversion holds a zero weight or a zero abscissa, then `Mgrw[k]` and
`Moxi[k]` are 0 for every order `k` and all rates, and `set_gasSootSources` is called
with zero growth and oxidation terms. On zero-filled node arrays this is the case when
some moment is not positive, and when `nsvar >= 4`, all moments are positive and the
inversion rejects the full order. Node arrays left by an earlier call and rates that
are a NaN are not covered. -/
theorem setSrc_zero_slot (c : Consts K) (L : Libm K) (wheeler : Wheeler K) (s : Soot K)
    (hwf : WellFormed s)
    (hnuc : s.nucleation_mech = "NONE" ∨ s.nucleation_mech = "LL" ∨
      s.nucleation_mech = "LIN" ∨ s.nucleation_mech = "PAH")
    (hgrw : s.growth_mech = "NONE" ∨ s.growth_mech = "LIN" ∨ s.growth_mech = "LL" ∨
      s.growth_mech = "HACA")
    (hoxi : s.oxidation_mech = "NONE" ∨ s.oxidation_mech = "LL" ∨
      s.oxidation_mech = "LEE_NEOH" ∨ s.oxidation_mech = "NSC_NEOH" ∨
      s.oxidation_mech = "HACA")
    (hcoa : s.coagulation_mech = "NONE" ∨ s.coagulation_mech = "LL" ∨
      s.coagulation_mech = "FUCHS" ∨ s.coagulation_mech = "FRENK") :
    ∃ (nodes : Nodes K) (w a : List K) (J G X : K) (t : Soot K),
      getWtsAbs wheeler s.nsvar s.sootvar s.wts s.absc = .ok nodes ∧
      forLoop nodes.wts.length clampBody (nodes.wts, nodes.absc) = .ok (w, a) ∧
      t.nsvar = s.nsvar ∧ t.wts = w ∧ t.absc = a ∧
      setSrc c L wheeler s = assembleSrc c L t J G X ∧
      ((∃ j, j < s.nsvar / 2 ∧ (nodes.wts.getD j 0 = 0 ∨ nodes.absc.getD j 0 = 0)) →
        (∀ (Kgrw Koxi : K) (k : Nat),
          MgrwEntry L t Kgrw k = .ok 0 ∧ MoxiEntry L t Koxi k = .ok 0) ∧
        ∃ (src : List K) (N1 Cnd1 : K),
          setSrc c L wheeler s = set_gasSootSources { t with src := src } N1 Cnd1 0 0) ∧
      ((∀ x ∈ s.wts, x = 0) → (∀ x ∈ s.absc, x = 0) →
        ((∃ i, i < s.nsvar ∧ s.sootvar.getD i 0 ≤ 0) ∨
          (4 ≤ s.nsvar ∧ (∀ x ∈ s.sootvar, 0 < x) ∧
            negs (callWheeler wheeler s.sootvar s.nsvar) = true)) →
        ∃ j, j < s.nsvar / 2 ∧ (nodes.wts.getD j 0 = 0 ∨ nodes.absc.getD j 0 = 0)) := by
  obtain ⟨nodes, w, a, J, G, X, u, t, hnodes, hclamp, hJ, hset, hwt, hn, htw, hta, -, hc⟩ :=
    setSrc_total c L wheeler s hwf hnuc hgrw hoxi
  have hal : s.nsvar / 2 ≤ s.absc.length := by rw [hwf.absc_len]; exact hwf.wts_len
  obtain ⟨nodes', hnodes', hlw, hla⟩ := getWtsAbs_ok wheeler s.nsvar s.sootvar s.wts s.absc
    hwf.nsvar_even hwf.nsvar_ge hwf.sootvar_len hwf.wts_len hal
  obtain rfl : nodes = nodes' := Except.ok.inj (hnodes.symm.trans hnodes')
  refine ⟨nodes, w, a, J, G, X, t, hnodes, hclamp, hn, htw, hta, hset, ?_, ?_⟩
  · rintro ⟨j, hj, h0⟩
    obtain ⟨w', a', hclamp', hzw, hza⟩ := clamp_zero nodes.wts nodes.absc
      (by rw [hla, hlw, hwf.absc_len])
    obtain ⟨rfl, rfl⟩ : w' = w ∧ a' = a := by
      have := Except.ok.inj (hclamp'.symm.trans hclamp)
      exact ⟨congrArg Prod.fst this, congrArg Prod.snd this⟩
    have hz : ∃ j, j < t.nsvar / 2 ∧ (t.wts.getD j 0 = 0 ∨ t.absc.getD j 0 = 0) := by
      refine ⟨j, by rw [hn]; exact hj, ?_⟩
      rw [htw, hta]
      exact h0.imp (hzw j) (hza j)
    have hmk : ∀ e : K, Mk L t e = .ok 0 := fun e =>
      Mk_zero L t e hwt.wts_len (by rw [hwt.absc_len]; exact hwt.wts_len) hz
    have hG : ∀ (Kgrw : K) (k : Nat), MgrwEntry L t Kgrw k = .ok 0 := fun Kgrw k => by
      rw [MgrwEntry_val L t Kgrw 0 k (hmk _), mul_zero]
    have hX : ∀ (Koxi : K) (k : Nat), MoxiEntry L t Koxi k = .ok 0 := fun Koxi k => by
      rw [MoxiEntry_val L t Koxi 0 k (hmk _), mul_zero]
    refine ⟨fun Kgrw Koxi k => ⟨hG Kgrw k, hX Koxi k⟩, ?_⟩
    obtain ⟨src, mk, coa, cnd, hasm, hmk1, -⟩ :=
      assembleSrc_total c L t J G X hwt (by rw [hc]; exact hcoa)
    have h1 : mk 1 = 0 := Except.ok.inj ((hmk1 1).symm.trans (hmk _))
    rw [h1, mul_zero, mul_zero] at hasm
    exact ⟨src, _, _, hset.trans hasm⟩
  · intro hzw hza hcase
    have hz : ∀ (v : List K), (∀ x ∈ v, x = 0) → ∀ i, v.getD i 0 = 0 := by
      intro v hv i
      rw [List.getD_eq_getElem?_getD]
      rcases lt_or_le i v.length with h | h
      · rw [List.getElem?_eq_getElem h]
        exact hv _ (List.getElem_mem h)
      · rw [List.getElem?_eq_none h]
        rfl
    have hge := hwf.nsvar_ge
    rcases hcase with hB | ⟨h4, hpos, hneg⟩
    · have := getWtsAbs_nonpos wheeler s.nsvar s.sootvar s.wts s.absc hwf.sootvar_len hB
      obtain rfl : nodes = ⟨s.wts, s.absc, []⟩ := Except.ok.inj (hnodes.symm.trans this)
      exact ⟨0, by omega, Or.inl (hz s.wts hzw 0)⟩
    · obtain ⟨r, hr, hup⟩ := getWtsAbs_reduced wheeler s.nsvar s.sootvar s.wts s.absc
        hwf.nsvar_even h4 hwf.sootvar_len hpos hwf.wts_len hal hneg
      obtain rfl : nodes = r := Except.ok.inj (hnodes.symm.trans hr)
      refine ⟨s.nsvar / 2 - 1, by omega, Or.inl ?_⟩
      rw [List.getD_eq_getElem?_getD, (hup _ le_rfl).1, ← List.getD_eq_getElem?_getD]
      exact hz s.wts hzw _
/-- Four positive moments on zero-filled arrays of two slots, with an oracle whose
weights are negative: the inversion rejects order 2, slot 1 stays zero, and `setSrc`
calls `set_gasSootSources` with zero growth and oxidation terms. -/
theorem setSrc_zero_slot_witness :
    ∃ (t : Soot ℝ) (src : List ℝ) (N1 Cnd1 : ℝ),
      setSrc (sampleConsts ℝ) realLibm (fun _ _ _ => ((-1 : ℝ), (0 : ℝ)))
          (sampleSoot ℝ "LIN" "HACA" "NSC_NEOH" "FUCHS" 4 [1, 2, 1, 1] [0, 0] [0, 0]) =
        set_gasSootSources { t with src := src } N1 Cnd1 0 0 ∧
      ∀ (Kgrw Koxi : ℝ) (k : Nat),
        MgrwEntry realLibm t Kgrw k = .ok 0 ∧ MoxiEntry realLibm t Koxi k = .ok 0 := by
  obtain ⟨nodes, w, a, J, G, X, t, -, -, -, -, -, -, h1, h2⟩ :=
    setSrc_zero_slot (sampleConsts ℝ) realLibm (fun _ _ _ => ((-1 : ℝ), (0 : ℝ)))
      (sampleSoot ℝ "LIN" "HACA" "NSC_NEOH" "FUCHS" 4 [1, 2, 1, 1] [0, 0] [0, 0])
      (by constructor <;> simp [sampleSoot, Resolved])
      (Or.inr (Or.inr (Or.inl rfl))) (Or.inr (Or.inr (Or.inr rfl)))
      (Or.inr (Or.inr (Or.inr (Or.inl rfl)))) (Or.inr (Or.inr (Or.inl rfl)))
  obtain ⟨hz, src, N1, C1, hs⟩ := h1 (h2 (by simp [sampleSoot]) (by simp [sampleSoot])
    (Or.inr ⟨by simp [sampleSoot], by simp [sampleSoot],
      by simp [sampleSoot, negs, callWheeler]⟩))
  exact ⟨t, src, N1, C1, hs, hz⟩

/-! ### A NaN returned by the oracle -/

/-- C3 (code defect): the acceptance test of `getWtsAbs` and the clamping loop of
`setSrc` are false on a NaN. On the positive moments `1, 1/2, 5/16, 7/32` and zero-filled
arrays of two slots, with an oracle whose weights are a NaN, the flag `negs` stays false,
the call stores the NaN weights in both slots, the clamping loop leaves them, and
`0 <= wts[k]` is false for them. -/
theorem getWtsAbs_keeps_nan_nodes :
    negsNaN (callWheeler nanWheeler [some 1, some (1 / 2), some (5 / 16), some (7 / 32)] 4) =
      false ∧
    getWtsAbsNaN nanWheeler 4 [some 1, some (1 / 2), some (5 / 16), some (7 / 32)]
        [some 0, some 0] [some 0, some 0] =
      .ok ⟨[none, none], [some (1 / 4), some (1 / 4)], [2]⟩ ∧
    forLoop 2 clampBodyNaN ([(none : Option ℚ), none], [some (1 / 4), some (1 / 4)]) =
      .ok ([none, none], [some (1 / 4), some (1 / 4)]) ∧
    leNaN (some 0) (none : Option ℚ) = false := by
  decide!

/-- C23 (code defect): with six positive moments and an oracle whose order-3 weights are
a NaN and whose order-2 result is the admissible pair of nodes `(1/2, 1/4)`,
`(1/2, 3/4)`, the order-3 result is not admissible (`0 <= w` is false for its weights)
but the test of `getWtsAbs` does not reject it: the call keeps the order-3 result, with
one oracle call, instead of the result of the largest admissible order 2. -/
theorem getWtsAbs_nan_not_rejected :
    (∀ k, k < 3 → leNaN (some 0)
      (nanTopWheeler [some 1, some 1, some 1, some 1, some 1, some 1] 3 k).1 = false) ∧
    (∀ k, k < 2 →
      leNaN (some 0) (nanTopWheeler [some 1, some 1, some 1, some 1, some 1, some 1] 2 k).1 =
        true ∧
      leNaN (some 0) (nanTopWheeler [some 1, some 1, some 1, some 1, some 1, some 1] 2 k).2 =
        true ∧
      leNaN (nanTopWheeler [some 1, some 1, some 1, some 1, some 1, some 1] 2 k).2 (some 1) =
        true) ∧
    negsNaN (callWheeler nanTopWheeler [some 1, some 1, some 1, some 1, some 1, some 1] 6) =
      false ∧
    getWtsAbsNaN nanTopWheeler 6 [some 1, some 1, some 1, some 1, some 1, some 1]
        [some 0, some 0, some 0] [some 0, some 0, some 0] =
      .ok ⟨[none, none, none], [some (1 / 2), some (1 / 2), some (1 / 2)], [3]⟩ := by
  decide!

/-! ### A zero node in the coagulation sum -/

set_option maxHeartbeats 1000000 in
/-- C8 (code defect): the coagulation loops of `setSrc` do not guard a zero node. On the
sample gas state with the kernel `FRENK` alone, the moments `0, 1` and zero-filled node
arrays, the inversion returns at once, `setSrc` keeps the node `(0, 0)` and evaluates
the kernel at the masses `0, 0`: the reduced mass is `m12 = |0*0 / (0 + 0)|`, the
free-molecular rate divides by `m12`, the Knudsen number divides by the diameter `Dp`
of a zero mass, and `Mcoa[0]`, hence `src[0]`, is the product of this kernel value with
the zero weights. -/
theorem setSrc_coagulation_zero_node (L : Libm ℝ) :
    ∃ (s1 : Soot ℝ) (Dp m12 FM Kn Cc C beta : ℝ),
      getWtsAbs (fun _ _ _ => ((0 : ℝ), (0 : ℝ))) 2 [0, 1] [0] [0] = .ok ⟨[0], [0], []⟩ ∧
      setSrc (sampleConsts ℝ) L (fun _ _ _ => ((0 : ℝ), (0 : ℝ)))
        (sampleSoot ℝ "NONE" "NONE" "NONE" "FRENK" 2 [0, 1] [0] [0]) = .ok s1 ∧
      s1.wts = [0] ∧ s1.absc = [0] ∧
      Dp = L.pow (6.0 * |0| / L.pi / 1850) (1.0 / 3.0) ∧
      m12 = |0 * 0 / (0 + 0)| ∧
      FM = 2.2 * L.sqrt (L.pi * 1.38064852e-23 * 1800 * 0.5 / m12) * L.pow (Dp + Dp) 2.0 ∧
      Kn = 2.0 * get_gas_mean_free_path (sampleConsts ℝ) L s1 / Dp ∧
      Cc = 1 + Kn * (1.257 + 0.4 * L.exp (-1.1 / Kn)) ∧
      C = 2 * 1.38064852e-23 * 1800 / (3 * 6e-5) * (Cc / Dp + Cc / Dp) * (Dp + Dp) ∧
      beta = FM * C / (FM + C) ∧
      getCoagulationRate (sampleConsts ℝ) L s1 0 0 = .ok beta ∧
      McoaEntry (sampleConsts ℝ) L s1 0 = .ok (0.0 + beta * 0 * 0 * -0.5) ∧
      s1.src[0]? = some (L.pow (100 * 12.011 / 6.02214086e26) 0 * 0 + 0.0 + 0 + 0 +
        (0.0 + beta * 0 * 0 * -0.5)) := by
  have hwf := sampleSoot_wellFormed ℝ "NONE" "NONE" "NONE" "FRENK" 0 1 0 0
  have hnodes : getWtsAbs (fun _ _ _ => ((0 : ℝ), (0 : ℝ))) 2 [0, 1] [0] [0] =
      .ok ⟨[0], [0], []⟩ :=
    getWtsAbs_nonpos _ 2 [0, 1] [0] [0] rfl ⟨0, by norm_num, by simp⟩
  have hset : setSrc (sampleConsts ℝ) L (fun _ _ _ => ((0 : ℝ), (0 : ℝ)))
      (sampleSoot ℝ "NONE" "NONE" "NONE" "FRENK" 2 [0, 1] [0] [0]) =
      assembleSrc (sampleConsts ℝ) L
        (sampleSoot ℝ "NONE" "NONE" "NONE" "FRENK" 2 [0, 1] [0] [0]) 0 0 0 :=
    setSrc_glue (sampleConsts ℝ) L _
      (sampleSoot ℝ "NONE" "NONE" "NONE" "FRENK" 2 [0, 1] [0] [0]) (by simp [sampleSoot])
      ⟨[0], [0], []⟩ [0] [0] hnodes (clamp_pair 0 0 le_rfl le_rfl) 0 0 0
      (sampleSoot ℝ "NONE" "NONE" "NONE" "FRENK" 2 [0, 1] [0] [0])
      (sampleSoot ℝ "NONE" "NONE" "NONE" "FRENK" 2 [0, 1] [0] [0])
      (sampleSoot ℝ "NONE" "NONE" "NONE" "FRENK" 2 [0, 1] [0] [0])
      (getNucleationRate_NONE _ _ _ _ _ rfl) (getGrowthRate_NONE _ _ _ _ _ rfl)
      (getOxidationRate_NONE _ _ _ _ _ rfl)
  obtain ⟨src, mk, coa, cnd, hasm, -, hcoa, -, -, hcnd, hsrc⟩ :=
    assembleSrc_total (sampleConsts ℝ) L
      (sampleSoot ℝ "NONE" "NONE" "NONE" "FRENK" 2 [0, 1] [0] [0]) 0 0 0 hwf
      (Or.inr (Or.inr (Or.inr rfl)))
  obtain ⟨g, hg, -, -⟩ := set_gasSootSources_ok
    { sampleSoot ℝ "NONE" "NONE" "NONE" "FRENK" 2 [0, 1] [0] [0] with src := src } _ _ _ _
    hwf.c2h2 hwf.o2 hwf.h hwf.h2 hwf.oh hwf.co hwf.pah hwf.rPAH_len
  have hval := McoaEntry_val (sampleConsts ℝ) L
    (sampleSoot ℝ "NONE" "NONE" "NONE" "FRENK" 2 [0, 1] [0] [0])
    (coagulation_Frenk (sampleConsts ℝ) L
      (sampleSoot ℝ "NONE" "NONE" "NONE" "FRENK" 2 [0, 1] [0] [0]))
    (fun m1 m2 => getCoagulationRate_FRENK _ _ _ m1 m2 rfl) 0 rfl
  have hc0 : coa 0 = 0 := by
    have := Except.ok.inj ((hcoa 0).symm.trans hval)
    rw [this]
    simp [sampleSoot]
  refine ⟨_, _, _, _, _, _, _, _, hnodes, hset.trans (hasm.trans hg), rfl, rfl, rfl, rfl,
    rfl, rfl, rfl, rfl, rfl, getCoagulationRate_FRENK _ _ _ 0 0 rfl, ?_, ?_⟩
  · refine (McoaEntry_congr (sampleConsts ℝ) L
      (sampleSoot ℝ "NONE" "NONE" "NONE" "FRENK" 2 [0, 1] [0] [0]) _ 0 rfl rfl
      (fun _ _ => rfl)).trans ?_
    rw [hcoa 0, hc0]
    norm_num
  · show src[0]? = _
    rw [hsrc 0 (by show 0 < 2; norm_num), hc0, hcnd (by show "NONE" ≠ "PAH"; decide) 0]
    norm_num

/-! ### The dimer balance without PAH -/

set_option maxHeartbeats 1000000 in
/-- C27 (code defect): the dimer balance is computed through the unguarded quotients of
`set_m_dimer`. On the sample object with the laws `PAH` and `FRENK`, the node `(1, 2)`
and a single PAH species of mass fraction 0, the dimer formation rate is `wdotD = 0`,
`m_dimer` is a product with `2 / wdotD`, `DIMER` is a quotient with numerator
`2.0 * wdotD` and a denominator built from kernel values at `m_dimer`, and the terms
`Jnuc` and `Mcnd[1]` of the balance are computed from these values. -/
theorem dimer_balance_zero_unguarded (L : Libm ℝ) :
    ∃ (wdotD I D Jnuc Mcnd1 : ℝ) (t : Soot ℝ),
      wdotD = 0 ∧
      set_m_dimer (sampleConsts ℝ) L
        { samplePAHzero ℝ 100 with wts := [1], absc := [2] } = .ok (wdotD, t) ∧
      t.m_dimer = (0.0 + 0 * (202.25 / 6.02214086e26)) * (2 / wdotD) ∧
      I = |1| * coagulation_Frenk (sampleConsts ℝ) L t t.m_dimer 2 ∧
      D = 2.0 * wdotD / (I + L.sqrt (I * I +
        4 * coagulation_Frenk (sampleConsts ℝ) L t t.m_dimer t.m_dimer * wdotD)) ∧
      Jnuc = 0.5 * coagulation_Frenk (sampleConsts ℝ) L t t.m_dimer t.m_dimer * D * D ∧
      getNucleationRate (sampleConsts ℝ) L
        { samplePAHzero ℝ 100 with wts := [1], absc := [2] } [2] [1] =
          .ok (Jnuc, { t with DIMER := D }) ∧
      Mcnd1 = (coagulation_Frenk (sampleConsts ℝ) L t t.m_dimer 2 * L.pow 2 0 * 1) *
        (D * t.m_dimer * 1) ∧
      McndEntry (sampleConsts ℝ) L { t with DIMER := D } 1 = .ok Mcnd1 := by
  obtain ⟨w, md, cm, hw, hmd, hcm, h1⟩ := set_m_dimer_single (sampleConsts ℝ) L
    { samplePAHzero ℝ 100 with wts := [1], absc := [2] } 7 16 0 rfl rfl rfl (by decide)
    (by simp [samplePAHzero, samplePAH, sampleSoot])
    (by simp [samplePAHzero, samplePAH, sampleSoot])
  have hy : ({ samplePAHzero ℝ 100 with wts := [1], absc := [2] } : Soot ℝ).yi.getD
      (7 : Int).toNat 0 = 0 := rfl
  have hw0 : w = 0 := by
    rw [hw, hy]
    simp
  have hwd : (0.0 : ℝ) + w = 0 := by
    rw [hw0]
    norm_num
  obtain ⟨I, D, hI, hD, -, hnuc⟩ := nucleation_PAH_val (sampleConsts ℝ) L
    { samplePAHzero ℝ 100 with wts := [1], absc := [2] } [2] [1] (le_refl _) _ _ h1
  have hdisp : getNucleationRate (sampleConsts ℝ) L
      { samplePAHzero ℝ 100 with wts := [1], absc := [2] } [2] [1] =
      nucleation_PAH (sampleConsts ℝ) L
        { samplePAHzero ℝ 100 with wts := [1], absc := [2] } [2] [1] := by
    simp [getNucleationRate, samplePAHzero, samplePAH, sampleSoot]
  refine ⟨0.0 + w, I, D, _, _, _, hwd, h1, ?_, ?_, hD, rfl, hdisp.trans hnuc, rfl, ?_⟩
  · show md = _
    rw [hmd, hw0]
    rfl
  · rw [hI]
    simp
  · rw [McndEntry_val (sampleConsts ℝ) L _ _
      (fun m1 m2 => getCoagulationRate_FRENK (sampleConsts ℝ) L _ m1 m2 rfl) 1 (le_refl _)]
    simp
    exact Or.inl (Or.inl rfl)

/-! ### Growth terms when the order is reduced or a moment is negative -/

/-- The whole of `setSrc` when nucleation and oxidation are `NONE`, for given results of
the inversion, of the clamping loop and of the growth call: the returned object, the call
of `set_gasSootSources` that ends the function, and the entries of `src`. -/
theorem setSrc_growth_nodes (c : Consts K) (L : Libm K) (wheeler : Wheeler K) (s : Soot K)
    (hwf : WellFormed s) (hnuc : s.nucleation_mech = "NONE")
    (hoxi : s.oxidation_mech = "NONE")
    (hcoa : s.coagulation_mech = "NONE" ∨ s.coagulation_mech = "LL" ∨
      s.coagulation_mech = "FUCHS" ∨ s.coagulation_mech = "FRENK")
    (nodes : Nodes K) (w a : List K)
    (hnodes : getWtsAbs wheeler s.nsvar s.sootvar s.wts s.absc = .ok nodes)
    (hclamp : forLoop nodes.wts.length clampBody (nodes.wts, nodes.absc) = .ok (w, a))
    (hw : s.nsvar / 2 ≤ w.length) (ha : a.length = w.length) (G r1 r2 : K)
    (hG : getGrowthRate c L { s with wts := w, absc := a }
        (s.sootvar.getD 0 0) (s.sootvar.getD 1 0) =
      .ok (G, { s with wts := w, absc := a, rC2H2_rSoot_go := r1, rH2_rSoot_go := r2 })) :
    ∃ (src g : List K) (mk coa : Nat → K),
      setSrc c L wheeler s = .ok
        { s with
          wts := w, absc := a, rC2H2_rSoot_go := r1, rH2_rSoot_go := r2
          src := src, gasSootSources := g } ∧
      setSrc c L wheeler s = set_gasSootSources
        { s with wts := w, absc := a, rC2H2_rSoot_go := r1, rH2_rSoot_go := r2, src := src }
        (L.pow (s.Cmin * c.MW_c / c.Na) (1 : Nat) * 0) 0.0
        (G * Acoef L s * (1 : Nat) * mk 1) (-0 * Acoef L s * (1 : Nat) * mk 1) ∧
      (∀ k : Nat, Mk L { s with wts := w, absc := a } (k - 1.0 / 3.0) = .ok (mk k)) ∧
      (∀ k : Nat, McoaEntry c L { s with wts := w, absc := a } k = .ok (coa k)) ∧
      (∀ k, k < s.nsvar → src[k]? = some (L.pow (s.Cmin * c.MW_c / c.Na) k * 0 + 0.0 +
        G * Acoef L s * k * mk k + -0 * Acoef L s * k * mk k + coa k)) := by
  have hM : 2 ≤ s.sootvar.length := by
    rw [hwf.sootvar_len]
    exact hwf.nsvar_ge
  have hset := setSrc_glue c L wheeler s hM nodes w a hnodes hclamp 0 G 0 _ _ _
    (getNucleationRate_NONE c L { s with wts := w, absc := a } a w hnuc) hG
    (getOxidationRate_NONE c L
      { s with wts := w, absc := a, rC2H2_rSoot_go := r1, rH2_rSoot_go := r2 } _ _ hoxi)
  obtain ⟨β, hβ⟩ := getCoagulationRate_total c L
    { s with wts := w, absc := a, rC2H2_rSoot_go := r1, rH2_rSoot_go := r2 } hcoa
  obtain ⟨src, mk, coa, hasm, hmk, hcoa', hsrc⟩ := assembleSrc_eq c L
    { s with wts := w, absc := a, rC2H2_rSoot_go := r1, rH2_rSoot_go := r2 } 0 G 0
    hwf.nsvar_ge hwf.src_len hw ha (by show s.nucleation_mech ≠ "PAH"; rw [hnuc]; decide)
    β hβ
  obtain ⟨g, hg, -, -⟩ := set_gasSootSources_ok
    { s with wts := w, absc := a, rC2H2_rSoot_go := r1, rH2_rSoot_go := r2, src := src }
    (L.pow (s.Cmin * c.MW_c / c.Na) (1 : Nat) * 0) 0.0
    (G * Acoef L s * (1 : Nat) * mk 1) (-0 * Acoef L s * (1 : Nat) * mk 1)
    hwf.c2h2 hwf.o2 hwf.h hwf.h2 hwf.oh hwf.co hwf.pah hwf.rPAH_len
  exact ⟨src, g, mk, coa, hset.trans (hasm.trans hg), hset.trans hasm,
    fun k => (Mk_congr L _ _ _ (by rfl) (by rfl) (by rfl)).trans (hmk k),
    fun k => (McoaEntry_congr c L _ _ k (by rfl) (by rfl) (fun _ _ => by rfl)).trans (hcoa' k), hsrc⟩

set_option maxHeartbeats 2000000 in
/-- C29 (code defect): two runs of `setSrc` in which the growth term `Mgrw[1]` is not
the zero the reduced order or the non-positive moment should give.

First run, real `<cmath>`, growth law `LIN` alone, `nsvar = 4`, moments `1, 2, 1, 1`,
node arrays `(1/2, 1/4)`, `(1/2, 3/4)` left by an earlier call, oracle with negative
weights: the inversion rejects order 2 and writes the node `(1, 2)` to slot 0, slot 1
keeps `(1/2, 3/4)`, no slot is zero, `Mk` is positive and `Mgrw[1] = src[1]` is
positive; `set_gasSootSources` receives this positive growth term.

Second run, any `<cmath>`, growth law `HACA` alone, moments `1, -1` on zero-filled
arrays: the node stays `(0, 0)`, `Mk` returns 0, and `Mgrw[1]` is the product of the
growth rate with this 0, where the growth rate is computed from `alpha`, the `tanh`
value obtained from `log10(-1)`. -/
theorem setSrc_growth_term_defects (L : Libm ℝ) :
    (∃ (s1 t : Soot ℝ) (Kgrw mk N1 Cnd1 X1 : ℝ),
      negs (callWheeler (fun _ _ _ => ((-1 : ℝ), (0 : ℝ))) [1, 2, 1, 1] 4) = true ∧
      getWtsAbs (fun _ _ _ => ((-1 : ℝ), (0 : ℝ))) 4 [1, 2, 1, 1] [1 / 2, 1 / 2]
        [1 / 4, 3 / 4] = .ok ⟨[1, 1 / 2], [2, 3 / 4], [2]⟩ ∧
      setSrc (sampleConsts ℝ) realLibm (fun _ _ _ => ((-1 : ℝ), (0 : ℝ)))
        (sampleSoot ℝ "NONE" "LIN" "NONE" "NONE" 4 [1, 2, 1, 1] [1 / 2, 1 / 2]
          [1 / 4, 3 / 4]) = .ok s1 ∧
      s1.wts = [1, 1 / 2] ∧ s1.absc = [2, 3 / 4] ∧
      Kgrw = 750.0 * Real.exp (-12100.0 / 1800) * (0.2 * 0.05 / 26.038) * 2.0 * 12.011 ∧
      Mk realLibm s1 ((1 : Nat) - 1.0 / 3.0) = .ok mk ∧ 0 < mk ∧
      MgrwEntry realLibm s1 Kgrw 1 = .ok (Kgrw * Acoef realLibm s1 * (1 : Nat) * mk) ∧
      0 < Kgrw * Acoef realLibm s1 * (1 : Nat) * mk ∧
      s1.src[1]? = some (Kgrw * Acoef realLibm s1 * (1 : Nat) * mk) ∧
      setSrc (sampleConsts ℝ) realLibm (fun _ _ _ => ((-1 : ℝ), (0 : ℝ)))
          (sampleSoot ℝ "NONE" "LIN" "NONE" "NONE" 4 [1, 2, 1, 1] [1 / 2, 1 / 2]
            [1 / 4, 3 / 4]) =
        set_gasSootSources t N1 Cnd1 (Kgrw * Acoef realLibm s1 * (1 : Nat) * mk) X1) ∧
    (∃ (s1 : Soot ℝ) (h : Haca ℝ) (Kgrw : ℝ),
      getWtsAbs (fun _ _ _ => ((0 : ℝ), (0 : ℝ))) 2 [1, -1] [0] [0] = .ok ⟨[0], [0], []⟩ ∧
      hacaRates L (sampleSoot ℝ "NONE" "HACA" "NONE" "NONE" 2 [1, -1] [0] [0]) 1 (-1) =
        .ok h ∧
      h.alpha =
        (if L.tanh ((33.167 - 0.0154 * 1800) / L.log10 (-1) + (-2.5786 + 0.00112 * 1800)) < 0
          then 1
          else L.tanh ((33.167 - 0.0154 * 1800) / L.log10 (-1) + (-2.5786 + 0.00112 * 1800))) ∧
      Kgrw = (h.fR5 * h.c_soot_rad + h.fR6 * (h.alpha * 2.3e15 * 1e4)) /
        (sampleConsts ℝ).Na * 2 * (sampleConsts ℝ).MW_c ∧
      getGrowthRate (sampleConsts ℝ) L
          (sampleSoot ℝ "NONE" "HACA" "NONE" "NONE" 2 [1, -1] [0] [0]) 1 (-1) =
        .ok (Kgrw, sampleSoot ℝ "NONE" "HACA" "NONE" "NONE" 2 [1, -1] [0] [0]) ∧
      setSrc (sampleConsts ℝ) L (fun _ _ _ => ((0 : ℝ), (0 : ℝ)))
        (sampleSoot ℝ "NONE" "HACA" "NONE" "NONE" 2 [1, -1] [0] [0]) = .ok s1 ∧
      s1.wts = [0] ∧ s1.absc = [0] ∧
      Mk L s1 ((1 : Nat) - 1.0 / 3.0) = .ok 0 ∧
      MgrwEntry L s1 Kgrw 1 = .ok (Kgrw * Acoef L s1 * (1 : Nat) * 0) ∧
      s1.src[1]? = some (L.pow (100 * 12.011 / 6.02214086e26) (1 : Nat) * 0 + 0.0 +
        Kgrw * Acoef L s1 * (1 : Nat) * 0 + -0 * Acoef L s1 * (1 : Nat) * 0 + 0)) := by
  constructor
  · -- the order is reduced on node arrays that hold the nodes of an earlier call
    have hwf : WellFormed (sampleSoot ℝ "NONE" "LIN" "NONE" "NONE" 4 [1, 2, 1, 1]
        [1 / 2, 1 / 2] [1 / 4, 3 / 4]) := by
      constructor <;> simp [sampleSoot, Resolved]
    have hneg : negs (callWheeler (fun _ _ _ => ((-1 : ℝ), (0 : ℝ))) [1, 2, 1, 1] 4) =
        true := by
      simp [negs, callWheeler]
    have hnodes : getWtsAbs (fun _ _ _ => ((-1 : ℝ), (0 : ℝ))) 4 [1, 2, 1, 1] [1 / 2, 1 / 2]
        [1 / 4, 3 / 4] = .ok ⟨[1, 1 / 2], [2, 3 / 4], [2]⟩ := by
      have h1 : ¬ ((1 : ℝ) ≤ 0) := by norm_num
      have h2 : ¬ ((2 : ℝ) ≤ 0) := by norm_num
      simp [getWtsAbs, anyNonPositive, downselect, negs, callWheeler, rd, wr, bind,
        Except.bind, pure, Except.pure, h1, h2]
    have hclamp : forLoop 2 clampBody ([(1 : ℝ), 1 / 2], [(2 : ℝ), 3 / 4]) =
        .ok ([1, 1 / 2], [2, 3 / 4]) := by
      simp [forLoop, clampBody, rd, bind, Except.bind, pure, Except.pure, List.range_succ]
      norm_num
    have hG0 := growth_Lindstedt_ok (sampleConsts ℝ) realLibm
      { sampleSoot ℝ "NONE" "LIN" "NONE" "NONE" 4 [1, 2, 1, 1] [1 / 2, 1 / 2] [1 / 4, 3 / 4]
        with wts := [1, 1 / 2], absc := [2, 3 / 4] } hwf.c2h2 hwf.h2
    obtain ⟨src, g, mk, coa, hok, hgas, hmk, hcoa, hsrc⟩ :=
      setSrc_growth_nodes (sampleConsts ℝ) realLibm (fun _ _ _ => ((-1 : ℝ), (0 : ℝ)))
        (sampleSoot ℝ "NONE" "LIN" "NONE" "NONE" 4 [1, 2, 1, 1] [1 / 2, 1 / 2] [1 / 4, 3 / 4])
        hwf rfl rfl (Or.inl rfl) ⟨[1, 1 / 2], [2, 3 / 4], [2]⟩ [1, 1 / 2] [2, 3 / 4]
        hnodes hclamp (by simp [sampleSoot]) rfl _ _ _
        ((show getGrowthRate (sampleConsts ℝ) realLibm _ _ _ = growth_Lindstedt _ _ _ from by
          simp [getGrowthRate, sampleSoot]).trans hG0)
    have hspec := (MkLoop_spec realLibm
      { sampleSoot ℝ "NONE" "LIN" "NONE" "NONE" 4 [1, 2, 1, 1] [1 / 2, 1 / 2] [1 / 4, 3 / 4]
        with wts := [1, 1 / 2], absc := [2, 3 / 4] } ((1 : Nat) - 1.0 / 3.0) 2 0 0
      (by simp) (by simp)).2 (by
        intro j hj
        rcases Nat.lt_succ_iff_lt_or_eq.mp hj with h | h
        · have : j = 0 := by omega
          subst this
          norm_num
        · subst h
          norm_num)
    have hmk1 : mk 1 = 0 + ∑ j in Finset.range 2,
        ([1, 1 / 2] : List ℝ).getD (0 + j) 0 *
          realLibm.pow (([2, 3 / 4] : List ℝ).getD (0 + j) 0) ((1 : Nat) - 1.0 / 3.0) :=
      Except.ok.inj ((hmk 1).symm.trans hspec)
    have hmkpos : 0 < mk 1 := by
      rw [hmk1, Finset.sum_range_succ, Finset.sum_range_one]
      have p1 := realLibm_strict.pow_pos 2 ((1 : Nat) - 1.0 / 3.0) (by norm_num)
      have p2 := realLibm_strict.pow_pos (3 / 4) ((1 : Nat) - 1.0 / 3.0) (by norm_num)
      simp only [List.getD_cons_zero, List.getD_cons_succ, zero_add]
      positivity
    have hA : 0 < Acoef realLibm (sampleSoot ℝ "NONE" "LIN" "NONE" "NONE" 4 [1, 2, 1, 1]
        [1 / 2, 1 / 2] [1 / 4, 3 / 4]) := by
      rw [Acoef_eq realLibm _ realLibm_strict.pi_pos (by norm_num [sampleSoot])]
      exact mul_pos realLibm_strict.pi_pos (realLibm_strict.pow_pos _ _
        (div_pos (by norm_num) (mul_pos realLibm_strict.pi_pos (by norm_num [sampleSoot]))))
    have hGpos : (0 : ℝ) <
        750.0 * Real.exp (-12100.0 / 1800) * (0.2 * 0.05 / 26.038) * 2.0 * 12.011 := by
      positivity
    have hc1 : coa 1 = 0 := Except.ok.inj ((hcoa 1).symm.trans rfl)
    refine ⟨_, _, _, mk 1, _, _, _, hneg, hnodes, hok, rfl, rfl, rfl,
      (Mk_congr realLibm _ _ _ (by rfl) (by rfl) (by rfl)).trans (hmk 1), hmkpos,
      MgrwEntry_val realLibm _ _ (mk 1) 1
        ((Mk_congr realLibm _ _ _ (by rfl) (by rfl) (by rfl)).trans (hmk 1)),
      mul_pos (mul_pos (mul_pos hGpos hA) (by norm_num)) hmkpos, ?_, hgas⟩
    have e : ∀ x y a b d : ℝ, x * 0 + 0.0 + y + -0 * a * b * d + 0 = y := by
      intros
      norm_num
    show src[1]? = _
    rw [hsrc 1 (by show 1 < 4; norm_num), hc1]
    exact congrArg some (e _ _ _ _ _)
  · -- a negative moment on zero-filled node arrays, growth law HACA
    have wf := sampleSoot_wellFormed ℝ "NONE" "HACA" "NONE" "NONE" 1 (-1) 0 0
    obtain ⟨h, hh, ha, hH⟩ := hacaRates_alpha L
      (sampleSoot ℝ "NONE" "HACA" "NONE" "NONE" 2 [1, -1] [0] [0]) 1 (-1)
      wf.c2h2 wf.o2 wf.h wf.h2 wf.oh wf.h2o
    have hnodes : getWtsAbs (fun _ _ _ => ((0 : ℝ), (0 : ℝ))) 2 [1, -1] [0] [0] =
        .ok ⟨[0], [0], []⟩ :=
      getWtsAbs_nonpos _ 2 [1, -1] [0] [0] rfl ⟨1, by norm_num, by simp⟩
    have hG : getGrowthRate (sampleConsts ℝ) L
        (sampleSoot ℝ "NONE" "HACA" "NONE" "NONE" 2 [1, -1] [0] [0]) 1 (-1) =
        .ok ((h.fR5 * h.c_soot_rad + h.fR6 * (h.alpha * 2.3e15 * 1e4)) /
            (sampleConsts ℝ).Na * 2 * (sampleConsts ℝ).MW_c,
          sampleSoot ℝ "NONE" "HACA" "NONE" "NONE" 2 [1, -1] [0] [0]) := by
      have e : getGrowthRate (sampleConsts ℝ) L
          (sampleSoot ℝ "NONE" "HACA" "NONE" "NONE" 2 [1, -1] [0] [0]) 1 (-1) =
          growth_HACA (sampleConsts ℝ) L
            (sampleSoot ℝ "NONE" "HACA" "NONE" "NONE" 2 [1, -1] [0] [0]) 1 (-1) := by
        simp [getGrowthRate, sampleSoot]
      rw [e]
      unfold growth_HACA
      rw [hh, ok_bind, hH]
      rfl
    obtain ⟨src, g, mk, coa, hok, -, hmk, hcoa, hsrc⟩ :=
      setSrc_growth_nodes (sampleConsts ℝ) L (fun _ _ _ => ((0 : ℝ), (0 : ℝ)))
        (sampleSoot ℝ "NONE" "HACA" "NONE" "NONE" 2 [1, -1] [0] [0])
        wf rfl rfl (Or.inl rfl) ⟨[0], [0], []⟩ [0] [0]
        hnodes (clamp_pair 0 0 le_rfl le_rfl) (by simp [sampleSoot]) rfl _ 0 0 hG
    have hz : ∀ e : ℝ, Mk L (sampleSoot ℝ "NONE" "HACA" "NONE" "NONE" 2 [1, -1] [0] [0]) e =
        .ok 0 := fun e =>
      Mk_zero L _ e (by simp [sampleSoot]) (by simp [sampleSoot])
        ⟨0, by simp [sampleSoot], Or.inl rfl⟩
    have hmk1 : mk 1 = 0 := Except.ok.inj ((hmk 1).symm.trans (hz _))
    have hc1 : coa 1 = 0 := Except.ok.inj ((hcoa 1).symm.trans rfl)
    refine ⟨_, h, _, hnodes, hh, ?_, rfl, hG, hok, rfl, rfl,
      (Mk_congr L _ _ _ (by rfl) (by rfl) (by rfl)).trans (hz _),
      MgrwEntry_val L _ _ 0 1 ((Mk_congr L _ _ _ (by rfl) (by rfl) (by rfl)).trans (hz _)), ?_⟩
    · rw [ha, show (0.0 : ℝ) = 0 by norm_num, show (1.0 : ℝ) = 1 by norm_num]
      have e : (sampleSoot ℝ "NONE" "HACA" "NONE" "NONE" 2 [1, -1] [0] [0]).T = 1800 := rfl
      rw [e, if_pos (by norm_num : (1 : ℝ) > 0), div_one]
    · show src[1]? = _
      rw [hsrc 1 (by show 1 < 2; norm_num), hc1, hmk1]
      rfl

end BalanceFacts

end Sootlib
